import Mathlib

/-!
# Ambix page inspector: a shallow embedding of `ambix_hyb-mod.c`

The kernel module keeps its state in C globals.  They are gathered here in one
record, `State`, and every C function becomes a function on that record.
C `int` values are integers, `unsigned long` addresses are naturals, arrays are
functions from the index, and a dereference of a NULL pointer makes the
function return `none`.
-/

namespace Ambix

/-! ## Constants (pnp.h) -/

def MAX_PIDS : Int := 5
def MAX_PID_N : Int := 2147483647

def DRAM_MODE : Int := 0
def NVRAM_MODE : Int := 1
def SWITCH_MODE : Int := 2

/-- Modelled from the spec: NVRAM_WRITE_MODE is declared in ambix.h, which is not part of the
sources; the spec (section 6) gives the wire value 3. -/
def NVRAM_WRITE_MODE : Int := 3

/-- Modelled from the spec: NVRAM_CLEAR is declared in ambix.h, which is not part of the
sources; the spec (section 6) gives the wire value 4. -/
def NVRAM_CLEAR : Int := 4

/-- Modelled from the spec: NVRAM_INTENSIVE_MODE is declared in ambix.h, which is not part of the
sources; the spec (section 6) gives the wire value 5. -/
def NVRAM_INTENSIVE_MODE : Int := 5

def FIND_OP : Int := 0
def BIND_OP : Int := 1
def UNBIND_OP : Int := 2

def MAX_PAYLOAD : Int := 4096
def MAX_PACKETS : Int := 512

/-- The size of `addr_info_t` on a 64-bit platform: an unsigned long, an int and padding. -/
def sizeof_addr_info_t : Int := 16

def MAX_N_PER_PACKET : Int := MAX_PAYLOAD / sizeof_addr_info_t
def MAX_N_FIND : Int := MAX_N_PER_PACKET * MAX_PACKETS - 1
def MAX_N_SWITCH : Int := (MAX_N_FIND - 1) / 2

/-- The value of MAX_ADDRESS on a 64-bit platform. -/
def MAX_ADDRESS : Nat := 0xFFFF880000000000

def DRAM_NODES : List Int := [0, 1]
def NVRAM_NODES : List Int := [2, 3]

/-- The search loop of `contains`: `for (i = 0; i < size; i++) if (array[i] == value) return 1;`. -/
def contains_loop (value : Int) : List Int → Bool
  | [] => false
  | x :: rest => if x = value then true else contains_loop value rest

def contains (value mode : Int) : Bool :=
  if mode = NVRAM_MODE then contains_loop value NVRAM_NODES
  else contains_loop value DRAM_NODES

/-- Modelled from the spec: int_min is declared in ambix.h, which is not part of the sources;
it is the minimum of two ints, used to clamp the requested count. -/
def int_min (a b : Int) : Int := if a < b then a else b

/-! ## Data -/

structure addr_info_t where
  addr : Nat
  pid_retval : Int
deriving DecidableEq

structure req_t where
  op_code : Int
  pid_n : Int
  mode : Int
deriving DecidableEq

/-- A page-table entry: the four bits the policies read, the NUMA node of the backing frame
(`pfn_to_nid (pte_pfn pte)`) and the frame number standing for the remaining bits. -/
structure pte_t where
  present : Bool
  write : Bool
  young : Bool
  dirty : Bool
  nid : Int
  pfn : Nat
deriving DecidableEq

def pte_present (p : pte_t) : Bool := p.present
def pte_write (p : pte_t) : Bool := p.write
def pte_young (p : pte_t) : Bool := p.young
def pte_dirty (p : pte_t) : Bool := p.dirty
def pte_mkold (p : pte_t) : pte_t := { p with young := false }
def pte_mkclean (p : pte_t) : pte_t := { p with dirty := false }

/-- The protected update starts by reading the current entry. -/
def ptep_modify_prot_start (p : pte_t) : pte_t := p

/-- The protected update ends by storing the new entry. -/
def ptep_modify_prot_commit (_old_pte new_pte : pte_t) : pte_t := new_pte

/-- An address space: the page-table slots the host page walker presents, each with its
virtual address, in the order in which the walker visits them. -/
structure mm_struct where
  ptes : List (Nat × pte_t)
deriving DecidableEq

structure task_struct where
  pid : Int
  mm : Option mm_struct
deriving DecidableEq

/-- The host's pid lookup at the time of a request.  `find_get_pid pid` tells whether the pid
resolves; `get_pid_task pid` is the task attached to it: `none` for no task, `some mm` for a
task whose address space is `mm` (itself `none` for a kernel thread). -/
structure Kernel where
  find_get_pid : Int → Bool
  get_pid_task : Int → Option (Option mm_struct)

/-- The globals of the module. -/
structure State where
  found_addrs : Int → addr_info_t
  backup_addrs : Int → addr_info_t
  switch_backup_addrs : Int → addr_info_t
  task_items : Int → Option task_struct
  n_pids : Int
  last_addr_dram : Nat
  last_addr_nvram : Nat
  last_pid_dram : Int
  last_pid_nvram : Int
  curr_pid : Int
  n_to_find : Int
  n_found : Int
  n_backup : Int
  n_switch_backup : Int

/-- The state after `_on_module_init`: the counters and cursors are zero, the four allocated
arrays hold whatever the allocator returned. -/
def module_init (f b w : Int → addr_info_t) (t : Int → Option task_struct) : State :=
  { found_addrs := f, backup_addrs := b, switch_backup_addrs := w, task_items := t,
    n_pids := 0, last_addr_dram := 0, last_addr_nvram := 0, last_pid_dram := 0,
    last_pid_nvram := 0, curr_pid := 0, n_to_find := 0, n_found := 0, n_backup := 0,
    n_switch_backup := 0 }

/-- The assignment `a[i] = v`. -/
def arr_set {α : Type} (a : Int → α) (i : Int) (v : α) : Int → α :=
  fun j => if j = i then v else a j

/-- The assignment `a[i].pid_retval = v`, which leaves `a[i].addr` alone. -/
def set_pid_retval (a : Int → addr_info_t) (i : Int) (v : Int) : Int → addr_info_t :=
  fun j => if j = i then { a j with pid_retval := v } else a j

/-- A counted loop `for (j = lo; j < hi; j++) body` whose body leaves `j` and the bounds
alone: the first argument is the number of iterations left, `(hi - lo).toNat` at the start. -/
def for_up {σ : Type} (body : Int → σ → σ) : Nat → Int → σ → σ
  | 0, _, s => s
  | k + 1, j, s => for_up body k (j + 1) (body j s)

/-- A counted loop `for (j = hi; j >= lo; j--) body`: the first argument is the number of
iterations left. -/
def for_down {σ : Type} (body : Int → σ → σ) : Nat → Int → σ → σ
  | 0, _, s => s
  | k + 1, j, s => for_down body k (j - 1) (body j s)

/-! ## Helper functions -/

/-- The duplicate check of `find_target_process`:
`for (i = 0; i < n_pids; i++) if (task_items[i] != NULL && task_items[i]->pid == pid) return 0;`
with the number of iterations left as first argument. -/
def already_managed (tasks : Int → Option task_struct) (pid : Int) : Nat → Int → Bool
  | 0, _ => false
  | k + 1, i =>
    match tasks i with
    | some t => if t.pid = pid then true else already_managed tasks pid k (i + 1)
    | none => already_managed tasks pid k (i + 1)

def find_target_process (k : Kernel) (pid : Int) (s : State) : Int × State :=
  if s.n_pids ≥ MAX_PIDS then (0, s)
  else if already_managed s.task_items pid s.n_pids.toNat 0 then (0, s)
  else if !k.find_get_pid pid then (0, s)
  else
    match k.get_pid_task pid with
    | some mm =>
      (1, { s with task_items := arr_set s.task_items s.n_pids (some { pid := pid, mm := mm }),
                   n_pids := s.n_pids + 1 })
    | none => (0, s)

/-- The body `task_items[j] = task_items[j+1]` of the shift loop of `update_pid_list`. -/
def shift_entry (j : Int) (a : Int → Option task_struct) : Int → Option task_struct :=
  arr_set a j (a (j + 1))

def update_pid_list (i : Int) (s : State) : State :=
  let s1 : State :=
    if s.last_pid_dram > i then { s with last_pid_dram := s.last_pid_dram - 1 }
    else if s.last_pid_dram = i then
      let s0 : State := { s with last_addr_dram := 0 }
      if s0.last_pid_dram = s0.n_pids - 1 then { s0 with last_pid_dram := 0 } else s0
    else s
  let s2 : State :=
    if s1.last_pid_nvram > i then { s1 with last_pid_nvram := s1.last_pid_nvram - 1 }
    else if s1.last_pid_nvram = i then
      let s0 : State := { s1 with last_addr_nvram := 0 }
      if s0.last_pid_nvram = s0.n_pids - 1 then { s0 with last_pid_nvram := 0 } else s0
    else s1
  -- Shift left all subsequent entries
  let s3 : State :=
    { s2 with task_items := for_up shift_entry (s2.n_pids - 1 - i).toNat i s2.task_items }
  { s3 with n_pids := s3.n_pids - 1 }

/-- The loop of `refresh_pids`.  Each iteration either moves `i` forward or removes an entry,
so `n_pids - i` drops by one each time; the first argument is that number of iterations. -/
def refresh_loop (k : Kernel) : Nat → Int → State → State
  | 0, _, s => s
  | fuel + 1, i, s =>
    if i < s.n_pids then
      let dead : Bool :=
        match s.task_items i with
        | none => true
        | some t => !k.find_get_pid t.pid
      if dead then refresh_loop k fuel i (update_pid_list i s)
      else refresh_loop k fuel (i + 1) s
    else s

def refresh_pids (k : Kernel) (s : State) : State :=
  refresh_loop k s.n_pids.toNat 0 s

/-! ## Callback functions -/

/-- The value of the C expression `a - b` on two `int`s: the difference, brought back into
the range of `int` when it leaves it (the kernel is built with `-fno-strict-overflow`, so the
subtraction wraps around).  The callbacks compute `n_to_find - n_found` so, and `n_to_find` can
be as low as `INT_MIN`, the count of a request being any `int`. -/
def int_sub (a b : Int) : Int :=
  (a - b + 2147483648) % 4294967296 - 2147483648

/-- What a policy callback hands back: its return value (non-zero stops the walk), the
globals, and the page-table entry as it leaves it. -/
structure cb_result where
  ret : Int
  st : State
  pte : Option pte_t

/-- The four-statement update at the end of the clearing policies.  The second assignment
is computed from `old_pte`, as in the source. -/
def pte_clear_bits (p : pte_t) : pte_t :=
  let old_pte := ptep_modify_prot_start p
  let _p1 := pte_mkold old_pte
  let p2 := pte_mkclean old_pte
  ptep_modify_prot_commit old_pte p2

/-- The pair of assignments `found_addrs[n_found].addr = addr;`
`found_addrs[n_found++].pid_retval = curr_pid;`. -/
def push_found (addr : Nat) (s : State) : State :=
  { s with found_addrs := arr_set s.found_addrs s.n_found { addr := addr, pid_retval := s.curr_pid },
           n_found := s.n_found + 1 }

def push_backup (addr : Nat) (s : State) : State :=
  { s with backup_addrs := arr_set s.backup_addrs s.n_backup { addr := addr, pid_retval := s.curr_pid },
           n_backup := s.n_backup + 1 }

def push_switch_backup (addr : Nat) (s : State) : State :=
  { s with switch_backup_addrs :=
             arr_set s.switch_backup_addrs s.n_switch_backup { addr := addr, pid_retval := s.curr_pid },
           n_switch_backup := s.n_switch_backup + 1 }

/-- The common skip test on an entry that is there: not present, write protected, or its
frame is not on a node of the tier. -/
def skip_page (p : pte_t) (mode : Int) : Bool :=
  !pte_present p || !pte_write p || !contains p.nid mode

def pte_callback_mem (ptep : Option pte_t) (addr : Nat) (s : State) : cb_result :=
  if s.n_found = s.n_to_find then
    { ret := 1, st := { s with last_addr_dram := addr }, pte := ptep }
  else
    match ptep with
    | none => { ret := 0, st := s, pte := ptep }
    | some p =>
      if skip_page p DRAM_MODE then { ret := 0, st := s, pte := ptep }
      else if !pte_young p then { ret := 0, st := push_found addr s, pte := ptep }
      else
        let s1 := if !pte_dirty p && decide (s.n_backup < int_sub s.n_to_find s.n_found)
                  then push_backup addr s else s
        { ret := 0, st := s1, pte := some (pte_clear_bits p) }

def pte_callback_nvram_force (ptep : Option pte_t) (addr : Nat) (s : State) : cb_result :=
  if s.n_found = s.n_to_find then
    { ret := 1, st := { s with last_addr_nvram := addr }, pte := ptep }
  else
    match ptep with
    | none => { ret := 0, st := s, pte := ptep }
    | some p =>
      if skip_page p NVRAM_MODE then { ret := 0, st := s, pte := ptep }
      else if pte_young p && pte_dirty p then { ret := 0, st := push_found addr s, pte := ptep }
      else
        let s1 := if s.n_backup < int_sub s.n_to_find s.n_found then push_backup addr s else s
        { ret := 0, st := s1, pte := some (pte_clear_bits p) }

def pte_callback_nvram_write (ptep : Option pte_t) (addr : Nat) (s : State) : cb_result :=
  if s.n_found = s.n_to_find then
    { ret := 1, st := { s with last_addr_nvram := addr }, pte := ptep }
  else
    match ptep with
    | none => { ret := 0, st := s, pte := ptep }
    | some p =>
      if skip_page p NVRAM_MODE then { ret := 0, st := s, pte := ptep }
      else if pte_dirty p then
        if pte_young p then { ret := 0, st := push_found addr s, pte := ptep }
        else if s.n_backup < int_sub s.n_to_find s.n_found then
          { ret := 0, st := push_backup addr s, pte := ptep }
        else { ret := 0, st := s, pte := ptep }
      else { ret := 0, st := s, pte := ptep }

def pte_callback_nvram_intensive (ptep : Option pte_t) (addr : Nat) (s : State) : cb_result :=
  if s.n_found = s.n_to_find then
    { ret := 1, st := { s with last_addr_nvram := addr }, pte := ptep }
  else
    match ptep with
    | none => { ret := 0, st := s, pte := ptep }
    | some p =>
      if skip_page p NVRAM_MODE then { ret := 0, st := s, pte := ptep }
      else if pte_young p then
        if pte_dirty p then { ret := 0, st := push_found addr s, pte := ptep }
        else if s.n_backup < int_sub s.n_to_find s.n_found then
          { ret := 0, st := push_backup addr s, pte := ptep }
        else { ret := 0, st := s, pte := ptep }
      else { ret := 0, st := s, pte := ptep }

def pte_callback_nvram_switch (ptep : Option pte_t) (addr : Nat) (s : State) : cb_result :=
  if s.n_found = s.n_to_find then
    { ret := 1, st := { s with last_addr_nvram := addr }, pte := ptep }
  else
    match ptep with
    | none => { ret := 0, st := s, pte := ptep }
    | some p =>
      if skip_page p NVRAM_MODE then { ret := 0, st := s, pte := ptep }
      else if pte_young p then
        if pte_dirty p then { ret := 0, st := push_found addr s, pte := ptep }
        else if s.n_switch_backup < int_sub s.n_to_find s.n_found then
          { ret := 0, st := push_switch_backup addr s, pte := ptep }
        else { ret := 0, st := s, pte := ptep }
      else { ret := 0, st := s, pte := ptep }

def pte_callback_nvram_clear (ptep : Option pte_t) (_addr : Nat) (s : State) : cb_result :=
  match ptep with
  | none => { ret := 0, st := s, pte := ptep }
  | some p =>
    if skip_page p NVRAM_MODE then { ret := 0, st := s, pte := ptep }
    else { ret := 0, st := s, pte := some (pte_clear_bits p) }

/-- The type of a `pte_entry` callback. -/
abbrev callback := Option pte_t → Nat → State → cb_result

/-! ## Page walkers -/

/-- The host page walker over the slots of one address space, from the given slot list: the
callback is called on each slot whose address lies in `[start, stop)`, in order, until it
returns a non-zero value.  The result is the globals and the slots as the callbacks left
them. -/
def walk_ptes (cb : callback) (start stop : Nat) : List (Nat × pte_t) → State → State × List (Nat × pte_t)
  | [], s => (s, [])
  | (a, p) :: rest, s =>
    if start ≤ a ∧ a < stop then
      let r := cb (some p) a s
      let p1 := match r.pte with
        | some q => q
        | none => p
      if r.ret ≠ 0 then (r.st, (a, p1) :: rest)
      else
        let w := walk_ptes cb start stop rest r.st
        (w.1, (a, p1) :: w.2)
    else
      let w := walk_ptes cb start stop rest s
      (w.1, (a, p) :: w.2)

def walk_page_range (cb : callback) (mm : mm_struct) (start stop : Nat) (s : State) :
    State × mm_struct :=
  let w := walk_ptes cb start stop mm.ptes s
  (w.1, { ptes := w.2 })

/-- One block of `do_page_walk`: read `task_items[i]`, set `curr_pid`, and walk the range if
the task has an address space.  A NULL `task_items[i]` cannot be dereferenced. -/
def walk_task (cb : callback) (i : Int) (start stop : Nat) (s : State) : Option State :=
  match s.task_items i with
  | none => none
  | some t =>
    let s1 : State := { s with curr_pid := t.pid }
    match t.mm with
    | none => some s1
    | some mm =>
      let w := walk_page_range cb mm start stop s1
      some { w.1 with task_items := arr_set w.1.task_items i (some { t with mm := some w.2 }) }

/-- The two middle loops of `do_page_walk`: whole-range walks of the tasks `i, i + 1, ...`
(first argument: iterations left) with `return i` as soon as enough was found.  The second
component is `some i` on such a return and `none` when the loop ran to its end. -/
def walk_tasks (cb : callback) : Nat → Int → State → Option (State × Option Int)
  | 0, _, s => some (s, none)
  | k + 1, i, s =>
    match walk_task cb i 0 MAX_ADDRESS s with
    | none => none
    | some s1 =>
      if s1.n_found ≥ s1.n_to_find then some (s1, some i)
      else walk_tasks cb k (i + 1) s1

def do_page_walk (cb : callback) (last_pid : Int) (last_addr : Nat) (s : State) :
    Option (Int × State) :=
  -- begin at last_pid->last_addr
  match walk_task cb last_pid last_addr MAX_ADDRESS s with
  | none => none
  | some s1 =>
    if s1.n_found ≥ s1.n_to_find then some (last_pid, s1)
    else
      match walk_tasks cb (s1.n_pids - (last_pid + 1)).toNat (last_pid + 1) s1 with
      | none => none
      | some (s2, some i) => some (i, s2)
      | some (s2, none) =>
        match walk_tasks cb last_pid.toNat 0 s2 with
        | none => none
        | some (s3, some i) => some (i, s3)
        | some (s3, none) =>
          -- finish cycle at last_pid->last_addr
          match walk_task cb last_pid 0 (last_addr + 1) s3 with
          | none => none
          | some s4 => some (last_pid, s4)

/-- The promotion loop of `mem_walk`:
`for (i = 0; (i < remaining) && (i < n_backup); i++) found_addrs[n_found++] = backup_addrs[i]`. -/
def promote_backup (remaining : Int) : Nat → Int → State → State
  | 0, _, s => s
  | k + 1, i, s =>
    if i < remaining ∧ i < s.n_backup then
      promote_backup remaining k (i + 1)
        { s with found_addrs := arr_set s.found_addrs s.n_found (s.backup_addrs i),
                 n_found := s.n_found + 1 }
    else s

/-- The `switch (mode)` at the head of `mem_walk`: the policy callback and the `dram_walk`
flag, or `none` for the `default` branch. -/
def mem_walk_ops (mode : Int) : Option (callback × Bool) :=
  if mode = DRAM_MODE then some (pte_callback_mem, true)
  else if mode = NVRAM_MODE then some (pte_callback_nvram_force, false)
  else if mode = NVRAM_INTENSIVE_MODE then some (pte_callback_nvram_intensive, false)
  else if mode = NVRAM_WRITE_MODE then some (pte_callback_nvram_write, false)
  else none

/-- The tail of `mem_walk`, after the page walk: promote backups when short. -/
def mem_walk_finish (s1 : State) : Int × State :=
  if s1.n_found ≥ s1.n_to_find then (0, s1)
  else if s1.n_backup > 0 then
    let remaining := s1.n_to_find - s1.n_found
    let s2 := promote_backup remaining s1.n_backup.toNat 0 s1
    if s2.n_found ≥ s2.n_to_find then (0, s2) else (-1, s2)
  else (-1, s1)

def mem_walk (n mode : Int) (s : State) : Option (Int × State) :=
  match mem_walk_ops mode with
  | none => some (0, s)
  | some (cb, dram_walk) =>
    let s0 : State := { s with n_to_find := n, n_backup := 0 }
    let walked : Option State :=
      if dram_walk then
        (do_page_walk cb s0.last_pid_dram s0.last_addr_dram s0).map
          (fun r => { r.2 with last_pid_dram := r.1 })
      else
        (do_page_walk cb s0.last_pid_nvram s0.last_addr_nvram s0).map
          (fun r => { r.2 with last_pid_nvram := r.1 })
    match walked with
    | none => none
    | some s1 => some (mem_walk_finish s1)

/-- The loop of `clear_walk`.  It takes the page-table lock of `task_items[i]->mm` without a
NULL test, so a task without an address space cannot be walked. -/
def clear_tasks : Nat → Int → State → Option State
  | 0, _, s => some s
  | k + 1, i, s =>
    match s.task_items i with
    | none => none
    | some t =>
      match t.mm with
      | none => none
      | some mm =>
        let s1 : State := { s with curr_pid := t.pid }
        let w := walk_page_range pte_callback_nvram_clear mm 0 MAX_ADDRESS s1
        clear_tasks k (i + 1)
          { w.1 with task_items := arr_set w.1.task_items i (some { t with mm := some w.2 }) }

def clear_walk (_mode : Int) (s : State) : Option (Int × State) :=
  (clear_tasks s.n_pids.toNat 0 s).map (fun s1 => (0, s1))

/-- The body `found_addrs[dst + i] = found_addrs[src + i]` (both fields) of the two shift
loops of `switch_walk`. -/
def copy_found (dst src : Int) (i : Int) (f : Int → addr_info_t) : Int → addr_info_t :=
  arr_set f (dst + i) (f (src + i))

/-- The body `found_addrs[m++] = src[i]` (both fields) of the two promotion loops of
`switch_walk`, on the array and the running index `m` (`n_found`, or the local
`nvram_found`). -/
def push_from (src : Int → addr_info_t) (i : Int) (st : (Int → addr_info_t) × Int) :
    (Int → addr_info_t) × Int :=
  (arr_set st.1 st.2 (src i), st.2 + 1)

/-- The part of `switch_walk` after the DRAM walk: equalise the two sides. -/
def switch_balance (nvram_found : Int) (s : State) : Int × State :=
  let dram_found := s.n_found - nvram_found - 1
  -- found equal number of dram and nvram entries
  if dram_found = nvram_found then (0, s)
  else if dram_found < nvram_found ∧ s.n_backup > 0 then
    let remaining := nvram_found - dram_found
    let r : Int × State :=
      if s.n_backup < remaining then
        -- shift left dram entries (discard excess nvram addrs)
        let old_dram_start := nvram_found + 1
        let nvram_found1 := dram_found + s.n_backup
        let new_dram_start := nvram_found1 + 1
        let f1 := set_pid_retval s.found_addrs nvram_found1 0
        let f2 := for_up (copy_found new_dram_start old_dram_start) dram_found.toNat 0 f1
        (s.n_backup, { s with found_addrs := f2, n_found := new_dram_start + dram_found })
      else (remaining, s)
    let to_add := r.1
    let w := for_up (push_from r.2.backup_addrs) to_add.toNat 0 (r.2.found_addrs, r.2.n_found)
    (0, { r.2 with found_addrs := w.1, n_found := w.2 })
  else if nvram_found < dram_found ∧ s.n_switch_backup > 0 then
    let remaining := dram_found - nvram_found
    let to_add := int_min s.n_switch_backup remaining
    let old_dram_start := nvram_found + 1
    let new_dram_start := old_dram_start + to_add
    let dram_found1 := nvram_found + to_add
    -- shift right dram entries
    let f1 := for_down (copy_found new_dram_start old_dram_start) dram_found1.toNat
      (dram_found1 - 1) s.found_addrs
    let w := for_up (push_from s.switch_backup_addrs) to_add.toNat 0 (f1, nvram_found)
    let nvram_found1 := w.2
    let f2 := set_pid_retval w.1 nvram_found1 0
    -- discard last entries
    (0, { s with found_addrs := f2, n_found := nvram_found1 * 2 + 1 })
  else
    (0, { s with found_addrs := set_pid_retval s.found_addrs 0 0, n_found := 1 })

def switch_walk (n : Int) (s : State) : Option (Int × State) :=
  let s0 : State := { s with n_to_find := n, n_switch_backup := 0 }
  match do_page_walk pte_callback_nvram_switch s0.last_pid_nvram s0.last_addr_nvram s0 with
  | none => none
  | some (p, s1) =>
    let s2 : State := { s1 with last_pid_nvram := p }
    -- fill separator after
    let s3 : State := { s2 with found_addrs := set_pid_retval s2.found_addrs s2.n_found 0 }
    if s3.n_found = 0 ∧ s3.n_switch_backup = 0 then
      some (-1, { s3 with n_found := s3.n_found + 1 })
    else
      let nvram_found := s3.n_found
      let dram_to_find := int_min (nvram_found + s3.n_switch_backup) n
      let s4 : State := { s3 with n_found := s3.n_found + 1 }
      let s5 : State := { s4 with n_to_find := s4.n_found + dram_to_find, n_backup := 0 }
      match do_page_walk pte_callback_mem s5.last_pid_dram s5.last_addr_dram s5 with
      | none => none
      | some (q, s6) =>
        let s7 : State := { s6 with last_pid_dram := q }
        some (switch_balance nvram_found s7)

/-! ## Bind / unbind -/

def bind_pid (k : Kernel) (pid : Int) (s : State) : Int × State :=
  if pid ≤ 0 ∨ pid > MAX_PID_N then (-1, s)
  else
    let r := find_target_process k pid s
    if r.1 = 0 then (-1, r.2) else (0, r.2)

/-- The search loop of `unbind_pid`:
`for (i = 0; i < n_pids; i++) if (task_items[i] != NULL && task_items[i]->pid == pid) break;`
with the number of iterations left as first argument; the result is the final `i`. -/
def find_index (tasks : Int → Option task_struct) (pid : Int) : Nat → Int → Int
  | 0, i => i
  | k + 1, i =>
    match tasks i with
    | some t => if t.pid = pid then i else find_index tasks pid k (i + 1)
    | none => find_index tasks pid k (i + 1)

def unbind_pid (pid : Int) (s : State) : Int × State :=
  if pid ≤ 0 ∨ pid > MAX_PID_N then (-1, s)
  else
    -- Find which task to remove
    let i := find_index s.task_items pid s.n_pids.toNat 0
    if i = s.n_pids then (-1, s)
    else (0, update_pid_list i s)

/-! ## Request processing -/

/-- The last statement of `process_req`: `found_addrs[n_found++].pid_retval = ret`. -/
def put_retval (ret : Int) (s : State) : State :=
  { s with found_addrs := set_pid_retval s.found_addrs s.n_found ret, n_found := s.n_found + 1 }

/-- The body of `process_req` up to the final statement: the value of `ret` and the globals. -/
def dispatch_req (k : Kernel) (req : Option req_t) (s0 : State) : Option (Int × State) :=
  match req with
  | none => some (-1, s0)
  | some req =>
    if req.op_code = FIND_OP then
      let s1 := refresh_pids k s0
      if s1.n_pids > 0 then
        if req.mode = DRAM_MODE ∨ req.mode = NVRAM_MODE ∨ req.mode = NVRAM_WRITE_MODE
            ∨ req.mode = NVRAM_INTENSIVE_MODE then
          mem_walk (int_min MAX_N_FIND req.pid_n) req.mode s1
        else if req.mode = NVRAM_CLEAR then
          (clear_walk req.mode s1).map (fun r => (-1, r.2))
        else if req.mode = SWITCH_MODE then
          switch_walk (int_min MAX_N_SWITCH req.pid_n) s1
        else some (-1, s1)
      else some (-1, s1)
    else if req.op_code = BIND_OP then
      some (bind_pid k req.pid_n (refresh_pids k s0))
    else if req.op_code = UNBIND_OP then
      let r := unbind_pid req.pid_n s0
      some (r.1, refresh_pids k r.2)
    else some (-1, s0)

def process_req (k : Kernel) (req : Option req_t) (s : State) : Option State :=
  (dispatch_req k req { s with n_found := 0 }).map (fun r => put_retval r.1 r.2)

/-! ## Sequences of requests -/

/-- One request as the module meets it: the host's pid table at that time, what the managed
processes did to their own address spaces since the previous request (by pid), and the
request record. -/
structure Event where
  kernel : Kernel
  env : Int → Option mm_struct → Option mm_struct
  req : Option req_t

/-- The managed processes run between two requests: their address spaces change, nothing
else does. -/
def env_step (env : Int → Option mm_struct → Option mm_struct) (s : State) : State :=
  { s with task_items := fun i => (s.task_items i).map (fun t => { t with mm := env t.pid t.mm }) }

def step (s : State) (e : Event) : Option State :=
  process_req e.kernel e.req (env_step e.env s)

/-- The state after a sequence of requests, `none` if one of them hit a NULL dereference. -/
def run : State → List Event → Option State
  | s, [] => some s
  | s, e :: es =>
    match step s e with
    | none => none
    | some s1 => run s1 es

/-- The response to the last request: the records `found_addrs[0 .. n_found)`. -/
def response (s : State) : List addr_info_t :=
  (List.range s.n_found.toNat).map (fun (j : Nat) => s.found_addrs (Int.ofNat j))

/-- The managed set: the entries `task_items[0 .. n_pids)`. -/
def managed (s : State) : List (Option task_struct) :=
  (List.range s.n_pids.toNat).map (fun (j : Nat) => s.task_items (Int.ofNat j))

/-- The PIDs of the managed set, in order (a NULL entry has none). -/
def managed_pids (s : State) : List Int :=
  (managed s).filterMap (fun o => o.map (fun t => t.pid))

/-! ## The response on the wire (`placement_nl_process_msg`) -/

/-- The message type `NLMSG_DONE` of the host's netlink header. -/
def NLMSG_DONE : Int := 3

/-- The message flag `NLM_F_MULTI` of the host's netlink header. -/
def NLM_F_MULTI : Int := 2

/-- One netlink message as `nlmsg_put` and the `memcpy` after it leave it: the type, the
flags, the payload length in bytes announced to `nlmsg_put`, and the records copied into the
payload. -/
structure nlmsghdr where
  nlmsg_type : Int
  nlmsg_flags : Int
  payload_len : Int
  data : List addr_info_t
deriving DecidableEq

/-- The records `found[start .. start + len)`. -/
def records (found : Int → addr_info_t) (start : Int) (len : Nat) : List addr_info_t :=
  (List.range len).map (fun (j : Nat) => found (start + Int.ofNat j))

/-- The copy `memcpy(dst, found_addrs + start, size)` of `size` bytes: the records
`found_addrs[start .. start + size / sizeof(addr_info_t))`. -/
def memcpy_records (found : Int → addr_info_t) (start size : Int) : List addr_info_t :=
  records found start (Int.tdiv size sizeof_addr_info_t).toNat

/-- The local `last_packet_entries` of `placement_nl_process_msg`.  `n_found` is positive
there, so the remainder is the mathematical one. -/
def last_packet_entries (n_found : Int) : Int :=
  let last_packet_remainder := Int.tmod n_found MAX_N_PER_PACKET
  if last_packet_remainder = 0 then MAX_N_PER_PACKET else last_packet_remainder

/-- The local `required_packets` of `placement_nl_process_msg`. -/
def required_packets (n_found : Int) : Int :=
  Int.tdiv n_found MAX_N_PER_PACKET + (if Int.tmod n_found MAX_N_PER_PACKET ≠ 0 then 1 else 0)

/-- The loop `for (i = 0; i < required_packets - 1; i++)` that fills all packets but the last;
the first argument is the number of iterations left. -/
def multi_packets (found : Int → addr_info_t) : Nat → Int → List nlmsghdr
  | 0, _ => []
  | k + 1, i =>
    { nlmsg_type := 0, nlmsg_flags := NLM_F_MULTI,
      payload_len := MAX_N_PER_PACKET * sizeof_addr_info_t,
      data := memcpy_records found (i * MAX_N_PER_PACKET) MAX_PAYLOAD }
      :: multi_packets found k (i + 1)

/-- The packets `placement_nl_process_msg` puts into the outgoing buffer for the records
`found_addrs[0 .. n_found)`. -/
def nl_packets (found : Int → addr_info_t) (n_found : Int) : List nlmsghdr :=
  let loops := (required_packets n_found - 1).toNat
  -- the value of `i` when the loop is left
  let i : Int := Int.ofNat loops
  let rem_size := last_packet_entries n_found * sizeof_addr_info_t
  multi_packets found loops 0
    ++ [{ nlmsg_type := NLMSG_DONE, nlmsg_flags := 0, payload_len := rem_size,
          data := memcpy_records found (i * MAX_N_PER_PACKET) rem_size }]

/-- The handler of an incoming message: serve the request, then send the response.  The
second argument tells whether the host could allocate the outgoing buffer (`nlmsg_new`); if
not, nothing is sent. -/
def placement_nl_process_msg (k : Kernel) (skb_out : Bool) (in_req : Option req_t) (s : State) :
    Option (State × List nlmsghdr) :=
  match process_req k in_req s with
  | none => none
  | some s1 =>
    if !skb_out then some (s1, [])
    else some (s1, nl_packets s1.found_addrs s1.n_found)

/-! ## The controller's reading of a FIND response (`send_find`, pnp-ctl.c) -/

/-- The NUMA library as the controller meets it.  The calls of each routine are numbered in
the order in which they are made: `numa_node_size64 c node` is the free byte count that call
number `c`, made for `node`, stores in `node_fr`, and `numa_move_pages c pid count pages nodes`
is the value call number `c` returns (0 when every page was moved). -/
structure Numa where
  numa_node_size64 : Nat → Int → Int
  numa_move_pages : Nat → Int → Int → List Nat → List Int → Int

/-- One call of `numa_move_pages`: its arguments, and whether it was made at the batched call
site (a whole run) or at the page-by-page call site that follows a failed batch. -/
structure move_call where
  pid : Int
  count : Int
  pages : List Nat
  nodes : List Int
  batched : Bool
deriving DecidableEq

/-- The locals of a capacity-assignment loop, with the number of `numa_node_size64` calls
made so far. -/
structure assigned where
  n_processed : Int
  addr : Int → Nat
  dest_nodes : Int → Int
  size_calls : Nat

/-- The locals of a send loop: the failure counter, the number of `numa_move_pages` calls made
so far and the calls themselves, oldest first. -/
structure sent where
  e : Int
  move_calls : Nat
  calls : List move_call

/-- The conversion of a `long long` to `int` (32 bits, two's complement). -/
def to_int (v : Int) : Int := (v + 2147483648) % 4294967296 - 2147483648

/-- The inner loop of the capacity assignment,
`for (; (j < n_avail_pages) && (n_processed+j < n_found); j++)`, whose body stores
`candidates[base+j].addr` and `curr_node` at index `n_processed+j`.  In `do_migration` and on
the NVRAM side of `do_switch` the source has `base = n_processed`, on the DRAM side of
`do_switch` it has `base = n_found+1`.  The loop runs at most `n_found - n_processed` times;
the first argument is that number.  The result is the final `j` and the two arrays. -/
def fill_node (candidates : Int → addr_info_t) (base curr_node n_avail_pages n_found
    n_processed : Int) : Nat → Int → (Int → Nat) × (Int → Int) → Int × (Int → Nat) × (Int → Int)
  | 0, j, a => (j, a)
  | fuel + 1, j, a =>
    if j < n_avail_pages ∧ n_processed + j < n_found then
      fill_node candidates base curr_node n_avail_pages n_found n_processed fuel (j + 1)
        (arr_set a.1 (n_processed + j) (candidates (base + j)).addr,
         arr_set a.2 (n_processed + j) curr_node)
    else (j, a)

/-- The capacity-assignment loop
`for (i=0; (i < size) && (n_processed < n_found); i++)` over the destination nodes that remain:
read the free bytes of the node, divide by the page size (C division, converted by `conv` to
the type of `n_avail_pages`), fill, and add the final `j` to `n_processed`.  `base` gives the
first candidate index of a pass from the value of `n_processed` at its start. -/
def assign_nodes (h : Numa) (page_size : Int) (conv : Int → Int) (candidates : Int → addr_info_t)
    (base : Int → Int) (n_found : Int) : List Int → assigned → assigned
  | [], st => st
  | curr_node :: rest, st =>
    if st.n_processed < n_found then
      let node_fr := h.numa_node_size64 st.size_calls curr_node
      let n_avail_pages := conv (Int.tdiv node_fr page_size)
      let r := fill_node candidates (base st.n_processed) curr_node n_avail_pages n_found
        st.n_processed (n_found - st.n_processed).toNat 0 (st.addr, st.dest_nodes)
      assign_nodes h page_size conv candidates base n_found rest
        { n_processed := st.n_processed + r.1, addr := r.2.1, dest_nodes := r.2.2,
          size_calls := st.size_calls + 1 }
    else st

/-- The scan
`for (i=1; (candidates[off+n_migrated+i].pid_retval == curr_pid) && (n_migrated+i < n_processed); i++);`
with `off = 0` in `do_migration` and on the NVRAM side of `do_switch`, and `off = n_found+1` on
the DRAM side.  The loop runs fewer than `n_processed - n_migrated` times; the first argument
is that number.  The result is the final `i`. -/
def run_length (candidates : Int → addr_info_t) (off curr_pid n_migrated n_processed : Int) :
    Nat → Int → Int
  | 0, i => i
  | fuel + 1, i =>
    if (candidates (off + n_migrated + i)).pid_retval = curr_pid ∧ n_migrated + i < n_processed
    then run_length candidates off curr_pid n_migrated n_processed fuel (i + 1)
    else i

/-- The arguments of a call of `numa_move_pages` for the `count` slots from `first` on:
`numa_move_pages(curr_pid, count, addr + first, dest_nodes + first, status, 0)`. -/
def move_args (addr : Int → Nat) (dest_nodes : Int → Int) (curr_pid first count : Int)
    (batched : Bool) : move_call :=
  { pid := curr_pid, count := count,
    pages := (List.range count.toNat).map (fun (j : Nat) => addr (first + Int.ofNat j)),
    nodes := (List.range count.toNat).map (fun (j : Nat) => dest_nodes (first + Int.ofNat j)),
    batched := batched }

/-- The host makes the call `b`: the value it returns, and the locals with the call counted
and recorded. -/
def call_move_pages (h : Numa) (b : move_call) (st : sent) : Int × sent :=
  (h.numa_move_pages st.move_calls b.pid b.count b.pages b.nodes,
   { st with move_calls := st.move_calls + 1, calls := st.calls ++ [b] })

/-- The body of the page-by-page loop after a failed batch: move page `j` of the run alone,
and count a failure when the call returns non-zero. -/
def retry_page (h : Numa) (addr : Int → Nat) (dest_nodes : Int → Int)
    (curr_pid n_migrated : Int) (j : Int) (st : sent) : sent :=
  let r := call_move_pages h (move_args addr dest_nodes curr_pid (n_migrated + j) 1 false) st
  if r.1 ≠ 0 then { r.2 with e := r.2.e + 1 } else r.2

/-- The send loop `for (n_migrated=0, i=0; n_migrated < n_processed; n_migrated+=i)`: take
the PID at `n_migrated`, scan the run, move it in one call, and move it page by page when that
call returns non-zero.  Every pass advances `n_migrated` by at least one, so the loop runs at
most `n_processed` times; the first argument is that number.  The result is the final
`n_migrated` and the locals. -/
def send_runs (h : Numa) (candidates : Int → addr_info_t) (off : Int) (addr : Int → Nat)
    (dest_nodes : Int → Int) (n_processed : Int) : Nat → Int → sent → Int × sent
  | 0, n_migrated, st => (n_migrated, st)
  | fuel + 1, n_migrated, st =>
    if n_migrated < n_processed then
      let curr_pid := (candidates (off + n_migrated)).pid_retval
      let i := run_length candidates off curr_pid n_migrated n_processed
        (n_processed - n_migrated).toNat 1
      let r := call_move_pages h (move_args addr dest_nodes curr_pid n_migrated i true) st
      let st2 : sent :=
        if r.1 ≠ 0 then for_up (retry_page h addr dest_nodes curr_pid n_migrated) i.toNat 0 r.2
        else r.2
      send_runs h candidates off addr dest_nodes n_processed fuel (n_migrated + i) st2
    else (n_migrated, st)

/-- What `do_migration` leaves: its return value, the locals of its two loops at their end,
and the calls it made. -/
structure migration where
  ret : Int
  n_processed : Int
  addr : Int → Nat
  dest_nodes : Int → Int
  n_migrated : Int
  e : Int
  size_calls : Nat
  move_calls : Nat
  calls : List move_call

/-- The destination nodes of `do_migration`: pages found in DRAM mode go to the NVRAM nodes,
the others to the DRAM nodes. -/
def node_list (mode : Int) : List Int :=
  if mode = DRAM_MODE then NVRAM_NODES else DRAM_NODES

/-- The routine `do_migration(mode, n_found)`.  `addr0` and `dest0` are the contents of the two
freshly allocated arrays. -/
def do_migration (h : Numa) (page_size : Int) (candidates : Int → addr_info_t)
    (addr0 : Int → Nat) (dest0 : Int → Int) (mode n_found : Int) : migration :=
  let a := assign_nodes h page_size (fun v => v) candidates (fun n_processed => n_processed)
    n_found (node_list mode)
    { n_processed := 0, addr := addr0, dest_nodes := dest0, size_calls := 0 }
  let s := send_runs h candidates 0 a.addr a.dest_nodes a.n_processed a.n_processed.toNat 0
    { e := 0, move_calls := 0, calls := [] }
  { ret := s.1 - s.2.e, n_processed := a.n_processed, addr := a.addr,
    dest_nodes := a.dest_nodes, n_migrated := s.1, e := s.2.e, size_calls := a.size_calls,
    move_calls := s.2.move_calls, calls := s.2.calls }

/-- The locals of `do_switch` between two passes of its loop, with the calls made so far. -/
structure switch_locals where
  addr_dram : Int → Nat
  dest_nodes_nvram : Int → Int
  addr_nvram : Int → Nat
  dest_nodes_dram : Int → Int
  dram_migrated : Int
  nvram_migrated : Int
  dram_e : Int
  nvram_e : Int
  size_calls : Nat
  move_calls : Nat
  calls : List move_call

/-- The DRAM → NVRAM half of one pass of the loop of `do_switch`. -/
def switch_dram_side (h : Numa) (page_size : Int) (candidates : Int → addr_info_t)
    (n_found : Int) (st : switch_locals) : switch_locals :=
  let old_n_processed := st.dram_migrated + st.dram_e
  let a := assign_nodes h page_size to_int candidates (fun _ => n_found + 1) n_found NVRAM_NODES
    { n_processed := old_n_processed, addr := st.addr_dram, dest_nodes := st.dest_nodes_nvram,
      size_calls := st.size_calls }
  let dram_processed := a.n_processed
  let s : sent :=
    if old_n_processed < dram_processed then
      (send_runs h candidates (n_found + 1) a.addr a.dest_nodes dram_processed
        dram_processed.toNat 0
        { e := st.dram_e, move_calls := st.move_calls, calls := st.calls }).2
    else { e := st.dram_e, move_calls := st.move_calls, calls := st.calls }
  { st with addr_dram := a.addr, dest_nodes_nvram := a.dest_nodes,
            dram_e := s.e, dram_migrated := dram_processed - s.e,
            size_calls := a.size_calls, move_calls := s.move_calls, calls := s.calls }

/-- The NVRAM → DRAM half of one pass of the loop of `do_switch`. -/
def switch_nvram_side (h : Numa) (page_size : Int) (candidates : Int → addr_info_t)
    (n_found : Int) (st : switch_locals) : switch_locals :=
  let old_n_processed := st.nvram_migrated + st.nvram_e
  let a := assign_nodes h page_size to_int candidates (fun n_processed => n_processed) n_found
    DRAM_NODES
    { n_processed := old_n_processed, addr := st.addr_nvram, dest_nodes := st.dest_nodes_dram,
      size_calls := st.size_calls }
  let nvram_processed := a.n_processed
  let s : sent :=
    if old_n_processed < nvram_processed then
      (send_runs h candidates 0 a.addr a.dest_nodes nvram_processed nvram_processed.toNat 0
        { e := st.nvram_e, move_calls := st.move_calls, calls := st.calls }).2
    else { e := st.nvram_e, move_calls := st.move_calls, calls := st.calls }
  { st with addr_nvram := a.addr, dest_nodes_dram := a.dest_nodes,
            nvram_e := s.e, nvram_migrated := nvram_processed - s.e,
            size_calls := a.size_calls, move_calls := s.move_calls, calls := s.calls }

/-- The loop `while ((dram_migrated < n_found) || (nvram_migrated < n_found))` of `do_switch`.
The first argument bounds the number of passes; the result is `none` when the bound is
reached with the condition still true. -/
def do_switch_loop (h : Numa) (page_size : Int) (candidates : Int → addr_info_t)
    (n_found : Int) : Nat → switch_locals → Option switch_locals
  | 0, st => if st.dram_migrated < n_found ∨ st.nvram_migrated < n_found then none else some st
  | fuel + 1, st =>
    if st.dram_migrated < n_found ∨ st.nvram_migrated < n_found then
      do_switch_loop h page_size candidates n_found fuel
        (switch_nvram_side h page_size candidates n_found
          (switch_dram_side h page_size candidates n_found st))
    else some st

/-- The state in which the loop of `do_switch` starts; the four arrays are freshly
allocated, with contents `a0`, `d0`, `a1`, `d1`. -/
def do_switch_start (a0 : Int → Nat) (d0 : Int → Int) (a1 : Int → Nat) (d1 : Int → Int) :
    switch_locals :=
  { addr_dram := a0, dest_nodes_nvram := d0, addr_nvram := a1, dest_nodes_dram := d1,
    dram_migrated := 0, nvram_migrated := 0, dram_e := 0, nvram_e := 0,
    size_calls := 0, move_calls := 0, calls := [] }

/-- The routine `do_switch(n_found)`, with a bound on the number of passes of its loop: the
return value `dram_migrated + nvram_migrated` and the locals at the end, or `none` when the
loop is still running at the bound. -/
def do_switch (h : Numa) (page_size : Int) (candidates : Int → addr_info_t)
    (a0 : Int → Nat) (d0 : Int → Int) (a1 : Int → Nat) (d1 : Int → Int) (n_found : Int)
    (fuel : Nat) : Option (Int × switch_locals) :=
  (do_switch_loop h page_size candidates n_found fuel (do_switch_start a0 d0 a1 d1)).map
    (fun st => (st.dram_migrated + st.nvram_migrated, st))

/-! ## The threshold controller (`threshold_placement`, pnp-ctl.c) -/

/-- What one call of `numa_node_size64` gives: the size of the node, which it returns, and the
free bytes, which it stores in `node_fr`. -/
structure node_size where
  size : Int
  free : Int

/-- The locals `total_node_sz` and `total_node_fr` of `threshold_placement`, with the number of
`numa_node_size64` calls the thread has made so far. -/
structure threshold_locals where
  total_node_sz : Int
  total_node_fr : Int
  size_calls : Nat

/-- The declarations `long long total_node_sz = 0; long long total_node_fr = 0;` at the head
of `threshold_placement`, before its loop. -/
def threshold_start : threshold_locals :=
  { total_node_sz := 0, total_node_fr := 0, size_calls := 0 }

/-- The loop
`for (int i=0; i < n_dram_nodes; i++) { long long node_fr = 0;`
`total_node_sz += numa_node_size64(DRAM_NODES[i], &node_fr); total_node_fr += node_fr; }`
over the nodes that remain.  `host c node` is what call number `c`, made for `node`, gives. -/
def read_dram_nodes (host : Nat → Int → node_size) : List Int → threshold_locals → threshold_locals
  | [], st => st
  | node :: rest, st =>
    read_dram_nodes host rest
      { total_node_sz := st.total_node_sz + (host st.size_calls node).size,
        total_node_fr := st.total_node_fr + (host st.size_calls node).free,
        size_calls := st.size_calls + 1 }

/-- What one pass of the loop of `threshold_placement` (with `thresh_act` set) does to the two
totals: it runs the reading loop; the rest of the pass only reads them. -/
def threshold_pass (host : Nat → Int → node_size) (st : threshold_locals) : threshold_locals :=
  read_dram_nodes host DRAM_NODES st

/-- The totals after the given number of passes. -/
def threshold_passes (host : Nat → Int → node_size) : Nat → threshold_locals → threshold_locals
  | 0, st => st
  | n + 1, st => threshold_passes host n (threshold_pass host st)

/-- The value of `1.0 * (total_node_sz - total_node_fr) / total_node_sz`, before it is rounded
to the `float` variable `usage`. -/
def usage (st : threshold_locals) : ℚ :=
  ((st.total_node_sz - st.total_node_fr : Int) : ℚ) / (st.total_node_sz : ℚ)

/-- The page count of the above-band branch, from the value of `n_bytes`:
`n_pages = ceil(n_bytes/page_size); n_pages = fmin(n_pages, MAX_N_FIND);`.  Both operands of
the division are integers (`long long` and `long`), so it is the C integer division, and
`ceil` is applied to its result.  (Counts beyond the range of `int` are not modelled.) -/
def above_band_pages (n_bytes page_size : Int) : Int :=
  let n_pages := Int.ceil ((Int.tdiv n_bytes page_size : Int) : ℚ)
  min n_pages MAX_N_FIND

/-! ## Predicates on the globals -/

/-- Every entry of the managed set is a task whose PID satisfies `P`. -/
def AllManaged (P : Int → Prop) (s : State) : Prop :=
  ∀ i, 0 ≤ i → i < s.n_pids → ∃ t, s.task_items i = some t ∧ P t.pid

/-- A walk cursor is in range: a valid index of the managed set, or 0 when the set is empty. -/
def CursorOk (n_pids last_pid : Int) : Prop :=
  0 ≤ last_pid ∧ (last_pid < n_pids ∨ (n_pids = 0 ∧ last_pid = 0))

/-- The invariant of the module's tables: at most `MAX_PIDS` managed tasks, none NULL, all
with a positive PID, no PID twice, and both walk cursors in range. -/
structure Inv (s : State) : Prop where
  n_pids_nonneg : 0 ≤ s.n_pids
  n_pids_le : s.n_pids ≤ MAX_PIDS
  tasks : AllManaged (fun p => 0 < p) s
  nodup : ∀ i j ti tj, 0 ≤ i → i < j → j < s.n_pids →
    s.task_items i = some ti → s.task_items j = some tj → ti.pid ≠ tj.pid
  dram : CursorOk s.n_pids s.last_pid_dram
  nvram : CursorOk s.n_pids s.last_pid_nvram


/-- The state `s'` extends `s`: same managed PIDs, same target and cursors' process
indices, and each of the three buffers keeps its old records and gained only records whose
PID satisfies `P`; the bound `n_found ≤ n_to_find` is kept. -/
structure Grows (P : Int → Prop) (s s' : State) : Prop where
  n_pids : s'.n_pids = s.n_pids
  n_to_find : s'.n_to_find = s.n_to_find
  last_pid_dram : s'.last_pid_dram = s.last_pid_dram
  last_pid_nvram : s'.last_pid_nvram = s.last_pid_nvram
  pids : ∀ i, (s'.task_items i).map (fun t => t.pid) = (s.task_items i).map (fun t => t.pid)
  found_le : s.n_found ≤ s'.n_found
  found_old : ∀ j, j < s.n_found → s'.found_addrs j = s.found_addrs j
  found_new : ∀ j, s.n_found ≤ j → j < s'.n_found → P (s'.found_addrs j).pid_retval
  backup_le : s.n_backup ≤ s'.n_backup
  backup_old : ∀ j, j < s.n_backup → s'.backup_addrs j = s.backup_addrs j
  backup_new : ∀ j, s.n_backup ≤ j → j < s'.n_backup → P (s'.backup_addrs j).pid_retval
  switch_le : s.n_switch_backup ≤ s'.n_switch_backup
  switch_old : ∀ j, j < s.n_switch_backup → s'.switch_backup_addrs j = s.switch_backup_addrs j
  switch_new : ∀ j, s.n_switch_backup ≤ j → j < s'.n_switch_backup →
    P (s'.switch_backup_addrs j).pid_retval
  bound : s.n_found ≤ s.n_to_find → s'.n_found ≤ s'.n_to_find

/-- One call of a policy callback extends the state with records of the current PID and
leaves the task table and `curr_pid` alone. -/
def CbGrows (cb : callback) : Prop :=
  ∀ ptep addr s, Grows (fun p => p = s.curr_pid) s (cb ptep addr s).st
    ∧ (cb ptep addr s).st.curr_pid = s.curr_pid
    ∧ (cb ptep addr s).st.task_items = s.task_items


/-- What a walk leaves of the tables and of `found_addrs`: the managed PIDs are the same,
the records below the old `n_found` are kept, and every record from there to the new
`n_found` has a `pid_retval` satisfying `P`. -/
structure Served (P : Int → Prop) (s s' : State) : Prop where
  n_pids : s'.n_pids = s.n_pids
  pids : ∀ i, (s'.task_items i).map (fun t => t.pid) = (s.task_items i).map (fun t => t.pid)
  found_le : s.n_found ≤ s'.n_found
  found_old : ∀ j, j < s.n_found → s'.found_addrs j = s.found_addrs j
  found_new : ∀ j, s.n_found ≤ j → j < s'.n_found → P (s'.found_addrs j).pid_retval

/-! ## Example states -/

/-- A buffer of zero records. -/
def ex_buf : Int → addr_info_t := fun _ => { addr := 0, pid_retval := 0 }

/-- A task table holding the PIDs 100, 200, 300, none with an address space of interest. -/
def ex_tasks : Int → Option task_struct := fun j =>
  if j = 0 then some { pid := 100, mm := none }
  else if j = 1 then some { pid := 200, mm := none }
  else if j = 2 then some { pid := 300, mm := none }
  else none

/-- The scenario "cursor reset on unbind" of the spec: managed set [100, 200, 300] and DRAM
cursor (1, 0x4000); the NVRAM cursor is (2, 0x8000). -/
def ex_three : State :=
  { found_addrs := ex_buf, backup_addrs := ex_buf, switch_backup_addrs := ex_buf,
    task_items := ex_tasks, n_pids := 3, last_addr_dram := 0x4000, last_addr_nvram := 0x8000,
    last_pid_dram := 1, last_pid_nvram := 2, curr_pid := 0, n_to_find := 0, n_found := 0,
    n_backup := 0, n_switch_backup := 0 }

/-- The managed set [100, 200] of the scenario "UNBIND non-member". -/
def ex_two : State := { ex_three with n_pids := 2, last_pid_nvram := 0 }

/-- A host in which every pid resolves to a task without address space. -/
def k_all : Kernel := { find_get_pid := fun _ => true, get_pid_task := fun _ => some none }

/-- A host in which pid 200 has exited and every other pid resolves. -/
def k_200_dead : Kernel :=
  { find_get_pid := fun p => decide (p ≠ 200), get_pid_task := fun _ => some none }

/-- A present, writable page with the given Accessed and Dirty bits on the given node. -/
def ex_pte (young dirty : Bool) (nid : Int) : pte_t :=
  { present := true, write := true, young := young, dirty := dirty, nid := nid, pfn := 0 }

/-- The address space of the scenario "SWITCH pairing": four hot NVRAM pages, two cold DRAM
pages and three clean-but-hot DRAM pages. -/
def ex_mm : mm_struct :=
  { ptes := [(0x1000, ex_pte true true 2), (0x2000, ex_pte true true 2),
             (0x3000, ex_pte true true 3), (0x4000, ex_pte true true 2),
             (0x5000, ex_pte false false 0), (0x6000, ex_pte false true 1),
             (0x7000, ex_pte true false 0), (0x8000, ex_pte true false 0),
             (0x9000, ex_pte true false 0)] }

/-- One managed process, pid 100, with the address space `ex_mm`; both cursors at (0, 0). -/
def ex_one : State :=
  { found_addrs := ex_buf, backup_addrs := ex_buf, switch_backup_addrs := ex_buf,
    task_items := fun j => if j = 0 then some { pid := 100, mm := some ex_mm } else none,
    n_pids := 1, last_addr_dram := 0, last_addr_nvram := 0,
    last_pid_dram := 0, last_pid_nvram := 0, curr_pid := 0, n_to_find := 0, n_found := 0,
    n_backup := 0, n_switch_backup := 0 }

/-- A host in which pid 100 resolves to a task with the address space `ex_mm`, and every
other pid to a task without address space. -/
def k_mm : Kernel :=
  { find_get_pid := fun _ => true,
    get_pid_task := fun p => if p = 100 then some (some ex_mm) else some none }

/-- An event with the host `k_mm` and idle processes. -/
def ex_event (r : req_t) : Event := { kernel := k_mm, env := fun _ m => m, req := some r }


/-- A task table holding five tasks, with the PIDs 100, 200, 300, 400, 500. -/
def ex_five : State :=
  { ex_three with
    task_items := fun j => if 0 ≤ j ∧ j < 5 then some { pid := 100 * (j + 1), mm := none } else none,
    n_pids := 5 }

/-- The policy callback never lets `n_found` pass `n_to_find`. -/
def KeepsBound (cb : callback) : Prop :=
  ∀ ptep addr st, st.n_found ≤ st.n_to_find →
    (cb ptep addr st).st.n_found ≤ (cb ptep addr st).st.n_to_find


/-- The request FIND(10, DRAM) on the host `k_all`, the processes idle. -/
def ex_find_dram : Event :=
  { kernel := k_all, env := fun _ m => m,
    req := some { op_code := FIND_OP, pid_n := 10, mode := DRAM_MODE } }

/-! ## The phases of the walks -/

/-- The state in which the page walk of `mem_walk n mode` starts. -/
def mem_walk_start (n : Int) (s : State) : State := { s with n_to_find := n, n_backup := 0 }

/-- The primary walk of `mem_walk`: the page walk with the cursor of the tier, and the
assignment of its result to the cursor's process index. -/
def mem_walk_primary (cb : callback) (dram_walk : Bool) (n : Int) (s : State) : Option State :=
  if dram_walk then
    (do_page_walk cb (mem_walk_start n s).last_pid_dram (mem_walk_start n s).last_addr_dram
        (mem_walk_start n s)).map (fun r => { r.2 with last_pid_dram := r.1 })
  else
    (do_page_walk cb (mem_walk_start n s).last_pid_nvram (mem_walk_start n s).last_addr_nvram
        (mem_walk_start n s)).map (fun r => { r.2 with last_pid_nvram := r.1 })

/-- The NVRAM phase of `switch_walk n`: the first page walk, with its result stored in the
NVRAM cursor. -/
def switch_nvram_phase (n : Int) (s : State) : Option State :=
  (do_page_walk pte_callback_nvram_switch s.last_pid_nvram s.last_addr_nvram
      { s with n_to_find := n, n_switch_backup := 0 }).map
    (fun r => { r.2 with last_pid_nvram := r.1 })

/-- The state in which the DRAM phase of `switch_walk n` starts, from the state `s2` the
NVRAM phase ended in: the separator is written after the NVRAM picks and counted, and the
target is raised by `min (h + s, n)`. -/
def switch_dram_start (n : Int) (s2 : State) : State :=
  { s2 with found_addrs := set_pid_retval s2.found_addrs s2.n_found 0,
            n_found := s2.n_found + 1,
            n_to_find := s2.n_found + 1 + int_min (s2.n_found + s2.n_switch_backup) n,
            n_backup := 0 }

/-- The DRAM phase of `switch_walk n`: the second page walk, with its result stored in the
DRAM cursor. -/
def switch_dram_phase (n : Int) (s2 : State) : Option State :=
  (do_page_walk pte_callback_mem (switch_dram_start n s2).last_pid_dram
      (switch_dram_start n s2).last_addr_dram (switch_dram_start n s2)).map
    (fun r => { r.2 with last_pid_dram := r.1 })

/-! ## Further example states -/

/-- The module right after loading, with zeroed buffers and an empty task table. -/
def ex_init : State := module_init ex_buf ex_buf ex_buf (fun _ => none)

/-- The request BIND(100) on the host `k_mm`. -/
def ex_bind_100 : Event := ex_event { op_code := BIND_OP, pid_n := 100, mode := 0 }

/-- The request FIND(n, mode) on the host `k_mm`. -/
def ex_find (n mode : Int) : Event := ex_event { op_code := FIND_OP, pid_n := n, mode := mode }

/-- An address space with one hot and dirty NVRAM page, two hot and clean NVRAM pages and
three cold DRAM pages. -/
def ex_mm_hot : mm_struct :=
  { ptes := [(0x1000, ex_pte true true 2), (0x2000, ex_pte true false 2),
             (0x3000, ex_pte true false 3), (0x4000, ex_pte false false 0),
             (0x5000, ex_pte false false 1), (0x6000, ex_pte false true 0)] }

/-- One managed process, pid 100, with the address space `ex_mm_hot`; both cursors at (0, 0). -/
def ex_hot : State :=
  { ex_one with
    task_items := fun j => if j = 0 then some { pid := 100, mm := some ex_mm_hot } else none }

/-- A policy that selects every page it is shown and never stops the walk: after a walk with
it, `found_addrs` lists the pages presented to the policy, in order. -/
def ex_cb_record : callback :=
  fun ptep addr s => { ret := 0, st := push_found addr s, pte := ptep }

/-! ## Page tables and records through a walk -/

/-- Two page tables list the same addresses in the same order, with entries related by `Q`. -/
def PtesRel (Q : pte_t → pte_t → Prop) (l0 l : List (Nat × pte_t)) : Prop :=
  List.Forall₂ (fun x y => x.1 = y.1 ∧ Q x.2 y.2) l0 l

/-- Two address-space pointers are both NULL, or both point to page tables related by `Q`. -/
def MmRel (Q : pte_t → pte_t → Prop) : Option mm_struct → Option mm_struct → Prop
  | none, none => True
  | some m0, some m => PtesRel Q m0.ptes m.ptes
  | _, _ => False

/-- Two task-table entries are both NULL, or hold the same PID and related address spaces. -/
def TaskRel (Q : pte_t → pte_t → Prop) : Option task_struct → Option task_struct → Prop
  | none, none => True
  | some t0, some t => t0.pid = t.pid ∧ MmRel Q t0.mm t.mm
  | _, _ => False

/-- The task tables of two states are related entry by entry. -/
def TablesRel (Q : pte_t → pte_t → Prop) (s0 s : State) : Prop :=
  ∀ i, TaskRel Q (s0.task_items i) (s.task_items i)

/-- The record `r` names a page of a managed process of `s0` whose entry (in `s0`) satisfies
`G`: its `pid_retval` is the PID of a managed task and its `addr` an address of that task's
page table. -/
def RecOf (G : pte_t → Prop) (s0 : State) (r : addr_info_t) : Prop :=
  ∃ i t mm p, 0 ≤ i ∧ i < s0.n_pids ∧ s0.task_items i = some t ∧ t.pid = r.pid_retval
    ∧ t.mm = some mm ∧ (r.addr, p) ∈ mm.ptes ∧ G p

/-- What a stretch of a walk does to `found` and `backup`: records are appended only, the
appended `found` records satisfy `Rf` and the appended `backup` records `Rb`, and nothing at or
above the new lengths is written. -/
structure Walked (Rf Rb : addr_info_t → Prop) (s s' : State) : Prop where
  n_pids : s'.n_pids = s.n_pids
  n_to_find : s'.n_to_find = s.n_to_find
  found_le : s.n_found ≤ s'.n_found
  found_old : ∀ j, j < s.n_found → s'.found_addrs j = s.found_addrs j
  found_above : ∀ j, s'.n_found ≤ j → s'.found_addrs j = s.found_addrs j
  found_new : ∀ j, s.n_found ≤ j → j < s'.n_found → Rf (s'.found_addrs j)
  backup_le : s.n_backup ≤ s'.n_backup
  backup_old : ∀ j, j < s.n_backup → s'.backup_addrs j = s.backup_addrs j
  backup_above : ∀ j, s'.n_backup ≤ j → s'.backup_addrs j = s.backup_addrs j
  backup_new : ∀ j, s.n_backup ≤ j → j < s'.n_backup → Rb (s'.backup_addrs j)

/-- One call of the policy `cb` on an entry `q`: the entry it leaves is related to `q` by `Q`;
`found` is left alone or gets the record of the page, the latter only if `Ff q`; likewise
`backup` with `Fb q`; the task table, `curr_pid`, `n_pids` and the target are left alone. -/
def CbStep (Q : pte_t → pte_t → Prop) (Ff Fb : pte_t → Prop) (cb : callback) : Prop :=
  ∀ (q : pte_t) (a : Nat) (s : State),
    (cb (some q) a s).st.curr_pid = s.curr_pid
    ∧ (cb (some q) a s).st.task_items = s.task_items
    ∧ (cb (some q) a s).st.n_pids = s.n_pids
    ∧ (cb (some q) a s).st.n_to_find = s.n_to_find
    ∧ Q q (match (cb (some q) a s).pte with
        | some q1 => q1
        | none => q)
    ∧ (((cb (some q) a s).st.n_found = s.n_found
          ∧ (cb (some q) a s).st.found_addrs = s.found_addrs)
        ∨ (Ff q ∧ (cb (some q) a s).st.n_found = s.n_found + 1
          ∧ (cb (some q) a s).st.found_addrs
              = arr_set s.found_addrs s.n_found { addr := a, pid_retval := s.curr_pid }))
    ∧ (((cb (some q) a s).st.n_backup = s.n_backup
          ∧ (cb (some q) a s).st.backup_addrs = s.backup_addrs)
        ∨ (Fb q ∧ (cb (some q) a s).st.n_backup = s.n_backup + 1
          ∧ (cb (some q) a s).st.backup_addrs
              = arr_set s.backup_addrs s.n_backup { addr := a, pid_retval := s.curr_pid }))

/-! ## A host with the process of `ex_hot` -/

/-- A host in which pid 100 resolves to a task with the address space `ex_mm_hot`, and every
other pid to a task without address space. -/
def k_hot : Kernel :=
  { find_get_pid := fun _ => true,
    get_pid_task := fun p => if p = 100 then some (some ex_mm_hot) else some none }

/-- The request BIND(100) on the host `k_hot`, the processes idle. -/
def ex_hot_bind : Event :=
  { kernel := k_hot, env := fun _ m => m,
    req := some { op_code := BIND_OP, pid_n := 100, mode := 0 } }

/-- The request FIND(n, mode) on the host `k_hot`, the processes idle. -/
def ex_hot_find (n mode : Int) : Event :=
  { kernel := k_hot, env := fun _ m => m,
    req := some { op_code := FIND_OP, pid_n := n, mode := mode } }

/-- The request BIND(pid) on the host `k_all`, the processes idle. -/
def ex_bind_all (pid : Int) : Event :=
  { kernel := k_all, env := fun _ m => m,
    req := some { op_code := BIND_OP, pid_n := pid, mode := 0 } }


/-- A host in which pid 100 resolves to a task with the address space `ex_mm_hot`, and every
other pid to a task with the address space `ex_mm`. -/
def k_pair : Kernel :=
  { find_get_pid := fun _ => true,
    get_pid_task := fun p => if p = 100 then some (some ex_mm_hot) else some (some ex_mm) }

/-- The request `r` on the host `k_pair`, the processes idle. -/
def ex_pair_event (r : req_t) : Event := { kernel := k_pair, env := fun _ m => m, req := some r }

/-! ## Capacities and runs, as the description of the controller states them -/

/-- The per-node capacities `cap_1 … cap_m` of an assignment loop that makes its first
capacity query as call number `c`: the free bytes of each destination node divided by the page
size, in node-list order. -/
def node_caps (h : Numa) (page_size : Int) (conv : Int → Int) : Nat → List Int → List Int
  | _, [] => []
  | c, node :: rest =>
    conv (Int.tdiv (h.numa_node_size64 c node) page_size) :: node_caps h page_size conv (c + 1) rest

/-- The calls made at the batched call site, in order. -/
def batched_calls (calls : List move_call) : List move_call :=
  calls.filter (fun c => c.batched)

/-- The index of the first candidate of batch number `i`: the sum of the lengths of the
batches before it. -/
def run_start (batches : List move_call) (i : Nat) : Int :=
  ((batches.take i).map (fun b => b.count)).sum

/-- The batches `bs` cut the candidates `[start, n_processed)` (read at offset `off`) into
consecutive maximal runs of equal PID: each batch begins where the one before it ended, names
the PID of every candidate of its run, is followed by a candidate of another PID or by the end,
and carries the pages and nodes stored for its run; the last batch ends at `n_processed`. -/
def RunsFrom (candidates : Int → addr_info_t) (off : Int) (addr : Int → Nat)
    (dest_nodes : Int → Int) (n_processed : Int) : Int → List move_call → Prop
  | start, [] => start = n_processed
  | start, b :: bs =>
    1 ≤ b.count ∧ start + b.count ≤ n_processed
    ∧ (∀ t, 0 ≤ t → t < b.count → (candidates (off + start + t)).pid_retval = b.pid)
    ∧ (start + b.count < n_processed →
        (candidates (off + start + b.count)).pid_retval ≠ b.pid)
    ∧ b.pages = (List.range b.count.toNat).map (fun (t : Nat) => addr (start + Int.ofNat t))
    ∧ b.nodes = (List.range b.count.toNat).map (fun (t : Nat) => dest_nodes (start + Int.ofNat t))
    ∧ RunsFrom candidates off addr dest_nodes n_processed (start + b.count) bs


/-! ## An example host for the controller -/

/-- A host on which node 2 has room for two pages of 4096 bytes, every other node for ten, and
every move succeeds. -/
def ex_numa : Numa :=
  { numa_node_size64 := fun _ node => if node = 2 then 8192 else 40960,
    numa_move_pages := fun _ _ _ _ _ => 0 }

/-- A host without free memory on any node. -/
def ex_numa_full : Numa :=
  { numa_node_size64 := fun _ _ => 0, numa_move_pages := fun _ _ _ _ _ => 0 }

/-- A host with room for ten pages of 4096 bytes on every node, on which no page can be
moved. -/
def ex_numa_stuck : Numa :=
  { numa_node_size64 := fun _ _ => 40960, numa_move_pages := fun _ _ _ _ _ => -1 }

/-- A FIND response with three candidates, two of PID 100 and one of PID 200, and its
terminator. -/
def ex_candidates : Int → addr_info_t := fun j =>
  if j = 0 then { addr := 0x5000, pid_retval := 100 }
  else if j = 1 then { addr := 0x6000, pid_retval := 100 }
  else if j = 2 then { addr := 0x7000, pid_retval := 200 }
  else { addr := 0, pid_retval := 0 }

/-- A SWITCH response with one pair: the NVRAM candidate, the separator, the DRAM candidate
and the terminator. -/
def ex_pair : Int → addr_info_t := fun j =>
  if j = 0 then { addr := 0x1000, pid_retval := 100 }
  else if j = 2 then { addr := 0x4000, pid_retval := 100 }
  else { addr := 0, pid_retval := 0 }

/-- The contents of a freshly allocated array of addresses. -/
def ex_addr0 : Int → Nat := fun _ => 0

/-- The contents of a freshly allocated array of nodes. -/
def ex_dest0 : Int → Int := fun _ => -1

/-! ## Further examples for the controller -/

/-- A SWITCH response with three pairs of PID 100: three NVRAM candidates, the separator,
three DRAM candidates and the terminator. -/
def ex_three_pairs : Int → addr_info_t := fun j =>
  if j = 0 then { addr := 0x1000, pid_retval := 100 }
  else if j = 1 then { addr := 0x2000, pid_retval := 100 }
  else if j = 2 then { addr := 0x3000, pid_retval := 100 }
  else if j = 4 then { addr := 0x4000, pid_retval := 100 }
  else if j = 5 then { addr := 0x5000, pid_retval := 100 }
  else if j = 6 then { addr := 0x6000, pid_retval := 100 }
  else { addr := 0, pid_retval := 0 }

/-- Two DRAM nodes of 8192000 bytes each that are half free when the threshold thread first
looks (calls 0 and 1) and full from then on. -/
def ex_filling : Nat → Int → node_size := fun c _ =>
  if c < 2 then { size := 8192000, free := 4096000 } else { size := 8192000, free := 0 }

/-- The page count the description of the threshold controller asks for:
`min (⌈B / page_size⌉, MAX_N_FIND)`. -/
def spec_above_band_pages (B page_size : Int) : Int :=
  min (Int.ceil ((B : ℚ) / (page_size : ℚ))) MAX_N_FIND

/-- Whether a managed entry still resolves on the host: it is not NULL and `find_get_pid`
finds its PID. -/
def resolves (k : Kernel) (o : Option task_struct) : Bool :=
  match o with
  | none => false
  | some t => k.find_get_pid t.pid


/-! ## The allocations of `_on_module_init`, and a process with many cold pages -/

/-- The size in bytes of the allocation of `found_addrs` (and of `backup_addrs`),
`kmalloc(sizeof(addr_info_t) * MAX_N_FIND, GFP_KERNEL)`, with the macro `MAX_N_FIND` expanded as
it is written in pnp.h, without parentheses:
`sizeof(addr_info_t) * MAX_N_PER_PACKET * MAX_PACKETS - 1`. -/
def found_alloc_bytes : Int := sizeof_addr_info_t * MAX_N_PER_PACKET * MAX_PACKETS - 1

/-- The number of whole records in the allocation of `found_addrs`. -/
def found_alloc_records : Int := found_alloc_bytes / sizeof_addr_info_t

/-- A page table of `N` cold, clean, present and writable pages on DRAM node 0, at the
addresses 4096, 8192, … -/
def cold_pages (N : Nat) : List (Nat × pte_t) :=
  (List.range N).map (fun i => (4096 * (i + 1), ex_pte false false 0))

/-- One managed process, pid 100, with `N` cold DRAM pages; both cursors at (0, 0). -/
def ex_cold (N : Nat) : State :=
  { ex_one with
    task_items := fun j =>
      if j = 0 then some { pid := 100, mm := some { ptes := cold_pages N } } else none }

/-! ## The order of a walk -/

/-- The records a walk of the range `[start, stop)` of a page table of the process `pid` can
make: one for each slot whose address lies in the range, in the order of the table. -/
def segment (pid : Int) (start stop : Nat) (ptes : List (Nat × pte_t)) : List addr_info_t :=
  (ptes.filter (fun x => decide (start ≤ x.1 ∧ x.1 < stop))).map
    (fun x => ({ addr := x.1, pid_retval := pid } : addr_info_t))

/-- The segment of the task at index `i` of the managed set; empty for a task without address
space. -/
def task_segment (s : State) (i : Int) (start stop : Nat) : List addr_info_t :=
  match s.task_items i with
  | none => []
  | some t =>
    match t.mm with
    | none => []
    | some mm => segment t.pid start stop mm.ptes

/-- The whole address ranges of the `k` tasks from index `i` on, by rising index. -/
def whole_segments (s : State) : Nat → Int → List addr_info_t
  | 0, _ => []
  | k + 1, i => task_segment s i 0 MAX_ADDRESS ++ whole_segments s k (i + 1)

/-- The order in which a walk that starts at the cursor `(last_pid, last_addr)` presents the
pages: the cursor's process from the cursor address on, the processes after it, the processes
before it, and the cursor's process again from address 0 up to and including the cursor
address. -/
def walk_order (s : State) (last_pid : Int) (last_addr : Nat) : List addr_info_t :=
  task_segment s last_pid last_addr MAX_ADDRESS
  ++ (whole_segments s (s.n_pids - (last_pid + 1)).toNat (last_pid + 1)
  ++ (whole_segments s last_pid.toNat 0
  ++ task_segment s last_pid 0 (last_addr + 1)))

/-- A stretch of a walk appended the records `lf` to `found` and the records `lb` to `backup`,
and left what the two buffers held before. -/
structure Appended (s s' : State) (lf lb : List addr_info_t) : Prop where
  n_found : s'.n_found = s.n_found + lf.length
  found_old : ∀ j, j < s.n_found → s'.found_addrs j = s.found_addrs j
  found_new : records s'.found_addrs s.n_found lf.length = lf
  n_backup : s'.n_backup = s.n_backup + lb.length
  backup_old : ∀ j, j < s.n_backup → s'.backup_addrs j = s.backup_addrs j
  backup_new : records s'.backup_addrs s.n_backup lb.length = lb


/-- The cursor from which a single-tier FIND of the given mode walks: the DRAM cursor in DRAM
mode, the NVRAM cursor in the other modes. -/
def find_cursor (mode : Int) (s : State) : Int × Nat :=
  if mode = DRAM_MODE then (s.last_pid_dram, s.last_addr_dram)
  else (s.last_pid_nvram, s.last_addr_nvram)

/-! ## The pages a policy selects, in walk order -/

/-- One cycle of a walk that starts at the cursor `(last_pid, last_addr)`: the cursor's process
from the cursor address on, the processes after it, the processes before it, and the cursor's
process below the cursor address. -/
def walk_cycle (s : State) (last_pid : Int) (last_addr : Nat) : List addr_info_t :=
  task_segment s last_pid last_addr MAX_ADDRESS
  ++ (whole_segments s (s.n_pids - (last_pid + 1)).toNat (last_pid + 1)
  ++ (whole_segments s last_pid.toNat 0
  ++ task_segment s last_pid 0 last_addr))

/-- The whole address ranges of the `k` tasks from index `i` on, one block for each task. -/
def whole_blocks (s : State) : Nat → Int → List (List addr_info_t)
  | 0, _ => []
  | k + 1, i => task_segment s i 0 MAX_ADDRESS :: whole_blocks s k (i + 1)

/-- The cycle of a walk block by block, one block for each call of the host page walker in
`do_page_walk`: the cursor's process from the cursor address on, each process after it, each
process before it, and the cursor's process below the cursor address. -/
def walk_blocks (s : State) (last_pid : Int) (last_addr : Nat) : List (List addr_info_t) :=
  task_segment s last_pid last_addr MAX_ADDRESS
  :: (whole_blocks s (s.n_pids - (last_pid + 1)).toNat (last_pid + 1)
  ++ (whole_blocks s last_pid.toNat 0 ++ [task_segment s last_pid 0 last_addr]))

/-- A walked range holds a slot above its first `m` selected pages: `slots` are the records
of all slots of the range and `sel` those of its selected pages, both by rising address.  It
is at such a slot that the policy, with `m` pages lacking when the range is entered, stops the
walk and stores the cursor address. -/
def slot_after (slots sel : List addr_info_t) (m : Nat) : Bool :=
  slots.any (fun x => (sel.take m).all (fun r => decide (r.addr < x.addr)))

theorem for_up_shift_entry (k : Nat) (i : Int) (a : Int → Option task_struct) (j : Int) :
    for_up shift_entry k i a j = if i ≤ j ∧ j < i + k then a (j + 1) else a j := by
  induction k generalizing i a with
  | zero =>
    simp only [for_up]
    split_ifs <;> first | rfl | (exfalso; omega)
  | succ k ih =>
    simp only [for_up, ih, shift_entry, arr_set]
    push_cast
    split_ifs <;> first | rfl | (exfalso; omega) | (congr 1; omega)

theorem for_up_copy_left (a b : Int) (hab : a ≤ b) (k : Nat) (i0 : Int)
    (f : Int → addr_info_t) (j : Int) :
    for_up (copy_found a b) k i0 f j
      = if a + i0 ≤ j ∧ j < a + i0 + k then f (j - a + b) else f j := by
  induction k generalizing i0 f with
  | zero =>
    simp only [for_up]
    split_ifs <;> first | rfl | (exfalso; omega)
  | succ k ih =>
    simp only [for_up, ih, copy_found, arr_set]
    push_cast
    split_ifs <;> first | rfl | (exfalso; omega) | (congr 1; omega)

theorem for_down_copy_right (a b : Int) (hab : b ≤ a) (k : Nat) (j0 : Int)
    (f : Int → addr_info_t) (j : Int) :
    for_down (copy_found a b) k j0 f j
      = if a + j0 - k < j ∧ j ≤ a + j0 then f (j - a + b) else f j := by
  induction k generalizing j0 f with
  | zero =>
    simp only [for_down]
    split_ifs <;> first | rfl | (exfalso; omega)
  | succ k ih =>
    simp only [for_down, ih, copy_found, arr_set]
    push_cast
    split_ifs <;> first | rfl | (exfalso; omega) | (congr 1; omega)

theorem for_up_push_from_snd (src : Int → addr_info_t) (k : Nat) (i0 : Int)
    (f : Int → addr_info_t) (m : Int) :
    (for_up (push_from src) k i0 (f, m)).2 = m + k := by
  induction k generalizing i0 f m with
  | zero => simp [for_up]
  | succ k ih =>
    simp only [for_up, push_from, ih]
    push_cast
    omega

theorem for_up_push_from_fst (src : Int → addr_info_t) (k : Nat) (i0 : Int)
    (f : Int → addr_info_t) (m : Int) (j : Int) :
    (for_up (push_from src) k i0 (f, m)).1 j
      = if m ≤ j ∧ j < m + k then src (i0 + (j - m)) else f j := by
  induction k generalizing i0 f m with
  | zero =>
    simp only [for_up]
    split_ifs <;> first | rfl | (exfalso; omega)
  | succ k ih =>
    simp only [for_up, push_from, ih, arr_set]
    push_cast
    split_ifs <;> first | rfl | (exfalso; omega) | (congr 1; omega)

/-! ## `update_pid_list` field by field -/

theorem update_pid_list_n_pids (i : Int) (s : State) :
    (update_pid_list i s).n_pids = s.n_pids - 1 := by
  dsimp only [update_pid_list]
  split_ifs <;> rfl

theorem update_pid_list_task_items (i : Int) (s : State) (j : Int) :
    (update_pid_list i s).task_items j
      = if i ≤ j ∧ j < s.n_pids - 1 then s.task_items (j + 1) else s.task_items j := by
  have h : (update_pid_list i s).task_items
      = for_up shift_entry (s.n_pids - 1 - i).toNat i s.task_items := by
    dsimp only [update_pid_list]
    split_ifs <;> rfl
  rw [h, for_up_shift_entry]
  split_ifs <;> first | rfl | (exfalso; omega)

theorem update_pid_list_last_pid_dram (i : Int) (s : State) :
    (update_pid_list i s).last_pid_dram
      = if s.last_pid_dram > i then s.last_pid_dram - 1
        else if s.last_pid_dram = i ∧ s.last_pid_dram = s.n_pids - 1 then 0
        else s.last_pid_dram := by
  dsimp only [update_pid_list]
  split_ifs <;> first | rfl | (exfalso; (try dsimp only at *); omega)

theorem update_pid_list_last_addr_dram (i : Int) (s : State) :
    (update_pid_list i s).last_addr_dram
      = if s.last_pid_dram = i then 0 else s.last_addr_dram := by
  dsimp only [update_pid_list]
  split_ifs <;> first | rfl | (exfalso; (try dsimp only at *); omega)

theorem update_pid_list_last_pid_nvram (i : Int) (s : State) :
    (update_pid_list i s).last_pid_nvram
      = if s.last_pid_nvram > i then s.last_pid_nvram - 1
        else if s.last_pid_nvram = i ∧ s.last_pid_nvram = s.n_pids - 1 then 0
        else s.last_pid_nvram := by
  dsimp only [update_pid_list]
  split_ifs <;> first | rfl | (exfalso; (try dsimp only at *); omega)

theorem update_pid_list_last_addr_nvram (i : Int) (s : State) :
    (update_pid_list i s).last_addr_nvram
      = if s.last_pid_nvram = i then 0 else s.last_addr_nvram := by
  dsimp only [update_pid_list]
  split_ifs <;> first | rfl | (exfalso; (try dsimp only at *); omega)

theorem update_pid_list_frame (i : Int) (s : State) :
    (update_pid_list i s).found_addrs = s.found_addrs
    ∧ (update_pid_list i s).backup_addrs = s.backup_addrs
    ∧ (update_pid_list i s).switch_backup_addrs = s.switch_backup_addrs
    ∧ (update_pid_list i s).curr_pid = s.curr_pid
    ∧ (update_pid_list i s).n_to_find = s.n_to_find
    ∧ (update_pid_list i s).n_found = s.n_found
    ∧ (update_pid_list i s).n_backup = s.n_backup
    ∧ (update_pid_list i s).n_switch_backup = s.n_switch_backup := by
  dsimp only [update_pid_list]
  split_ifs <;> exact ⟨rfl, rfl, rfl, rfl, rfl, rfl, rfl, rfl⟩

/-! ## The invariant through `update_pid_list` and `refresh_pids` -/

theorem AllManaged_update_pid_list (P : Int → Prop) (i : Int) (s : State)
    (h : AllManaged P s) : AllManaged P (update_pid_list i s) := by
  intro j hj0 hj
  rw [update_pid_list_n_pids] at hj
  rw [update_pid_list_task_items]
  split_ifs with hc
  · exact h (j + 1) (by omega) (by omega)
  · exact h j hj0 (by omega)

theorem CursorOk_update (n c i : Int) (hc : CursorOk n c) (hi0 : 0 ≤ i) (hin : i < n) :
    CursorOk (n - 1)
      (if c > i then c - 1 else if c = i ∧ c = n - 1 then 0 else c) := by
  unfold CursorOk at *
  split_ifs <;> omega

theorem Inv_update_pid_list (i : Int) (s : State) (h : Inv s) (hi0 : 0 ≤ i)
    (hin : i < s.n_pids) : Inv (update_pid_list i s) := by
  refine ⟨?_, ?_, AllManaged_update_pid_list _ i s h.tasks, ?_, ?_, ?_⟩
  · rw [update_pid_list_n_pids]; have := h.n_pids_nonneg; omega
  · rw [update_pid_list_n_pids]; have := h.n_pids_le; omega
  · intro a b ta tb ha hab hb
    rw [update_pid_list_n_pids] at hb
    rw [update_pid_list_task_items, update_pid_list_task_items]
    have hn := h.nodup
    split_ifs with h1 h2 h2
    · exact hn (a + 1) (b + 1) ta tb (by omega) (by omega) (by omega)
    · exact hn (a + 1) b ta tb (by omega) (by omega) (by omega)
    · exact hn a (b + 1) ta tb (by omega) (by omega) (by omega)
    · exact hn a b ta tb (by omega) (by omega) (by omega)
  · rw [update_pid_list_n_pids, update_pid_list_last_pid_dram]
    exact CursorOk_update _ _ _ h.dram hi0 hin
  · rw [update_pid_list_n_pids, update_pid_list_last_pid_nvram]
    exact CursorOk_update _ _ _ h.nvram hi0 hin

theorem AllManaged_refresh_loop (P : Int → Prop) (k : Kernel) (fuel : Nat) (i : Int) (s : State)
    (h : AllManaged P s) (hi : 0 ≤ i) : AllManaged P (refresh_loop k fuel i s) := by
  induction fuel generalizing i s with
  | zero => exact h
  | succ fuel ih =>
    simp only [refresh_loop]
    split_ifs with h1 h2
    · exact ih i _ (AllManaged_update_pid_list P i s h) hi
    · exact ih (i + 1) s h (by omega)
    · exact h

theorem Inv_refresh_loop (k : Kernel) (fuel : Nat) (i : Int) (s : State)
    (h : Inv s) (hi : 0 ≤ i) : Inv (refresh_loop k fuel i s) := by
  induction fuel generalizing i s with
  | zero => exact h
  | succ fuel ih =>
    simp only [refresh_loop]
    split_ifs with h1 h2
    · exact ih i _ (Inv_update_pid_list i s h hi h1) hi
    · exact ih (i + 1) s h (by omega)
    · exact h

theorem Inv_refresh_pids (k : Kernel) (s : State) (h : Inv s) : Inv (refresh_pids k s) :=
  Inv_refresh_loop k _ 0 s h (le_refl 0)

theorem AllManaged_refresh_pids (P : Int → Prop) (k : Kernel) (s : State)
    (h : AllManaged P s) : AllManaged P (refresh_pids k s) :=
  AllManaged_refresh_loop P k _ 0 s h (le_refl 0)

/-- The frame of `refresh_pids`: it touches the task table and the cursors only. -/
theorem refresh_loop_frame (k : Kernel) (fuel : Nat) (i : Int) (s : State) :
    (refresh_loop k fuel i s).found_addrs = s.found_addrs
    ∧ (refresh_loop k fuel i s).backup_addrs = s.backup_addrs
    ∧ (refresh_loop k fuel i s).switch_backup_addrs = s.switch_backup_addrs
    ∧ (refresh_loop k fuel i s).curr_pid = s.curr_pid
    ∧ (refresh_loop k fuel i s).n_to_find = s.n_to_find
    ∧ (refresh_loop k fuel i s).n_found = s.n_found
    ∧ (refresh_loop k fuel i s).n_backup = s.n_backup
    ∧ (refresh_loop k fuel i s).n_switch_backup = s.n_switch_backup := by
  induction fuel generalizing i s with
  | zero => exact ⟨rfl, rfl, rfl, rfl, rfl, rfl, rfl, rfl⟩
  | succ fuel ih =>
    simp only [refresh_loop]
    split_ifs with h1 h2
    · obtain ⟨a1, a2, a3, a4, a5, a6, a7, a8⟩ := ih i (update_pid_list i s)
      obtain ⟨b1, b2, b3, b4, b5, b6, b7, b8⟩ := update_pid_list_frame i s
      exact ⟨a1.trans b1, a2.trans b2, a3.trans b3, a4.trans b4, a5.trans b5, a6.trans b6,
        a7.trans b7, a8.trans b8⟩
    · exact ih (i + 1) s
    · exact ⟨rfl, rfl, rfl, rfl, rfl, rfl, rfl, rfl⟩

theorem refresh_pids_frame (k : Kernel) (s : State) :
    (refresh_pids k s).found_addrs = s.found_addrs
    ∧ (refresh_pids k s).backup_addrs = s.backup_addrs
    ∧ (refresh_pids k s).switch_backup_addrs = s.switch_backup_addrs
    ∧ (refresh_pids k s).curr_pid = s.curr_pid
    ∧ (refresh_pids k s).n_to_find = s.n_to_find
    ∧ (refresh_pids k s).n_found = s.n_found
    ∧ (refresh_pids k s).n_backup = s.n_backup
    ∧ (refresh_pids k s).n_switch_backup = s.n_switch_backup :=
  refresh_loop_frame k _ 0 s

/-! ## The walks extend the buffers -/

theorem Grows_refl (P : Int → Prop) (s : State) : Grows P s s :=
  ⟨rfl, rfl, rfl, rfl, fun _ => rfl, le_refl _, fun _ _ => rfl, fun _ h1 h2 => by omega,
   le_refl _, fun _ _ => rfl, fun _ h1 h2 => by omega,
   le_refl _, fun _ _ => rfl, fun _ h1 h2 => by omega, fun h => h⟩

theorem Grows_trans {P : Int → Prop} {a b c : State} (h1 : Grows P a b) (h2 : Grows P b c) :
    Grows P a c where
  n_pids := h2.n_pids.trans h1.n_pids
  n_to_find := h2.n_to_find.trans h1.n_to_find
  last_pid_dram := h2.last_pid_dram.trans h1.last_pid_dram
  last_pid_nvram := h2.last_pid_nvram.trans h1.last_pid_nvram
  pids := fun i => (h2.pids i).trans (h1.pids i)
  found_le := le_trans h1.found_le h2.found_le
  found_old := fun j hj => (h2.found_old j (lt_of_lt_of_le hj h1.found_le)).trans (h1.found_old j hj)
  found_new := fun j hj1 hj2 => by
    by_cases hb : j < b.n_found
    · rw [h2.found_old j hb]; exact h1.found_new j hj1 hb
    · exact h2.found_new j (by omega) hj2
  backup_le := le_trans h1.backup_le h2.backup_le
  backup_old := fun j hj =>
    (h2.backup_old j (lt_of_lt_of_le hj h1.backup_le)).trans (h1.backup_old j hj)
  backup_new := fun j hj1 hj2 => by
    by_cases hb : j < b.n_backup
    · rw [h2.backup_old j hb]; exact h1.backup_new j hj1 hb
    · exact h2.backup_new j (by omega) hj2
  switch_le := le_trans h1.switch_le h2.switch_le
  switch_old := fun j hj =>
    (h2.switch_old j (lt_of_lt_of_le hj h1.switch_le)).trans (h1.switch_old j hj)
  switch_new := fun j hj1 hj2 => by
    by_cases hb : j < b.n_switch_backup
    · rw [h2.switch_old j hb]; exact h1.switch_new j hj1 hb
    · exact h2.switch_new j (by omega) hj2
  bound := fun h => h2.bound (h1.bound h)

theorem Grows_weaken {P Q : Int → Prop} {a b : State} (h : Grows P a b) (hPQ : ∀ x, P x → Q x) :
    Grows Q a b :=
  { h with
    found_new := fun j h1 h2 => hPQ _ (h.found_new j h1 h2)
    backup_new := fun j h1 h2 => hPQ _ (h.backup_new j h1 h2)
    switch_new := fun j h1 h2 => hPQ _ (h.switch_new j h1 h2) }

theorem AllManaged_of_Grows {P Q : Int → Prop} {a b : State} (h : Grows Q a b)
    (hm : AllManaged P a) : AllManaged P b := by
  intro i hi0 hi
  rw [h.n_pids] at hi
  obtain ⟨t, ht, hp⟩ := hm i hi0 hi
  have := h.pids i
  rw [ht] at this
  cases hb : b.task_items i with
  | none => rw [hb] at this; simp at this
  | some u =>
    rw [hb] at this
    simp at this
    exact ⟨u, rfl, by rw [this]; exact hp⟩

theorem Grows_push_found (addr : Nat) (s : State) (h : s.n_found ≠ s.n_to_find) :
    Grows (fun p => p = s.curr_pid) s (push_found addr s) := by
  refine ⟨rfl, rfl, rfl, rfl, fun _ => rfl, ?_, ?_, ?_, le_refl _, fun _ _ => rfl, ?_,
    le_refl _, fun _ _ => rfl, ?_, ?_⟩
  · simp [push_found]
  · intro j hj
    have : j ≠ s.n_found := by omega
    simp [push_found, arr_set, this]
  · intro j h1 h2
    have : j = s.n_found := by simp [push_found] at h2; omega
    simp [push_found, arr_set, this]
  · intro j h1 h2; simp [push_found] at h2; omega
  · intro j h1 h2; simp [push_found] at h2; omega
  · intro hb
    simp only [push_found]
    omega

theorem Grows_push_backup (addr : Nat) (s : State) :
    Grows (fun p => p = s.curr_pid) s (push_backup addr s) := by
  refine ⟨rfl, rfl, rfl, rfl, fun _ => rfl, le_refl _, fun _ _ => rfl, ?_, ?_, ?_, ?_,
    le_refl _, fun _ _ => rfl, ?_, fun h => h⟩
  · intro j h1 h2; simp [push_backup] at h2; omega
  · simp [push_backup]
  · intro j hj
    have : j ≠ s.n_backup := by omega
    simp [push_backup, arr_set, this]
  · intro j h1 h2
    have : j = s.n_backup := by simp [push_backup] at h2; omega
    simp [push_backup, arr_set, this]
  · intro j h1 h2; simp [push_backup] at h2; omega

theorem Grows_push_switch_backup (addr : Nat) (s : State) :
    Grows (fun p => p = s.curr_pid) s (push_switch_backup addr s) := by
  refine ⟨rfl, rfl, rfl, rfl, fun _ => rfl, le_refl _, fun _ _ => rfl, ?_,
    le_refl _, fun _ _ => rfl, ?_, ?_, ?_, ?_, fun h => h⟩
  · intro j h1 h2; simp [push_switch_backup] at h2; omega
  · intro j h1 h2; simp [push_switch_backup] at h2; omega
  · simp [push_switch_backup]
  · intro j hj
    have : j ≠ s.n_switch_backup := by omega
    simp [push_switch_backup, arr_set, this]
  · intro j h1 h2
    have : j = s.n_switch_backup := by simp [push_switch_backup] at h2; omega
    simp [push_switch_backup, arr_set, this]

theorem Grows_last_addr_dram (P : Int → Prop) (a : Nat) (s : State) :
    Grows P s { s with last_addr_dram := a } :=
  ⟨rfl, rfl, rfl, rfl, fun _ => rfl, le_refl _, fun _ _ => rfl, fun _ h1 h2 => by simp at h2; omega,
   le_refl _, fun _ _ => rfl, fun _ h1 h2 => by simp at h2; omega,
   le_refl _, fun _ _ => rfl, fun _ h1 h2 => by simp at h2; omega, fun h => h⟩

theorem Grows_last_addr_nvram (P : Int → Prop) (a : Nat) (s : State) :
    Grows P s { s with last_addr_nvram := a } :=
  ⟨rfl, rfl, rfl, rfl, fun _ => rfl, le_refl _, fun _ _ => rfl, fun _ h1 h2 => by simp at h2; omega,
   le_refl _, fun _ _ => rfl, fun _ h1 h2 => by simp at h2; omega,
   le_refl _, fun _ _ => rfl, fun _ h1 h2 => by simp at h2; omega, fun h => h⟩

theorem CbGrows_mem : CbGrows pte_callback_mem := by
  intro ptep addr s
  unfold pte_callback_mem
  by_cases h1 : s.n_found = s.n_to_find
  · rw [if_pos h1]; exact ⟨Grows_last_addr_dram _ _ _, rfl, rfl⟩
  · rw [if_neg h1]
    cases ptep with
    | none => exact ⟨Grows_refl _ _, rfl, rfl⟩
    | some p =>
      dsimp only
      split_ifs
      · exact ⟨Grows_refl _ _, rfl, rfl⟩
      · exact ⟨Grows_push_found addr s h1, rfl, rfl⟩
      · exact ⟨Grows_push_backup addr s, rfl, rfl⟩
      · exact ⟨Grows_refl _ _, rfl, rfl⟩

theorem CbGrows_nvram_force : CbGrows pte_callback_nvram_force := by
  intro ptep addr s
  unfold pte_callback_nvram_force
  by_cases h1 : s.n_found = s.n_to_find
  · rw [if_pos h1]; exact ⟨Grows_last_addr_nvram _ _ _, rfl, rfl⟩
  · rw [if_neg h1]
    cases ptep with
    | none => exact ⟨Grows_refl _ _, rfl, rfl⟩
    | some p =>
      dsimp only
      split_ifs
      · exact ⟨Grows_refl _ _, rfl, rfl⟩
      · exact ⟨Grows_push_found addr s h1, rfl, rfl⟩
      · exact ⟨Grows_push_backup addr s, rfl, rfl⟩
      · exact ⟨Grows_refl _ _, rfl, rfl⟩

theorem CbGrows_nvram_write : CbGrows pte_callback_nvram_write := by
  intro ptep addr s
  unfold pte_callback_nvram_write
  by_cases h1 : s.n_found = s.n_to_find
  · rw [if_pos h1]; exact ⟨Grows_last_addr_nvram _ _ _, rfl, rfl⟩
  · rw [if_neg h1]
    cases ptep with
    | none => exact ⟨Grows_refl _ _, rfl, rfl⟩
    | some p =>
      dsimp only
      split_ifs
      · exact ⟨Grows_refl _ _, rfl, rfl⟩
      · exact ⟨Grows_push_found addr s h1, rfl, rfl⟩
      · exact ⟨Grows_push_backup addr s, rfl, rfl⟩
      · exact ⟨Grows_refl _ _, rfl, rfl⟩
      · exact ⟨Grows_refl _ _, rfl, rfl⟩

theorem CbGrows_nvram_intensive : CbGrows pte_callback_nvram_intensive := by
  intro ptep addr s
  unfold pte_callback_nvram_intensive
  by_cases h1 : s.n_found = s.n_to_find
  · rw [if_pos h1]; exact ⟨Grows_last_addr_nvram _ _ _, rfl, rfl⟩
  · rw [if_neg h1]
    cases ptep with
    | none => exact ⟨Grows_refl _ _, rfl, rfl⟩
    | some p =>
      dsimp only
      split_ifs
      · exact ⟨Grows_refl _ _, rfl, rfl⟩
      · exact ⟨Grows_push_found addr s h1, rfl, rfl⟩
      · exact ⟨Grows_push_backup addr s, rfl, rfl⟩
      · exact ⟨Grows_refl _ _, rfl, rfl⟩
      · exact ⟨Grows_refl _ _, rfl, rfl⟩

theorem CbGrows_nvram_switch : CbGrows pte_callback_nvram_switch := by
  intro ptep addr s
  unfold pte_callback_nvram_switch
  by_cases h1 : s.n_found = s.n_to_find
  · rw [if_pos h1]; exact ⟨Grows_last_addr_nvram _ _ _, rfl, rfl⟩
  · rw [if_neg h1]
    cases ptep with
    | none => exact ⟨Grows_refl _ _, rfl, rfl⟩
    | some p =>
      dsimp only
      split_ifs
      · exact ⟨Grows_refl _ _, rfl, rfl⟩
      · exact ⟨Grows_push_found addr s h1, rfl, rfl⟩
      · exact ⟨Grows_push_switch_backup addr s, rfl, rfl⟩
      · exact ⟨Grows_refl _ _, rfl, rfl⟩
      · exact ⟨Grows_refl _ _, rfl, rfl⟩

theorem CbGrows_nvram_clear : CbGrows pte_callback_nvram_clear := by
  intro ptep addr s
  unfold pte_callback_nvram_clear
  cases ptep with
  | none => exact ⟨Grows_refl _ _, rfl, rfl⟩
  | some p =>
    dsimp only
    split_ifs
    · exact ⟨Grows_refl _ _, rfl, rfl⟩
    · exact ⟨Grows_refl _ _, rfl, rfl⟩

/-- A step that leaves the three buffers, their counters, the target, the cursors' process
indices and the managed PIDs alone extends the state trivially. -/
theorem Grows_same (P : Int → Prop) (s s' : State)
    (h1 : s'.n_pids = s.n_pids) (h2 : s'.n_to_find = s.n_to_find)
    (h3 : s'.last_pid_dram = s.last_pid_dram) (h4 : s'.last_pid_nvram = s.last_pid_nvram)
    (h5 : ∀ i, (s'.task_items i).map (fun t => t.pid) = (s.task_items i).map (fun t => t.pid))
    (h6 : s'.found_addrs = s.found_addrs) (h7 : s'.n_found = s.n_found)
    (h8 : s'.backup_addrs = s.backup_addrs) (h9 : s'.n_backup = s.n_backup)
    (h10 : s'.switch_backup_addrs = s.switch_backup_addrs)
    (h11 : s'.n_switch_backup = s.n_switch_backup) : Grows P s s' :=
  ⟨h1, h2, h3, h4, h5, by omega, fun j _ => by rw [h6], fun j a b => by omega,
   by omega, fun j _ => by rw [h8], fun j a b => by omega,
   by omega, fun j _ => by rw [h10], fun j a b => by omega, fun h => by omega⟩

theorem walk_ptes_grows (cb : callback) (hcb : CbGrows cb) (start stop : Nat)
    (l : List (Nat × pte_t)) (s : State) :
    Grows (fun p => p = s.curr_pid) s (walk_ptes cb start stop l s).1
      ∧ (walk_ptes cb start stop l s).1.curr_pid = s.curr_pid
      ∧ (walk_ptes cb start stop l s).1.task_items = s.task_items := by
  induction l generalizing s with
  | nil => exact ⟨Grows_refl _ _, rfl, rfl⟩
  | cons x rest ih =>
    obtain ⟨a, p⟩ := x
    simp only [walk_ptes]
    split_ifs with hr hret
    · exact hcb (some p) a s
    · obtain ⟨g1, c1, t1⟩ := hcb (some p) a s
      obtain ⟨g2, c2, t2⟩ := ih (cb (some p) a s).st
      rw [c1] at g2
      exact ⟨Grows_trans g1 g2, c2.trans c1, t2.trans t1⟩
    · exact ih s

theorem walk_task_grows (cb : callback) (hcb : CbGrows cb) (P : Int → Prop) (i : Int)
    (start stop : Nat) (s : State) (t : task_struct) (ht : s.task_items i = some t)
    (hP : P t.pid) :
    ∃ s', walk_task cb i start stop s = some s' ∧ Grows P s s' := by
  unfold walk_task
  rw [ht]
  dsimp only
  cases hmm : t.mm with
  | none =>
    dsimp only
    refine ⟨_, rfl, ?_⟩
    exact Grows_same P _ _ rfl rfl rfl rfl (fun _ => rfl) rfl rfl rfl rfl rfl rfl
  | some mm =>
    dsimp only
    refine ⟨_, rfl, ?_⟩
    obtain ⟨g, _, tk⟩ := walk_ptes_grows cb hcb start stop mm.ptes { s with curr_pid := t.pid }
    have g0 : Grows P s { s with curr_pid := t.pid } :=
      Grows_same P _ _ rfl rfl rfl rfl (fun _ => rfl) rfl rfl rfl rfl rfl rfl
    have g1 : Grows P { s with curr_pid := t.pid }
        (walk_page_range cb mm start stop { s with curr_pid := t.pid }).1 :=
      Grows_weaken g (fun x hx => by simp at hx; rw [hx]; exact hP)
    refine Grows_trans (Grows_trans g0 g1) ?_
    refine Grows_same P _ _ rfl rfl rfl rfl ?_ rfl rfl rfl rfl rfl rfl
    intro j
    simp only [walk_page_range, arr_set]
    split_ifs with hj
    · subst hj
      rw [tk]
      simp [ht]
    · rfl

theorem walk_tasks_grows (cb : callback) (hcb : CbGrows cb) (P : Int → Prop) (k : Nat)
    (i : Int) (s : State) (hm : AllManaged P s) (hi : 0 ≤ i) (hk : i + k ≤ s.n_pids) :
    ∃ r, walk_tasks cb k i s = some r ∧ Grows P s r.1
      ∧ ∀ idx, r.2 = some idx → i ≤ idx ∧ idx < i + k := by
  induction k generalizing i s with
  | zero => exact ⟨(s, none), rfl, Grows_refl _ _, fun idx h => by simp at h⟩
  | succ k ih =>
    obtain ⟨t, ht, hp⟩ := hm i hi (by push_cast at hk; omega)
    obtain ⟨s1, hw, g1⟩ := walk_task_grows cb hcb P i 0 MAX_ADDRESS s t ht hp
    simp only [walk_tasks, hw]
    split_ifs with hf
    · refine ⟨_, rfl, g1, fun idx h => ?_⟩
      simp at h
      push_cast
      omega
    · obtain ⟨r, hr, g2, hidx⟩ := ih (i + 1) s1 (AllManaged_of_Grows g1 hm) (by omega)
        (by rw [g1.n_pids]; push_cast at hk; omega)
      refine ⟨r, hr, Grows_trans g1 g2, fun idx h => ?_⟩
      have := hidx idx h
      push_cast
      omega

theorem do_page_walk_grows (cb : callback) (hcb : CbGrows cb) (P : Int → Prop)
    (last_pid : Int) (last_addr : Nat) (s : State) (hm : AllManaged P s)
    (h0 : 0 ≤ last_pid) (h1 : last_pid < s.n_pids) :
    ∃ r s', do_page_walk cb last_pid last_addr s = some (r, s') ∧ Grows P s s'
      ∧ 0 ≤ r ∧ r < s.n_pids := by
  obtain ⟨t, ht, hp⟩ := hm last_pid h0 h1
  obtain ⟨s1, hw1, g1⟩ := walk_task_grows cb hcb P last_pid last_addr MAX_ADDRESS s t ht hp
  unfold do_page_walk
  simp only [hw1]
  split_ifs with hf
  · exact ⟨_, _, rfl, g1, h0, h1⟩
  · have hm1 := AllManaged_of_Grows g1 hm
    have hn1 := g1.n_pids
    obtain ⟨r2, hw2, g2, hidx2⟩ := walk_tasks_grows cb hcb P
      (s1.n_pids - (last_pid + 1)).toNat (last_pid + 1) s1 hm1 (by omega) (by omega)
    obtain ⟨s2, o2⟩ := r2
    simp only [hw2]
    cases o2 with
    | some idx =>
      have := hidx2 idx rfl
      exact ⟨_, _, rfl, Grows_trans g1 g2, by omega, by omega⟩
    | none =>
      have hm2 := AllManaged_of_Grows g2 hm1
      obtain ⟨r3, hw3, g3, hidx3⟩ := walk_tasks_grows cb hcb P last_pid.toNat 0 s2 hm2
        (le_refl 0) (by rw [g2.n_pids, g1.n_pids]; omega)
      obtain ⟨s3, o3⟩ := r3
      simp only [hw3]
      cases o3 with
      | some idx =>
        have := hidx3 idx rfl
        exact ⟨_, _, rfl, Grows_trans (Grows_trans g1 g2) g3, by omega, by omega⟩
      | none =>
        have hm3 := AllManaged_of_Grows g3 hm2
        obtain ⟨t3, ht3, hp3⟩ := hm3 last_pid h0 (by rw [g3.n_pids, g2.n_pids, g1.n_pids]; exact h1)
        obtain ⟨s4, hw4, g4⟩ := walk_task_grows cb hcb P last_pid 0 (last_addr + 1) s3 t3 ht3 hp3
        simp only [hw4]
        exact ⟨_, _, rfl, Grows_trans (Grows_trans (Grows_trans g1 g2) g3) g4, h0, h1⟩

/-! ## The promotion loop of `mem_walk` -/

theorem promote_backup_spec (remaining : Int) (k : Nat) (i : Int) (s : State) :
    (promote_backup remaining k i s).n_found
        = s.n_found + min (k : Int) (max 0 (min remaining s.n_backup - i))
    ∧ (∀ j, (promote_backup remaining k i s).found_addrs j
        = if s.n_found ≤ j ∧ j < s.n_found + min (k : Int) (max 0 (min remaining s.n_backup - i))
          then s.backup_addrs (i + (j - s.n_found)) else s.found_addrs j)
    ∧ promote_backup remaining k i s
        = { s with found_addrs := (promote_backup remaining k i s).found_addrs,
                   n_found := (promote_backup remaining k i s).n_found } := by
  induction k generalizing i s with
  | zero =>
    simp only [promote_backup]
    refine ⟨by push_cast; omega, fun j => ?_, trivial⟩
    split_ifs with h
    · exfalso; push_cast at h; omega
    · rfl
  | succ k ih =>
    simp only [promote_backup]
    split_ifs with hc
    · obtain ⟨h1, h2, h3⟩ := ih (i + 1)
        { s with found_addrs := arr_set s.found_addrs s.n_found (s.backup_addrs i),
                 n_found := s.n_found + 1 }
      refine ⟨?_, fun j => ?_, ?_⟩
      · rw [h1]; push_cast; omega
      · rw [h2 j]
        dsimp only [arr_set]
        push_cast
        split_ifs <;> first | rfl | (exfalso; omega) | (congr 1; omega)
      · rw [h3]
    · refine ⟨by push_cast; omega, fun j => ?_, rfl⟩
      split_ifs with h
      · exfalso; push_cast at h; omega
      · rfl

/-! ## The invariant depends on the task table and the cursors only -/

theorem Inv_congr (s s' : State) (h1 : s'.n_pids = s.n_pids)
    (h2 : s'.task_items = s.task_items) (h3 : s'.last_pid_dram = s.last_pid_dram)
    (h4 : s'.last_pid_nvram = s.last_pid_nvram) (h : Inv s) : Inv s' := by
  obtain ⟨a, b, c, d, e, f⟩ := h
  refine ⟨by rw [h1]; exact a, by rw [h1]; exact b, ?_, ?_, by rw [h1, h3]; exact e,
    by rw [h1, h4]; exact f⟩
  · intro i hi0 hi; rw [h1] at hi; rw [h2]; exact c i hi0 hi
  · intro i j ti tj hi hij hj; rw [h1] at hj; rw [h2]; exact d i j ti tj hi hij hj

theorem pid_of_Grows {P : Int → Prop} {s s' : State} (g : Grows P s s') (i : Int)
    (t' : task_struct) (h : s'.task_items i = some t') :
    ∃ t, s.task_items i = some t ∧ t.pid = t'.pid := by
  have := g.pids i
  rw [h] at this
  cases hs : s.task_items i with
  | none => rw [hs] at this; simp at this
  | some t => rw [hs] at this; simp at this; exact ⟨t, rfl, this.symm⟩

theorem Inv_of_Grows {P : Int → Prop} {s s' : State} (g : Grows P s s') (h : Inv s) : Inv s' := by
  refine ⟨by rw [g.n_pids]; exact h.n_pids_nonneg, by rw [g.n_pids]; exact h.n_pids_le,
    AllManaged_of_Grows g h.tasks, ?_, by rw [g.n_pids, g.last_pid_dram]; exact h.dram,
    by rw [g.n_pids, g.last_pid_nvram]; exact h.nvram⟩
  intro i j ti tj hi hij hj hti htj
  rw [g.n_pids] at hj
  obtain ⟨ui, hui, epi⟩ := pid_of_Grows g i ti hti
  obtain ⟨uj, huj, epj⟩ := pid_of_Grows g j tj htj
  rw [← epi, ← epj]
  exact h.nodup i j ui uj hi hij hj hui huj

theorem Inv_set_cursors (s : State) (h : Inv s) (d n : Int) (hd : CursorOk s.n_pids d)
    (hn : CursorOk s.n_pids n) : Inv { s with last_pid_dram := d, last_pid_nvram := n } :=
  ⟨h.n_pids_nonneg, h.n_pids_le, h.tasks, h.nodup, hd, hn⟩

theorem CursorOk_of_range (n r : Int) (h0 : 0 ≤ r) (h1 : r < n) : CursorOk n r :=
  ⟨h0, Or.inl h1⟩

theorem CursorOk_range (n r : Int) (h : CursorOk n r) (hn : 0 < n) : 0 ≤ r ∧ r < n := by
  unfold CursorOk at h; omega

/-! ## `mem_walk` -/

theorem mem_walk_ops_CbGrows (mode : Int) (cb : callback) (d : Bool)
    (h : mem_walk_ops mode = some (cb, d)) : CbGrows cb := by
  unfold mem_walk_ops at h
  split_ifs at h <;> simp only [Option.some.injEq, Prod.mk.injEq] at h
  · rw [← h.1]; exact CbGrows_mem
  · rw [← h.1]; exact CbGrows_nvram_force
  · rw [← h.1]; exact CbGrows_nvram_intensive
  · rw [← h.1]; exact CbGrows_nvram_write

theorem mem_walk_ops_some (mode : Int)
    (h : mode = DRAM_MODE ∨ mode = NVRAM_MODE ∨ mode = NVRAM_WRITE_MODE
      ∨ mode = NVRAM_INTENSIVE_MODE) : ∃ cb d, mem_walk_ops mode = some (cb, d) := by
  unfold mem_walk_ops
  rcases h with h | h | h | h <;> subst h <;> simp [DRAM_MODE, NVRAM_MODE, NVRAM_WRITE_MODE,
    NVRAM_INTENSIVE_MODE]

theorem mem_walk_finish_spec (s1 : State) :
    ((mem_walk_finish s1).1 = 0 ∨ (mem_walk_finish s1).1 = -1)
    ∧ (mem_walk_finish s1).2
        = { s1 with found_addrs := (mem_walk_finish s1).2.found_addrs,
                    n_found := (mem_walk_finish s1).2.n_found }
    ∧ s1.n_found ≤ (mem_walk_finish s1).2.n_found
    ∧ (∀ j, j < s1.n_found → (mem_walk_finish s1).2.found_addrs j = s1.found_addrs j)
    ∧ (∀ j, s1.n_found ≤ j → j < (mem_walk_finish s1).2.n_found →
        ∃ i, 0 ≤ i ∧ i < s1.n_backup ∧ (mem_walk_finish s1).2.found_addrs j = s1.backup_addrs i)
    ∧ (s1.n_found ≤ s1.n_to_find → (mem_walk_finish s1).2.n_found ≤ s1.n_to_find) := by
  unfold mem_walk_finish
  by_cases h1 : s1.n_found ≥ s1.n_to_find
  · rw [if_pos h1]
    exact ⟨Or.inl rfl, rfl, le_refl _, fun _ _ => rfl, fun j a b => by dsimp only at b; omega,
      fun h => h⟩
  · rw [if_neg h1]
    by_cases h2 : s1.n_backup > 0
    · rw [if_pos h2]
      obtain ⟨e1, e2, e3⟩ := promote_backup_spec (s1.n_to_find - s1.n_found) s1.n_backup.toNat 0 s1
      dsimp only
      refine ⟨by split_ifs <;> simp, ?_, ?_, ?_, ?_, ?_⟩
      · split_ifs <;> exact e3
      · split_ifs <;> (dsimp only; rw [e1]; omega)
      · intro j hj
        split_ifs <;> (dsimp only; rw [e2 j]; rw [if_neg (by omega)])
      · intro j hj1 hj2
        have hj3 : j < (promote_backup (s1.n_to_find - s1.n_found) s1.n_backup.toNat 0 s1).n_found := by
          split_ifs at hj2 <;> exact hj2
        rw [e1] at hj3
        refine ⟨0 + (j - s1.n_found), by omega, by omega, ?_⟩
        split_ifs <;> (dsimp only; rw [e2 j]; rw [if_pos ⟨hj1, by omega⟩])
      · intro _
        split_ifs <;> (dsimp only; rw [e1]; omega)
    · rw [if_neg h2]
      exact ⟨Or.inr rfl, rfl, le_refl _, fun _ _ => rfl, fun j a b => by dsimp only at b; omega,
        fun h => h⟩


theorem Grows_of_reset (P : Int → Prop) (s s0 s1 : State) (g : Grows P s0 s1)
    (h1 : s0.n_pids = s.n_pids) (h2 : s0.task_items = s.task_items)
    (h3 : s0.found_addrs = s.found_addrs) (h4 : s0.n_found = s.n_found) :
    Served P s s1 :=
  ⟨g.n_pids.trans h1, fun i => by rw [g.pids i, h2], by rw [← h4]; exact g.found_le,
   fun j hj => by rw [g.found_old j (by omega), h3],
   fun j a b => g.found_new j (by omega) b⟩

theorem AllManaged_of_Served {P Q : Int → Prop} {a b : State} (h : Served Q a b)
    (hm : AllManaged P a) : AllManaged P b := by
  intro i hi0 hi
  rw [h.n_pids] at hi
  obtain ⟨t, ht, hp⟩ := hm i hi0 hi
  have := h.pids i
  rw [ht] at this
  cases hb : b.task_items i with
  | none => rw [hb] at this; simp at this
  | some u =>
    rw [hb] at this
    simp at this
    exact ⟨u, rfl, by rw [this]; exact hp⟩

theorem mem_walk_tail (P : Int → Prop) (n : Int) (s s1 : State) (sv : Served P s s1)
    (hb : ∀ i, 0 ≤ i → i < s1.n_backup → P (s1.backup_addrs i).pid_retval)
    (hinv1 : Inv s1) (hbound : s.n_found ≤ n → s1.n_found ≤ s1.n_to_find)
    (hn : s1.n_to_find = n) (rr : Int) (s2 : State) (hfin : mem_walk_finish s1 = (rr, s2)) :
    (rr = 0 ∨ rr = -1) ∧ Inv s2 ∧ Served P s s2 ∧ (s.n_found ≤ n → s2.n_found ≤ n)
      ∧ s2.n_to_find = n := by
  obtain ⟨f1, f2, f3, f4, f5, f6⟩ := mem_walk_finish_spec s1
  rw [hfin] at f1 f2 f3 f4 f5 f6
  dsimp only at f1 f2 f3 f4 f5 f6
  refine ⟨f1, ?_, ?_, ?_, by rw [f2]; exact hn⟩
  · rw [f2]; exact Inv_congr s1 _ rfl rfl rfl rfl hinv1
  · refine ⟨?_, ?_, ?_, ?_, ?_⟩
    · rw [f2]; exact sv.n_pids
    · rw [f2]; exact sv.pids
    · exact le_trans sv.found_le f3
    · intro j hj
      rw [f4 j (lt_of_lt_of_le hj sv.found_le)]
      exact sv.found_old j hj
    · intro j hj1 hj2
      by_cases hlt : j < s1.n_found
      · rw [f4 j hlt]; exact sv.found_new j hj1 hlt
      · obtain ⟨i, hi0, hi1, he⟩ := f5 j (by omega) hj2
        rw [he]
        exact hb i hi0 hi1
  · intro h
    have := f6 (hbound h)
    omega

theorem mem_walk_spec (P : Int → Prop) (n mode : Int) (s : State)
    (hmode : mode = DRAM_MODE ∨ mode = NVRAM_MODE ∨ mode = NVRAM_WRITE_MODE
      ∨ mode = NVRAM_INTENSIVE_MODE)
    (hinv : Inv s) (hpos : 0 < s.n_pids) (hm : AllManaged P s) :
    ∃ r s', mem_walk n mode s = some (r, s')
      ∧ (r = 0 ∨ r = -1) ∧ Inv s' ∧ Served P s s'
      ∧ (s.n_found ≤ n → s'.n_found ≤ n) ∧ s'.n_to_find = n := by
  obtain ⟨cb, d, hops⟩ := mem_walk_ops_some mode hmode
  have hcb := mem_walk_ops_CbGrows mode cb d hops
  unfold mem_walk
  rw [hops]
  dsimp only
  have hd := CursorOk_range _ _ hinv.dram hpos
  have hn := CursorOk_range _ _ hinv.nvram hpos
  have hm0 : AllManaged P { s with n_to_find := n, n_backup := 0 } := hm
  have hinv0 : Inv { s with n_to_find := n, n_backup := 0 } :=
    Inv_congr s _ rfl rfl rfl rfl hinv
  cases d with
  | true =>
    obtain ⟨r, s1, hw, g, hr0, hr1⟩ := do_page_walk_grows cb hcb P s.last_pid_dram
      s.last_addr_dram { s with n_to_find := n, n_backup := 0 } hm0 hd.1 hd.2
    simp only [hw, if_true, Option.map_some']
    have hinv1 : Inv { s1 with last_pid_dram := r } := by
      have := Inv_of_Grows g hinv0
      exact ⟨this.n_pids_nonneg, this.n_pids_le, this.tasks, this.nodup,
        CursorOk_of_range _ _ hr0 (by rw [g.n_pids]; exact hr1), this.nvram⟩
    have sv0 : Served P s s1 := Grows_of_reset P s _ s1 g rfl rfl rfl rfl
    have sv : Served P s { s1 with last_pid_dram := r } :=
      ⟨sv0.n_pids, sv0.pids, sv0.found_le, sv0.found_old, sv0.found_new⟩
    rcases hfin : mem_walk_finish { s1 with last_pid_dram := r } with ⟨rr, s2⟩
    obtain ⟨a, b, c, e, f⟩ := mem_walk_tail P n s _ sv (fun i h0 h1 => g.backup_new i h0 h1)
      hinv1 (fun h => g.bound (by exact h)) g.n_to_find rr s2 hfin
    exact ⟨rr, s2, rfl, a, b, c, e, f⟩
  | false =>
    obtain ⟨r, s1, hw, g, hr0, hr1⟩ := do_page_walk_grows cb hcb P s.last_pid_nvram
      s.last_addr_nvram { s with n_to_find := n, n_backup := 0 } hm0 hn.1 hn.2
    simp only [hw, Bool.false_eq_true, if_false, Option.map_some']
    have hinv1 : Inv { s1 with last_pid_nvram := r } := by
      have := Inv_of_Grows g hinv0
      exact ⟨this.n_pids_nonneg, this.n_pids_le, this.tasks, this.nodup, this.dram,
        CursorOk_of_range _ _ hr0 (by rw [g.n_pids]; exact hr1)⟩
    have sv0 : Served P s s1 := Grows_of_reset P s _ s1 g rfl rfl rfl rfl
    have sv : Served P s { s1 with last_pid_nvram := r } :=
      ⟨sv0.n_pids, sv0.pids, sv0.found_le, sv0.found_old, sv0.found_new⟩
    rcases hfin : mem_walk_finish { s1 with last_pid_nvram := r } with ⟨rr, s2⟩
    obtain ⟨a, b, c, e, f⟩ := mem_walk_tail P n s _ sv (fun i h0 h1 => g.backup_new i h0 h1)
      hinv1 (fun h => g.bound (by exact h)) g.n_to_find rr s2 hfin
    exact ⟨rr, s2, rfl, a, b, c, e, f⟩

/-! ## `switch_walk` -/

theorem switch_balance_frame (h : Int) (s : State) :
    (switch_balance h s).1 = 0
    ∧ (switch_balance h s).2
        = { s with found_addrs := (switch_balance h s).2.found_addrs,
                   n_found := (switch_balance h s).2.n_found } := by
  unfold switch_balance
  dsimp only
  split_ifs <;> exact ⟨rfl, rfl⟩

theorem switch_balance_shape (P : Int → Prop) (h : Int) (s : State)
    (h0 : 0 ≤ h) (hn : h + 1 ≤ s.n_found)
    (hsep : (s.found_addrs h).pid_retval = 0)
    (hnv : ∀ j, 0 ≤ j → j < h → P (s.found_addrs j).pid_retval)
    (hdr : ∀ j, h + 1 ≤ j → j < s.n_found → P (s.found_addrs j).pid_retval)
    (hbk : ∀ i, 0 ≤ i → i < s.n_backup → P (s.backup_addrs i).pid_retval)
    (hsw : ∀ i, 0 ≤ i → i < s.n_switch_backup → P (s.switch_backup_addrs i).pid_retval) :
    ∃ h', 0 ≤ h' ∧ (switch_balance h s).2.n_found = 2 * h' + 1
      ∧ ((switch_balance h s).2.found_addrs h').pid_retval = 0
      ∧ ∀ j, 0 ≤ j → j < 2 * h' + 1 → j ≠ h' →
          P ((switch_balance h s).2.found_addrs j).pid_retval := by
  unfold switch_balance
  dsimp only
  by_cases c1 : s.n_found - h - 1 = h
  · rw [if_pos c1]
    refine ⟨h, h0, by dsimp only; omega, hsep, fun j hj0 hj1 hj2 => ?_⟩
    by_cases hlt : j < h
    · exact hnv j hj0 hlt
    · exact hdr j (by omega) (by omega)
  · rw [if_neg c1]
    by_cases c2 : s.n_found - h - 1 < h ∧ s.n_backup > 0
    · rw [if_pos c2]
      by_cases c3 : s.n_backup < h - (s.n_found - h - 1)
      · -- shift left
        rw [if_pos c3]
        dsimp only
        refine ⟨s.n_found - h - 1 + s.n_backup, by omega, ?_, ?_, fun j hj0 hj1 hj2 => ?_⟩
        · rw [for_up_push_from_snd]; omega
        · rw [for_up_push_from_fst, if_neg (by omega), for_up_copy_left _ _ (by omega),
            if_neg (by omega)]
          simp [set_pid_retval]
        · rw [for_up_push_from_fst]
          split_ifs with hc
          · exact hbk _ (by omega) (by omega)
          · rw [for_up_copy_left _ _ (by omega)]
            split_ifs with hd
            · simp only [set_pid_retval]
              rw [if_neg (by omega)]
              exact hdr _ (by omega) (by omega)
            · simp only [set_pid_retval]
              rw [if_neg (by omega)]
              exact hnv j hj0 (by omega)
      · rw [if_neg c3]
        dsimp only
        refine ⟨h, h0, ?_, ?_, fun j hj0 hj1 hj2 => ?_⟩
        · rw [for_up_push_from_snd]; omega
        · rw [for_up_push_from_fst, if_neg (by omega)]; exact hsep
        · rw [for_up_push_from_fst]
          split_ifs with hc
          · exact hbk _ (by omega) (by omega)
          · by_cases hlt : j < h
            · exact hnv j hj0 hlt
            · exact hdr j (by omega) (by omega)
    · rw [if_neg c2]
      by_cases c4 : h < s.n_found - h - 1 ∧ s.n_switch_backup > 0
      · rw [if_pos c4]
        dsimp only
        have hta : 1 ≤ int_min s.n_switch_backup (s.n_found - h - 1 - h)
            ∧ int_min s.n_switch_backup (s.n_found - h - 1 - h) ≤ s.n_switch_backup
            ∧ int_min s.n_switch_backup (s.n_found - h - 1 - h) ≤ s.n_found - h - 1 - h := by
          unfold int_min; split_ifs <;> omega
        generalize int_min s.n_switch_backup (s.n_found - h - 1 - h) = ta at hta ⊢
        refine ⟨h + ta, by omega, ?_, ?_, fun j hj0 hj1 hj2 => ?_⟩
        · rw [for_up_push_from_snd]; omega
        · rw [for_up_push_from_snd]
          simp only [set_pid_retval]
          rw [if_pos (by omega)]
        · rw [for_up_push_from_snd]
          simp only [set_pid_retval]
          rw [if_neg (by omega), for_up_push_from_fst]
          split_ifs with hc
          · exact hsw _ (by omega) (by omega)
          · rw [for_down_copy_right _ _ (by omega)]
            split_ifs with hd
            · exact hdr _ (by omega) (by omega)
            · exact hnv j hj0 (by omega)
      · rw [if_neg c4]
        refine ⟨0, le_refl 0, rfl, by simp [set_pid_retval], fun j hj0 hj1 hj2 => ?_⟩
        omega


theorem switch_walk_spec (P : Int → Prop) (n : Int) (s : State)
    (hinv : Inv s) (hpos : 0 < s.n_pids) (hm : AllManaged P s) (hnf : s.n_found = 0) :
    ∃ r s', switch_walk n s = some (r, s') ∧ Inv s' ∧ s'.n_pids = s.n_pids
      ∧ (∀ i, (s'.task_items i).map (fun t => t.pid) = (s.task_items i).map (fun t => t.pid))
      ∧ ∃ h', 0 ≤ h' ∧ s'.n_found = 2 * h' + 1
        ∧ (s'.found_addrs h').pid_retval = 0
        ∧ (∀ j, 0 ≤ j → j < 2 * h' + 1 → j ≠ h' → P (s'.found_addrs j).pid_retval)
        ∧ (r = 0 ∨ (r = -1 ∧ h' = 0)) := by
  have hd := CursorOk_range _ _ hinv.dram hpos
  have hnv := CursorOk_range _ _ hinv.nvram hpos
  have hinv0 : Inv { s with n_to_find := n, n_switch_backup := 0 } :=
    Inv_congr s _ rfl rfl rfl rfl hinv
  obtain ⟨p, s1, hw1, g1, hp0, hp1⟩ := do_page_walk_grows pte_callback_nvram_switch
    CbGrows_nvram_switch P s.last_pid_nvram s.last_addr_nvram
    { s with n_to_find := n, n_switch_backup := 0 } hm hnv.1 hnv.2
  have hinv1 := Inv_of_Grows g1 hinv0
  have e1n := g1.n_pids
  have e1f := g1.found_le
  have e1d := g1.last_pid_dram
  dsimp only at e1n e1f e1d hp1
  unfold switch_walk
  dsimp only
  rw [hw1]
  dsimp only
  by_cases c0 : s1.n_found = 0 ∧ s1.n_switch_backup = 0
  · rw [if_pos c0]
    refine ⟨_, _, rfl, ?_, e1n, g1.pids, 0, le_refl 0, ?_, ?_, ?_, Or.inr ⟨rfl, rfl⟩⟩
    · exact ⟨hinv1.n_pids_nonneg, hinv1.n_pids_le, hinv1.tasks, hinv1.nodup, hinv1.dram,
        CursorOk_of_range _ _ hp0 (by rw [e1n]; exact hp1)⟩
    · dsimp only; omega
    · simp [set_pid_retval, c0.1]
    · intro j a b c; omega
  · rw [if_neg c0]
    have hm5 : AllManaged P
        { s1 with last_pid_nvram := p,
                  found_addrs := set_pid_retval s1.found_addrs s1.n_found 0,
                  n_found := s1.n_found + 1,
                  n_to_find := s1.n_found + 1 + int_min (s1.n_found + s1.n_switch_backup) n,
                  n_backup := 0 } := by
      have a : AllManaged P s1 := AllManaged_of_Grows g1 hm
      exact a
    have hinv5 : Inv
        { s1 with last_pid_nvram := p,
                  found_addrs := set_pid_retval s1.found_addrs s1.n_found 0,
                  n_found := s1.n_found + 1,
                  n_to_find := s1.n_found + 1 + int_min (s1.n_found + s1.n_switch_backup) n,
                  n_backup := 0 } :=
      ⟨hinv1.n_pids_nonneg, hinv1.n_pids_le, hinv1.tasks, hinv1.nodup, hinv1.dram,
        CursorOk_of_range _ _ hp0 (by rw [e1n]; exact hp1)⟩
    obtain ⟨q, s6, hw2, g2, hq0, hq1⟩ := do_page_walk_grows pte_callback_mem
      CbGrows_mem P s1.last_pid_dram s1.last_addr_dram _ hm5 (by rw [e1d]; exact hd.1)
      (by dsimp only; rw [e1d, e1n]; exact hd.2)
    rw [hw2]
    dsimp only
    have hinv6 := Inv_of_Grows g2 hinv5
    have e2n := g2.n_pids
    have e2f := g2.found_le
    dsimp only at e2n e2f hq1
    have hinv7 : Inv { s6 with last_pid_dram := q } :=
      ⟨hinv6.n_pids_nonneg, hinv6.n_pids_le, hinv6.tasks, hinv6.nodup,
        CursorOk_of_range _ _ hq0 (by rw [e2n]; exact hq1), hinv6.nvram⟩
    obtain ⟨fr1, fr2⟩ := switch_balance_frame s1.n_found { s6 with last_pid_dram := q }
    obtain ⟨h', hh0, hh1, hh2, hh3⟩ := switch_balance_shape P s1.n_found
      { s6 with last_pid_dram := q } (by omega) e2f
      (by
        have := g2.found_old s1.n_found (by dsimp only; omega)
        dsimp only at this ⊢
        rw [this]
        simp [set_pid_retval])
      (fun j hj0 hj1 => by
        have := g2.found_old j (by dsimp only; omega)
        dsimp only at this ⊢
        rw [this]
        simp only [set_pid_retval]
        rw [if_neg (by omega)]
        exact g1.found_new j (by dsimp only; omega) hj1)
      (fun j hj0 hj1 => g2.found_new j hj0 hj1)
      (fun i hi0 hi1 => g2.backup_new i hi0 hi1)
      (fun i hi0 hi1 => by
        by_cases hlt : i < s1.n_switch_backup
        · have := g2.switch_old i hlt
          dsimp only at this ⊢
          rw [this]
          exact g1.switch_new i hi0 hlt
        · exact g2.switch_new i (by dsimp only; omega) hi1)
    rcases hsb : switch_balance s1.n_found { s6 with last_pid_dram := q } with ⟨rr, s8⟩
    rw [hsb] at fr1 fr2 hh1 hh2 hh3
    dsimp only at fr1 fr2 hh1 hh2 hh3
    refine ⟨rr, s8, rfl, ?_, ?_, ?_, h', hh0, hh1, hh2, hh3, Or.inl fr1⟩
    · rw [fr2]; exact Inv_congr { s6 with last_pid_dram := q } _ rfl rfl rfl rfl hinv7
    · rw [fr2]; dsimp only; omega
    · intro i
      rw [fr2]
      dsimp only
      rw [g2.pids i]
      exact g1.pids i

/-! ## Bind and unbind -/

theorem already_managed_iff (tasks : Int → Option task_struct) (pid : Int) (k : Nat) (i : Int) :
    already_managed tasks pid k i = true
      ↔ ∃ j t, i ≤ j ∧ j < i + k ∧ tasks j = some t ∧ t.pid = pid := by
  induction k generalizing i with
  | zero =>
    simp only [already_managed]
    constructor
    · intro h; exact absurd h (by decide)
    · rintro ⟨j, t, h1, h2, _⟩; exfalso; push_cast at h2; omega
  | succ k ih =>
    simp only [already_managed]
    cases ht : tasks i with
    | none =>
      dsimp only
      rw [ih]
      constructor
      · rintro ⟨j, t, h1, h2, h3, h4⟩
        exact ⟨j, t, by omega, by push_cast; omega, h3, h4⟩
      · rintro ⟨j, t, h1, h2, h3, h4⟩
        have : j ≠ i := by rintro rfl; rw [ht] at h3; exact absurd h3 (by simp)
        exact ⟨j, t, by omega, by push_cast at h2; omega, h3, h4⟩
    | some u =>
      dsimp only
      by_cases hu : u.pid = pid
      · rw [if_pos hu]
        simp only [true_iff]
        exact ⟨i, u, le_refl _, by push_cast; omega, ht, hu⟩
      · rw [if_neg hu, ih]
        constructor
        · rintro ⟨j, t, h1, h2, h3, h4⟩
          exact ⟨j, t, by omega, by push_cast; omega, h3, h4⟩
        · rintro ⟨j, t, h1, h2, h3, h4⟩
          have : j ≠ i := by
            rintro rfl
            rw [ht] at h3
            simp only [Option.some.injEq] at h3
            rw [h3] at hu
            exact hu h4
          exact ⟨j, t, by omega, by push_cast at h2; omega, h3, h4⟩

theorem find_index_spec (tasks : Int → Option task_struct) (pid : Int) (k : Nat) (i : Int) :
    i ≤ find_index tasks pid k i ∧ find_index tasks pid k i ≤ i + k
    ∧ (∀ j t, i ≤ j → j < find_index tasks pid k i → tasks j = some t → t.pid ≠ pid)
    ∧ (find_index tasks pid k i < i + k →
        ∃ t, tasks (find_index tasks pid k i) = some t ∧ t.pid = pid) := by
  induction k generalizing i with
  | zero =>
    simp only [find_index]
    exact ⟨le_refl _, by push_cast; omega, fun j t a b => by omega, fun h => by
      push_cast at h; omega⟩
  | succ k ih =>
    simp only [find_index]
    obtain ⟨a1, a2, a3, a4⟩ := ih (i + 1)
    cases ht : tasks i with
    | none =>
      dsimp only
      refine ⟨by omega, by push_cast; omega, fun j t h1 h2 h3 => ?_, fun h => ?_⟩
      · by_cases hj : j = i
        · subst hj; rw [ht] at h3; exact absurd h3 (by simp)
        · exact a3 j t (by omega) h2 h3
      · exact a4 (by push_cast at h; omega)
    | some u =>
      dsimp only
      by_cases hu : u.pid = pid
      · rw [if_pos hu]
        exact ⟨le_refl _, by push_cast; omega, fun j t h1 h2 => by omega, fun _ => ⟨u, ht, hu⟩⟩
      · rw [if_neg hu]
        refine ⟨by omega, by push_cast; omega, fun j t h1 h2 h3 => ?_, fun h => ?_⟩
        · by_cases hj : j = i
          · subst hj
            rw [ht] at h3
            simp only [Option.some.injEq] at h3
            rw [← h3]; exact hu
          · exact a3 j t (by omega) h2 h3
        · exact a4 (by push_cast at h; omega)

theorem CursorOk_succ (n c : Int) (h : CursorOk n c) (hn : 0 ≤ n) : CursorOk (n + 1) c := by
  unfold CursorOk at *; omega

theorem find_target_process_spec (P : Int → Prop) (k : Kernel) (pid : Int) (s : State)
    (hinv : Inv s) (hm : AllManaged P s) (hpos : 0 < pid) (hP : P pid) :
    Inv (find_target_process k pid s).2 ∧ AllManaged P (find_target_process k pid s).2
    ∧ (find_target_process k pid s).2
        = { s with task_items := (find_target_process k pid s).2.task_items,
                   n_pids := (find_target_process k pid s).2.n_pids } := by
  unfold find_target_process
  by_cases c1 : s.n_pids ≥ MAX_PIDS
  · rw [if_pos c1]; exact ⟨hinv, hm, rfl⟩
  · rw [if_neg c1]
    by_cases c2 : already_managed s.task_items pid s.n_pids.toNat 0 = true
    · rw [if_pos c2]; exact ⟨hinv, hm, rfl⟩
    · rw [if_neg c2]
      by_cases c3 : (!k.find_get_pid pid) = true
      · rw [if_pos c3]; exact ⟨hinv, hm, rfl⟩
      · rw [if_neg c3]
        cases hg : k.get_pid_task pid with
        | none => exact ⟨hinv, hm, rfl⟩
        | some mm =>
          dsimp only
          have hnn := hinv.n_pids_nonneg
          rw [already_managed_iff] at c2
          refine ⟨⟨?_, ?_, ?_, ?_, ?_, ?_⟩, ?_, rfl⟩
          · dsimp only; omega
          · dsimp only; omega
          · intro i hi0 hi
            dsimp only at hi ⊢
            simp only [arr_set]
            split_ifs with he
            · exact ⟨_, rfl, hpos⟩
            · exact hinv.tasks i hi0 (by omega)
          · intro i j ti tj hi hij hj
            dsimp only at hj ⊢
            simp only [arr_set]
            rw [if_neg (by omega)]
            split_ifs with he
            · intro hti htj
              simp only [Option.some.injEq] at htj
              rw [← htj]
              intro heq
              exact c2 ⟨i, ti, hi, by omega, hti, heq⟩
            · exact hinv.nodup i j ti tj hi hij (by omega)
          · exact CursorOk_succ _ _ hinv.dram hnn
          · exact CursorOk_succ _ _ hinv.nvram hnn
          · intro i hi0 hi
            dsimp only at hi ⊢
            simp only [arr_set]
            split_ifs with he
            · exact ⟨_, rfl, hP⟩
            · exact hm i hi0 (by omega)

theorem bind_pid_spec (P : Int → Prop) (k : Kernel) (pid : Int) (s : State)
    (hinv : Inv s) (hm : AllManaged P s) (hP : P pid) :
    Inv (bind_pid k pid s).2 ∧ AllManaged P (bind_pid k pid s).2
    ∧ ((bind_pid k pid s).1 = 0 ∨ (bind_pid k pid s).1 = -1)
    ∧ (bind_pid k pid s).2
        = { s with task_items := (bind_pid k pid s).2.task_items,
                   n_pids := (bind_pid k pid s).2.n_pids } := by
  unfold bind_pid
  by_cases c1 : pid ≤ 0 ∨ pid > MAX_PID_N
  · rw [if_pos c1]; exact ⟨hinv, hm, Or.inr rfl, rfl⟩
  · rw [if_neg c1]
    obtain ⟨a, b, c⟩ := find_target_process_spec P k pid s hinv hm (by omega) hP
    dsimp only
    split_ifs
    · exact ⟨a, b, Or.inr rfl, c⟩
    · exact ⟨a, b, Or.inl rfl, c⟩

theorem unbind_pid_spec (P : Int → Prop) (pid : Int) (s : State)
    (hinv : Inv s) (hm : AllManaged P s) :
    Inv (unbind_pid pid s).2 ∧ AllManaged P (unbind_pid pid s).2
    ∧ ((unbind_pid pid s).1 = 0 ∨ (unbind_pid pid s).1 = -1)
    ∧ (unbind_pid pid s).2.found_addrs = s.found_addrs
    ∧ (unbind_pid pid s).2.n_found = s.n_found := by
  unfold unbind_pid
  by_cases c1 : pid ≤ 0 ∨ pid > MAX_PID_N
  · rw [if_pos c1]; exact ⟨hinv, hm, Or.inr rfl, rfl, rfl⟩
  · rw [if_neg c1]
    dsimp only
    obtain ⟨a1, a2, _, _⟩ := find_index_spec s.task_items pid s.n_pids.toNat 0
    have hnn := hinv.n_pids_nonneg
    split_ifs with c2
    · exact ⟨hinv, hm, Or.inr rfl, rfl, rfl⟩
    · obtain ⟨f1, _, _, _, _, f6, _, _⟩ := update_pid_list_frame
        (find_index s.task_items pid s.n_pids.toNat 0) s
      exact ⟨Inv_update_pid_list _ s hinv (by omega) (by omega),
        AllManaged_update_pid_list P _ s hm, Or.inl rfl, f1, f6⟩

/-! ## `clear_walk` -/

theorem pte_callback_nvram_clear_st (ptep : Option pte_t) (addr : Nat) (s : State) :
    (pte_callback_nvram_clear ptep addr s).st = s := by
  unfold pte_callback_nvram_clear
  cases ptep with
  | none => rfl
  | some p => dsimp only; split_ifs <;> rfl

theorem walk_ptes_clear (start stop : Nat) (l : List (Nat × pte_t)) (s : State) :
    (walk_ptes pte_callback_nvram_clear start stop l s).1 = s := by
  induction l generalizing s with
  | nil => rfl
  | cons x rest ih =>
    obtain ⟨a, p⟩ := x
    simp only [walk_ptes]
    split_ifs with hr hret
    · exact pte_callback_nvram_clear_st _ _ _
    · rw [pte_callback_nvram_clear_st]; exact ih s
    · exact ih s

theorem clear_tasks_grows (P : Int → Prop) (k : Nat) (i : Int) (s s' : State)
    (h : clear_tasks k i s = some s') :
    Grows P s s' ∧ s'.n_found = s.n_found ∧ s'.found_addrs = s.found_addrs := by
  induction k generalizing i s with
  | zero =>
    simp only [clear_tasks, Option.some.injEq] at h
    subst h
    exact ⟨Grows_refl _ _, rfl, rfl⟩
  | succ k ih =>
    simp only [clear_tasks] at h
    cases ht : s.task_items i with
    | none => rw [ht] at h; exact absurd h (by simp)
    | some t =>
      rw [ht] at h
      dsimp only at h
      cases hmm : t.mm with
      | none => rw [hmm] at h; exact absurd h (by simp)
      | some mm =>
        rw [hmm] at h
        dsimp only at h
        obtain ⟨g, e1, e2⟩ := ih _ _ h
        have hw := walk_ptes_clear 0 MAX_ADDRESS mm.ptes { s with curr_pid := t.pid }
        have g0 : Grows P s
            { (walk_page_range pte_callback_nvram_clear mm 0 MAX_ADDRESS
                { s with curr_pid := t.pid }).1 with
              task_items := arr_set (walk_page_range pte_callback_nvram_clear mm 0 MAX_ADDRESS
                  { s with curr_pid := t.pid }).1.task_items i
                (some { t with mm := some (walk_page_range pte_callback_nvram_clear mm 0
                  MAX_ADDRESS { s with curr_pid := t.pid }).2 }) } := by
          simp only [walk_page_range, hw]
          refine Grows_same P _ _ rfl rfl rfl rfl ?_ rfl rfl rfl rfl rfl rfl
          intro j
          simp only [arr_set]
          split_ifs with hj
          · subst hj; simp [ht]
          · rfl
        refine ⟨Grows_trans g0 g, ?_, ?_⟩
        · rw [e1]; simp only [walk_page_range, hw]
        · rw [e2]; simp only [walk_page_range, hw]

/-! ## Requests -/

theorem dispatch_req_spec (P : Int → Prop) (k : Kernel) (req : Option req_t) (s0 : State)
    (hinv : Inv s0) (hm : AllManaged P s0) (hnf : s0.n_found = 0)
    (hbind : ∀ rq, req = some rq → rq.op_code = BIND_OP → P rq.pid_n) :
    (∀ r s1, dispatch_req k req s0 = some (r, s1) →
      Inv s1 ∧ AllManaged P s1 ∧ (r = 0 ∨ r = -1) ∧ 0 ≤ s1.n_found
      ∧ ∀ j, 0 ≤ j → j < s1.n_found →
          (P (s1.found_addrs j).pid_retval ∨ (s1.found_addrs j).pid_retval = 0))
    ∧ ((∀ rq, req = some rq → ¬ (rq.op_code = FIND_OP ∧ rq.mode = NVRAM_CLEAR)) →
        ∃ r s1, dispatch_req k req s0 = some (r, s1)) := by
  have base : ∀ s1 : State, s1.n_found = 0 →
      0 ≤ s1.n_found ∧ ∀ j, 0 ≤ j → j < s1.n_found →
        (P (s1.found_addrs j).pid_retval ∨ (s1.found_addrs j).pid_retval = 0) :=
    fun s1 h => ⟨by omega, fun j a b => by omega⟩
  cases req with
  | none =>
    refine ⟨fun r s1 h => ?_, fun _ => ⟨_, _, rfl⟩⟩
    simp only [dispatch_req, Option.some.injEq, Prod.mk.injEq] at h
    obtain ⟨rfl, rfl⟩ := h
    exact ⟨hinv, hm, Or.inr rfl, base _ hnf⟩
  | some rq =>
    have hrinv := Inv_refresh_pids k s0 hinv
    have hrm := AllManaged_refresh_pids P k s0 hm
    have hrnf : (refresh_pids k s0).n_found = 0 := by
      rw [← hnf]; exact (refresh_pids_frame k s0).2.2.2.2.2.1
    simp only [dispatch_req]
    by_cases o1 : rq.op_code = FIND_OP
    · rw [if_pos o1]
      by_cases hp : (refresh_pids k s0).n_pids > 0
      · rw [if_pos hp]
        by_cases m1 : rq.mode = DRAM_MODE ∨ rq.mode = NVRAM_MODE ∨ rq.mode = NVRAM_WRITE_MODE
            ∨ rq.mode = NVRAM_INTENSIVE_MODE
        · rw [if_pos m1]
          obtain ⟨r, s', hw, hr, hi, sv, _, _⟩ := mem_walk_spec P (int_min MAX_N_FIND rq.pid_n)
            rq.mode _ m1 hrinv hp hrm
          refine ⟨fun r1 s1 h => ?_, fun _ => ⟨r, s', hw⟩⟩
          rw [hw] at h
          simp only [Option.some.injEq, Prod.mk.injEq] at h
          obtain ⟨rfl, rfl⟩ := h
          refine ⟨hi, AllManaged_of_Served sv hrm, hr, ?_, fun j hj0 hj1 => ?_⟩
          · have := sv.found_le; omega
          · exact Or.inl (sv.found_new j (by omega) hj1)
        · rw [if_neg m1]
          by_cases m2 : rq.mode = NVRAM_CLEAR
          · rw [if_pos m2]
            refine ⟨fun r1 s1 h => ?_, fun hc => absurd ⟨o1, m2⟩ (hc rq rfl)⟩
            unfold clear_walk at h
            cases hct : clear_tasks (refresh_pids k s0).n_pids.toNat 0 (refresh_pids k s0) with
            | none => rw [hct] at h; exact absurd h (by simp)
            | some s2 =>
              rw [hct] at h
              simp only [Option.map_some', Option.some.injEq, Prod.mk.injEq] at h
              obtain ⟨rfl, rfl⟩ := h
              obtain ⟨g, e1, _⟩ := clear_tasks_grows P _ _ _ _ hct
              exact ⟨Inv_of_Grows g hrinv, AllManaged_of_Grows g hrm, Or.inr rfl,
                base _ (by rw [e1]; exact hrnf)⟩
          · rw [if_neg m2]
            by_cases m3 : rq.mode = SWITCH_MODE
            · rw [if_pos m3]
              obtain ⟨r, s', hw, hi, hn, hpids, h', hh0, hh1, hh2, hh3, hr⟩ :=
                switch_walk_spec P (int_min MAX_N_SWITCH rq.pid_n) _ hrinv hp hrm hrnf
              refine ⟨fun r1 s1 h => ?_, fun _ => ⟨r, s', hw⟩⟩
              rw [hw] at h
              simp only [Option.some.injEq, Prod.mk.injEq] at h
              obtain ⟨rfl, rfl⟩ := h
              refine ⟨hi, ?_, ?_, by omega, fun j hj0 hj1 => ?_⟩
              · intro i hi0 hi1
                rw [hn] at hi1
                obtain ⟨t, ht, hpt⟩ := hrm i hi0 hi1
                have := hpids i
                rw [ht] at this
                cases hb : s'.task_items i with
                | none => rw [hb] at this; simp at this
                | some u =>
                  rw [hb] at this
                  simp at this
                  exact ⟨u, rfl, by rw [this]; exact hpt⟩
              · rcases hr with hr | hr
                · exact Or.inl hr
                · exact Or.inr hr.1
              · by_cases hj : j = h'
                · subst hj; exact Or.inr hh2
                · exact Or.inl (hh3 j hj0 (by omega) hj)
            · rw [if_neg m3]
              refine ⟨fun r1 s1 h => ?_, fun _ => ⟨_, _, rfl⟩⟩
              simp only [Option.some.injEq, Prod.mk.injEq] at h
              obtain ⟨rfl, rfl⟩ := h
              exact ⟨hrinv, hrm, Or.inr rfl, base _ hrnf⟩
      · rw [if_neg hp]
        refine ⟨fun r1 s1 h => ?_, fun _ => ⟨_, _, rfl⟩⟩
        simp only [Option.some.injEq, Prod.mk.injEq] at h
        obtain ⟨rfl, rfl⟩ := h
        exact ⟨hrinv, hrm, Or.inr rfl, base _ hrnf⟩
    · rw [if_neg o1]
      by_cases o2 : rq.op_code = BIND_OP
      · rw [if_pos o2]
        refine ⟨fun r1 s1 h => ?_, fun _ => ⟨_, _, rfl⟩⟩
        simp only [Option.some.injEq] at h
        obtain ⟨a, b, c, d⟩ := bind_pid_spec P k rq.pid_n _ hrinv hrm (hbind rq rfl o2)
        rw [h] at a b c d
        dsimp only at a b c d
        refine ⟨a, b, c, base _ ?_⟩
        rw [d]; exact hrnf
      · rw [if_neg o2]
        by_cases o3 : rq.op_code = UNBIND_OP
        · rw [if_pos o3]
          refine ⟨fun r1 s1 h => ?_, fun _ => ⟨_, _, rfl⟩⟩
          simp only [Option.some.injEq, Prod.mk.injEq] at h
          obtain ⟨rfl, rfl⟩ := h
          obtain ⟨a, b, c, _, e⟩ := unbind_pid_spec P rq.pid_n s0 hinv hm
          refine ⟨Inv_refresh_pids k _ a, AllManaged_refresh_pids P k _ b, c, base _ ?_⟩
          rw [(refresh_pids_frame k _).2.2.2.2.2.1, e, hnf]
        · rw [if_neg o3]
          refine ⟨fun r1 s1 h => ?_, fun _ => ⟨_, _, rfl⟩⟩
          simp only [Option.some.injEq, Prod.mk.injEq] at h
          obtain ⟨rfl, rfl⟩ := h
          exact ⟨hinv, hm, Or.inr rfl, base _ hnf⟩

theorem process_req_spec (P : Int → Prop) (k : Kernel) (req : Option req_t) (s : State)
    (hinv : Inv s) (hm : AllManaged P s)
    (hbind : ∀ rq, req = some rq → rq.op_code = BIND_OP → P rq.pid_n) :
    (∀ s', process_req k req s = some s' →
      Inv s' ∧ AllManaged P s' ∧ 1 ≤ s'.n_found
      ∧ ((s'.found_addrs (s'.n_found - 1)).pid_retval = 0
          ∨ (s'.found_addrs (s'.n_found - 1)).pid_retval = -1)
      ∧ ∀ j, 0 ≤ j → j < s'.n_found - 1 →
          (P (s'.found_addrs j).pid_retval ∨ (s'.found_addrs j).pid_retval = 0))
    ∧ ((∀ rq, req = some rq → ¬ (rq.op_code = FIND_OP ∧ rq.mode = NVRAM_CLEAR)) →
        ∃ s', process_req k req s = some s') := by
  obtain ⟨d1, d2⟩ := dispatch_req_spec P k req { s with n_found := 0 }
    (Inv_congr s _ rfl rfl rfl rfl hinv) hm rfl hbind
  unfold process_req
  constructor
  · intro s' h
    cases hd : dispatch_req k req { s with n_found := 0 } with
    | none => rw [hd] at h; exact absurd h (by simp)
    | some rs =>
      obtain ⟨r, s1⟩ := rs
      rw [hd] at h
      simp only [Option.map_some', Option.some.injEq] at h
      subst h
      obtain ⟨a, b, c, d, e⟩ := d1 r s1 hd
      refine ⟨Inv_congr s1 _ rfl rfl rfl rfl a, b, ?_, ?_, ?_⟩
      · simp only [put_retval]; omega
      · simp only [put_retval, set_pid_retval]
        rw [if_pos (by omega)]
        exact c
      · intro j hj0 hj1
        simp only [put_retval] at hj1
        simp only [put_retval, set_pid_retval]
        rw [if_neg (by omega)]
        exact e j hj0 (by omega)
  · intro hc
    obtain ⟨r, s1, hd⟩ := d2 hc
    rw [hd]
    exact ⟨_, rfl⟩

theorem managed_getElem? (s : State) (m : Nat) :
    (managed s)[m]? = if m < s.n_pids.toNat then some (s.task_items (m : Int)) else none := by
  unfold managed
  rw [List.getElem?_map]
  split_ifs with h
  · rw [List.getElem?_range h]; rfl
  · rw [List.getElem?_eq_none (by simp only [List.length_range]; omega)]; rfl

theorem managed_length (s : State) : (managed s).length = s.n_pids.toNat := by
  simp [managed]

theorem managed_congr (s s' : State) (hn : s'.n_pids = s.n_pids)
    (ht : ∀ i, 0 ≤ i → i < s.n_pids → s'.task_items i = s.task_items i) :
    managed s' = managed s := by
  apply List.ext_getElem?
  intro m
  rw [managed_getElem?, managed_getElem?, hn]
  split_ifs with h
  · rw [ht m (by omega) (by omega)]
  · rfl

theorem managed_append (s : State) (v : Option task_struct) (hn : 0 ≤ s.n_pids) :
    managed { s with task_items := arr_set s.task_items s.n_pids v, n_pids := s.n_pids + 1 }
      = managed s ++ [v] := by
  apply List.ext_getElem?
  intro m
  rw [managed_getElem?, List.getElem?_append, managed_length, managed_getElem?]
  dsimp only [arr_set]
  by_cases h1 : m < s.n_pids.toNat
  · rw [if_pos (by omega), if_pos h1, if_pos h1, if_neg (by omega)]
  · rw [if_neg h1]
    by_cases h2 : m = s.n_pids.toNat
    · rw [if_pos (by omega), if_pos (by omega)]
      subst h2
      simp
    · rw [if_neg (by omega)]
      rw [List.getElem?_eq_none (by simp only [List.length_singleton]; omega)]

theorem managed_update_pid_list (i : Int) (s : State) (hi0 : 0 ≤ i) (hi : i < s.n_pids) :
    managed (update_pid_list i s) = (managed s).eraseIdx i.toNat := by
  apply List.ext_getElem?
  intro m
  rw [managed_getElem?, List.getElem?_eraseIdx, managed_getElem?, managed_getElem?,
    update_pid_list_n_pids, update_pid_list_task_items]
  push_cast
  split_ifs <;> first | rfl | (exfalso; omega)

theorem mem_managed_pids_iff (s : State) (pid : Int) (hn : 0 ≤ s.n_pids) :
    pid ∈ managed_pids s
      ↔ ∃ j t, 0 ≤ j ∧ j < s.n_pids ∧ s.task_items j = some t ∧ t.pid = pid := by
  unfold managed_pids managed
  simp only [List.mem_filterMap, List.mem_map, List.mem_range]
  constructor
  · rintro ⟨o, ⟨m, hm, rfl⟩, ho⟩
    simp only [Int.ofNat_eq_coe] at ho
    cases ht : s.task_items (m : Int) with
    | none => rw [ht] at ho; simp at ho
    | some t =>
      rw [ht] at ho
      simp only [Option.map_some', Option.some.injEq] at ho
      exact ⟨m, t, by omega, by omega, ht, ho⟩
  · rintro ⟨j, t, h0, h1, ht, hp⟩
    refine ⟨some t, ⟨j.toNat, by omega, ?_⟩, by simp [hp]⟩
    rw [← ht, Int.ofNat_eq_coe, Int.toNat_of_nonneg h0]

/-! ## `refresh_pids` on a set of live processes -/

theorem refresh_loop_id (k : Kernel) (fuel : Nat) (i : Int) (s : State)
    (h : AllManaged (fun p => k.find_get_pid p = true) s) (hi : 0 ≤ i) :
    refresh_loop k fuel i s = s := by
  induction fuel generalizing i with
  | zero => rfl
  | succ fuel ih =>
    simp only [refresh_loop]
    by_cases c : i < s.n_pids
    · rw [if_pos c]
      obtain ⟨t, ht, hp⟩ := h i hi c
      rw [ht]
      dsimp only at hp ⊢
      rw [hp]
      simp only [Bool.not_true, Bool.false_eq_true, if_false]
      exact ih (i + 1) (by omega)
    · rw [if_neg c]

theorem refresh_pids_id (k : Kernel) (s : State)
    (h : AllManaged (fun p => k.find_get_pid p = true) s) : refresh_pids k s = s :=
  refresh_loop_id k _ 0 s h (le_refl 0)

/-! ## Auxiliary facts about single requests -/

theorem Inv_ex_three : Inv ex_three := by
  refine ⟨by decide, by decide, ?_, ?_, ⟨by decide, Or.inl (by decide)⟩,
    ⟨by decide, Or.inl (by decide)⟩⟩
  · intro i h0 h1
    have h1' : i < 3 := h1
    interval_cases i
    · exact ⟨_, rfl, by decide⟩
    · exact ⟨_, rfl, by decide⟩
    · exact ⟨_, rfl, by decide⟩
  · intro i j ti tj h0 h1 h2 hi hj
    have h2' : j < 3 := h2
    have h3 : i < 3 := by omega
    have h4 : 0 ≤ j := by omega
    interval_cases i <;> interval_cases j <;>
      (simp only [ex_three, ex_tasks] at hi hj
       simp at hi hj
       subst hi hj
       decide)

/-- The answer to a BIND or UNBIND request: `process_req` computes `ret` and stores it in the
first record. -/
theorem process_req_bind (k : Kernel) (pid mode : Int) (s : State) :
    process_req k (some { op_code := BIND_OP, pid_n := pid, mode := mode }) s
      = some (put_retval (bind_pid k pid (refresh_pids k { s with n_found := 0 })).1
          (bind_pid k pid (refresh_pids k { s with n_found := 0 })).2) := by
  simp [process_req, dispatch_req, BIND_OP, FIND_OP]

theorem process_req_unbind (k : Kernel) (pid mode : Int) (s : State) :
    process_req k (some { op_code := UNBIND_OP, pid_n := pid, mode := mode }) s
      = some (put_retval (unbind_pid pid { s with n_found := 0 }).1
          (refresh_pids k (unbind_pid pid { s with n_found := 0 }).2)) := by
  simp [process_req, dispatch_req, BIND_OP, FIND_OP, UNBIND_OP]

theorem already_managed_eq_true_iff (s : State) (pid : Int) (hn : 0 ≤ s.n_pids) :
    already_managed s.task_items pid s.n_pids.toNat 0 = true ↔ pid ∈ managed_pids s := by
  rw [already_managed_iff, mem_managed_pids_iff s pid hn]
  constructor
  · rintro ⟨j, t, h1, h2, h3, h4⟩; exact ⟨j, t, h1, by omega, h3, h4⟩
  · rintro ⟨j, t, h1, h2, h3, h4⟩; exact ⟨j, t, h1, by omega, h3, h4⟩

/-- The two outcomes of `find_target_process`. -/
theorem find_target_process_cases (k : Kernel) (pid : Int) (s : State) (hn : 0 ≤ s.n_pids) :
    ((s.n_pids < MAX_PIDS ∧ pid ∉ managed_pids s ∧ k.find_get_pid pid = true
        ∧ (k.get_pid_task pid).isSome = true)
      ∧ ∃ mm, k.get_pid_task pid = some mm
        ∧ find_target_process k pid s
          = (1, { s with task_items := arr_set s.task_items s.n_pids (some { pid := pid, mm := mm }),
                         n_pids := s.n_pids + 1 }))
    ∨ (¬ (s.n_pids < MAX_PIDS ∧ pid ∉ managed_pids s ∧ k.find_get_pid pid = true
        ∧ (k.get_pid_task pid).isSome = true)
      ∧ find_target_process k pid s = (0, s)) := by
  unfold find_target_process
  by_cases c1 : s.n_pids ≥ MAX_PIDS
  · right
    rw [if_pos c1]
    exact ⟨fun h => by omega, rfl⟩
  · rw [if_neg c1]
    by_cases c2 : already_managed s.task_items pid s.n_pids.toNat 0 = true
    · right
      rw [if_pos c2]
      rw [already_managed_eq_true_iff s pid hn] at c2
      exact ⟨fun h => h.2.1 c2, rfl⟩
    · rw [if_neg c2]
      rw [already_managed_eq_true_iff s pid hn] at c2
      by_cases c3 : k.find_get_pid pid = true
      · rw [if_neg (by simp [c3])]
        cases hg : k.get_pid_task pid with
        | none =>
          right
          exact ⟨fun h => by simp at h, rfl⟩
        | some mm =>
          left
          exact ⟨⟨by omega, c2, c3, rfl⟩, mm, rfl, rfl⟩
      · right
        rw [if_pos (by simp [c3])]
        exact ⟨fun h => c3 h.2.2.1, rfl⟩

/-- The two outcomes of `bind_pid` on a pid that fits a C int. -/
theorem bind_pid_cases (k : Kernel) (pid : Int) (s : State) (hn : 0 ≤ s.n_pids)
    (hmax : pid ≤ MAX_PID_N) :
    ((0 < pid ∧ s.n_pids < MAX_PIDS ∧ pid ∉ managed_pids s ∧ k.find_get_pid pid = true
        ∧ (k.get_pid_task pid).isSome = true)
      ∧ ∃ mm, k.get_pid_task pid = some mm
        ∧ bind_pid k pid s
          = (0, { s with task_items := arr_set s.task_items s.n_pids (some { pid := pid, mm := mm }),
                         n_pids := s.n_pids + 1 }))
    ∨ (¬ (0 < pid ∧ s.n_pids < MAX_PIDS ∧ pid ∉ managed_pids s ∧ k.find_get_pid pid = true
        ∧ (k.get_pid_task pid).isSome = true)
      ∧ bind_pid k pid s = (-1, s)) := by
  unfold bind_pid
  by_cases c0 : pid ≤ 0 ∨ pid > MAX_PID_N
  · right
    rw [if_pos c0]
    exact ⟨fun h => by omega, rfl⟩
  · rw [if_neg c0]
    rcases find_target_process_cases k pid s hn with ⟨hc, mm, hg, hf⟩ | ⟨hc, hf⟩
    · left
      rw [hf]
      exact ⟨⟨by omega, hc⟩, mm, hg, rfl⟩
    · right
      rw [hf]
      exact ⟨fun h => hc h.2, rfl⟩

theorem unbind_pid_non_member (pid : Int) (s : State) (hn : 0 ≤ s.n_pids)
    (hnot : pid ∉ managed_pids s) : unbind_pid pid s = (-1, s) := by
  unfold unbind_pid
  by_cases c0 : pid ≤ 0 ∨ pid > MAX_PID_N
  · rw [if_pos c0]
  · rw [if_neg c0]
    dsimp only
    by_cases c1 : find_index s.task_items pid s.n_pids.toNat 0 = s.n_pids
    · rw [if_pos c1]
    · exfalso
      obtain ⟨a1, a2, _, a4⟩ := find_index_spec s.task_items pid s.n_pids.toNat 0
      obtain ⟨t, ht, hp⟩ := a4 (by omega)
      exact hnot ((mem_managed_pids_iff s pid hn).2 ⟨_, t, a1, by omega, ht, hp⟩)

theorem unbind_pid_member (pid : Int) (s : State) (hn : 0 ≤ s.n_pids)
    (hnodup : ∀ i j ti tj, 0 ≤ i → i < j → j < s.n_pids →
      s.task_items i = some ti → s.task_items j = some tj → ti.pid ≠ tj.pid)
    (hpos : 0 < pid) (hmax : pid ≤ MAX_PID_N) (i : Int) (t : task_struct)
    (hi0 : 0 ≤ i) (hi : i < s.n_pids) (ht : s.task_items i = some t) (hp : t.pid = pid) :
    unbind_pid pid s = (0, update_pid_list i s) := by
  obtain ⟨a1, a2, a3, a4⟩ := find_index_spec s.task_items pid s.n_pids.toNat 0
  have hle : find_index s.task_items pid s.n_pids.toNat 0 ≤ i := by
    by_contra hlt
    exact a3 i t hi0 (by omega) ht hp
  obtain ⟨u, hu, hup⟩ := a4 (by omega)
  have heq : find_index s.task_items pid s.n_pids.toNat 0 = i := by
    by_contra hne
    exact hnodup _ i u t a1 (by omega) hi hu ht (by rw [hup, hp])
  unfold unbind_pid
  rw [if_neg (by omega)]
  dsimp only
  rw [heq, if_neg (by omega)]

theorem AllManaged_weaken {P Q : Int → Prop} {s : State} (h : AllManaged P s)
    (hPQ : ∀ x, P x → Q x) : AllManaged Q s := by
  intro i h0 h1
  obtain ⟨t, ht, hp⟩ := h i h0 h1
  exact ⟨t, ht, hPQ _ hp⟩

theorem process_req_find_switch (k : Kernel) (n : Int) (s : State) :
    process_req k (some { op_code := FIND_OP, pid_n := n, mode := SWITCH_MODE }) s
      = (if (refresh_pids k { s with n_found := 0 }).n_pids > 0
          then switch_walk (int_min MAX_N_SWITCH n) (refresh_pids k { s with n_found := 0 })
          else some (-1, refresh_pids k { s with n_found := 0 })).map
          (fun r => put_retval r.1 r.2) := by
  simp [process_req, dispatch_req, FIND_OP, SWITCH_MODE, DRAM_MODE, NVRAM_MODE,
    NVRAM_WRITE_MODE, NVRAM_INTENSIVE_MODE, NVRAM_CLEAR]

theorem process_req_find_mem (k : Kernel) (n mode : Int) (s : State)
    (hmode : mode = DRAM_MODE ∨ mode = NVRAM_MODE ∨ mode = NVRAM_WRITE_MODE
      ∨ mode = NVRAM_INTENSIVE_MODE) :
    process_req k (some { op_code := FIND_OP, pid_n := n, mode := mode }) s
      = (if (refresh_pids k { s with n_found := 0 }).n_pids > 0
          then mem_walk (int_min MAX_N_FIND n) mode (refresh_pids k { s with n_found := 0 })
          else some (-1, refresh_pids k { s with n_found := 0 })).map
          (fun r => put_retval r.1 r.2) := by
  simp only [process_req, dispatch_req, if_true, if_pos hmode]

theorem Inv_ex_one : Inv ex_one := by
  refine ⟨by decide, by decide, ?_, ?_, ⟨by decide, Or.inl (by decide)⟩,
    ⟨by decide, Or.inl (by decide)⟩⟩
  · intro i h0 h1
    have h1' : i < 1 := h1
    interval_cases i
    exact ⟨_, rfl, by decide⟩
  · intro i j ti tj h0 h1 h2 hi hj
    have h2' : j < 1 := h2
    omega

theorem KeepsBound_of_CbGrows (cb : callback) (h : CbGrows cb) : KeepsBound cb :=
  fun ptep addr st hb => (h ptep addr st).1.bound hb

theorem live_ex_two : AllManaged (fun p => k_all.find_get_pid p = true) ex_two := by
  intro i h0 h1
  have h1' : i < 2 := h1
  interval_cases i
  · exact ⟨_, rfl, rfl⟩
  · exact ⟨_, rfl, rfl⟩

theorem live_ex_five : AllManaged (fun p => k_all.find_get_pid p = true) ex_five := by
  intro i h0 h1
  have h1' : i < 5 := h1
  exact ⟨{ pid := 100 * (i + 1), mm := none }, by simp [ex_five, h0, h1'], rfl⟩

/-! ## The walks, phase by phase -/

theorem mem_walk_eq (n mode : Int) (s : State) :
    mem_walk n mode s
      = match mem_walk_ops mode with
        | none => some (0, s)
        | some (cb, d) => (mem_walk_primary cb d n s).map mem_walk_finish := by
  unfold mem_walk mem_walk_primary mem_walk_start
  cases hops : mem_walk_ops mode with
  | none => rfl
  | some cd =>
    obtain ⟨cb, d⟩ := cd
    dsimp only
    cases d with
    | true =>
      simp only [if_true]
      cases do_page_walk cb s.last_pid_dram s.last_addr_dram
        { s with n_to_find := n, n_backup := 0 } <;> rfl
    | false =>
      simp only [Bool.false_eq_true, if_false]
      cases do_page_walk cb s.last_pid_nvram s.last_addr_nvram
        { s with n_to_find := n, n_backup := 0 } <;> rfl

theorem switch_walk_eq (n : Int) (s : State) :
    switch_walk n s
      = match switch_nvram_phase n s with
        | none => none
        | some s2 =>
          if s2.n_found = 0 ∧ s2.n_switch_backup = 0 then
            some (-1, { s2 with found_addrs := set_pid_retval s2.found_addrs s2.n_found 0,
                                n_found := s2.n_found + 1 })
          else
            match switch_dram_phase n s2 with
            | none => none
            | some s7 => some (switch_balance s2.n_found s7) := by
  unfold switch_walk switch_nvram_phase switch_dram_phase switch_dram_start
  dsimp only
  cases do_page_walk pte_callback_nvram_switch s.last_pid_nvram s.last_addr_nvram
      { s with n_to_find := n, n_switch_backup := 0 } with
  | none => rfl
  | some r =>
    obtain ⟨p, s1⟩ := r
    dsimp only [Option.map_some']
    split_ifs with hc
    · rfl
    · cases do_page_walk pte_callback_mem s1.last_pid_dram s1.last_addr_dram
        { s1 with last_pid_nvram := p,
                  found_addrs := set_pid_retval s1.found_addrs s1.n_found 0,
                  n_found := s1.n_found + 1,
                  n_to_find := s1.n_found + 1 + int_min (s1.n_found + s1.n_switch_backup) n,
                  n_backup := 0 } <;> rfl

/-! ## What a walk leaves alone

A quantity `f` of the globals that no call of the policy changes, and that does not depend
on `curr_pid` or on the task table, is the same after the walk. -/

theorem walk_ptes_frame {α : Type} (f : State → α) (cb : callback)
    (hcb : ∀ ptep addr s, f (cb ptep addr s).st = f s) (start stop : Nat)
    (l : List (Nat × pte_t)) (s : State) :
    f (walk_ptes cb start stop l s).1 = f s := by
  induction l generalizing s with
  | nil => rfl
  | cons x rest ih =>
    obtain ⟨a, p⟩ := x
    simp only [walk_ptes]
    split_ifs with hr hret
    · exact hcb _ _ _
    · exact (ih _).trans (hcb _ _ _)
    · exact ih s

theorem walk_task_frame {α : Type} (f : State → α) (cb : callback)
    (hcb : ∀ ptep addr s, f (cb ptep addr s).st = f s)
    (hcur : ∀ (s : State) (c : Int), f { s with curr_pid := c } = f s)
    (htask : ∀ (s : State) (t : Int → Option task_struct), f { s with task_items := t } = f s)
    (i : Int) (start stop : Nat) (s s' : State) (h : walk_task cb i start stop s = some s') :
    f s' = f s := by
  unfold walk_task at h
  cases ht : s.task_items i with
  | none => rw [ht] at h; exact absurd h (by simp)
  | some t =>
    rw [ht] at h
    dsimp only at h
    cases hmm : t.mm with
    | none =>
      rw [hmm] at h
      simp only [Option.some.injEq] at h
      rw [← h]; exact hcur s t.pid
    | some mm =>
      rw [hmm] at h
      simp only [Option.some.injEq] at h
      rw [← h, htask]
      simp only [walk_page_range]
      rw [walk_ptes_frame f cb hcb]
      exact hcur s t.pid

theorem walk_tasks_frame {α : Type} (f : State → α) (cb : callback)
    (hcb : ∀ ptep addr s, f (cb ptep addr s).st = f s)
    (hcur : ∀ (s : State) (c : Int), f { s with curr_pid := c } = f s)
    (htask : ∀ (s : State) (t : Int → Option task_struct), f { s with task_items := t } = f s)
    (k : Nat) (i : Int) (s : State) (r : State × Option Int)
    (h : walk_tasks cb k i s = some r) : f r.1 = f s := by
  induction k generalizing i s with
  | zero =>
    simp only [walk_tasks, Option.some.injEq] at h
    rw [← h]
  | succ k ih =>
    simp only [walk_tasks] at h
    cases hw : walk_task cb i 0 MAX_ADDRESS s with
    | none => rw [hw] at h; exact absurd h (by simp)
    | some s1 =>
      rw [hw] at h
      dsimp only at h
      have e1 := walk_task_frame f cb hcb hcur htask i 0 MAX_ADDRESS s s1 hw
      split_ifs at h with hf
      · simp only [Option.some.injEq] at h
        rw [← h]; exact e1
      · exact (ih _ _ h).trans e1

theorem do_page_walk_frame {α : Type} (f : State → α) (cb : callback)
    (hcb : ∀ ptep addr s, f (cb ptep addr s).st = f s)
    (hcur : ∀ (s : State) (c : Int), f { s with curr_pid := c } = f s)
    (htask : ∀ (s : State) (t : Int → Option task_struct), f { s with task_items := t } = f s)
    (last_pid : Int) (last_addr : Nat) (s : State) (r : Int × State)
    (h : do_page_walk cb last_pid last_addr s = some r) : f r.2 = f s := by
  unfold do_page_walk at h
  cases hw1 : walk_task cb last_pid last_addr MAX_ADDRESS s with
  | none => rw [hw1] at h; exact absurd h (by simp)
  | some s1 =>
    rw [hw1] at h
    dsimp only at h
    have e1 := walk_task_frame f cb hcb hcur htask _ _ _ s s1 hw1
    split_ifs at h with hf
    · simp only [Option.some.injEq] at h
      rw [← h]; exact e1
    · cases hw2 : walk_tasks cb (s1.n_pids - (last_pid + 1)).toNat (last_pid + 1) s1 with
      | none => rw [hw2] at h; exact absurd h (by simp)
      | some r2 =>
        obtain ⟨s2, o2⟩ := r2
        rw [hw2] at h
        have e2 := walk_tasks_frame f cb hcb hcur htask _ _ s1 _ hw2
        cases o2 with
        | some idx =>
          simp only [Option.some.injEq] at h
          rw [← h]; exact e2.trans e1
        | none =>
          dsimp only at h
          cases hw3 : walk_tasks cb last_pid.toNat 0 s2 with
          | none => rw [hw3] at h; exact absurd h (by simp)
          | some r3 =>
            obtain ⟨s3, o3⟩ := r3
            rw [hw3] at h
            have e3 := walk_tasks_frame f cb hcb hcur htask _ _ s2 _ hw3
            cases o3 with
            | some idx =>
              simp only [Option.some.injEq] at h
              rw [← h]; exact (e3.trans e2).trans e1
            | none =>
              dsimp only at h
              cases hw4 : walk_task cb last_pid 0 (last_addr + 1) s3 with
              | none => rw [hw4] at h; exact absurd h (by simp)
              | some s4 =>
                rw [hw4] at h
                simp only [Option.some.injEq] at h
                have e4 := walk_task_frame f cb hcb hcur htask _ _ _ s3 s4 hw4
                rw [← h]; exact ((e4.trans e3).trans e2).trans e1

/-- The DRAM policy never touches the switch-backup buffer. -/
theorem pte_callback_mem_switch_backup (ptep : Option pte_t) (addr : Nat) (s : State) :
    ((pte_callback_mem ptep addr s).st.switch_backup_addrs,
      (pte_callback_mem ptep addr s).st.n_switch_backup)
      = (s.switch_backup_addrs, s.n_switch_backup) := by
  unfold pte_callback_mem
  by_cases h1 : s.n_found = s.n_to_find
  · rw [if_pos h1]
  · rw [if_neg h1]
    cases ptep with
    | none => rfl
    | some p =>
      dsimp only
      split_ifs <;> rfl

/-! ## The phases return -/

theorem mem_walk_primary_spec (P : Int → Prop) (cb : callback) (d : Bool) (hcb : CbGrows cb)
    (n : Int) (s : State) (hinv : Inv s) (hpos : 0 < s.n_pids) (hm : AllManaged P s) :
    ∃ s1, mem_walk_primary cb d n s = some s1 ∧ Inv s1 ∧ s1.n_to_find = n
      ∧ 0 ≤ s1.n_backup ∧ Served P s s1
      ∧ (∀ i, 0 ≤ i → i < s1.n_backup → P (s1.backup_addrs i).pid_retval)
      ∧ (s.n_found ≤ n → s1.n_found ≤ n) := by
  have hd := CursorOk_range _ _ hinv.dram hpos
  have hn := CursorOk_range _ _ hinv.nvram hpos
  have hm0 : AllManaged P (mem_walk_start n s) := hm
  have hinv0 : Inv (mem_walk_start n s) := Inv_congr s _ rfl rfl rfl rfl hinv
  unfold mem_walk_primary
  cases d with
  | true =>
    obtain ⟨r, s1, hw, g, hr0, hr1⟩ := do_page_walk_grows cb hcb P
      (mem_walk_start n s).last_pid_dram (mem_walk_start n s).last_addr_dram
      (mem_walk_start n s) hm0 hd.1 hd.2
    simp only [hw, if_true, Option.map_some']
    have hinv1 := Inv_of_Grows g hinv0
    have sv0 : Served P s s1 := Grows_of_reset P s _ s1 g rfl rfl rfl rfl
    refine ⟨_, rfl, ?_, g.n_to_find, ?_, ?_, fun i h0 h1 => g.backup_new i h0 h1,
      fun h => ?_⟩
    · exact ⟨hinv1.n_pids_nonneg, hinv1.n_pids_le, hinv1.tasks, hinv1.nodup,
        CursorOk_of_range _ _ hr0 (by rw [g.n_pids]; exact hr1), hinv1.nvram⟩
    · exact g.backup_le
    · exact ⟨sv0.n_pids, sv0.pids, sv0.found_le, sv0.found_old, sv0.found_new⟩
    · have h1 := g.bound h
      have h2 := g.n_to_find
      exact le_of_le_of_eq h1 h2
  | false =>
    obtain ⟨r, s1, hw, g, hr0, hr1⟩ := do_page_walk_grows cb hcb P
      (mem_walk_start n s).last_pid_nvram (mem_walk_start n s).last_addr_nvram
      (mem_walk_start n s) hm0 hn.1 hn.2
    simp only [hw, Bool.false_eq_true, if_false, Option.map_some']
    have hinv1 := Inv_of_Grows g hinv0
    have sv0 : Served P s s1 := Grows_of_reset P s _ s1 g rfl rfl rfl rfl
    refine ⟨_, rfl, ?_, g.n_to_find, ?_, ?_, fun i h0 h1 => g.backup_new i h0 h1,
      fun h => ?_⟩
    · exact ⟨hinv1.n_pids_nonneg, hinv1.n_pids_le, hinv1.tasks, hinv1.nodup, hinv1.dram,
        CursorOk_of_range _ _ hr0 (by rw [g.n_pids]; exact hr1)⟩
    · exact g.backup_le
    · exact ⟨sv0.n_pids, sv0.pids, sv0.found_le, sv0.found_old, sv0.found_new⟩
    · have h1 := g.bound h
      have h2 := g.n_to_find
      exact le_of_le_of_eq h1 h2

theorem switch_nvram_phase_spec (P : Int → Prop) (n : Int) (s : State) (hinv : Inv s)
    (hpos : 0 < s.n_pids) (hm : AllManaged P s) :
    ∃ s2, switch_nvram_phase n s = some s2 ∧ Inv s2 ∧ AllManaged P s2
      ∧ s2.n_to_find = n ∧ 0 ≤ s2.n_switch_backup ∧ Served P s s2
      ∧ (∀ i, 0 ≤ i → i < s2.n_switch_backup → P (s2.switch_backup_addrs i).pid_retval)
      ∧ (s.n_found ≤ n → s2.n_found ≤ n) := by
  have hn := CursorOk_range _ _ hinv.nvram hpos
  have hinv0 : Inv { s with n_to_find := n, n_switch_backup := 0 } :=
    Inv_congr s _ rfl rfl rfl rfl hinv
  obtain ⟨p, s1, hw, g, hp0, hp1⟩ := do_page_walk_grows pte_callback_nvram_switch
    CbGrows_nvram_switch P s.last_pid_nvram s.last_addr_nvram
    { s with n_to_find := n, n_switch_backup := 0 } hm hn.1 hn.2
  unfold switch_nvram_phase
  simp only [hw, Option.map_some']
  have hinv1 := Inv_of_Grows g hinv0
  have sv0 : Served P s s1 := Grows_of_reset P s _ s1 g rfl rfl rfl rfl
  have hm1 : AllManaged P s1 := AllManaged_of_Grows g hm
  refine ⟨_, rfl, ?_, hm1, g.n_to_find, g.switch_le, ?_,
    fun i h0 h1 => g.switch_new i h0 h1, fun h => le_of_le_of_eq (g.bound h) g.n_to_find⟩
  · exact ⟨hinv1.n_pids_nonneg, hinv1.n_pids_le, hinv1.tasks, hinv1.nodup, hinv1.dram,
      CursorOk_of_range _ _ hp0 (by rw [g.n_pids]; exact hp1)⟩
  · exact ⟨sv0.n_pids, sv0.pids, sv0.found_le, sv0.found_old, sv0.found_new⟩

theorem switch_dram_phase_spec (P : Int → Prop) (n : Int) (s2 : State) (hinv : Inv s2)
    (hpos : 0 < s2.n_pids) (hm : AllManaged P s2) :
    ∃ s7, switch_dram_phase n s2 = some s7 ∧ Inv s7 ∧ AllManaged P s7
      ∧ s7.n_pids = s2.n_pids
      ∧ (∀ i, (s7.task_items i).map (fun t => t.pid) = (s2.task_items i).map (fun t => t.pid))
      ∧ s2.n_found + 1 ≤ s7.n_found
      ∧ (∀ j, j < s2.n_found → s7.found_addrs j = s2.found_addrs j)
      ∧ s7.found_addrs s2.n_found = { s2.found_addrs s2.n_found with pid_retval := 0 }
      ∧ (∀ j, s2.n_found + 1 ≤ j → j < s7.n_found → P (s7.found_addrs j).pid_retval)
      ∧ 0 ≤ s7.n_backup
      ∧ (∀ i, 0 ≤ i → i < s7.n_backup → P (s7.backup_addrs i).pid_retval)
      ∧ s7.switch_backup_addrs = s2.switch_backup_addrs
      ∧ s7.n_switch_backup = s2.n_switch_backup
      ∧ (0 ≤ int_min (s2.n_found + s2.n_switch_backup) n →
          s7.n_found ≤ s2.n_found + 1 + int_min (s2.n_found + s2.n_switch_backup) n) := by
  have hd := CursorOk_range _ _ hinv.dram hpos
  have hinv5 : Inv (switch_dram_start n s2) := Inv_congr s2 _ rfl rfl rfl rfl hinv
  have hm5 : AllManaged P (switch_dram_start n s2) := hm
  obtain ⟨q, s6, hw, g, hq0, hq1⟩ := do_page_walk_grows pte_callback_mem CbGrows_mem P
    (switch_dram_start n s2).last_pid_dram (switch_dram_start n s2).last_addr_dram
    (switch_dram_start n s2) hm5 hd.1 hd.2
  have hfr := do_page_walk_frame (fun st => (st.switch_backup_addrs, st.n_switch_backup))
    pte_callback_mem pte_callback_mem_switch_backup (fun _ _ => rfl) (fun _ _ => rfl) _ _ _ _ hw
  simp only [Prod.mk.injEq] at hfr
  unfold switch_dram_phase
  simp only [hw, Option.map_some']
  have hinv6 := Inv_of_Grows g hinv5
  have hm6 : AllManaged P s6 := AllManaged_of_Grows g hm5
  refine ⟨_, rfl, ?_, hm6, g.n_pids, g.pids, g.found_le, fun j hj => ?_, ?_,
    fun j h0 h1 => g.found_new j h0 h1, g.backup_le, fun i h0 h1 => g.backup_new i h0 h1,
    hfr.1, hfr.2, fun h => ?_⟩
  · exact ⟨hinv6.n_pids_nonneg, hinv6.n_pids_le, hinv6.tasks, hinv6.nodup,
      CursorOk_of_range _ _ hq0 (by rw [g.n_pids]; exact hq1), hinv6.nvram⟩
  · have := g.found_old j (by simp only [switch_dram_start]; omega)
    dsimp only
    rw [this]
    simp only [switch_dram_start, set_pid_retval]
    rw [if_neg (by omega)]
  · have := g.found_old s2.n_found (by simp only [switch_dram_start]; omega)
    dsimp only
    rw [this]
    simp [switch_dram_start, set_pid_retval]
  · have := g.bound (by simp only [switch_dram_start]; omega)
    rw [g.n_to_find] at this
    exact this

/-! ## The exact outcome of the balancing step of `switch_walk` -/

/-- Fewer DRAM primaries than NVRAM picks, and some DRAM backups: the NVRAM side keeps its
first `min h (d + b)` records, the separator follows, then the `d` DRAM primaries and the
first `min b (h - d)` backups. -/
theorem switch_balance_promote_dram (h : Int) (s : State)
    (hn : h + 1 ≤ s.n_found) (hsep : (s.found_addrs h).pid_retval = 0)
    (hd : s.n_found - h - 1 < h) (hb : 0 < s.n_backup) :
    (switch_balance h s).1 = 0
    ∧ (switch_balance h s).2.n_found = 2 * min h (s.n_found - h - 1 + s.n_backup) + 1
    ∧ (∀ j, 0 ≤ j → j < min h (s.n_found - h - 1 + s.n_backup) →
        (switch_balance h s).2.found_addrs j = s.found_addrs j)
    ∧ ((switch_balance h s).2.found_addrs (min h (s.n_found - h - 1 + s.n_backup))).pid_retval = 0
    ∧ (∀ i, 0 ≤ i → i < s.n_found - h - 1 →
        (switch_balance h s).2.found_addrs (min h (s.n_found - h - 1 + s.n_backup) + 1 + i)
          = s.found_addrs (h + 1 + i))
    ∧ (∀ i, 0 ≤ i → i < min s.n_backup (h - (s.n_found - h - 1)) →
        (switch_balance h s).2.found_addrs
            (min h (s.n_found - h - 1 + s.n_backup) + 1 + (s.n_found - h - 1) + i)
          = s.backup_addrs i) := by
  unfold switch_balance
  dsimp only
  rw [if_neg (by omega), if_pos ⟨hd, hb⟩]
  by_cases c3 : s.n_backup < h - (s.n_found - h - 1)
  · rw [if_pos c3]
    dsimp only
    have hm : min h (s.n_found - h - 1 + s.n_backup) = s.n_found - h - 1 + s.n_backup := by omega
    have hm2 : min s.n_backup (h - (s.n_found - h - 1)) = s.n_backup := by omega
    rw [hm, hm2]
    refine ⟨rfl, ?_, fun j hj0 hj1 => ?_, ?_, fun i hi0 hi1 => ?_, fun i hi0 hi1 => ?_⟩
    · rw [for_up_push_from_snd]; omega
    · rw [for_up_push_from_fst, if_neg (by omega), for_up_copy_left _ _ (by omega),
        if_neg (by omega)]
      simp only [set_pid_retval]
      rw [if_neg (by omega)]
    · rw [for_up_push_from_fst, if_neg (by omega), for_up_copy_left _ _ (by omega),
        if_neg (by omega)]
      simp [set_pid_retval]
    · rw [for_up_push_from_fst, if_neg (by omega), for_up_copy_left _ _ (by omega),
        if_pos (by omega)]
      simp only [set_pid_retval]
      rw [if_neg (by omega)]
      congr 1; omega
    · rw [for_up_push_from_fst, if_pos (by omega)]
      congr 1; omega
  · rw [if_neg c3]
    dsimp only
    have hm : min h (s.n_found - h - 1 + s.n_backup) = h := by omega
    have hm2 : min s.n_backup (h - (s.n_found - h - 1)) = h - (s.n_found - h - 1) := by omega
    rw [hm, hm2]
    refine ⟨rfl, ?_, fun j hj0 hj1 => ?_, ?_, fun i hi0 hi1 => ?_, fun i hi0 hi1 => ?_⟩
    · rw [for_up_push_from_snd]; omega
    · rw [for_up_push_from_fst, if_neg (by omega)]
    · rw [for_up_push_from_fst, if_neg (by omega)]; exact hsep
    · rw [for_up_push_from_fst, if_neg (by omega)]
    · rw [for_up_push_from_fst, if_pos (by omega)]
      congr 1; omega

/-- More DRAM primaries than NVRAM picks, and some switch backups: the NVRAM side is its `h`
records followed by the first `min s (d - h)` switch backups, the separator follows, then the
first `h + min s (d - h)` DRAM primaries. -/
theorem switch_balance_promote_nvram (h : Int) (s : State)
    (hd : h < s.n_found - h - 1) (hs : 0 < s.n_switch_backup) :
    (switch_balance h s).1 = 0
    ∧ (switch_balance h s).2.n_found
        = 2 * (h + min s.n_switch_backup (s.n_found - h - 1 - h)) + 1
    ∧ (∀ j, 0 ≤ j → j < h → (switch_balance h s).2.found_addrs j = s.found_addrs j)
    ∧ (∀ i, 0 ≤ i → i < min s.n_switch_backup (s.n_found - h - 1 - h) →
        (switch_balance h s).2.found_addrs (h + i) = s.switch_backup_addrs i)
    ∧ ((switch_balance h s).2.found_addrs
        (h + min s.n_switch_backup (s.n_found - h - 1 - h))).pid_retval = 0
    ∧ (∀ i, 0 ≤ i → i < h + min s.n_switch_backup (s.n_found - h - 1 - h) →
        (switch_balance h s).2.found_addrs
            (h + min s.n_switch_backup (s.n_found - h - 1 - h) + 1 + i)
          = s.found_addrs (h + 1 + i)) := by
  unfold switch_balance
  dsimp only
  rw [if_neg (by omega), if_neg (by omega), if_pos ⟨hd, hs⟩]
  dsimp only
  have hta : int_min s.n_switch_backup (s.n_found - h - 1 - h)
      = min s.n_switch_backup (s.n_found - h - 1 - h) := by
    unfold int_min; split_ifs <;> omega
  rw [hta]
  have hb : 1 ≤ min s.n_switch_backup (s.n_found - h - 1 - h)
      ∧ min s.n_switch_backup (s.n_found - h - 1 - h) ≤ s.n_switch_backup
      ∧ min s.n_switch_backup (s.n_found - h - 1 - h) ≤ s.n_found - h - 1 - h := by omega
  generalize min s.n_switch_backup (s.n_found - h - 1 - h) = ta at hb ⊢
  refine ⟨rfl, ?_, fun j hj0 hj1 => ?_, fun i hi0 hi1 => ?_, ?_, fun i hi0 hi1 => ?_⟩
  · rw [for_up_push_from_snd]; omega
  · rw [for_up_push_from_snd]
    simp only [set_pid_retval]
    rw [if_neg (by omega), for_up_push_from_fst, if_neg (by omega),
      for_down_copy_right _ _ (by omega), if_neg (by omega)]
  · rw [for_up_push_from_snd]
    simp only [set_pid_retval]
    rw [if_neg (by omega), for_up_push_from_fst, if_pos (by omega)]
    congr 1; omega
  · rw [for_up_push_from_snd]
    simp only [set_pid_retval]
    rw [if_pos (by omega)]
  · rw [for_up_push_from_snd]
    simp only [set_pid_retval]
    rw [if_neg (by omega), for_up_push_from_fst, if_neg (by omega),
      for_down_copy_right _ _ (by omega), if_pos (by omega)]
    congr 1; omega

/-- The balanced response is never longer than the longer of the two sides allows. -/
theorem switch_balance_bound (h : Int) (s : State) (h0 : 0 ≤ h) (hn : h + 1 ≤ s.n_found) :
    (switch_balance h s).2.n_found ≤ 2 * max h (s.n_found - h - 1) + 1 := by
  unfold switch_balance
  dsimp only
  by_cases c1 : s.n_found - h - 1 = h
  · rw [if_pos c1]; dsimp only; omega
  · rw [if_neg c1]
    by_cases c2 : s.n_found - h - 1 < h ∧ s.n_backup > 0
    · rw [if_pos c2]
      by_cases c3 : s.n_backup < h - (s.n_found - h - 1)
      · rw [if_pos c3]; dsimp only; rw [for_up_push_from_snd]; omega
      · rw [if_neg c3]; dsimp only; rw [for_up_push_from_snd]; omega
    · rw [if_neg c2]
      by_cases c4 : h < s.n_found - h - 1 ∧ s.n_switch_backup > 0
      · rw [if_pos c4]
        dsimp only
        have hta : int_min s.n_switch_backup (s.n_found - h - 1 - h) ≤ s.n_found - h - 1 - h
            ∧ 0 ≤ int_min s.n_switch_backup (s.n_found - h - 1 - h) := by
          unfold int_min; split_ifs <;> omega
        rw [for_up_push_from_snd]; omega
      · rw [if_neg c4]; dsimp only; omega

/-! ## The exact outcome of the promotion at the end of `mem_walk` -/

theorem mem_walk_finish_exact (s1 : State) (hb : 0 ≤ s1.n_backup) :
    (s1.n_found < s1.n_to_find →
      (mem_walk_finish s1).2.n_found
          = s1.n_found + min (s1.n_to_find - s1.n_found) s1.n_backup
        ∧ (∀ j, j < s1.n_found → (mem_walk_finish s1).2.found_addrs j = s1.found_addrs j)
        ∧ (∀ i, 0 ≤ i → i < min (s1.n_to_find - s1.n_found) s1.n_backup →
            (mem_walk_finish s1).2.found_addrs (s1.n_found + i) = s1.backup_addrs i))
    ∧ (s1.n_to_find ≤ s1.n_found → mem_walk_finish s1 = (0, s1)) := by
  unfold mem_walk_finish
  refine ⟨fun hlt => ?_, fun hge => by rw [if_pos hge]⟩
  rw [if_neg (by omega)]
  by_cases h2 : s1.n_backup > 0
  · rw [if_pos h2]
    obtain ⟨e1, e2, _⟩ := promote_backup_spec (s1.n_to_find - s1.n_found) s1.n_backup.toNat 0 s1
    dsimp only
    refine ⟨?_, fun j hj => ?_, fun i hi0 hi1 => ?_⟩
    · split_ifs <;> (dsimp only; rw [e1]; omega)
    · split_ifs <;> (dsimp only; rw [e2 j, if_neg (by omega)])
    · split_ifs <;> (dsimp only; rw [e2, if_pos (by omega)]; congr 1; omega)
  · rw [if_neg h2]
    dsimp only
    exact ⟨by omega, fun _ _ => rfl, fun i hi0 hi1 => by omega⟩

/-! ## Size and shape of a response -/

theorem switch_walk_bound (n : Int) (s : State) (hinv : Inv s) (hpos : 0 < s.n_pids)
    (hnf : s.n_found = 0) (hn : 0 ≤ n) (r : Int) (s' : State)
    (h : switch_walk n s = some (r, s')) : s'.n_found ≤ 2 * n + 1 := by
  have hm : AllManaged (fun _ => True) s := AllManaged_weaken hinv.tasks (fun _ _ => trivial)
  obtain ⟨s2, hw1, hinv2, hm2, _, hsb0, sv, _, hb2⟩ :=
    switch_nvram_phase_spec (fun _ => True) n s hinv hpos hm
  obtain ⟨s7, hw2, _, _, _, _, hle, _, _, _, _, _, _, _, hb7⟩ :=
    switch_dram_phase_spec (fun _ => True) n s2 hinv2 (by rw [sv.n_pids]; exact hpos) hm2
  have hh0 : 0 ≤ s2.n_found := by have := sv.found_le; omega
  have hhn : s2.n_found ≤ n := hb2 (by omega)
  have hmin : 0 ≤ int_min (s2.n_found + s2.n_switch_backup) n
      ∧ int_min (s2.n_found + s2.n_switch_backup) n ≤ n := by
    unfold int_min; split_ifs <;> omega
  have hd := hb7 hmin.1
  rw [switch_walk_eq, hw1] at h
  dsimp only at h
  by_cases c0 : s2.n_found = 0 ∧ s2.n_switch_backup = 0
  · rw [if_pos c0] at h
    simp only [Option.some.injEq, Prod.mk.injEq] at h
    rw [← h.2]
    dsimp only
    omega
  · rw [if_neg c0, hw2] at h
    simp only [Option.some.injEq] at h
    have hbnd := switch_balance_bound s2.n_found s7 hh0 hle
    rw [h] at hbnd
    dsimp only at hbnd
    omega

theorem dispatch_find_shape (k : Kernel) (n mode : Int) (s0 : State) (hinv : Inv s0)
    (hnf : s0.n_found = 0) (r : Int) (s1 : State)
    (h : dispatch_req k (some { op_code := FIND_OP, pid_n := n, mode := mode }) s0
      = some (r, s1)) :
    (r = 0 ∨ r = -1) ∧ 0 ≤ s1.n_pids
    ∧ ∃ c, 0 ≤ c ∧ c ≤ s1.n_found
      ∧ (∀ j, 0 ≤ j → j < c → 0 < (s1.found_addrs j).pid_retval)
      ∧ (mode ≠ SWITCH_MODE → c = s1.n_found)
      ∧ (mode = SWITCH_MODE → 0 < s1.n_pids →
          s1.n_found = 2 * c + 1 ∧ (s1.found_addrs c).pid_retval = 0)
      ∧ (mode = SWITCH_MODE → s1.n_pids = 0 → c = 0 ∧ s1.n_found = 0)
      ∧ (0 ≤ n → s1.n_found ≤ MAX_N_FIND) := by
  have hrinv := Inv_refresh_pids k s0 hinv
  have hrnf : (refresh_pids k s0).n_found = 0 := by
    rw [← hnf]; exact (refresh_pids_frame k s0).2.2.2.2.2.1
  have hmax : (0 : Int) ≤ MAX_N_FIND := by decide
  have base : ∀ (s1 : State), Inv s1 → s1.n_found = 0 → (mode = SWITCH_MODE → s1.n_pids = 0) →
      0 ≤ s1.n_pids
      ∧ ∃ c, 0 ≤ c ∧ c ≤ s1.n_found
        ∧ (∀ j, 0 ≤ j → j < c → 0 < (s1.found_addrs j).pid_retval)
        ∧ (mode ≠ SWITCH_MODE → c = s1.n_found)
        ∧ (mode = SWITCH_MODE → 0 < s1.n_pids →
            s1.n_found = 2 * c + 1 ∧ (s1.found_addrs c).pid_retval = 0)
        ∧ (mode = SWITCH_MODE → s1.n_pids = 0 → c = 0 ∧ s1.n_found = 0)
        ∧ (0 ≤ n → s1.n_found ≤ MAX_N_FIND) := by
    intro s1 hi h0 hsw
    refine ⟨hi.n_pids_nonneg, 0, le_refl 0, by omega, fun j a b => by omega, fun _ => h0.symm,
      fun hm hp => ?_, fun _ _ => ⟨rfl, h0⟩, fun _ => by omega⟩
    have := hsw hm
    omega
  simp only [dispatch_req, if_true] at h
  by_cases hp : (refresh_pids k s0).n_pids > 0
  · rw [if_pos hp] at h
    by_cases m1 : mode = DRAM_MODE ∨ mode = NVRAM_MODE ∨ mode = NVRAM_WRITE_MODE
        ∨ mode = NVRAM_INTENSIVE_MODE
    · rw [if_pos m1] at h
      have hns : mode ≠ SWITCH_MODE := by
        rcases m1 with m | m | m | m <;> (rw [m]; decide)
      have hmin : int_min MAX_N_FIND n ≤ MAX_N_FIND ∧ (0 ≤ n → 0 ≤ int_min MAX_N_FIND n) := by
        unfold int_min; split_ifs <;> omega
      obtain ⟨r', s', hw, hr, hi, sv, hb, _⟩ := mem_walk_spec (fun p => 0 < p)
        (int_min MAX_N_FIND n) mode _ m1 hrinv hp hrinv.tasks
      rw [hw] at h
      simp only [Option.some.injEq, Prod.mk.injEq] at h
      obtain ⟨rfl, rfl⟩ := h
      have hle := sv.found_le
      refine ⟨hr, hi.n_pids_nonneg, s'.n_found, by omega, le_refl _,
        fun j hj0 hj1 => sv.found_new j (by omega) hj1, fun _ => rfl,
        fun hm => absurd hm hns, fun hm => absurd hm hns, fun h0 => ?_⟩
      have := hb (by have := hmin.2 h0; omega)
      omega
    · rw [if_neg m1] at h
      by_cases m2 : mode = NVRAM_CLEAR
      · rw [if_pos m2] at h
        unfold clear_walk at h
        cases hct : clear_tasks (refresh_pids k s0).n_pids.toNat 0 (refresh_pids k s0) with
        | none => rw [hct] at h; exact absurd h (by simp)
        | some s2 =>
          rw [hct] at h
          simp only [Option.map_some', Option.some.injEq, Prod.mk.injEq] at h
          obtain ⟨rfl, rfl⟩ := h
          obtain ⟨g, e1, _⟩ := clear_tasks_grows (fun _ => True) _ _ _ _ hct
          exact ⟨Or.inr rfl, base _ (Inv_of_Grows g hrinv) (by rw [e1]; exact hrnf)
            (fun hm => absurd (hm.symm.trans m2) (by decide))⟩
      · rw [if_neg m2] at h
        by_cases m3 : mode = SWITCH_MODE
        · rw [if_pos m3] at h
          have hmin : int_min MAX_N_SWITCH n ≤ MAX_N_SWITCH
              ∧ (0 ≤ n → 0 ≤ int_min MAX_N_SWITCH n) := by
            have : (0 : Int) ≤ MAX_N_SWITCH := by decide
            unfold int_min; split_ifs <;> omega
          have hsz : 2 * MAX_N_SWITCH + 1 = MAX_N_FIND := by decide
          obtain ⟨r', s', hw, hi, hnp, _, h', hh0, hh1, hh2, hh3, hr⟩ :=
            switch_walk_spec (fun p => 0 < p) (int_min MAX_N_SWITCH n) _ hrinv hp
              hrinv.tasks hrnf
          have hbd := fun h0 : 0 ≤ n => switch_walk_bound (int_min MAX_N_SWITCH n) _ hrinv hp
            hrnf (hmin.2 h0) r' s' hw
          rw [hw] at h
          simp only [Option.some.injEq, Prod.mk.injEq] at h
          obtain ⟨rfl, rfl⟩ := h
          refine ⟨?_, hi.n_pids_nonneg, h', hh0, by omega,
            fun j hj0 hj1 => hh3 j hj0 (by omega) (by omega), fun hm => absurd m3 hm,
            fun _ _ => ⟨hh1, hh2⟩, fun _ hz => ?_, fun h0 => ?_⟩
          · rcases hr with hr | hr
            · exact Or.inl hr
            · exact Or.inr hr.1
          · exfalso; omega
          · have := hbd h0
            omega
        · rw [if_neg m3] at h
          simp only [Option.some.injEq, Prod.mk.injEq] at h
          obtain ⟨rfl, rfl⟩ := h
          exact ⟨Or.inr rfl, base _ hrinv hrnf (fun hm => absurd hm m3)⟩
  · rw [if_neg hp] at h
    simp only [Option.some.injEq, Prod.mk.injEq] at h
    obtain ⟨rfl, rfl⟩ := h
    exact ⟨Or.inr rfl, base _ hrinv hrnf (fun _ => by have := hrinv.n_pids_nonneg; omega)⟩

theorem Inv_ex_hot : Inv ex_hot := by
  refine ⟨by decide, by decide, ?_, ?_, ⟨by decide, Or.inl (by decide)⟩,
    ⟨by decide, Or.inl (by decide)⟩⟩
  · intro i h0 h1
    have h1' : i < 1 := h1
    interval_cases i
    exact ⟨_, rfl, by decide⟩
  · intro i j ti tj h0 h1 h2 hi hj
    have h2' : j < 1 := h2
    omega

theorem Inv_ex_two : Inv ex_two := by
  refine ⟨by decide, by decide, ?_, ?_, ⟨by decide, Or.inl (by decide)⟩,
    ⟨by decide, Or.inl (by decide)⟩⟩
  · intro i h0 h1
    have h1' : i < 2 := h1
    interval_cases i
    · exact ⟨_, rfl, by decide⟩
    · exact ⟨_, rfl, by decide⟩
  · intro i j ti tj h0 h1 h2 hi hj
    have h2' : j < 2 := h2
    have h3 : i = 0 := by omega
    have h4 : j = 1 := by omega
    subst h3 h4
    simp only [ex_two, ex_three, ex_tasks] at hi hj
    simp at hi hj
    subst hi hj
    decide

/-- The fields of the state after the final statement of `process_req`. -/
theorem put_retval_spec (r : Int) (s : State) :
    (put_retval r s).n_found = s.n_found + 1
    ∧ ((put_retval r s).found_addrs s.n_found).pid_retval = r
    ∧ (∀ j, j ≠ s.n_found → (put_retval r s).found_addrs j = s.found_addrs j)
    ∧ (put_retval r s).n_pids = s.n_pids := by
  refine ⟨rfl, by simp [put_retval, set_pid_retval], fun j hj => ?_, rfl⟩
  simp only [put_retval, set_pid_retval]
  rw [if_neg hj]

/-! ## The packets of a response -/

theorem records_length (found : Int → addr_info_t) (a : Int) (len : Nat) :
    (records found a len).length = len := by
  simp [records]

theorem records_append (found : Int → addr_info_t) (a : Int) (m n : Nat) :
    records found a (m + n) = records found a m ++ records found (a + m) n := by
  simp only [records, List.range_add, List.map_append, List.map_map]
  congr 1
  apply List.map_congr_left
  intro j _
  simp only [Function.comp, Int.ofNat_eq_coe]
  congr 1
  push_cast
  omega

theorem response_eq_records (s : State) : response s = records s.found_addrs 0 s.n_found.toNat := by
  simp only [response, records]
  apply List.map_congr_left
  intro j _
  congr 1
  omega

theorem memcpy_records_full (found : Int → addr_info_t) (a : Int) :
    memcpy_records found a MAX_PAYLOAD = records found a 256 := rfl

theorem memcpy_records_rem (found : Int → addr_info_t) (a e : Int) (he : 0 ≤ e) :
    memcpy_records found a (e * sizeof_addr_info_t) = records found a e.toNat := by
  unfold memcpy_records
  have h16 : sizeof_addr_info_t = 16 := rfl
  rw [h16, Int.tdiv_eq_ediv (by omega) (by omega)]
  congr 2
  omega

theorem multi_packets_length (found : Int → addr_info_t) (c : Nat) (i : Int) :
    (multi_packets found c i).length = c := by
  induction c generalizing i with
  | zero => rfl
  | succ c ih => simp [multi_packets, ih]

theorem multi_packets_getElem? (found : Int → addr_info_t) (c : Nat) (i : Int) (j : Nat)
    (hj : j < c) :
    (multi_packets found c i)[j]?
      = some { nlmsg_type := 0, nlmsg_flags := NLM_F_MULTI,
               payload_len := MAX_N_PER_PACKET * sizeof_addr_info_t,
               data := records found ((i + j) * MAX_N_PER_PACKET) 256 } := by
  induction c generalizing i j with
  | zero => omega
  | succ c ih =>
    cases j with
    | zero =>
      simp only [multi_packets, List.getElem?_cons_zero, memcpy_records_full]
      simp
    | succ j =>
      simp only [multi_packets, List.getElem?_cons_succ]
      rw [ih (i + 1) j (by omega)]
      congr 3
      push_cast
      ring

theorem multi_packets_flatten (found : Int → addr_info_t) (c : Nat) (i : Int) :
    ((multi_packets found c i).map (fun m => m.data)).flatten
      = records found (i * MAX_N_PER_PACKET) (c * 256) := by
  induction c generalizing i with
  | zero => simp [multi_packets, records]
  | succ c ih =>
    simp only [multi_packets, List.map_cons, List.flatten_cons, ih, memcpy_records_full]
    have h : (c + 1) * 256 = 256 + c * 256 := by omega
    rw [h, records_append]
    congr 2
    have : MAX_N_PER_PACKET = 256 := rfl
    rw [this]
    push_cast
    ring

/-- The packet arithmetic of `placement_nl_process_msg` for a positive number of records. -/
theorem packet_arith (k : Int) (hk : 1 ≤ k) :
    required_packets k = (k + 255) / 256
    ∧ required_packets k - 1 = (k - 1) / 256
    ∧ last_packet_entries k = k - 256 * ((k - 1) / 256)
    ∧ 1 ≤ last_packet_entries k ∧ last_packet_entries k ≤ 256 := by
  have hM : MAX_N_PER_PACKET = 256 := rfl
  unfold required_packets last_packet_entries
  dsimp only
  rw [hM, Int.tdiv_eq_ediv (by omega) (by omega), Int.tmod_eq_emod (by omega) (by omega)]
  refine ⟨?_, ?_, ?_, ?_, ?_⟩ <;> split_ifs <;> omega

/-- The number of records before the terminator, for any request: none for BIND, UNBIND and
an unknown opcode, at most `MAX_N_FIND` for a FIND with a non-negative count. -/
theorem dispatch_req_size (k : Kernel) (req : req_t) (s0 : State) (hinv : Inv s0)
    (hnf : s0.n_found = 0) (hn : req.op_code = FIND_OP → 0 ≤ req.pid_n) (r : Int) (s1 : State)
    (h : dispatch_req k (some req) s0 = some (r, s1)) :
    0 ≤ s1.n_found ∧ s1.n_found ≤ MAX_N_FIND
    ∧ (req.op_code = FIND_OP → req.mode = SWITCH_MODE → s1.n_found ≤ 2 * MAX_N_SWITCH + 1) := by
  have hmax : (0 : Int) ≤ MAX_N_FIND := by decide
  have hsz : 2 * MAX_N_SWITCH + 1 = MAX_N_FIND := by decide
  have hrnf : (refresh_pids k s0).n_found = 0 := by
    rw [← hnf]; exact (refresh_pids_frame k s0).2.2.2.2.2.1
  obtain ⟨op, n, mode⟩ := req
  dsimp only at hn ⊢
  by_cases o1 : op = FIND_OP
  · subst o1
    obtain ⟨_, _, c, hc0, hc1, _, _, _, _, hb⟩ := dispatch_find_shape k n mode s0 hinv hnf r s1 h
    have := hb (hn rfl)
    exact ⟨by omega, this, fun _ _ => by omega⟩
  · have hz : s1.n_found = 0 := by
      simp only [dispatch_req, if_neg o1] at h
      by_cases o2 : op = BIND_OP
      · rw [if_pos o2] at h
        simp only [Option.some.injEq] at h
        obtain ⟨_, _, _, d⟩ := bind_pid_spec (fun _ => True) k n _ (Inv_refresh_pids k s0 hinv)
          (AllManaged_weaken (Inv_refresh_pids k s0 hinv).tasks (fun _ _ => trivial)) trivial
        rw [h] at d
        dsimp only at d
        rw [d]
        exact hrnf
      · rw [if_neg o2] at h
        by_cases o3 : op = UNBIND_OP
        · rw [if_pos o3] at h
          simp only [Option.some.injEq, Prod.mk.injEq] at h
          obtain ⟨_, _, _, _, e⟩ := unbind_pid_spec (fun _ => True) n s0 hinv
            (AllManaged_weaken hinv.tasks (fun _ _ => trivial))
          rw [← h.2, (refresh_pids_frame k _).2.2.2.2.2.1, e, hnf]
        · rw [if_neg o3] at h
          simp only [Option.some.injEq, Prod.mk.injEq] at h
          rw [← h.2]; exact hnf
    exact ⟨by omega, by omega, fun ho => absurd ho o1⟩

/-! ## Page tables and records through a walk -/

theorem PtesRel_refl (Q : pte_t → pte_t → Prop) (hr : ∀ p, Q p p) (l : List (Nat × pte_t)) :
    PtesRel Q l l := by
  induction l with
  | nil => exact List.Forall₂.nil
  | cons x rest ih => exact List.Forall₂.cons ⟨rfl, hr _⟩ ih

theorem PtesRel_trans (Q : pte_t → pte_t → Prop) (ht : ∀ p q r, Q p q → Q q r → Q p r)
    {a b c : List (Nat × pte_t)} (h1 : PtesRel Q a b) (h2 : PtesRel Q b c) : PtesRel Q a c := by
  induction h1 generalizing c with
  | nil => cases h2; exact List.Forall₂.nil
  | cons hxy _ ih =>
    cases h2 with
    | cons hyz h2t =>
      exact List.Forall₂.cons ⟨hxy.1.trans hyz.1, ht _ _ _ hxy.2 hyz.2⟩ (ih h2t)

theorem TaskRel_refl (Q : pte_t → pte_t → Prop) (hr : ∀ p, Q p p) (o : Option task_struct) :
    TaskRel Q o o := by
  cases o with
  | none => trivial
  | some t =>
    refine ⟨rfl, ?_⟩
    cases hm : t.mm with
    | none => trivial
    | some m => exact PtesRel_refl Q hr _

theorem TaskRel_trans (Q : pte_t → pte_t → Prop) (ht : ∀ p q r, Q p q → Q q r → Q p r)
    {a b c : Option task_struct} (h1 : TaskRel Q a b) (h2 : TaskRel Q b c) : TaskRel Q a c := by
  cases a with
  | none =>
    cases b with
    | none => exact h2
    | some tb => exact absurd h1 (by simp [TaskRel])
  | some ta =>
    cases b with
    | none => exact absurd h1 (by simp [TaskRel])
    | some tb =>
      cases c with
      | none => exact absurd h2 (by simp [TaskRel])
      | some tc =>
        obtain ⟨p1, m1⟩ := h1
        obtain ⟨p2, m2⟩ := h2
        refine ⟨p1.trans p2, ?_⟩
        cases ha : ta.mm with
        | none =>
          rw [ha] at m1
          cases hb : tb.mm with
          | none =>
            rw [hb] at m2
            cases hc : tc.mm with
            | none => trivial
            | some mc => rw [hc] at m2; exact absurd m2 (by simp [MmRel])
          | some mb => rw [hb] at m1; exact absurd m1 (by simp [MmRel])
        | some ma =>
          rw [ha] at m1
          cases hb : tb.mm with
          | none => rw [hb] at m1; exact absurd m1 (by simp [MmRel])
          | some mb =>
            rw [hb] at m1 m2
            cases hc : tc.mm with
            | none => rw [hc] at m2; exact absurd m2 (by simp [MmRel])
            | some mc =>
              rw [hc] at m2
              exact PtesRel_trans Q ht m1 m2

theorem TablesRel_refl (Q : pte_t → pte_t → Prop) (hr : ∀ p, Q p p) (s : State) :
    TablesRel Q s s := fun _ => TaskRel_refl Q hr _

theorem TablesRel_trans (Q : pte_t → pte_t → Prop) (ht : ∀ p q r, Q p q → Q q r → Q p r)
    {a b c : State} (h1 : TablesRel Q a b) (h2 : TablesRel Q b c) : TablesRel Q a c :=
  fun i => TaskRel_trans Q ht (h1 i) (h2 i)

theorem Walked_refl (Rf Rb : addr_info_t → Prop) (s : State) : Walked Rf Rb s s :=
  ⟨rfl, rfl, le_refl _, fun _ _ => rfl, fun _ _ => rfl, fun j a b => by omega,
   le_refl _, fun _ _ => rfl, fun _ _ => rfl, fun j a b => by omega⟩

theorem Walked_trans {Rf Rb : addr_info_t → Prop} {a b c : State}
    (h1 : Walked Rf Rb a b) (h2 : Walked Rf Rb b c) : Walked Rf Rb a c := by
  refine ⟨h2.n_pids.trans h1.n_pids, h2.n_to_find.trans h1.n_to_find,
    le_trans h1.found_le h2.found_le, ?_, ?_, ?_, le_trans h1.backup_le h2.backup_le, ?_, ?_, ?_⟩
  · intro j hj
    rw [h2.found_old j (lt_of_lt_of_le hj h1.found_le), h1.found_old j hj]
  · intro j hj
    rw [h2.found_above j hj, h1.found_above j (le_trans h2.found_le hj)]
  · intro j hj1 hj2
    by_cases hlt : j < b.n_found
    · rw [h2.found_old j hlt]; exact h1.found_new j hj1 hlt
    · exact h2.found_new j (by omega) hj2
  · intro j hj
    rw [h2.backup_old j (lt_of_lt_of_le hj h1.backup_le), h1.backup_old j hj]
  · intro j hj
    rw [h2.backup_above j hj, h1.backup_above j (le_trans h2.backup_le hj)]
  · intro j hj1 hj2
    by_cases hlt : j < b.n_backup
    · rw [h2.backup_old j hlt]; exact h1.backup_new j hj1 hlt
    · exact h2.backup_new j (by omega) hj2

theorem Walked_weaken {Rf Rb Rf1 Rb1 : addr_info_t → Prop} {a b : State}
    (h : Walked Rf Rb a b) (hf : ∀ r, Rf r → Rf1 r) (hb : ∀ r, Rb r → Rb1 r) :
    Walked Rf1 Rb1 a b :=
  ⟨h.n_pids, h.n_to_find, h.found_le, h.found_old, h.found_above,
   fun j a b => hf _ (h.found_new j a b), h.backup_le, h.backup_old, h.backup_above,
   fun j a b => hb _ (h.backup_new j a b)⟩

/-- A step that leaves both buffers, their counters, `n_pids` and the target alone. -/
theorem Walked_same (Rf Rb : addr_info_t → Prop) (s s' : State)
    (h1 : s'.n_pids = s.n_pids) (h2 : s'.n_to_find = s.n_to_find)
    (h3 : s'.found_addrs = s.found_addrs) (h4 : s'.n_found = s.n_found)
    (h5 : s'.backup_addrs = s.backup_addrs) (h6 : s'.n_backup = s.n_backup) :
    Walked Rf Rb s s' :=
  ⟨h1, h2, by omega, fun _ _ => by rw [h3], fun _ _ => by rw [h3], fun j a b => by omega,
   by omega, fun _ _ => by rw [h5], fun _ _ => by rw [h5], fun j a b => by omega⟩

/-- One call of a policy, as a stretch of the walk. -/
theorem Walked_of_CbStep {Q : pte_t → pte_t → Prop} {Ff Fb : pte_t → Prop} {cb : callback}
    (hcb : CbStep Q Ff Fb cb) (Rf Rb : addr_info_t → Prop) (q : pte_t) (a : Nat) (s : State)
    (hf : Ff q → Rf { addr := a, pid_retval := s.curr_pid })
    (hb : Fb q → Rb { addr := a, pid_retval := s.curr_pid }) :
    Walked Rf Rb s (cb (some q) a s).st := by
  obtain ⟨_, _, c3, c4, _, c6, c7⟩ := hcb q a s
  refine ⟨c3, c4, ?_, ?_, ?_, ?_, ?_, ?_, ?_, ?_⟩
  · rcases c6 with c | c <;> omega
  · intro j hj
    rcases c6 with c | c
    · rw [c.2]
    · rw [c.2.2]; simp only [arr_set]; rw [if_neg (by omega)]
  · intro j hj
    rcases c6 with c | c
    · rw [c.2]
    · rw [c.2.2]; simp only [arr_set]; rw [if_neg (by omega)]
  · intro j hj1 hj2
    rcases c6 with c | c
    · omega
    · rw [c.2.2]; simp only [arr_set]; rw [if_pos (by omega)]; exact hf c.1
  · rcases c7 with c | c <;> omega
  · intro j hj
    rcases c7 with c | c
    · rw [c.2]
    · rw [c.2.2]; simp only [arr_set]; rw [if_neg (by omega)]
  · intro j hj
    rcases c7 with c | c
    · rw [c.2]
    · rw [c.2.2]; simp only [arr_set]; rw [if_neg (by omega)]
  · intro j hj1 hj2
    rcases c7 with c | c
    · omega
    · rw [c.2.2]; simp only [arr_set]; rw [if_pos (by omega)]; exact hb c.1

/-! ## The walk, with the page tables it reads -/

theorem walk_ptes_walked (Q : pte_t → pte_t → Prop) (ht : ∀ p q r, Q p q → Q q r → Q p r)
    (Ff Fb Gf Gb : pte_t → Prop) (cb : callback) (hcb : CbStep Q Ff Fb cb)
    (hGf : ∀ p q, Q p q → Ff q → Gf p) (hGb : ∀ p q, Q p q → Fb q → Gb p)
    (L0 : List (Nat × pte_t)) (start stop : Nat) (l0 l : List (Nat × pte_t))
    (hrel : PtesRel Q l0 l) (hsub : ∀ x, x ∈ l0 → x ∈ L0) (s : State) :
    PtesRel Q l0 (walk_ptes cb start stop l s).2
    ∧ Walked (fun r => r.pid_retval = s.curr_pid ∧ ∃ p, (r.addr, p) ∈ L0 ∧ Gf p)
        (fun r => r.pid_retval = s.curr_pid ∧ ∃ p, (r.addr, p) ∈ L0 ∧ Gb p)
        s (walk_ptes cb start stop l s).1
    ∧ (walk_ptes cb start stop l s).1.curr_pid = s.curr_pid
    ∧ (walk_ptes cb start stop l s).1.task_items = s.task_items := by
  induction hrel generalizing s with
  | nil => exact ⟨List.Forall₂.nil, Walked_refl _ _ _, rfl, rfl⟩
  | @cons x y l0t lt hxy hrest ih =>
    obtain ⟨a0, p⟩ := x
    obtain ⟨a, q⟩ := y
    obtain ⟨ha, hq⟩ := hxy
    dsimp only at ha hq
    subst ha
    have hmem : (a0, p) ∈ L0 := hsub _ (List.mem_cons_self _ _)
    have hsubt : ∀ x, x ∈ l0t → x ∈ L0 := fun x hx => hsub x (List.mem_cons_of_mem _ hx)
    obtain ⟨c1, c2, _, _, c5, _, _⟩ := hcb q a0 s
    have hstep := Walked_of_CbStep hcb
      (fun r => r.pid_retval = s.curr_pid ∧ ∃ p, (r.addr, p) ∈ L0 ∧ Gf p)
      (fun r => r.pid_retval = s.curr_pid ∧ ∃ p, (r.addr, p) ∈ L0 ∧ Gb p) q a0 s
      (fun hf => ⟨rfl, p, hmem, hGf p q hq hf⟩) (fun hb => ⟨rfl, p, hmem, hGb p q hq hb⟩)
    simp only [walk_ptes]
    split_ifs with hr hret
    · exact ⟨List.Forall₂.cons ⟨rfl, ht _ _ _ hq c5⟩ hrest, hstep, c1, c2⟩
    · obtain ⟨i1, i2, i3, i4⟩ := ih hsubt (cb (some q) a0 s).st
      rw [c1] at i2
      exact ⟨List.Forall₂.cons ⟨rfl, ht _ _ _ hq c5⟩ i1, Walked_trans hstep i2,
        i3.trans c1, i4.trans c2⟩
    · obtain ⟨i1, i2, i3, i4⟩ := ih hsubt s
      exact ⟨List.Forall₂.cons ⟨rfl, hq⟩ i1, i2, i3, i4⟩

/-- One block of `do_page_walk` on a task table related to that of the state `s0` the walk
started in: the block returns, the tables stay related, and the appended records name pages
of `s0`. -/
theorem walk_task_walked (Q : pte_t → pte_t → Prop) (ht : ∀ p q r, Q p q → Q q r → Q p r)
    (Ff Fb Gf Gb : pte_t → Prop) (cb : callback) (hcb : CbStep Q Ff Fb cb)
    (hGf : ∀ p q, Q p q → Ff q → Gf p) (hGb : ∀ p q, Q p q → Fb q → Gb p)
    (s0 s : State) (hrel : TablesRel Q s0 s) (i : Int) (start stop : Nat)
    (hi0 : 0 ≤ i) (hi1 : i < s0.n_pids) (t : task_struct) (hti : s.task_items i = some t) :
    ∃ s', walk_task cb i start stop s = some s' ∧ TablesRel Q s0 s'
      ∧ Walked (RecOf Gf s0) (RecOf Gb s0) s s' := by
  have hri := hrel i
  rw [hti] at hri
  cases ht0 : s0.task_items i with
  | none => rw [ht0] at hri; exact absurd hri (by simp [TaskRel])
  | some t0 =>
    rw [ht0] at hri
    obtain ⟨hpid, hmm⟩ := hri
    unfold walk_task
    rw [hti]
    dsimp only
    cases hm : t.mm with
    | none =>
      dsimp only
      exact ⟨_, rfl, hrel, Walked_same _ _ _ _ rfl rfl rfl rfl rfl rfl⟩
    | some mm =>
      rw [hm] at hmm
      cases hm0 : t0.mm with
      | none => rw [hm0] at hmm; exact absurd hmm (by simp [MmRel])
      | some mm0 =>
        rw [hm0] at hmm
        dsimp only
        obtain ⟨w1, w2, _, w4⟩ := walk_ptes_walked Q ht Ff Fb Gf Gb cb hcb hGf hGb mm0.ptes
          start stop mm0.ptes mm.ptes hmm (fun _ h => h) { s with curr_pid := t.pid }
        refine ⟨_, rfl, ?_, ?_⟩
        · intro j
          simp only [walk_page_range, arr_set]
          split_ifs with hj
          · subst hj
            rw [ht0]
            refine ⟨hpid, ?_⟩
            rw [hm0]
            exact w1
          · rw [w4]; exact hrel j
        · have g0 : Walked (RecOf Gf s0) (RecOf Gb s0) s { s with curr_pid := t.pid } :=
            Walked_same _ _ _ _ rfl rfl rfl rfl rfl rfl
          have g1 : Walked (RecOf Gf s0) (RecOf Gb s0) { s with curr_pid := t.pid }
              (walk_page_range cb mm start stop { s with curr_pid := t.pid }).1 :=
            Walked_weaken w2
              (fun r hr => ⟨i, t0, mm0, hr.2.choose, hi0, hi1, ht0, by rw [hpid]; exact hr.1.symm,
                hm0, hr.2.choose_spec.1, hr.2.choose_spec.2⟩)
              (fun r hr => ⟨i, t0, mm0, hr.2.choose, hi0, hi1, ht0, by rw [hpid]; exact hr.1.symm,
                hm0, hr.2.choose_spec.1, hr.2.choose_spec.2⟩)
          exact Walked_trans (Walked_trans g0 g1)
            (Walked_same _ _ _ _ rfl rfl rfl rfl rfl rfl)

theorem walk_tasks_walked (Q : pte_t → pte_t → Prop) (ht : ∀ p q r, Q p q → Q q r → Q p r)
    (Ff Fb Gf Gb : pte_t → Prop) (cb : callback) (hcb : CbStep Q Ff Fb cb)
    (hGf : ∀ p q, Q p q → Ff q → Gf p) (hGb : ∀ p q, Q p q → Fb q → Gb p)
    (s0 : State) (hm0 : AllManaged (fun _ => True) s0) (k : Nat) (i : Int) (s : State)
    (hrel : TablesRel Q s0 s) (hi : 0 ≤ i) (hk : i + k ≤ s0.n_pids) :
    ∃ r, walk_tasks cb k i s = some r ∧ TablesRel Q s0 r.1
      ∧ Walked (RecOf Gf s0) (RecOf Gb s0) s r.1 := by
  induction k generalizing i s with
  | zero => exact ⟨(s, none), rfl, hrel, Walked_refl _ _ _⟩
  | succ k ih =>
    have hin : i < s0.n_pids := by push_cast at hk; omega
    obtain ⟨t0, ht0, _⟩ := hm0 i hi hin
    have hri := hrel i
    rw [ht0] at hri
    cases hti : s.task_items i with
    | none => rw [hti] at hri; exact absurd hri (by simp [TaskRel])
    | some t =>
      obtain ⟨s1, hw, r1, g1⟩ := walk_task_walked Q ht Ff Fb Gf Gb cb hcb hGf hGb s0 s hrel i
        0 MAX_ADDRESS hi hin t hti
      simp only [walk_tasks, hw]
      split_ifs with hf
      · exact ⟨_, rfl, r1, g1⟩
      · obtain ⟨r, hr, r2, g2⟩ := ih (i + 1) s1 r1 (by omega) (by push_cast at hk; omega)
        exact ⟨r, hr, r2, Walked_trans g1 g2⟩

/-- The whole of `do_page_walk`, from a cursor in range on a table without NULL entries: it
returns, every page table is related by `Q` to what it was, and the records appended to
`found` and `backup` name pages of the managed processes whose entries (before the walk)
satisfy `Gf` and `Gb`. -/
theorem do_page_walk_walked (Q : pte_t → pte_t → Prop) (hr : ∀ p, Q p p)
    (ht : ∀ p q r, Q p q → Q q r → Q p r)
    (Ff Fb Gf Gb : pte_t → Prop) (cb : callback) (hcb : CbStep Q Ff Fb cb)
    (hGf : ∀ p q, Q p q → Ff q → Gf p) (hGb : ∀ p q, Q p q → Fb q → Gb p)
    (last_pid : Int) (last_addr : Nat) (s : State) (hm : AllManaged (fun _ => True) s)
    (h0 : 0 ≤ last_pid) (h1 : last_pid < s.n_pids) :
    ∃ r s', do_page_walk cb last_pid last_addr s = some (r, s') ∧ TablesRel Q s s'
      ∧ Walked (RecOf Gf s) (RecOf Gb s) s s' := by
  obtain ⟨t, hti, _⟩ := hm last_pid h0 h1
  obtain ⟨s1, hw1, r1, g1⟩ := walk_task_walked Q ht Ff Fb Gf Gb cb hcb hGf hGb s s
    (TablesRel_refl Q hr s) last_pid last_addr MAX_ADDRESS h0 h1 t hti
  unfold do_page_walk
  simp only [hw1]
  split_ifs with hf
  · exact ⟨_, _, rfl, r1, g1⟩
  · obtain ⟨r2, hw2, rr2, g2⟩ := walk_tasks_walked Q ht Ff Fb Gf Gb cb hcb hGf hGb s hm
      (s1.n_pids - (last_pid + 1)).toNat (last_pid + 1) s1 r1 (by omega)
      (by rw [g1.n_pids]; omega)
    obtain ⟨s2, o2⟩ := r2
    simp only [hw2]
    cases o2 with
    | some idx => exact ⟨_, _, rfl, rr2, Walked_trans g1 g2⟩
    | none =>
      obtain ⟨r3, hw3, rr3, g3⟩ := walk_tasks_walked Q ht Ff Fb Gf Gb cb hcb hGf hGb s hm
        last_pid.toNat 0 s2 rr2 (le_refl 0) (by omega)
      obtain ⟨s3, o3⟩ := r3
      simp only [hw3]
      cases o3 with
      | some idx => exact ⟨_, _, rfl, rr3, Walked_trans (Walked_trans g1 g2) g3⟩
      | none =>
        have hri := rr3 last_pid
        rw [hti] at hri
        cases hti3 : s3.task_items last_pid with
        | none => rw [hti3] at hri; exact absurd hri (by simp [TaskRel])
        | some t3 =>
          obtain ⟨s4, hw4, rr4, g4⟩ := walk_task_walked Q ht Ff Fb Gf Gb cb hcb hGf hGb s s3
            rr3 last_pid 0 (last_addr + 1) h0 h1 t3 hti3
          simp only [hw4]
          exact ⟨_, _, rfl, rr4, Walked_trans (Walked_trans (Walked_trans g1 g2) g3) g4⟩

/-! ## The policies, call by call -/

theorem CbStep_weaken {Q Q1 : pte_t → pte_t → Prop} {Ff Fb Ff1 Fb1 : pte_t → Prop}
    {cb : callback} (h : CbStep Q Ff Fb cb) (hQ : ∀ p q, Q p q → Q1 p q)
    (hf : ∀ p, Ff p → Ff1 p) (hb : ∀ p, Fb p → Fb1 p) : CbStep Q1 Ff1 Fb1 cb := by
  intro q a s
  obtain ⟨c1, c2, c3, c4, c5, c6, c7⟩ := h q a s
  refine ⟨c1, c2, c3, c4, hQ _ _ c5, ?_, ?_⟩
  · rcases c6 with c | c
    · exact Or.inl c
    · exact Or.inr ⟨hf _ c.1, c.2⟩
  · rcases c7 with c | c
    · exact Or.inl c
    · exact Or.inr ⟨hb _ c.1, c.2⟩

/-- The DRAM policy: a cold page goes to `found` and its entry is left alone; an accessed
page may go to `backup` (if clean) and its entry gets the update. -/
theorem CbStep_mem :
    CbStep (fun p q => q = p ∨ (pte_young p = true ∧ q = pte_clear_bits p))
      (fun p => pte_young p = false) (fun p => pte_young p = true ∧ pte_dirty p = false)
      pte_callback_mem := by
  intro q a s
  unfold pte_callback_mem
  by_cases h1 : s.n_found = s.n_to_find
  · rw [if_pos h1]
    exact ⟨rfl, rfl, rfl, rfl, Or.inl rfl, Or.inl ⟨rfl, rfl⟩, Or.inl ⟨rfl, rfl⟩⟩
  · rw [if_neg h1]
    dsimp only
    by_cases h2 : skip_page q DRAM_MODE = true
    · rw [if_pos h2]
      exact ⟨rfl, rfl, rfl, rfl, Or.inl rfl, Or.inl ⟨rfl, rfl⟩, Or.inl ⟨rfl, rfl⟩⟩
    · rw [if_neg h2]
      cases hy : pte_young q with
      | false =>
        rw [if_pos (by rfl)]
        exact ⟨rfl, rfl, rfl, rfl, Or.inl rfl, Or.inr ⟨rfl, rfl, rfl⟩, Or.inl ⟨rfl, rfl⟩⟩
      | true =>
        rw [if_neg (by simp)]
        dsimp only
        by_cases h3 : (!pte_dirty q && decide (s.n_backup < int_sub s.n_to_find s.n_found)) = true
        · rw [if_pos h3]
          have hd : pte_dirty q = false := by
            simp only [Bool.and_eq_true, Bool.not_eq_true'] at h3
            exact h3.1
          exact ⟨rfl, rfl, rfl, rfl, Or.inr ⟨rfl, rfl⟩, Or.inl ⟨rfl, rfl⟩,
            Or.inr ⟨⟨rfl, hd⟩, rfl, rfl⟩⟩
        · rw [if_neg h3]
          exact ⟨rfl, rfl, rfl, rfl, Or.inr ⟨rfl, rfl⟩, Or.inl ⟨rfl, rfl⟩, Or.inl ⟨rfl, rfl⟩⟩

/-- The NVRAM policy: a page with both bits set goes to `found` and its entry is left alone;
any other page may go to `backup` and its entry gets the update. -/
theorem CbStep_nvram_force :
    CbStep (fun p q => q = p
        ∨ (¬ (pte_young p = true ∧ pte_dirty p = true) ∧ q = pte_clear_bits p))
      (fun p => pte_young p = true ∧ pte_dirty p = true)
      (fun p => ¬ (pte_young p = true ∧ pte_dirty p = true))
      pte_callback_nvram_force := by
  intro q a s
  unfold pte_callback_nvram_force
  by_cases h1 : s.n_found = s.n_to_find
  · rw [if_pos h1]
    exact ⟨rfl, rfl, rfl, rfl, Or.inl rfl, Or.inl ⟨rfl, rfl⟩, Or.inl ⟨rfl, rfl⟩⟩
  · rw [if_neg h1]
    dsimp only
    by_cases h2 : skip_page q NVRAM_MODE = true
    · rw [if_pos h2]
      exact ⟨rfl, rfl, rfl, rfl, Or.inl rfl, Or.inl ⟨rfl, rfl⟩, Or.inl ⟨rfl, rfl⟩⟩
    · rw [if_neg h2]
      by_cases h3 : (pte_young q && pte_dirty q) = true
      · rw [if_pos h3]
        have hyd : pte_young q = true ∧ pte_dirty q = true := by
          simpa only [Bool.and_eq_true] using h3
        exact ⟨rfl, rfl, rfl, rfl, Or.inl rfl, Or.inr ⟨hyd, rfl, rfl⟩, Or.inl ⟨rfl, rfl⟩⟩
      · rw [if_neg h3]
        have hyd : ¬ (pte_young q = true ∧ pte_dirty q = true) := by
          simpa only [Bool.and_eq_true] using h3
        dsimp only
        by_cases h4 : s.n_backup < int_sub s.n_to_find s.n_found
        · rw [if_pos h4]
          exact ⟨rfl, rfl, rfl, rfl, Or.inr ⟨hyd, rfl⟩, Or.inl ⟨rfl, rfl⟩,
            Or.inr ⟨hyd, rfl, rfl⟩⟩
        · rw [if_neg h4]
          exact ⟨rfl, rfl, rfl, rfl, Or.inr ⟨hyd, rfl⟩, Or.inl ⟨rfl, rfl⟩, Or.inl ⟨rfl, rfl⟩⟩

/-- The NVRAM_WRITE policy never changes an entry. -/
theorem CbStep_nvram_write :
    CbStep (fun p q => q = p) (fun p => pte_young p = true ∧ pte_dirty p = true)
      (fun p => pte_young p = false ∧ pte_dirty p = true) pte_callback_nvram_write := by
  intro q a s
  unfold pte_callback_nvram_write
  by_cases h1 : s.n_found = s.n_to_find
  · rw [if_pos h1]
    exact ⟨rfl, rfl, rfl, rfl, rfl, Or.inl ⟨rfl, rfl⟩, Or.inl ⟨rfl, rfl⟩⟩
  · rw [if_neg h1]
    dsimp only
    by_cases h2 : skip_page q NVRAM_MODE = true
    · rw [if_pos h2]
      exact ⟨rfl, rfl, rfl, rfl, rfl, Or.inl ⟨rfl, rfl⟩, Or.inl ⟨rfl, rfl⟩⟩
    · rw [if_neg h2]
      cases hd : pte_dirty q with
      | false =>
        rw [if_neg (by simp)]
        exact ⟨rfl, rfl, rfl, rfl, rfl, Or.inl ⟨rfl, rfl⟩, Or.inl ⟨rfl, rfl⟩⟩
      | true =>
        rw [if_pos rfl]
        cases hy : pte_young q with
        | true =>
          rw [if_pos rfl]
          exact ⟨rfl, rfl, rfl, rfl, rfl, Or.inr ⟨⟨rfl, rfl⟩, rfl, rfl⟩, Or.inl ⟨rfl, rfl⟩⟩
        | false =>
          rw [if_neg (by simp)]
          by_cases h4 : s.n_backup < int_sub s.n_to_find s.n_found
          · rw [if_pos h4]
            exact ⟨rfl, rfl, rfl, rfl, rfl, Or.inl ⟨rfl, rfl⟩, Or.inr ⟨⟨rfl, rfl⟩, rfl, rfl⟩⟩
          · rw [if_neg h4]
            exact ⟨rfl, rfl, rfl, rfl, rfl, Or.inl ⟨rfl, rfl⟩, Or.inl ⟨rfl, rfl⟩⟩

/-- The NVRAM_INTENSIVE policy never changes an entry. -/
theorem CbStep_nvram_intensive :
    CbStep (fun p q => q = p) (fun p => pte_young p = true ∧ pte_dirty p = true)
      (fun p => pte_young p = true ∧ pte_dirty p = false) pte_callback_nvram_intensive := by
  intro q a s
  unfold pte_callback_nvram_intensive
  by_cases h1 : s.n_found = s.n_to_find
  · rw [if_pos h1]
    exact ⟨rfl, rfl, rfl, rfl, rfl, Or.inl ⟨rfl, rfl⟩, Or.inl ⟨rfl, rfl⟩⟩
  · rw [if_neg h1]
    dsimp only
    by_cases h2 : skip_page q NVRAM_MODE = true
    · rw [if_pos h2]
      exact ⟨rfl, rfl, rfl, rfl, rfl, Or.inl ⟨rfl, rfl⟩, Or.inl ⟨rfl, rfl⟩⟩
    · rw [if_neg h2]
      cases hy : pte_young q with
      | false =>
        rw [if_neg (by simp)]
        exact ⟨rfl, rfl, rfl, rfl, rfl, Or.inl ⟨rfl, rfl⟩, Or.inl ⟨rfl, rfl⟩⟩
      | true =>
        rw [if_pos rfl]
        cases hd : pte_dirty q with
        | true =>
          rw [if_pos rfl]
          exact ⟨rfl, rfl, rfl, rfl, rfl, Or.inr ⟨⟨rfl, rfl⟩, rfl, rfl⟩, Or.inl ⟨rfl, rfl⟩⟩
        | false =>
          rw [if_neg (by simp)]
          by_cases h4 : s.n_backup < int_sub s.n_to_find s.n_found
          · rw [if_pos h4]
            exact ⟨rfl, rfl, rfl, rfl, rfl, Or.inl ⟨rfl, rfl⟩, Or.inr ⟨⟨rfl, rfl⟩, rfl, rfl⟩⟩
          · rw [if_neg h4]
            exact ⟨rfl, rfl, rfl, rfl, rfl, Or.inl ⟨rfl, rfl⟩, Or.inl ⟨rfl, rfl⟩⟩

/-- The policy of the NVRAM phase of SWITCH never changes an entry and never writes to
`backup`. -/
theorem CbStep_nvram_switch :
    CbStep (fun p q => q = p) (fun p => pte_young p = true ∧ pte_dirty p = true)
      (fun _ => False) pte_callback_nvram_switch := by
  intro q a s
  unfold pte_callback_nvram_switch
  by_cases h1 : s.n_found = s.n_to_find
  · rw [if_pos h1]
    exact ⟨rfl, rfl, rfl, rfl, rfl, Or.inl ⟨rfl, rfl⟩, Or.inl ⟨rfl, rfl⟩⟩
  · rw [if_neg h1]
    dsimp only
    by_cases h2 : skip_page q NVRAM_MODE = true
    · rw [if_pos h2]
      exact ⟨rfl, rfl, rfl, rfl, rfl, Or.inl ⟨rfl, rfl⟩, Or.inl ⟨rfl, rfl⟩⟩
    · rw [if_neg h2]
      cases hy : pte_young q with
      | false =>
        rw [if_neg (by simp)]
        exact ⟨rfl, rfl, rfl, rfl, rfl, Or.inl ⟨rfl, rfl⟩, Or.inl ⟨rfl, rfl⟩⟩
      | true =>
        rw [if_pos rfl]
        cases hd : pte_dirty q with
        | true =>
          rw [if_pos rfl]
          exact ⟨rfl, rfl, rfl, rfl, rfl, Or.inr ⟨⟨rfl, rfl⟩, rfl, rfl⟩, Or.inl ⟨rfl, rfl⟩⟩
        | false =>
          rw [if_neg (by simp)]
          by_cases h4 : s.n_switch_backup < int_sub s.n_to_find s.n_found
          · rw [if_pos h4]
            exact ⟨rfl, rfl, rfl, rfl, rfl, Or.inl ⟨rfl, rfl⟩, Or.inl ⟨rfl, rfl⟩⟩
          · rw [if_neg h4]
            exact ⟨rfl, rfl, rfl, rfl, rfl, Or.inl ⟨rfl, rfl⟩, Or.inl ⟨rfl, rfl⟩⟩

/-- Every single-tier policy, without regard to the pages. -/
theorem mem_walk_ops_CbStep (mode : Int) (cb : callback) (d : Bool)
    (h : mem_walk_ops mode = some (cb, d)) :
    CbStep (fun _ _ => True) (fun _ => True) (fun _ => True) cb := by
  unfold mem_walk_ops at h
  split_ifs at h <;> simp only [Option.some.injEq, Prod.mk.injEq] at h
  · rw [← h.1]
    exact CbStep_weaken CbStep_mem (fun _ _ _ => trivial) (fun _ _ => trivial)
      (fun _ _ => trivial)
  · rw [← h.1]
    exact CbStep_weaken CbStep_nvram_force (fun _ _ _ => trivial) (fun _ _ => trivial)
      (fun _ _ => trivial)
  · rw [← h.1]
    exact CbStep_weaken CbStep_nvram_intensive (fun _ _ _ => trivial) (fun _ _ => trivial)
      (fun _ _ => trivial)
  · rw [← h.1]
    exact CbStep_weaken CbStep_nvram_write (fun _ _ _ => trivial) (fun _ _ => trivial)
      (fun _ _ => trivial)

/-! ## The primary walk of `mem_walk`, with the page tables it reads -/

theorem mem_walk_primary_walked (Q : pte_t → pte_t → Prop) (hr : ∀ p, Q p p)
    (ht : ∀ p q r, Q p q → Q q r → Q p r)
    (Ff Fb Gf Gb : pte_t → Prop) (cb : callback) (hcb : CbStep Q Ff Fb cb)
    (hGf : ∀ p q, Q p q → Ff q → Gf p) (hGb : ∀ p q, Q p q → Fb q → Gb p)
    (d : Bool) (n : Int) (s : State) (hinv : Inv s) (hpos : 0 < s.n_pids) :
    ∃ s1, mem_walk_primary cb d n s = some s1 ∧ TablesRel Q s s1
      ∧ Walked (RecOf Gf s) (RecOf Gb s) (mem_walk_start n s) s1 := by
  have hd := CursorOk_range _ _ hinv.dram hpos
  have hn := CursorOk_range _ _ hinv.nvram hpos
  have hm0 : AllManaged (fun _ => True) (mem_walk_start n s) :=
    AllManaged_weaken hinv.tasks (fun _ _ => trivial)
  unfold mem_walk_primary
  cases d with
  | true =>
    obtain ⟨r, s1, hw, rel, g⟩ := do_page_walk_walked Q hr ht Ff Fb Gf Gb cb hcb hGf hGb
      (mem_walk_start n s).last_pid_dram (mem_walk_start n s).last_addr_dram
      (mem_walk_start n s) hm0 hd.1 hd.2
    simp only [hw, if_true, Option.map_some']
    exact ⟨_, rfl, fun i => rel i,
      ⟨g.n_pids, g.n_to_find, g.found_le, g.found_old, g.found_above, g.found_new,
       g.backup_le, g.backup_old, g.backup_above, g.backup_new⟩⟩
  | false =>
    obtain ⟨r, s1, hw, rel, g⟩ := do_page_walk_walked Q hr ht Ff Fb Gf Gb cb hcb hGf hGb
      (mem_walk_start n s).last_pid_nvram (mem_walk_start n s).last_addr_nvram
      (mem_walk_start n s) hm0 hn.1 hn.2
    simp only [hw, Bool.false_eq_true, if_false, Option.map_some']
    exact ⟨_, rfl, fun i => rel i,
      ⟨g.n_pids, g.n_to_find, g.found_le, g.found_old, g.found_above, g.found_new,
       g.backup_le, g.backup_old, g.backup_above, g.backup_new⟩⟩

/-- In a page table that lists no address twice, an address has one entry. -/
theorem pte_unique (l : List (Nat × pte_t)) (hnd : (l.map Prod.fst).Nodup) (a : Nat)
    (p q : pte_t) (hp : (a, p) ∈ l) (hq : (a, q) ∈ l) : p = q := by
  induction l with
  | nil => exact absurd hp (List.not_mem_nil _)
  | cons x rest ih =>
    simp only [List.map_cons, List.nodup_cons] at hnd
    rcases List.mem_cons.1 hp with h1 | h1
    · rcases List.mem_cons.1 hq with h2 | h2
      · have := h1.trans h2.symm
        exact (Prod.mk.inj this).2
      · exfalso
        apply hnd.1
        rw [← h1]
        exact List.mem_map.2 ⟨(a, q), h2, rfl⟩
    · rcases List.mem_cons.1 hq with h2 | h2
      · exfalso
        apply hnd.1
        rw [← h2]
        exact List.mem_map.2 ⟨(a, p), h1, rfl⟩
      · exact ih hnd.2 h1 h2

/-- Two records that name pages of the managed set with complementary entries differ. -/
theorem RecOf_disjoint (G : pte_t → Prop) (s : State) (hinv : Inv s)
    (haddr : ∀ i t mm, s.task_items i = some t → t.mm = some mm →
      (mm.ptes.map Prod.fst).Nodup)
    (r1 r2 : addr_info_t) (h1 : RecOf G s r1) (h2 : RecOf (fun p => ¬ G p) s r2) : r1 ≠ r2 := by
  intro heq
  obtain ⟨i1, t1, m1, p1, a1, b1, c1, d1, e1, f1, g1⟩ := h1
  obtain ⟨i2, t2, m2, p2, a2, b2, c2, d2, e2, f2, g2⟩ := h2
  subst heq
  have hi : i1 = i2 := by
    by_contra hne
    rcases lt_or_gt_of_ne hne with hlt | hgt
    · exact hinv.nodup i1 i2 t1 t2 a1 hlt b2 c1 c2 (d1.trans d2.symm)
    · exact hinv.nodup i2 i1 t2 t1 a2 hgt b1 c2 c1 (d2.trans d1.symm)
  subst hi
  rw [c1] at c2
  simp only [Option.some.injEq] at c2
  subst c2
  rw [e1] at e2
  simp only [Option.some.injEq] at e2
  subst e2
  have := pte_unique m1.ptes (haddr i1 t1 m1 c1 e1) r1.addr p1 p2 f1 f2
  subst this
  exact g2 g1

theorem PtesRel_getElem? (Q : pte_t → pte_t → Prop) {l0 l : List (Nat × pte_t)}
    (h : PtesRel Q l0 l) :
    l.length = l0.length
    ∧ ∀ (j : Nat) (a : Nat) (p : pte_t), l0[j]? = some (a, p) →
        ∃ q, l[j]? = some (a, q) ∧ Q p q := by
  induction h with
  | nil => exact ⟨rfl, fun j a p hj => by simp at hj⟩
  | @cons x y l0t lt hxy _ ih =>
    refine ⟨by simp [ih.1], fun j a p hj => ?_⟩
    cases j with
    | zero =>
      simp only [List.getElem?_cons_zero, Option.some.injEq] at hj
      obtain ⟨a1, q⟩ := y
      refine ⟨q, ?_, ?_⟩
      · simp only [List.getElem?_cons_zero, Option.some.injEq]
        have := hxy.1
        rw [hj] at this
        dsimp only at this
        rw [this]
      · have := hxy.2
        rw [hj] at this
        exact this
    | succ j =>
      simp only [List.getElem?_cons_succ] at hj ⊢
      exact ih.2 j a p hj

theorem TablesRel_task (Q : pte_t → pte_t → Prop) {s0 s : State} (h : TablesRel Q s0 s)
    (i : Int) (t : task_struct) (mm : mm_struct) (ht : s0.task_items i = some t)
    (hm : t.mm = some mm) :
    ∃ t1 mm1, s.task_items i = some t1 ∧ t1.pid = t.pid ∧ t1.mm = some mm1
      ∧ PtesRel Q mm.ptes mm1.ptes := by
  have hi := h i
  rw [ht] at hi
  cases hs : s.task_items i with
  | none => rw [hs] at hi; exact absurd hi (by simp [TaskRel])
  | some t1 =>
    rw [hs] at hi
    obtain ⟨hp, hmm⟩ := hi
    rw [hm] at hmm
    cases hm1 : t1.mm with
    | none => rw [hm1] at hmm; exact absurd hmm (by simp [MmRel])
    | some mm1 =>
      rw [hm1] at hmm
      exact ⟨t1, mm1, rfl, hp.symm, hm1, hmm⟩

theorem addr_nodup_ex_one (i : Int) (t : task_struct) (mm : mm_struct)
    (ht : ex_one.task_items i = some t) (hm : t.mm = some mm) :
    (mm.ptes.map Prod.fst).Nodup := by
  simp only [ex_one] at ht
  split_ifs at ht
  simp only [Option.some.injEq] at ht
  rw [← ht] at hm
  simp only [Option.some.injEq] at hm
  rw [← hm]
  decide

/-! ## The status and the untouched slots of a single-tier walk -/

theorem mem_walk_finish_status (s1 : State) :
    (mem_walk_finish s1).1
        = (if s1.n_to_find ≤ (mem_walk_finish s1).2.n_found then 0 else -1)
    ∧ s1.n_found ≤ (mem_walk_finish s1).2.n_found
    ∧ (∀ j, (mem_walk_finish s1).2.n_found ≤ j →
        (mem_walk_finish s1).2.found_addrs j = s1.found_addrs j)
    ∧ (mem_walk_finish s1).2.n_pids = s1.n_pids := by
  unfold mem_walk_finish
  by_cases h1 : s1.n_found ≥ s1.n_to_find
  · rw [if_pos h1]
    dsimp only
    rw [if_pos h1]
    exact ⟨rfl, le_refl _, fun _ _ => rfl, rfl⟩
  · rw [if_neg h1]
    by_cases h2 : s1.n_backup > 0
    · rw [if_pos h2]
      obtain ⟨e1, e2, e3⟩ :=
        promote_backup_spec (s1.n_to_find - s1.n_found) s1.n_backup.toNat 0 s1
      have e4 : (promote_backup (s1.n_to_find - s1.n_found) s1.n_backup.toNat 0 s1).n_to_find
          = s1.n_to_find := by rw [e3]
      have e5 : (promote_backup (s1.n_to_find - s1.n_found) s1.n_backup.toNat 0 s1).n_pids
          = s1.n_pids := by rw [e3]
      dsimp only
      rw [e4]
      by_cases h3 : (promote_backup (s1.n_to_find - s1.n_found) s1.n_backup.toNat 0 s1).n_found
          ≥ s1.n_to_find
      · rw [if_pos h3]
        dsimp only
        rw [if_pos h3]
        refine ⟨rfl, by rw [e1]; omega, fun j hj => ?_, e5⟩
        rw [e2 j, if_neg (by rw [e1] at hj; omega)]
      · rw [if_neg h3]
        dsimp only
        rw [if_neg h3]
        refine ⟨rfl, by rw [e1]; omega, fun j hj => ?_, e5⟩
        rw [e2 j, if_neg (by rw [e1] at hj; omega)]
    · rw [if_neg h2]
      dsimp only
      rw [if_neg h1]
      exact ⟨rfl, le_refl _, fun _ _ => rfl, rfl⟩

/-- A single-tier `mem_walk` returns; its status is 0 exactly when `found` holds at least `n`
records at the end; `found` only grows and no slot at or above its final length is written. -/
theorem mem_walk_status (n mode : Int) (s : State)
    (hmode : mode = DRAM_MODE ∨ mode = NVRAM_MODE ∨ mode = NVRAM_WRITE_MODE
      ∨ mode = NVRAM_INTENSIVE_MODE)
    (hinv : Inv s) (hpos : 0 < s.n_pids) :
    ∃ r s', mem_walk n mode s = some (r, s')
      ∧ r = (if n ≤ s'.n_found then 0 else -1)
      ∧ s.n_found ≤ s'.n_found
      ∧ (∀ j, s'.n_found ≤ j → s'.found_addrs j = s.found_addrs j)
      ∧ s'.n_pids = s.n_pids := by
  obtain ⟨cb, d, hops⟩ := mem_walk_ops_some mode hmode
  have hcb := mem_walk_ops_CbStep mode cb d hops
  obtain ⟨s1, hw, _, g⟩ := mem_walk_primary_walked (fun _ _ => True) (fun _ => trivial)
    (fun _ _ _ _ _ => trivial) (fun _ => True) (fun _ => True) (fun _ => True) (fun _ => True)
    cb hcb (fun _ _ _ _ => trivial) (fun _ _ _ _ => trivial) d n s hinv hpos
  obtain ⟨a1, a2, a3, a4⟩ := mem_walk_finish_status s1
  have hn : s1.n_to_find = n := g.n_to_find
  have hf : s.n_found ≤ s1.n_found := g.found_le
  refine ⟨(mem_walk_finish s1).1, (mem_walk_finish s1).2, ?_, ?_, by omega, fun j hj => ?_, ?_⟩
  · rw [mem_walk_eq, hops]
    dsimp only
    rw [hw]
    rfl
  · rw [a1, hn]
  · rw [a3 j hj]
    exact g.found_above j (by omega)
  · rw [a4]
    exact g.n_pids

/-! ## Slots of `found` that a request does not write -/

/-- A request other than FIND(SWITCH) and FIND(NVRAM_CLEAR) is dispatched to the end, and up
to the final statement of `process_req` no slot of `found` at or above the final `n_found`
has been written. -/
theorem dispatch_req_above (k : Kernel) (req : Option req_t) (s0 : State) (hinv : Inv s0)
    (hnf : s0.n_found = 0)
    (hreq : ∀ rq, req = some rq → rq.op_code = FIND_OP →
      rq.mode ≠ SWITCH_MODE ∧ rq.mode ≠ NVRAM_CLEAR) :
    ∃ r s1, dispatch_req k req s0 = some (r, s1) ∧ 0 ≤ s1.n_found
      ∧ ∀ j, s1.n_found ≤ j → s1.found_addrs j = s0.found_addrs j := by
  cases req with
  | none => exact ⟨-1, s0, rfl, by omega, fun _ _ => rfl⟩
  | some rq =>
    obtain ⟨f1, _, _, _, _, f6, _, _⟩ := refresh_pids_frame k s0
    simp only [dispatch_req]
    by_cases c1 : rq.op_code = FIND_OP
    · rw [if_pos c1]
      obtain ⟨m1, m2⟩ := hreq rq rfl c1
      by_cases c2 : (refresh_pids k s0).n_pids > 0
      · rw [if_pos c2]
        by_cases c3 : rq.mode = DRAM_MODE ∨ rq.mode = NVRAM_MODE ∨ rq.mode = NVRAM_WRITE_MODE
            ∨ rq.mode = NVRAM_INTENSIVE_MODE
        · rw [if_pos c3]
          obtain ⟨r, s1, hw, _, a2, a3, _⟩ := mem_walk_status (int_min MAX_N_FIND rq.pid_n)
            rq.mode (refresh_pids k s0) c3 (Inv_refresh_pids k s0 hinv) c2
          refine ⟨r, s1, hw, by omega, fun j hj => ?_⟩
          rw [a3 j hj, f1]
        · rw [if_neg c3, if_neg m2, if_neg m1]
          exact ⟨-1, _, rfl, by omega, fun j _ => by rw [f1]⟩
      · rw [if_neg c2]
        exact ⟨-1, _, rfl, by omega, fun j _ => by rw [f1]⟩
    · rw [if_neg c1]
      by_cases c2 : rq.op_code = BIND_OP
      · rw [if_pos c2]
        obtain ⟨_, _, _, e⟩ := bind_pid_spec (fun _ => True) k rq.pid_n (refresh_pids k s0)
          (Inv_refresh_pids k s0 hinv)
          (AllManaged_weaken (Inv_refresh_pids k s0 hinv).tasks (fun _ _ => trivial)) trivial
        have e1 : (bind_pid k rq.pid_n (refresh_pids k s0)).2.n_found
            = (refresh_pids k s0).n_found := by rw [e]
        have e2 : (bind_pid k rq.pid_n (refresh_pids k s0)).2.found_addrs
            = (refresh_pids k s0).found_addrs := by rw [e]
        exact ⟨(bind_pid k rq.pid_n (refresh_pids k s0)).1,
          (bind_pid k rq.pid_n (refresh_pids k s0)).2, rfl, by rw [e1]; omega,
          fun j _ => by rw [e2, f1]⟩
      · rw [if_neg c2]
        by_cases c3 : rq.op_code = UNBIND_OP
        · rw [if_pos c3]
          obtain ⟨_, _, _, u1, u2⟩ := unbind_pid_spec (fun _ => True) rq.pid_n s0 hinv
            (AllManaged_weaken hinv.tasks (fun _ _ => trivial))
          obtain ⟨g1, _, _, _, _, g6, _, _⟩ := refresh_pids_frame k (unbind_pid rq.pid_n s0).2
          exact ⟨(unbind_pid rq.pid_n s0).1, refresh_pids k (unbind_pid rq.pid_n s0).2, rfl,
            by rw [g6, u2]; omega, fun j _ => by rw [g1, u1]⟩
        · rw [if_neg c3]
          exact ⟨-1, s0, rfl, by omega, fun _ _ => rfl⟩

/-! ## The capacity assignment -/

theorem fill_node_spec (candidates : Int → addr_info_t)
    (base curr_node n_avail_pages n_found n_processed : Int) (fuel : Nat) (j : Int)
    (a : (Int → Nat) × (Int → Int)) (hj : 0 ≤ j) (hfuel : n_found - n_processed - j ≤ fuel) :
    (fill_node candidates base curr_node n_avail_pages n_found n_processed fuel j a).1
        = max j (min n_avail_pages (n_found - n_processed))
    ∧ (∀ x, (fill_node candidates base curr_node n_avail_pages n_found n_processed fuel j a).2.1 x
        = if n_processed + j ≤ x ∧ x < n_processed
              + (fill_node candidates base curr_node n_avail_pages n_found n_processed fuel j a).1
          then (candidates (base + (x - n_processed))).addr else a.1 x)
    ∧ (∀ x, (fill_node candidates base curr_node n_avail_pages n_found n_processed fuel j a).2.2 x
        = if n_processed + j ≤ x ∧ x < n_processed
              + (fill_node candidates base curr_node n_avail_pages n_found n_processed fuel j a).1
          then curr_node else a.2 x) := by
  induction fuel generalizing j a with
  | zero =>
    simp only [fill_node]
    have hf : n_found - n_processed - j ≤ 0 := by exact_mod_cast hfuel
    refine ⟨by omega, fun x => ?_, fun x => ?_⟩
    · rw [if_neg (by omega)]
    · rw [if_neg (by omega)]
  | succ fuel ih =>
    have hf : n_found - n_processed - j ≤ fuel + 1 := by exact_mod_cast hfuel
    simp only [fill_node]
    by_cases c : j < n_avail_pages ∧ n_processed + j < n_found
    · simp only [if_pos c]
      obtain ⟨e1, e2, e3⟩ := ih (j + 1)
        (arr_set a.1 (n_processed + j) (candidates (base + j)).addr,
         arr_set a.2 (n_processed + j) curr_node) (by omega) (by omega)
      refine ⟨by rw [e1]; omega, fun x => ?_, fun x => ?_⟩
      · rw [e2 x]
        rw [e1]
        dsimp only [arr_set]
        by_cases hx : x = n_processed + j
        · subst hx
          rw [if_neg (by omega), if_pos rfl, if_pos (by omega)]
          congr 2
          omega
        · rw [if_neg hx]
          by_cases h2 : n_processed + (j + 1) ≤ x
              ∧ x < n_processed + max (j + 1) (min n_avail_pages (n_found - n_processed))
          · rw [if_pos h2, if_pos (by omega)]
          · rw [if_neg h2, if_neg (by omega)]
      · rw [e3 x]
        rw [e1]
        dsimp only [arr_set]
        by_cases hx : x = n_processed + j
        · subst hx
          rw [if_neg (by omega), if_pos rfl, if_pos (by omega)]
        · rw [if_neg hx]
          by_cases h2 : n_processed + (j + 1) ≤ x
              ∧ x < n_processed + max (j + 1) (min n_avail_pages (n_found - n_processed))
          · rw [if_pos h2, if_pos (by omega)]
          · rw [if_neg h2, if_neg (by omega)]
    · simp only [if_neg c]
      refine ⟨by omega, fun x => ?_, fun x => ?_⟩
      · rw [if_neg (by omega)]
      · rw [if_neg (by omega)]

theorem node_caps_length (h : Numa) (page_size : Int) (conv : Int → Int) (c : Nat)
    (ns : List Int) : (node_caps h page_size conv c ns).length = ns.length := by
  induction ns generalizing c with
  | nil => rfl
  | cons n rest ih => simp only [node_caps, List.length_cons, ih]

theorem node_caps_cons (h : Numa) (page_size : Int) (conv : Int → Int) (c : Nat) (n : Int)
    (rest : List Int) :
    node_caps h page_size conv c (n :: rest)
      = conv (Int.tdiv (h.numa_node_size64 c n) page_size)
          :: node_caps h page_size conv (c + 1) rest := rfl

theorem assign_nodes_step (h : Numa) (page_size : Int) (conv : Int → Int)
    (candidates : Int → addr_info_t) (base : Int → Int) (n_found : Int) (n : Int)
    (rest : List Int) (st : assigned) (hlt : st.n_processed < n_found) :
    assign_nodes h page_size conv candidates base n_found (n :: rest) st
      = assign_nodes h page_size conv candidates base n_found rest
          { n_processed := st.n_processed
              + (fill_node candidates (base st.n_processed) n
                  (conv (Int.tdiv (h.numa_node_size64 st.size_calls n) page_size)) n_found
                  st.n_processed (n_found - st.n_processed).toNat 0 (st.addr, st.dest_nodes)).1,
            addr := (fill_node candidates (base st.n_processed) n
                  (conv (Int.tdiv (h.numa_node_size64 st.size_calls n) page_size)) n_found
                  st.n_processed (n_found - st.n_processed).toNat 0 (st.addr, st.dest_nodes)).2.1,
            dest_nodes := (fill_node candidates (base st.n_processed) n
                  (conv (Int.tdiv (h.numa_node_size64 st.size_calls n) page_size)) n_found
                  st.n_processed (n_found - st.n_processed).toNat 0 (st.addr, st.dest_nodes)).2.2,
            size_calls := st.size_calls + 1 } := by
  simp only [assign_nodes, if_pos hlt]

theorem assign_nodes_stop (h : Numa) (page_size : Int) (conv : Int → Int)
    (candidates : Int → addr_info_t) (base : Int → Int) (n_found : Int) (n : Int)
    (rest : List Int) (st : assigned) (hge : ¬ st.n_processed < n_found) :
    assign_nodes h page_size conv candidates base n_found (n :: rest) st = st := by
  simp only [assign_nodes, if_neg hge]

theorem sum_take_nonneg (l : List Int) (hl : ∀ x ∈ l, 0 ≤ x) (d : Nat) :
    0 ≤ (l.take d).sum :=
  List.sum_nonneg (fun x hx => hl x (List.mem_of_mem_take hx))

/-- The capacity assignment, pass by pass: with capacities `caps` (none negative) the loop
ends with `n_processed = min (n_found, n_processed + cap_1 + … + cap_m)`; slot `x` is written in
the pass of node `d` exactly when it lies in the stretch of `cap_d` slots that begins after
those of the nodes before, and below `n_found`; the other slots are left alone. -/
theorem assign_nodes_spec (h : Numa) (page_size : Int) (conv : Int → Int)
    (candidates : Int → addr_info_t) (base : Int → Int) (n_found : Int) (ns : List Int)
    (st : assigned) (h0 : st.n_processed ≤ n_found)
    (hc : ∀ x ∈ node_caps h page_size conv st.size_calls ns, 0 ≤ x) :
    (assign_nodes h page_size conv candidates base n_found ns st).n_processed
        = min n_found (st.n_processed + (node_caps h page_size conv st.size_calls ns).sum)
    ∧ (∀ x, (x < st.n_processed
          ∨ (assign_nodes h page_size conv candidates base n_found ns st).n_processed ≤ x) →
        (assign_nodes h page_size conv candidates base n_found ns st).addr x = st.addr x
        ∧ (assign_nodes h page_size conv candidates base n_found ns st).dest_nodes x
            = st.dest_nodes x)
    ∧ (∀ (d : Nat) (c node : Int),
        (node_caps h page_size conv st.size_calls ns)[d]? = some c → ns[d]? = some node →
        ∀ x, st.n_processed + ((node_caps h page_size conv st.size_calls ns).take d).sum ≤ x →
          x < st.n_processed + ((node_caps h page_size conv st.size_calls ns).take d).sum + c →
          x < n_found →
          (assign_nodes h page_size conv candidates base n_found ns st).addr x
              = (candidates (base (st.n_processed
                    + ((node_caps h page_size conv st.size_calls ns).take d).sum)
                  + (x - (st.n_processed
                    + ((node_caps h page_size conv st.size_calls ns).take d).sum)))).addr
          ∧ (assign_nodes h page_size conv candidates base n_found ns st).dest_nodes x = node) := by
  induction ns generalizing st with
  | nil =>
    have e1 : assign_nodes h page_size conv candidates base n_found [] st = st := rfl
    have e2 : node_caps h page_size conv st.size_calls [] = [] := rfl
    rw [e1, e2]
    refine ⟨by simp only [List.sum_nil]; omega, fun _ _ => ⟨rfl, rfl⟩, fun d c node hd => ?_⟩
    simp at hd
  | cons n rest ih =>
    rw [node_caps_cons] at hc ⊢
    have hc0 : 0 ≤ conv (Int.tdiv (h.numa_node_size64 st.size_calls n) page_size) :=
      hc _ (List.mem_cons_self _ _)
    have hcr : ∀ x ∈ node_caps h page_size conv (st.size_calls + 1) rest, 0 ≤ x :=
      fun x hx => hc x (List.mem_cons_of_mem _ hx)
    have hsum : 0 ≤ (node_caps h page_size conv (st.size_calls + 1) rest).sum :=
      List.sum_nonneg hcr
    rw [List.sum_cons]
    by_cases c1 : st.n_processed < n_found
    · rw [assign_nodes_step h page_size conv candidates base n_found n rest st c1]
      obtain ⟨f1, f2, f3⟩ := fill_node_spec candidates (base st.n_processed) n
        (conv (Int.tdiv (h.numa_node_size64 st.size_calls n) page_size)) n_found st.n_processed
        (n_found - st.n_processed).toNat 0 (st.addr, st.dest_nodes) (le_refl 0) (by omega)
      generalize hr : fill_node candidates (base st.n_processed) n
        (conv (Int.tdiv (h.numa_node_size64 st.size_calls n) page_size)) n_found st.n_processed
        (n_found - st.n_processed).toNat 0 (st.addr, st.dest_nodes) = r at f1 f2 f3
      generalize conv (Int.tdiv (h.numa_node_size64 st.size_calls n) page_size) = c0 at f1 hc0 ⊢
      obtain ⟨i1, i2, i3⟩ := ih
        { n_processed := st.n_processed + r.1, addr := r.2.1, dest_nodes := r.2.2,
          size_calls := st.size_calls + 1 } (by dsimp only; omega) hcr
      dsimp only at i1 i2 i3
      refine ⟨by rw [i1]; omega, fun x hx => ?_, fun d c node hd hn x hx0 hx1 hx2 => ?_⟩
      · have hnot : ¬ (st.n_processed + 0 ≤ x ∧ x < st.n_processed + r.1) := by
          rcases hx with hx | hx
          · omega
          · rw [i1] at hx; omega
        obtain ⟨j1, j2⟩ := i2 x (by
          rcases hx with hx | hx
          · exact Or.inl (by omega)
          · exact Or.inr hx)
        rw [j1, j2, f2 x, f3 x, if_neg hnot, if_neg hnot]
        exact ⟨rfl, rfl⟩
      · cases d with
        | zero =>
          simp only [List.getElem?_cons_zero, Option.some.injEq] at hd hn
          simp only [List.take_zero, List.sum_nil, add_zero] at hx0 hx1 ⊢
          obtain ⟨j1, j2⟩ := i2 x (Or.inl (by omega))
          rw [j1, j2, f2 x, f3 x, if_pos (by omega), if_pos (by omega)]
          exact ⟨rfl, hn⟩
        | succ d =>
          simp only [List.getElem?_cons_succ] at hd hn
          simp only [List.take_succ_cons, List.sum_cons] at hx0 hx1 ⊢
          have hS := sum_take_nonneg _ hcr d
          have hr1 : r.1 = c0 := by omega
          have e : st.n_processed + r.1
              + ((node_caps h page_size conv (st.size_calls + 1) rest).take d).sum
              = st.n_processed
                + (c0 + ((node_caps h page_size conv (st.size_calls + 1) rest).take d).sum) := by
            omega
          have := i3 d c node hd hn x (by omega) (by omega) hx2
          rw [e] at this
          exact this
    · rw [assign_nodes_stop h page_size conv candidates base n_found n rest st c1]
      refine ⟨by omega, fun _ _ => ⟨rfl, rfl⟩, fun d c node hd hn x hx0 hx1 hx2 => ?_⟩
      exfalso
      have hS := sum_take_nonneg _ hc d
      omega

/-- With candidate index equal to slot index, every slot below the final `n_processed` holds
the address of its candidate, whatever the capacities are. -/
theorem assign_nodes_addr (h : Numa) (page_size : Int) (conv : Int → Int)
    (candidates : Int → addr_info_t) (n_found : Int) (ns : List Int) (st : assigned)
    (hst : ∀ x, 0 ≤ x → x < st.n_processed → st.addr x = (candidates x).addr) :
    st.n_processed
        ≤ (assign_nodes h page_size conv candidates (fun np => np) n_found ns st).n_processed
    ∧ ∀ x, 0 ≤ x →
        x < (assign_nodes h page_size conv candidates (fun np => np) n_found ns st).n_processed →
        (assign_nodes h page_size conv candidates (fun np => np) n_found ns st).addr x
          = (candidates x).addr := by
  induction ns generalizing st with
  | nil => exact ⟨le_refl _, hst⟩
  | cons n rest ih =>
    by_cases c1 : st.n_processed < n_found
    · rw [assign_nodes_step h page_size conv candidates (fun np => np) n_found n rest st c1]
      obtain ⟨f1, f2, _⟩ := fill_node_spec candidates st.n_processed n
        (conv (Int.tdiv (h.numa_node_size64 st.size_calls n) page_size)) n_found st.n_processed
        (n_found - st.n_processed).toNat 0 (st.addr, st.dest_nodes) (le_refl 0) (by omega)
      generalize hr : fill_node candidates st.n_processed n
        (conv (Int.tdiv (h.numa_node_size64 st.size_calls n) page_size)) n_found st.n_processed
        (n_found - st.n_processed).toNat 0 (st.addr, st.dest_nodes) = r at f1 f2
      obtain ⟨i1, i2⟩ := ih
        { n_processed := st.n_processed + r.1, addr := r.2.1, dest_nodes := r.2.2,
          size_calls := st.size_calls + 1 }
        (fun x hx0 hx1 => by
          dsimp only at hx1 ⊢
          rw [f2 x]
          by_cases hin : st.n_processed + 0 ≤ x ∧ x < st.n_processed + r.1
          · rw [if_pos hin]; congr 2; omega
          · rw [if_neg hin]; exact hst x hx0 (by omega))
      dsimp only at i1
      exact ⟨by omega, i2⟩
    · rw [assign_nodes_stop h page_size conv candidates (fun np => np) n_found n rest st c1]
      exact ⟨le_refl _, hst⟩

/-! ## The send loop -/

theorem run_length_spec (candidates : Int → addr_info_t) (off curr_pid n_migrated n_processed : Int)
    (fuel : Nat) (i : Int) (hi : n_migrated + i ≤ n_processed)
    (hfuel : n_processed - n_migrated - i ≤ fuel) :
    i ≤ run_length candidates off curr_pid n_migrated n_processed fuel i
    ∧ n_migrated + run_length candidates off curr_pid n_migrated n_processed fuel i ≤ n_processed
    ∧ (∀ t, i ≤ t → t < run_length candidates off curr_pid n_migrated n_processed fuel i →
        (candidates (off + n_migrated + t)).pid_retval = curr_pid)
    ∧ (n_migrated + run_length candidates off curr_pid n_migrated n_processed fuel i
          < n_processed →
        (candidates (off + n_migrated
          + run_length candidates off curr_pid n_migrated n_processed fuel i)).pid_retval
          ≠ curr_pid) := by
  induction fuel generalizing i with
  | zero =>
    have hf : n_processed - n_migrated - i ≤ 0 := by exact_mod_cast hfuel
    simp only [run_length]
    exact ⟨le_refl _, hi, fun t h1 h2 => by omega, fun h => by omega⟩
  | succ fuel ih =>
    have hf : n_processed - n_migrated - i ≤ fuel + 1 := by exact_mod_cast hfuel
    simp only [run_length]
    by_cases c : (candidates (off + n_migrated + i)).pid_retval = curr_pid
        ∧ n_migrated + i < n_processed
    · simp only [if_pos c]
      obtain ⟨a1, a2, a3, a4⟩ := ih (i + 1) (by omega) (by omega)
      refine ⟨by omega, a2, fun t h1 h2 => ?_, a4⟩
      by_cases ht : t = i
      · rw [ht]; exact c.1
      · exact a3 t (by omega) h2
    · simp only [if_neg c]
      refine ⟨le_refl _, hi, fun t h1 h2 => by omega, fun h hp => c ⟨hp, h⟩⟩

theorem batched_calls_append (l1 l2 : List move_call) :
    batched_calls (l1 ++ l2) = batched_calls l1 ++ batched_calls l2 := by
  simp only [batched_calls, List.filter_append]

/-- The page-by-page loop makes calls at the second call site only. -/
theorem retry_pages_calls (h : Numa) (addr : Int → Nat) (dest_nodes : Int → Int)
    (curr_pid n_migrated : Int) (n : Nat) (j : Int) (st : sent) :
    batched_calls (for_up (retry_page h addr dest_nodes curr_pid n_migrated) n j st).calls
      = batched_calls st.calls := by
  induction n generalizing j st with
  | zero => rfl
  | succ n ih =>
    simp only [for_up]
    rw [ih]
    have e : (retry_page h addr dest_nodes curr_pid n_migrated j st).calls
        = st.calls ++ [move_args addr dest_nodes curr_pid (n_migrated + j) 1 false] := by
      unfold retry_page call_move_pages
      dsimp only
      split_ifs <;> rfl
    rw [e, batched_calls_append]
    simp [batched_calls, move_args]

/-- The send loop reaches `n_processed`, and the batched calls it adds cut the candidates
from `n_migrated` on into maximal runs of equal PID. -/
theorem send_runs_spec (h : Numa) (candidates : Int → addr_info_t) (off : Int)
    (addr : Int → Nat) (dest_nodes : Int → Int) (n_processed : Int) (fuel : Nat)
    (n_migrated : Int) (st : sent) (hle : n_migrated ≤ n_processed)
    (hfuel : n_processed - n_migrated ≤ fuel) :
    (send_runs h candidates off addr dest_nodes n_processed fuel n_migrated st).1 = n_processed
    ∧ ∃ bs, batched_calls
          (send_runs h candidates off addr dest_nodes n_processed fuel n_migrated st).2.calls
        = batched_calls st.calls ++ bs
      ∧ RunsFrom candidates off addr dest_nodes n_processed n_migrated bs := by
  induction fuel generalizing n_migrated st with
  | zero =>
    have hf : n_processed - n_migrated ≤ 0 := by exact_mod_cast hfuel
    simp only [send_runs]
    exact ⟨by omega, [], by simp, by simp only [RunsFrom]; omega⟩
  | succ fuel ih =>
    have hf : n_processed - n_migrated ≤ fuel + 1 := by exact_mod_cast hfuel
    simp only [send_runs]
    by_cases c : n_migrated < n_processed
    · simp only [if_pos c]
      obtain ⟨r1, r2, r3, r4⟩ := run_length_spec candidates off
        (candidates (off + n_migrated)).pid_retval n_migrated n_processed
        (n_processed - n_migrated).toNat 1 (by omega) (by omega)
      generalize run_length candidates off (candidates (off + n_migrated)).pid_retval n_migrated
        n_processed (n_processed - n_migrated).toNat 1 = i at r1 r2 r3 r4 ⊢
      generalize hb : move_args addr dest_nodes (candidates (off + n_migrated)).pid_retval
        n_migrated i true = b
      generalize hst2 : (if (call_move_pages h b st).1 ≠ 0
        then for_up (retry_page h addr dest_nodes (candidates (off + n_migrated)).pid_retval
            n_migrated) i.toNat 0 (call_move_pages h b st).2
        else (call_move_pages h b st).2) = st2
      have hbt : b.batched = true := by rw [← hb]; rfl
      have hcalls : batched_calls st2.calls = batched_calls st.calls ++ [b] := by
        have e0 : batched_calls (call_move_pages h b st).2.calls
            = batched_calls st.calls ++ [b] := by
          simp only [call_move_pages, batched_calls_append]
          simp [batched_calls, hbt]
        rw [← hst2]
        split_ifs
        · rw [retry_pages_calls, e0]
        · exact e0
      obtain ⟨e1, bs, e2, e3⟩ := ih (n_migrated + i) st2 r2 (by omega)
      refine ⟨e1, b :: bs, ?_, ?_⟩
      · rw [e2, hcalls, List.append_assoc]
        rfl
      · have hc : b.count = i := by rw [← hb]; rfl
        have hp : b.pid = (candidates (off + n_migrated)).pid_retval := by rw [← hb]; rfl
        simp only [RunsFrom]
        rw [hc, hp]
        refine ⟨r1, r2, fun t h0 h1 => ?_, r4, by rw [← hb]; rfl, by rw [← hb]; rfl, e3⟩
        by_cases ht : t = 0
        · rw [ht, add_zero]
        · exact r3 t (by omega) h1
    · simp only [if_neg c]
      exact ⟨by omega, [], by simp, by simp only [RunsFrom]; omega⟩

/-! ## Runs by batch number, and capacities by node number -/

theorem run_start_cons (b : move_call) (bs : List move_call) (i : Nat) :
    run_start (b :: bs) (i + 1) = b.count + run_start bs i := by
  simp only [run_start, List.take_succ_cons, List.map_cons, List.sum_cons]

theorem RunsFrom_index (candidates : Int → addr_info_t) (off : Int) (addr : Int → Nat)
    (dest_nodes : Int → Int) (n_processed : Int) (bs : List move_call) (start : Int)
    (hr : RunsFrom candidates off addr dest_nodes n_processed start bs) :
    start + run_start bs bs.length = n_processed
    ∧ (∀ i, 0 ≤ run_start bs i)
    ∧ ∀ i b, bs[i]? = some b →
        1 ≤ b.count
        ∧ start + run_start bs i + b.count ≤ n_processed
        ∧ (∀ t, 0 ≤ t → t < b.count →
            (candidates (off + (start + run_start bs i) + t)).pid_retval = b.pid)
        ∧ b.pages = (List.range b.count.toNat).map
            (fun (t : Nat) => addr (start + run_start bs i + Int.ofNat t))
        ∧ b.nodes = (List.range b.count.toNat).map
            (fun (t : Nat) => dest_nodes (start + run_start bs i + Int.ofNat t))
        ∧ (∀ b1, bs[i + 1]? = some b1 → b1.pid ≠ b.pid) := by
  induction bs generalizing start with
  | nil =>
    simp only [RunsFrom] at hr
    refine ⟨by simp [run_start, hr], fun i => by simp [run_start], fun i b hb => ?_⟩
    simp at hb
  | cons b bs ih =>
    simp only [RunsFrom] at hr
    obtain ⟨h1, h2, h3, h4, h5, h6, h7⟩ := hr
    obtain ⟨i1, i2, i3⟩ := ih (start + b.count) h7
    have z : run_start (b :: bs) 0 = 0 := by simp [run_start]
    refine ⟨?_, fun i => ?_, fun i c hc => ?_⟩
    · rw [List.length_cons, run_start_cons]; omega
    · cases i with
      | zero => rw [z]
      | succ i => rw [run_start_cons]; have := i2 i; omega
    · cases i with
      | zero =>
        simp only [List.getElem?_cons_zero, Option.some.injEq] at hc
        subst hc
        rw [z, add_zero]
        refine ⟨h1, h2, h3, h5, h6, fun b1 hb1 => ?_⟩
        simp only [zero_add, List.getElem?_cons_succ] at hb1
        obtain ⟨j1, j2, j3, _⟩ := i3 0 b1 hb1
        have z0 : run_start bs 0 = 0 := by simp [run_start]
        rw [z0, add_zero] at j2 j3
        have := j3 0 (le_refl 0) (by omega)
        rw [add_zero, ← add_assoc] at this
        rw [← this]
        exact h4 (by omega)
      | succ i =>
        simp only [List.getElem?_cons_succ] at hc
        obtain ⟨j1, j2, j3, j4, j5, j6⟩ := i3 i c hc
        rw [run_start_cons]
        have e : start + (b.count + run_start bs i) = start + b.count + run_start bs i := by
          omega
        rw [e]
        exact ⟨j1, j2, j3, j4, j5, fun b1 hb1 => j6 b1 (by
          simp only [List.getElem?_cons_succ] at hb1; exact hb1)⟩

/-- A slot below the sum of non-negative capacities lies in the stretch of exactly one node. -/
theorem sum_take_cover (l : List Int) (hl : ∀ x ∈ l, 0 ≤ x) (j : Int) (h0 : 0 ≤ j)
    (h1 : j < l.sum) :
    ∃ (d : Nat) (c : Int), l[d]? = some c ∧ (l.take d).sum ≤ j ∧ j < (l.take d).sum + c := by
  induction l generalizing j with
  | nil => simp at h1; omega
  | cons a l ih =>
    rw [List.sum_cons] at h1
    by_cases hj : j < a
    · exact ⟨0, a, by simp, by simp [h0], by simpa using hj⟩
    · obtain ⟨d, c, e1, e2, e3⟩ := ih (fun x hx => hl x (List.mem_cons_of_mem _ hx)) (j - a)
        (by omega) (by omega)
      refine ⟨d + 1, c, by simpa using e1, ?_, ?_⟩
      · rw [List.take_succ_cons, List.sum_cons]; omega
      · rw [List.take_succ_cons, List.sum_cons]; omega

theorem node_caps_nonneg (h : Numa) (page_size : Int) (hps : 0 < page_size)
    (hfree : ∀ c node, 0 ≤ h.numa_node_size64 c node) (c : Nat) (ns : List Int) :
    ∀ x ∈ node_caps h page_size (fun v => v) c ns, 0 ≤ x := by
  induction ns generalizing c with
  | nil => intro x hx; simp [node_caps] at hx
  | cons n rest ih =>
    intro x hx
    rw [node_caps_cons, List.mem_cons] at hx
    rcases hx with hx | hx
    · rw [hx]
      exact Int.tdiv_nonneg (hfree c n) (le_of_lt hps)
    · exact ih (c + 1) x hx

theorem node_list_nodup (mode : Int) : (node_list mode).Nodup := by
  unfold node_list
  split_ifs <;> decide

/-! ## Passes of the loop of `do_switch` that change nothing -/

theorem node_caps_zero (h : Numa) (page_size : Int)
    (hzero : ∀ c node, h.numa_node_size64 c node = 0) (c : Nat) (ns : List Int) :
    ∀ x ∈ node_caps h page_size to_int c ns, x = 0 := by
  induction ns generalizing c with
  | nil => intro x hx; simp [node_caps] at hx
  | cons n rest ih =>
    intro x hx
    rw [node_caps_cons, List.mem_cons] at hx
    rcases hx with hx | hx
    · rw [hx, hzero]
      simp [to_int]
    · exact ih (c + 1) x hx

/-- Without free memory on any node an assignment loop assigns nothing. -/
theorem assign_nodes_zero (h : Numa) (page_size : Int)
    (hzero : ∀ c node, h.numa_node_size64 c node = 0) (candidates : Int → addr_info_t)
    (base : Int → Int) (n_found : Int) (ns : List Int) (st : assigned)
    (h0 : st.n_processed ≤ n_found) :
    (assign_nodes h page_size to_int candidates base n_found ns st).n_processed
      = st.n_processed := by
  have hz := node_caps_zero h page_size hzero st.size_calls ns
  obtain ⟨a1, _, _⟩ := assign_nodes_spec h page_size to_int candidates base n_found ns st h0
    (fun x hx => by rw [hz x hx])
  have hs : (node_caps h page_size to_int st.size_calls ns).sum = 0 :=
    List.sum_eq_zero hz
  rw [a1, hs]
  omega

/-- On a host without free memory a pass of the loop that starts with nothing processed on
either side ends in the same way. -/
theorem switch_pass_zero (h : Numa) (page_size : Int)
    (hzero : ∀ c node, h.numa_node_size64 c node = 0) (candidates : Int → addr_info_t)
    (n_found : Int) (hn : 0 ≤ n_found) (st : switch_locals)
    (hd : st.dram_migrated = 0 ∧ st.dram_e = 0) (hv : st.nvram_migrated = 0 ∧ st.nvram_e = 0) :
    ((switch_nvram_side h page_size candidates n_found
        (switch_dram_side h page_size candidates n_found st)).dram_migrated = 0
      ∧ (switch_nvram_side h page_size candidates n_found
        (switch_dram_side h page_size candidates n_found st)).dram_e = 0)
    ∧ ((switch_nvram_side h page_size candidates n_found
        (switch_dram_side h page_size candidates n_found st)).nvram_migrated = 0
      ∧ (switch_nvram_side h page_size candidates n_found
        (switch_dram_side h page_size candidates n_found st)).nvram_e = 0) := by
  have e1 : ∀ s : switch_locals, s.dram_migrated = 0 ∧ s.dram_e = 0 →
      ((switch_dram_side h page_size candidates n_found s).dram_migrated = 0
        ∧ (switch_dram_side h page_size candidates n_found s).dram_e = 0)
      ∧ (switch_dram_side h page_size candidates n_found s).nvram_migrated = s.nvram_migrated
      ∧ (switch_dram_side h page_size candidates n_found s).nvram_e = s.nvram_e := by
    intro s hs
    unfold switch_dram_side
    dsimp only
    rw [assign_nodes_zero h page_size hzero _ _ _ _ _ (by dsimp only; omega)]
    dsimp only
    rw [if_neg (lt_irrefl _)]
    dsimp only
    exact ⟨⟨by omega, hs.2⟩, rfl, rfl⟩
  have e2 : ∀ s : switch_locals, s.nvram_migrated = 0 ∧ s.nvram_e = 0 →
      ((switch_nvram_side h page_size candidates n_found s).nvram_migrated = 0
        ∧ (switch_nvram_side h page_size candidates n_found s).nvram_e = 0)
      ∧ (switch_nvram_side h page_size candidates n_found s).dram_migrated = s.dram_migrated
      ∧ (switch_nvram_side h page_size candidates n_found s).dram_e = s.dram_e := by
    intro s hs
    unfold switch_nvram_side
    dsimp only
    rw [assign_nodes_zero h page_size hzero _ _ _ _ _ (by dsimp only; omega)]
    dsimp only
    rw [if_neg (lt_irrefl _)]
    dsimp only
    exact ⟨⟨by omega, hs.2⟩, rfl, rfl⟩
  obtain ⟨a1, a2, a3⟩ := e1 st hd
  obtain ⟨b1, b2, b3⟩ := e2 (switch_dram_side h page_size candidates n_found st)
    ⟨by rw [a2]; exact hv.1, by rw [a3]; exact hv.2⟩
  exact ⟨⟨by rw [b2]; exact a1.1, by rw [b3]; exact a1.2⟩, b1⟩

/-- On a host without free memory the loop of `do_switch`, started with nothing processed, is
still running after any number of passes. -/
theorem do_switch_loop_zero (h : Numa) (page_size : Int)
    (hzero : ∀ c node, h.numa_node_size64 c node = 0) (candidates : Int → addr_info_t)
    (n_found : Int) (hn : 1 ≤ n_found) (fuel : Nat) (st : switch_locals)
    (hd : st.dram_migrated = 0 ∧ st.dram_e = 0) (hv : st.nvram_migrated = 0 ∧ st.nvram_e = 0) :
    do_switch_loop h page_size candidates n_found fuel st = none := by
  induction fuel generalizing st with
  | zero =>
    simp only [do_switch_loop]
    rw [if_pos (Or.inl (by omega))]
  | succ fuel ih =>
    simp only [do_switch_loop]
    rw [if_pos (Or.inl (by omega))]
    obtain ⟨p1, p2⟩ := switch_pass_zero h page_size hzero candidates n_found (by omega) st hd hv
    exact ih _ p1 p2

/-- Once every page of both sides is processed and a move has failed on each side, a pass of
the loop changes nothing and the loop condition stays true, on every host. -/
theorem do_switch_loop_failed (h : Numa) (page_size : Int) (candidates : Int → addr_info_t)
    (n_found : Int) (fuel : Nat) (st : switch_locals)
    (hd : st.dram_migrated + st.dram_e = n_found ∧ 0 < st.dram_e)
    (hv : st.nvram_migrated + st.nvram_e = n_found ∧ 0 < st.nvram_e) :
    do_switch_loop h page_size candidates n_found fuel st = none := by
  induction fuel generalizing st with
  | zero =>
    simp only [do_switch_loop]
    rw [if_pos (Or.inl (by omega))]
  | succ fuel ih =>
    simp only [do_switch_loop]
    rw [if_pos (Or.inl (by omega))]
    have e1 : switch_dram_side h page_size candidates n_found st
        = { st with dram_migrated := st.dram_migrated + st.dram_e - st.dram_e } := by
      unfold switch_dram_side
      dsimp only
      rw [show NVRAM_NODES = [2, 3] from rfl, assign_nodes_stop _ _ _ _ _ _ _ _ _
        (by dsimp only; omega)]
      dsimp only
      rw [if_neg (lt_irrefl _)]
    have e2 : ∀ s : switch_locals, s.nvram_migrated + s.nvram_e = n_found →
        switch_nvram_side h page_size candidates n_found s
          = { s with nvram_migrated := s.nvram_migrated + s.nvram_e - s.nvram_e } := by
      intro s hs
      unfold switch_nvram_side
      dsimp only
      rw [show DRAM_NODES = [0, 1] from rfl, assign_nodes_stop _ _ _ _ _ _ _ _ _
        (by dsimp only; omega)]
      dsimp only
      rw [if_neg (lt_irrefl _)]
    rw [e1, e2 _ (by dsimp only; exact hv.1)]
    exact ih _ (by dsimp only; omega) (by dsimp only; omega)

/-! ## Walks that leave the page tables alone -/

theorem PtesRel_eq {l0 l : List (Nat × pte_t)} (h : PtesRel (fun p q => q = p) l0 l) :
    l = l0 := by
  induction h with
  | nil => rfl
  | @cons x y l0t lt hxy _ ih =>
    obtain ⟨a0, p⟩ := x
    obtain ⟨a, q⟩ := y
    obtain ⟨ha, hq⟩ := hxy
    dsimp only at ha hq
    rw [ih, ← ha, hq]

theorem TablesRel_eq {s0 s : State} (h : TablesRel (fun p q => q = p) s0 s) :
    s.task_items = s0.task_items := by
  funext i
  have hi := h i
  cases h0 : s0.task_items i with
  | none =>
    rw [h0] at hi
    cases h1 : s.task_items i with
    | none => rfl
    | some t => rw [h1] at hi; exact absurd hi (by simp [TaskRel])
  | some t0 =>
    rw [h0] at hi
    cases h1 : s.task_items i with
    | none => rw [h1] at hi; exact absurd hi (by simp [TaskRel])
    | some t =>
      rw [h1] at hi
      obtain ⟨hp, hm⟩ := hi
      obtain ⟨pid0, mm0⟩ := t0
      obtain ⟨pid, mm⟩ := t
      dsimp only at hp hm
      subst hp
      cases mm0 with
      | none =>
        cases mm with
        | none => rfl
        | some m => exact absurd hm (by simp [MmRel])
      | some m0 =>
        cases mm with
        | none => exact absurd hm (by simp [MmRel])
        | some m =>
          obtain ⟨l0⟩ := m0
          obtain ⟨l⟩ := m
          have : l = l0 := PtesRel_eq hm
          rw [this]

/-! ## What `refresh_pids` leaves of the managed set -/

theorem take_eraseIdx_self {α : Type} (l : List α) (n : Nat) (h : n < l.length) :
    (l.eraseIdx n).take n = l.take n ∧ (l.eraseIdx n).drop n = l.drop (n + 1) := by
  have hl : (l.take n).length = n := by rw [List.length_take]; omega
  rw [List.eraseIdx_eq_take_drop_succ]
  exact ⟨List.take_left' hl, List.drop_left' hl⟩

/-- The loop of `refresh_pids` from index `i` on, with at least `n_pids - i` passes allowed:
the entries before `i` are kept, and of the entries from `i` on those that resolve, in
order. -/
theorem refresh_loop_managed (k : Kernel) (fuel : Nat) (i : Int) (s : State)
    (hi0 : 0 ≤ i) (hi : i ≤ s.n_pids) (hf : s.n_pids - i ≤ fuel) :
    managed (refresh_loop k fuel i s)
      = (managed s).take i.toNat ++ ((managed s).drop i.toNat).filter (resolves k) := by
  induction fuel generalizing i s with
  | zero =>
    have hf0 : s.n_pids - i ≤ 0 := by exact_mod_cast hf
    have hlen := managed_length s
    simp only [refresh_loop]
    rw [List.take_of_length_le (by omega), List.drop_of_length_le (by omega)]
    simp
  | succ fuel ih =>
    have hf1 : s.n_pids - i ≤ fuel + 1 := by exact_mod_cast hf
    have hlen := managed_length s
    simp only [refresh_loop]
    by_cases c : i < s.n_pids
    · rw [if_pos c]
      have hlt : i.toNat < (managed s).length := by omega
      have hget : (managed s)[i.toNat] = s.task_items i := by
        have h1 := managed_getElem? s i.toNat
        rw [if_pos (by omega), List.getElem?_eq_getElem hlt] at h1
        have h2 : ((i.toNat : Nat) : Int) = i := Int.toNat_of_nonneg hi0
        rw [h2] at h1
        exact Option.some.inj h1
      have hdrop : (managed s).drop i.toNat
          = s.task_items i :: (managed s).drop (i.toNat + 1) := by
        rw [← hget]
        exact List.drop_eq_getElem_cons hlt
      cases ht : s.task_items i with
      | none =>
        dsimp only
        rw [if_pos rfl]
        rw [ih i (update_pid_list i s) hi0 (by rw [update_pid_list_n_pids]; omega)
          (by rw [update_pid_list_n_pids]; omega)]
        rw [managed_update_pid_list i s hi0 c]
        obtain ⟨e1, e2⟩ := take_eraseIdx_self (managed s) i.toNat hlt
        rw [e1, e2, hdrop, ht]
        simp [resolves]
      | some t =>
        dsimp only
        cases hl : k.find_get_pid t.pid with
        | false =>
          simp only [Bool.not_false, if_true]
          rw [ih i (update_pid_list i s) hi0 (by rw [update_pid_list_n_pids]; omega)
            (by rw [update_pid_list_n_pids]; omega)]
          rw [managed_update_pid_list i s hi0 c]
          obtain ⟨e1, e2⟩ := take_eraseIdx_self (managed s) i.toNat hlt
          rw [e1, e2, hdrop, ht]
          simp [resolves, hl]
        | true =>
          simp only [Bool.not_true, Bool.false_eq_true, if_false]
          rw [ih (i + 1) s (by omega) (by omega) (by omega)]
          have hi1 : (i + 1).toNat = i.toNat + 1 := by omega
          rw [hi1, hdrop, ht, List.take_succ, List.getElem?_eq_getElem hlt, hget, ht]
          simp [resolves, hl]
    · rw [if_neg c]
      rw [List.take_of_length_le (by omega), List.drop_of_length_le (by omega)]
      simp

/-- More passes than `n_pids - i` change nothing: the loop has stopped by then. -/
theorem refresh_loop_stops (k : Kernel) (fuel : Nat) (i : Int) (s : State)
    (hf : s.n_pids - i ≤ fuel) :
    refresh_loop k (fuel + 1) i s = refresh_loop k fuel i s := by
  induction fuel generalizing i s with
  | zero =>
    have hf0 : s.n_pids - i ≤ 0 := by exact_mod_cast hf
    simp only [refresh_loop]
    rw [if_neg (by omega)]
  | succ fuel ih =>
    have hf1 : s.n_pids - i ≤ fuel + 1 := by exact_mod_cast hf
    have step : ∀ f : Nat, refresh_loop k (f + 1) i s
        = if i < s.n_pids then
            (if (match s.task_items i with
                | none => true
                | some t => !k.find_get_pid t.pid) = true
              then refresh_loop k f i (update_pid_list i s)
              else refresh_loop k f (i + 1) s)
          else s := fun _ => rfl
    rw [step (fuel + 1), step fuel]
    by_cases c : i < s.n_pids
    · rw [if_pos c, if_pos c]
      split_ifs
      · exact ih i (update_pid_list i s) (by rw [update_pid_list_n_pids]; omega)
      · exact ih (i + 1) s (by omega)
    · rw [if_neg c, if_neg c]

theorem refresh_loop_extra (k : Kernel) (extra : Nat) (s : State) :
    refresh_loop k (s.n_pids.toNat + extra) 0 s = refresh_pids k s := by
  induction extra with
  | zero => rfl
  | succ extra ih =>
    rw [← ih]
    exact refresh_loop_stops k (s.n_pids.toNat + extra) 0 s (by push_cast; omega)

theorem refresh_pids_managed (k : Kernel) (s : State) :
    managed (refresh_pids k s) = (managed s).filter (resolves k) := by
  by_cases hn : 0 ≤ s.n_pids
  · have := refresh_loop_managed k s.n_pids.toNat 0 s (le_refl 0) hn (by omega)
    simpa using this
  · have e1 : s.n_pids.toNat = 0 := by omega
    have e2 : refresh_pids k s = s := by
      unfold refresh_pids
      rw [e1]
      rfl
    have e3 : managed s = [] := by
      unfold managed
      rw [e1]
      rfl
    rw [e2, e3]
    rfl

/-! ## A walk over cold DRAM pages -/

theorem walk_ptes_cons_in (cb : callback) (start stop a : Nat) (p : pte_t)
    (rest : List (Nat × pte_t)) (s : State) (hin : start ≤ a ∧ a < stop) :
    walk_ptes cb start stop ((a, p) :: rest) s
      = if (cb (some p) a s).ret ≠ 0 then
          ((cb (some p) a s).st,
           (a, match (cb (some p) a s).pte with
               | some q => q
               | none => p) :: rest)
        else
          ((walk_ptes cb start stop rest (cb (some p) a s).st).1,
           (a, match (cb (some p) a s).pte with
               | some q => q
               | none => p) :: (walk_ptes cb start stop rest (cb (some p) a s).st).2) := by
  simp only [walk_ptes, if_pos hin]

theorem walk_ptes_cons_out (cb : callback) (start stop a : Nat) (p : pte_t)
    (rest : List (Nat × pte_t)) (s : State) (hout : ¬ (start ≤ a ∧ a < stop)) :
    walk_ptes cb start stop ((a, p) :: rest) s
      = ((walk_ptes cb start stop rest s).1, (a, p) :: (walk_ptes cb start stop rest s).2) := by
  simp only [walk_ptes, if_neg hout]

/-- The DRAM policy on a stretch of cold DRAM pages, all in range: it takes them one by one
until `found` is full. -/
theorem walk_ptes_cold (start stop : Nat) (l : List (Nat × pte_t)) (s : State)
    (hl : ∀ x ∈ l, start ≤ x.1 ∧ x.1 < stop ∧ skip_page x.2 DRAM_MODE = false
      ∧ pte_young x.2 = false)
    (hle : s.n_found ≤ s.n_to_find) :
    (walk_ptes pte_callback_mem start stop l s).1.n_found
        = min s.n_to_find (s.n_found + l.length)
    ∧ (walk_ptes pte_callback_mem start stop l s).1.n_to_find = s.n_to_find := by
  induction l generalizing s with
  | nil =>
    have e : walk_ptes pte_callback_mem start stop [] s = (s, []) := rfl
    rw [e]
    exact ⟨by simp only [List.length_nil]; push_cast; omega, rfl⟩
  | cons x rest ih =>
    obtain ⟨a, p⟩ := x
    obtain ⟨h1, h2, h3, h4⟩ := hl (a, p) (List.mem_cons_self _ _)
    dsimp only at h1 h2 h3 h4
    have hrest : ∀ x ∈ rest, start ≤ x.1 ∧ x.1 < stop ∧ skip_page x.2 DRAM_MODE = false
        ∧ pte_young x.2 = false := fun x hx => hl x (List.mem_cons_of_mem _ hx)
    rw [walk_ptes_cons_in _ _ _ _ _ _ _ ⟨h1, h2⟩]
    by_cases hfull : s.n_found = s.n_to_find
    · have e : pte_callback_mem (some p) a s
          = { ret := 1, st := { s with last_addr_dram := a }, pte := some p } := by
        unfold pte_callback_mem
        rw [if_pos hfull]
      rw [e]
      dsimp only
      rw [if_pos (by decide)]
      exact ⟨by simp only [List.length_cons]; push_cast; omega, rfl⟩
    · have e : pte_callback_mem (some p) a s
          = { ret := 0, st := push_found a s, pte := some p } := by
        unfold pte_callback_mem
        rw [if_neg hfull]
        dsimp only
        rw [if_neg (by rw [h3]; decide), if_pos (by rw [h4]; rfl)]
      rw [e]
      dsimp only
      rw [if_neg (by decide)]
      obtain ⟨i1, i2⟩ := ih (push_found a s) hrest (by simp only [push_found]; omega)
      dsimp only
      rw [i1, i2]
      exact ⟨by simp only [push_found, List.length_cons]; push_cast; omega, rfl⟩

theorem walk_task_cold (i : Int) (start stop : Nat) (s : State) (t : task_struct)
    (mm : mm_struct) (hti : s.task_items i = some t) (hmm : t.mm = some mm)
    (hl : ∀ x ∈ mm.ptes, start ≤ x.1 ∧ x.1 < stop ∧ skip_page x.2 DRAM_MODE = false
      ∧ pte_young x.2 = false)
    (hle : s.n_found ≤ s.n_to_find) :
    ∃ s1, walk_task pte_callback_mem i start stop s = some s1
      ∧ s1.n_found = min s.n_to_find (s.n_found + mm.ptes.length)
      ∧ s1.n_to_find = s.n_to_find
      ∧ s1.found_addrs
          = (walk_ptes pte_callback_mem start stop mm.ptes { s with curr_pid := t.pid }).1.found_addrs := by
  obtain ⟨w1, w2⟩ := walk_ptes_cold start stop mm.ptes { s with curr_pid := t.pid } hl hle
  unfold walk_task
  rw [hti]
  dsimp only
  rw [hmm]
  dsimp only
  exact ⟨_, rfl, w1, w2, rfl⟩

/-- From a cursor at a process whose pages from the cursor address on are cold DRAM pages, at
least as many as are still wanted, the walk ends in its first segment with `found` full. -/
theorem do_page_walk_cold (last_pid : Int) (last_addr : Nat) (s : State) (t : task_struct)
    (mm : mm_struct) (hti : s.task_items last_pid = some t) (hmm : t.mm = some mm)
    (hl : ∀ x ∈ mm.ptes, last_addr ≤ x.1 ∧ x.1 < MAX_ADDRESS ∧ skip_page x.2 DRAM_MODE = false
      ∧ pte_young x.2 = false)
    (hle : s.n_found ≤ s.n_to_find) (hen : s.n_to_find ≤ s.n_found + mm.ptes.length) :
    ∃ s1, do_page_walk pte_callback_mem last_pid last_addr s = some (last_pid, s1)
      ∧ s1.n_found = s.n_to_find ∧ s1.n_to_find = s.n_to_find := by
  obtain ⟨s1, hw, a1, a2, _⟩ := walk_task_cold last_pid last_addr MAX_ADDRESS s t mm hti hmm hl hle
  unfold do_page_walk
  rw [hw]
  dsimp only
  rw [if_pos (by rw [a1, a2]; omega)]
  exact ⟨s1, rfl, by rw [a1]; omega, a2⟩

theorem cold_pages_spec (N : Nat) (hN : N ≤ 131071) :
    (cold_pages N).length = N
    ∧ ∀ x ∈ cold_pages N, 0 ≤ x.1 ∧ x.1 < MAX_ADDRESS ∧ skip_page x.2 DRAM_MODE = false
      ∧ pte_young x.2 = false := by
  refine ⟨by simp [cold_pages], fun x hx => ?_⟩
  simp only [cold_pages, List.mem_map, List.mem_range] at hx
  obtain ⟨i, hi, rfl⟩ := hx
  have hs : skip_page (ex_pte false false 0) DRAM_MODE = false := by decide
  refine ⟨Nat.zero_le _, ?_, hs, rfl⟩
  have : MAX_ADDRESS = 0xFFFF880000000000 := rfl
  dsimp only
  omega

/-- FIND(n, DRAM) on a process with at least `n` cold DRAM pages finds `n` candidates in the
first segment of the walk and answers with `n + 1` records, the last of which, the terminator
with status 0, is written at index `n`. -/
theorem find_cold (N : Nat) (n : Int) (hN : N ≤ 131071) (h0 : 0 ≤ n) (hn : n ≤ N) :
    ∃ s', process_req k_all (some { op_code := FIND_OP, pid_n := n, mode := DRAM_MODE })
        (ex_cold N) = some s'
      ∧ s'.n_found = n + 1
      ∧ (s'.found_addrs n).pid_retval = 0 := by
  obtain ⟨clen, cspec⟩ := cold_pages_spec N hN
  have hmax : MAX_N_FIND = 131071 := by decide
  have hmin : int_min MAX_N_FIND n = n := by
    unfold int_min
    split_ifs <;> omega
  have hr : refresh_pids k_all { ex_cold N with n_found := 0 } = { ex_cold N with n_found := 0 } :=
    refresh_pids_id k_all _ (fun i hi0 hi1 => by
      have h1' : i < 1 := hi1
      have : i = 0 := by omega
      subst this
      exact ⟨_, rfl, rfl⟩)
  obtain ⟨s1, hw, a1, a2⟩ := do_page_walk_cold 0 0
    (mem_walk_start n { ex_cold N with n_found := 0 })
    { pid := 100, mm := some { ptes := cold_pages N } } { ptes := cold_pages N } rfl rfl cspec
    h0 (by
      show n ≤ 0 + ((cold_pages N).length : Int)
      rw [clen]; omega)
  have hn1 : s1.n_found = n := a1
  have hn2 : s1.n_to_find = n := a2
  have hprim : mem_walk_primary pte_callback_mem true n { ex_cold N with n_found := 0 }
      = some { s1 with last_pid_dram := 0 } := by
    unfold mem_walk_primary
    rw [if_pos rfl]
    have : do_page_walk pte_callback_mem
        (mem_walk_start n { ex_cold N with n_found := 0 }).last_pid_dram
        (mem_walk_start n { ex_cold N with n_found := 0 }).last_addr_dram
        (mem_walk_start n { ex_cold N with n_found := 0 }) = some (0, s1) := hw
    rw [this]
    rfl
  have hfin : mem_walk_finish { s1 with last_pid_dram := 0 }
      = (0, { s1 with last_pid_dram := 0 }) := by
    unfold mem_walk_finish
    rw [if_pos (by show s1.n_found ≥ s1.n_to_find; omega)]
  rw [process_req_find_mem k_all n DRAM_MODE (ex_cold N) (Or.inl rfl), hr, hmin]
  have hpos : ({ ex_cold N with n_found := 0 } : State).n_pids > 0 := by
    show (1 : Int) > 0
    decide
  rw [if_pos hpos, mem_walk_eq]
  have hops : mem_walk_ops DRAM_MODE = some (pte_callback_mem, true) := rfl
  rw [hops]
  dsimp only
  rw [hprim]
  simp only [Option.map_some']
  rw [hfin]
  refine ⟨_, rfl, ?_, ?_⟩
  · simp only [put_retval]
    omega
  · show ((put_retval 0 { s1 with last_pid_dram := 0 }).found_addrs n).pid_retval = 0
    rw [← hn1]
    exact (put_retval_spec 0 { s1 with last_pid_dram := 0 }).2.1

/-! ## Records appended in walk order -/

theorem records_congr (f g : Int → addr_info_t) (a : Int) (len : Nat)
    (h : ∀ j, a ≤ j → j < a + len → f j = g j) : records f a len = records g a len := by
  simp only [records]
  apply List.map_congr_left
  intro j hj
  rw [List.mem_range] at hj
  exact h _ (by simp only [Int.ofNat_eq_coe]; omega) (by simp only [Int.ofNat_eq_coe]; omega)

theorem records_one (f : Int → addr_info_t) (a : Int) : records f a 1 = [f a] := by
  simp [records, List.range_succ]

theorem Appended_refl (s : State) : Appended s s [] [] :=
  ⟨by simp, fun _ _ => rfl, rfl, by simp, fun _ _ => rfl, rfl⟩

theorem Appended_trans {s s1 s2 : State} {lf1 lb1 lf2 lb2 : List addr_info_t}
    (h1 : Appended s s1 lf1 lb1) (h2 : Appended s1 s2 lf2 lb2) :
    Appended s s2 (lf1 ++ lf2) (lb1 ++ lb2) := by
  refine ⟨?_, ?_, ?_, ?_, ?_, ?_⟩
  · rw [h2.n_found, h1.n_found, List.length_append]; push_cast; omega
  · intro j hj
    rw [h2.found_old j (by rw [h1.n_found]; omega), h1.found_old j hj]
  · rw [List.length_append, records_append]
    have e1 : records s2.found_addrs s.n_found lf1.length = lf1 :=
      (records_congr _ _ _ _ (fun j _ hj1 =>
        h2.found_old j (by rw [h1.n_found]; exact hj1))).trans h1.found_new
    have e2 : records s2.found_addrs (s.n_found + lf1.length) lf2.length = lf2 := by
      rw [← h1.n_found]; exact h2.found_new
    rw [e1, e2]
  · rw [h2.n_backup, h1.n_backup, List.length_append]; push_cast; omega
  · intro j hj
    rw [h2.backup_old j (by rw [h1.n_backup]; omega), h1.backup_old j hj]
  · rw [List.length_append, records_append]
    have e1 : records s2.backup_addrs s.n_backup lb1.length = lb1 :=
      (records_congr _ _ _ _ (fun j _ hj1 =>
        h2.backup_old j (by rw [h1.n_backup]; exact hj1))).trans h1.backup_new
    have e2 : records s2.backup_addrs (s.n_backup + lb1.length) lb2.length = lb2 := by
      rw [← h1.n_backup]; exact h2.backup_new
    rw [e1, e2]

/-- Two states with the same two buffers and counters. -/
theorem Appended_same (s s' : State) (h1 : s'.found_addrs = s.found_addrs)
    (h2 : s'.n_found = s.n_found) (h3 : s'.backup_addrs = s.backup_addrs)
    (h4 : s'.n_backup = s.n_backup) : Appended s s' [] [] :=
  ⟨by rw [h2]; simp, fun _ _ => by rw [h1], rfl, by rw [h4]; simp, fun _ _ => by rw [h3], rfl⟩

theorem Appended_congr_left {s s0 s' : State} {lf lb : List addr_info_t}
    (h : Appended s s' lf lb) (h1 : s0.found_addrs = s.found_addrs)
    (h2 : s0.n_found = s.n_found) (h3 : s0.backup_addrs = s.backup_addrs)
    (h4 : s0.n_backup = s.n_backup) : Appended s0 s' lf lb := by
  have := Appended_trans (Appended_same s0 s h1.symm h2.symm h3.symm h4.symm) h
  simpa using this

theorem Appended_congr_right {s s' s1 : State} {lf lb : List addr_info_t}
    (h : Appended s s' lf lb) (h1 : s1.found_addrs = s'.found_addrs)
    (h2 : s1.n_found = s'.n_found) (h3 : s1.backup_addrs = s'.backup_addrs)
    (h4 : s1.n_backup = s'.n_backup) : Appended s s1 lf lb := by
  have := Appended_trans h (Appended_same s' s1 h1 h2 h3 h4)
  simpa using this

/-- One call of a policy appends the record of the page to `found`, or nothing, and likewise
to `backup`. -/
theorem Appended_of_CbStep {Q : pte_t → pte_t → Prop} {Ff Fb : pte_t → Prop} {cb : callback}
    (hcb : CbStep Q Ff Fb cb) (q : pte_t) (a : Nat) (s : State) :
    ∃ lf lb, Appended s (cb (some q) a s).st lf lb
      ∧ lf.Sublist [{ addr := a, pid_retval := s.curr_pid }]
      ∧ lb.Sublist [{ addr := a, pid_retval := s.curr_pid }] := by
  obtain ⟨_, _, _, _, _, c6, c7⟩ := hcb q a s
  have hf : ∃ lf, (cb (some q) a s).st.n_found = s.n_found + lf.length
      ∧ (∀ j, j < s.n_found → (cb (some q) a s).st.found_addrs j = s.found_addrs j)
      ∧ records (cb (some q) a s).st.found_addrs s.n_found lf.length = lf
      ∧ lf.Sublist [{ addr := a, pid_retval := s.curr_pid }] := by
    rcases c6 with c | c
    · exact ⟨[], by rw [c.1]; simp, fun j _ => by rw [c.2], rfl, List.nil_sublist _⟩
    · refine ⟨[{ addr := a, pid_retval := s.curr_pid }], by rw [c.2.1]; simp, fun j hj => ?_,
        ?_, List.Sublist.refl _⟩
      · rw [c.2.2]; simp only [arr_set]; rw [if_neg (by omega)]
      · rw [c.2.2, List.length_singleton, records_one]; simp [arr_set]
  have hb : ∃ lb, (cb (some q) a s).st.n_backup = s.n_backup + lb.length
      ∧ (∀ j, j < s.n_backup → (cb (some q) a s).st.backup_addrs j = s.backup_addrs j)
      ∧ records (cb (some q) a s).st.backup_addrs s.n_backup lb.length = lb
      ∧ lb.Sublist [{ addr := a, pid_retval := s.curr_pid }] := by
    rcases c7 with c | c
    · exact ⟨[], by rw [c.1]; simp, fun j _ => by rw [c.2], rfl, List.nil_sublist _⟩
    · refine ⟨[{ addr := a, pid_retval := s.curr_pid }], by rw [c.2.1]; simp, fun j hj => ?_,
        ?_, List.Sublist.refl _⟩
      · rw [c.2.2]; simp only [arr_set]; rw [if_neg (by omega)]
      · rw [c.2.2, List.length_singleton, records_one]; simp [arr_set]
  obtain ⟨lf, f1, f2, f3, f4⟩ := hf
  obtain ⟨lb, b1, b2, b3, b4⟩ := hb
  exact ⟨lf, lb, ⟨f1, f2, f3, b1, b2, b3⟩, f4, b4⟩

theorem segment_cons_in (pid : Int) (start stop a : Nat) (p : pte_t)
    (rest : List (Nat × pte_t)) (hin : start ≤ a ∧ a < stop) :
    segment pid start stop ((a, p) :: rest)
      = { addr := a, pid_retval := pid } :: segment pid start stop rest := by
  simp [segment, hin]

theorem segment_cons_out (pid : Int) (start stop a : Nat) (p : pte_t)
    (rest : List (Nat × pte_t)) (hout : ¬ (start ≤ a ∧ a < stop)) :
    segment pid start stop ((a, p) :: rest) = segment pid start stop rest := by
  simp [segment, hout]

/-- The segment depends on the addresses of the table only. -/
theorem segment_rel (Q : pte_t → pte_t → Prop) (pid : Int) (start stop : Nat)
    {l0 l : List (Nat × pte_t)} (h : PtesRel Q l0 l) :
    segment pid start stop l = segment pid start stop l0 := by
  induction h with
  | nil => rfl
  | @cons x y l0t lt hxy _ ih =>
    obtain ⟨a0, p⟩ := x
    obtain ⟨a, q⟩ := y
    have ha : a0 = a := hxy.1
    subst ha
    by_cases hin : start ≤ a0 ∧ a0 < stop
    · rw [segment_cons_in _ _ _ _ _ _ hin, segment_cons_in _ _ _ _ _ _ hin, ih]
    · rw [segment_cons_out _ _ _ _ _ _ hin, segment_cons_out _ _ _ _ _ _ hin, ih]

theorem task_segment_rel (Q : pte_t → pte_t → Prop) {s0 s : State} (h : TablesRel Q s0 s)
    (i : Int) (start stop : Nat) :
    task_segment s i start stop = task_segment s0 i start stop := by
  have hi := h i
  unfold task_segment
  cases h0 : s0.task_items i with
  | none =>
    rw [h0] at hi
    cases h1 : s.task_items i with
    | none => rfl
    | some t => rw [h1] at hi; exact absurd hi (by simp [TaskRel])
  | some t0 =>
    rw [h0] at hi
    cases h1 : s.task_items i with
    | none => rw [h1] at hi; exact absurd hi (by simp [TaskRel])
    | some t =>
      rw [h1] at hi
      obtain ⟨hp, hm⟩ := hi
      dsimp only
      cases hm0 : t0.mm with
      | none =>
        rw [hm0] at hm
        cases hm1 : t.mm with
        | none => rfl
        | some m => rw [hm1] at hm; exact absurd hm (by simp [MmRel])
      | some m0 =>
        rw [hm0] at hm
        cases hm1 : t.mm with
        | none => rw [hm1] at hm; exact absurd hm (by simp [MmRel])
        | some m =>
          rw [hm1] at hm
          dsimp only
          rw [← hp]
          exact segment_rel Q _ _ _ hm

theorem walk_ptes_seq {Q : pte_t → pte_t → Prop} {Ff Fb : pte_t → Prop} {cb : callback}
    (hcb : CbStep Q Ff Fb cb) (start stop : Nat) (l : List (Nat × pte_t)) (s : State) :
    ∃ lf lb, Appended s (walk_ptes cb start stop l s).1 lf lb
      ∧ lf.Sublist (segment s.curr_pid start stop l)
      ∧ lb.Sublist (segment s.curr_pid start stop l) := by
  induction l generalizing s with
  | nil => exact ⟨[], [], Appended_refl s, List.nil_sublist _, List.nil_sublist _⟩
  | cons x rest ih =>
    obtain ⟨a, p⟩ := x
    by_cases hin : start ≤ a ∧ a < stop
    · rw [walk_ptes_cons_in _ _ _ _ _ _ _ hin, segment_cons_in _ _ _ _ _ _ hin]
      obtain ⟨lf0, lb0, ap0, sf0, sb0⟩ := Appended_of_CbStep hcb p a s
      have c1 : (cb (some p) a s).st.curr_pid = s.curr_pid := (hcb p a s).1
      by_cases hret : (cb (some p) a s).ret ≠ 0
      · rw [if_pos hret]
        exact ⟨lf0, lb0, ap0, sf0.trans (List.Sublist.cons₂ _ (List.nil_sublist _)),
          sb0.trans (List.Sublist.cons₂ _ (List.nil_sublist _))⟩
      · rw [if_neg hret]
        obtain ⟨lf1, lb1, ap1, sf1, sb1⟩ := ih (cb (some p) a s).st
        rw [c1] at sf1 sb1
        exact ⟨lf0 ++ lf1, lb0 ++ lb1, Appended_trans ap0 ap1, sf0.append sf1, sb0.append sb1⟩
    · rw [walk_ptes_cons_out _ _ _ _ _ _ _ hin, segment_cons_out _ _ _ _ _ _ hin]
      exact ih s

theorem walk_task_seq {Q : pte_t → pte_t → Prop} {Ff Fb : pte_t → Prop} {cb : callback}
    (hcb : CbStep Q Ff Fb cb) (i : Int) (start stop : Nat) (s s1 : State)
    (hw : walk_task cb i start stop s = some s1) :
    ∃ lf lb, Appended s s1 lf lb
      ∧ lf.Sublist (task_segment s i start stop)
      ∧ lb.Sublist (task_segment s i start stop) := by
  unfold walk_task at hw
  unfold task_segment
  cases hti : s.task_items i with
  | none => rw [hti] at hw; exact absurd hw (by simp)
  | some t =>
    rw [hti] at hw
    dsimp only at hw ⊢
    cases hmm : t.mm with
    | none =>
      rw [hmm] at hw
      simp only [Option.some.injEq] at hw
      subst hw
      exact ⟨[], [], Appended_same _ _ rfl rfl rfl rfl, List.nil_sublist _, List.nil_sublist _⟩
    | some mm =>
      rw [hmm] at hw
      simp only [Option.some.injEq] at hw
      subst hw
      obtain ⟨lf, lb, ap, sf, sb⟩ := walk_ptes_seq hcb start stop mm.ptes
        { s with curr_pid := t.pid }
      exact ⟨lf, lb,
        Appended_congr_right (Appended_congr_left ap rfl rfl rfl rfl) rfl rfl rfl rfl, sf, sb⟩

theorem walk_tasks_seq (cb : callback)
    (hcb : CbStep (fun _ _ => True) (fun _ => True) (fun _ => True) cb)
    (s0 : State) (hm0 : AllManaged (fun _ => True) s0) (k : Nat) (i : Int) (s : State)
    (hrel : TablesRel (fun _ _ => True) s0 s) (hi : 0 ≤ i) (hk : i + k ≤ s0.n_pids) :
    ∃ r lf lb, walk_tasks cb k i s = some r ∧ TablesRel (fun _ _ => True) s0 r.1
      ∧ r.1.n_pids = s.n_pids
      ∧ Appended s r.1 lf lb
      ∧ lf.Sublist (whole_segments s0 k i) ∧ lb.Sublist (whole_segments s0 k i) := by
  induction k generalizing i s with
  | zero =>
    exact ⟨(s, none), [], [], rfl, hrel, rfl, Appended_refl s, List.nil_sublist _,
      List.nil_sublist _⟩
  | succ k ih =>
    have hin : i < s0.n_pids := by push_cast at hk; omega
    obtain ⟨t0, ht0, _⟩ := hm0 i hi hin
    have hri := hrel i
    rw [ht0] at hri
    cases hti : s.task_items i with
    | none => rw [hti] at hri; exact absurd hri (by simp [TaskRel])
    | some t =>
      obtain ⟨s1, hw, r1, g1⟩ := walk_task_walked (fun _ _ => True)
        (fun _ _ _ _ _ => trivial) (fun _ => True) (fun _ => True) (fun _ => True)
        (fun _ => True) cb hcb (fun _ _ _ _ => trivial) (fun _ _ _ _ => trivial) s0 s hrel i
        0 MAX_ADDRESS hi hin t hti
      obtain ⟨lf1, lb1, ap1, sf1, sb1⟩ := walk_task_seq hcb i 0 MAX_ADDRESS s s1 hw
      rw [task_segment_rel _ hrel] at sf1 sb1
      simp only [walk_tasks, hw, whole_segments]
      split_ifs with hf
      · exact ⟨_, lf1, lb1, rfl, r1, g1.n_pids, ap1,
          sf1.trans (List.sublist_append_left _ _), sb1.trans (List.sublist_append_left _ _)⟩
      · obtain ⟨r, lf2, lb2, hr, r2, n2, ap2, sf2, sb2⟩ := ih (i + 1) s1 r1 (by omega)
          (by push_cast at hk; omega)
        exact ⟨r, lf1 ++ lf2, lb1 ++ lb2, hr, r2, n2.trans g1.n_pids, Appended_trans ap1 ap2,
          sf1.append sf2, sb1.append sb2⟩

/-- The whole of `do_page_walk`, from a cursor in range on a table without NULL entries: it
returns, and what it appended to `found`, and what it appended to `backup`, are pages in the
order of the walk. -/
theorem do_page_walk_seq (cb : callback)
    (hcb : CbStep (fun _ _ => True) (fun _ => True) (fun _ => True) cb)
    (last_pid : Int) (last_addr : Nat) (s : State) (hm : AllManaged (fun _ => True) s)
    (h0 : 0 ≤ last_pid) (h1 : last_pid < s.n_pids) :
    ∃ r s' lf lb, do_page_walk cb last_pid last_addr s = some (r, s')
      ∧ Appended s s' lf lb
      ∧ lf.Sublist (walk_order s last_pid last_addr)
      ∧ lb.Sublist (walk_order s last_pid last_addr) := by
  obtain ⟨t, hti, _⟩ := hm last_pid h0 h1
  obtain ⟨s1, hw1, r1, g1⟩ := walk_task_walked (fun _ _ => True)
    (fun _ _ _ _ _ => trivial) (fun _ => True) (fun _ => True) (fun _ => True)
    (fun _ => True) cb hcb (fun _ _ _ _ => trivial) (fun _ _ _ _ => trivial) s s
    (TablesRel_refl _ (fun _ => trivial) s) last_pid last_addr MAX_ADDRESS h0 h1 t hti
  obtain ⟨lfA, lbA, apA, sfA, sbA⟩ := walk_task_seq hcb last_pid last_addr MAX_ADDRESS s s1 hw1
  unfold do_page_walk walk_order
  simp only [hw1]
  split_ifs with hf
  · exact ⟨_, _, lfA, lbA, rfl, apA, sfA.trans (List.sublist_append_left _ _),
      sbA.trans (List.sublist_append_left _ _)⟩
  · obtain ⟨r2, lfB, lbB, hw2, rr2, n2, apB, sfB, sbB⟩ := walk_tasks_seq cb hcb s hm
      (s1.n_pids - (last_pid + 1)).toNat (last_pid + 1) s1 r1 (by omega)
      (by rw [g1.n_pids]; omega)
    rw [g1.n_pids] at sfB sbB
    obtain ⟨s2, o2⟩ := r2
    simp only [hw2]
    dsimp only at rr2 n2 apB
    cases o2 with
    | some idx =>
      exact ⟨_, _, lfA ++ lfB, lbA ++ lbB, rfl, Appended_trans apA apB,
        sfA.append (sfB.trans (List.sublist_append_left _ _)),
        sbA.append (sbB.trans (List.sublist_append_left _ _))⟩
    | none =>
      obtain ⟨r3, lfC, lbC, hw3, rr3, n3, apC, sfC, sbC⟩ := walk_tasks_seq cb hcb s hm
        last_pid.toNat 0 s2 rr2 (le_refl 0) (by omega)
      obtain ⟨s3, o3⟩ := r3
      simp only [hw3]
      dsimp only at rr3 n3 apC
      cases o3 with
      | some idx =>
        exact ⟨_, _, lfA ++ (lfB ++ lfC), lbA ++ (lbB ++ lbC), rfl,
          Appended_trans apA (Appended_trans apB apC),
          sfA.append (sfB.append (sfC.trans (List.sublist_append_left _ _))),
          sbA.append (sbB.append (sbC.trans (List.sublist_append_left _ _)))⟩
      | none =>
        have hri := rr3 last_pid
        rw [hti] at hri
        cases hti3 : s3.task_items last_pid with
        | none => rw [hti3] at hri; exact absurd hri (by simp [TaskRel])
        | some t3 =>
          obtain ⟨s4, hw4, _, _⟩ := walk_task_walked (fun _ _ => True)
            (fun _ _ _ _ _ => trivial) (fun _ => True) (fun _ => True) (fun _ => True)
            (fun _ => True) cb hcb (fun _ _ _ _ => trivial) (fun _ _ _ _ => trivial) s s3
            rr3 last_pid 0 (last_addr + 1) h0 h1 t3 hti3
          obtain ⟨lfD, lbD, apD, sfD, sbD⟩ :=
            walk_task_seq hcb last_pid 0 (last_addr + 1) s3 s4 hw4
          rw [task_segment_rel _ rr3] at sfD sbD
          simp only [hw4]
          exact ⟨_, _, lfA ++ (lfB ++ (lfC ++ lfD)), lbA ++ (lbB ++ (lbC ++ lbD)), rfl,
            Appended_trans apA (Appended_trans apB (Appended_trans apC apD)),
            sfA.append (sfB.append (sfC.append sfD)),
            sbA.append (sbB.append (sbC.append sbD))⟩

/-! ## The response of a single-tier FIND, in walk order -/

theorem records_shift (f g : Int → addr_info_t) (a b : Int) (len : Nat)
    (h : ∀ i : Int, 0 ≤ i → i < len → f (a + i) = g (b + i)) :
    records f a len = records g b len := by
  simp only [records]
  apply List.map_congr_left
  intro j hj
  rw [List.mem_range] at hj
  exact h _ (by simp only [Int.ofNat_eq_coe]; omega) (by simp only [Int.ofNat_eq_coe]; omega)

theorem records_take (f : Int → addr_info_t) (a : Int) (m n : Nat) (h : m ≤ n) :
    (records f a n).take m = records f a m := by
  have e : n = m + (n - m) := by omega
  rw [e, records_append]
  exact List.take_left' (records_length _ _ _)

/-- The promotion at the end of `mem_walk`, on buffers given as lists: `found` ends as the
primary picks followed by the first backups, as many as were missing or as there are. -/
theorem mem_walk_finish_seq (s1 : State) (lf lb : List addr_info_t)
    (h1 : s1.n_found = lf.length) (h2 : records s1.found_addrs 0 lf.length = lf)
    (h3 : s1.n_backup = lb.length) (h4 : records s1.backup_addrs 0 lb.length = lb) :
    ∃ back, back.Sublist lb
      ∧ (mem_walk_finish s1).2.n_found = lf.length + back.length
      ∧ records (mem_walk_finish s1).2.found_addrs 0 (lf.length + back.length) = lf ++ back := by
  obtain ⟨p1, p2⟩ := mem_walk_finish_exact s1 (by omega)
  by_cases hfull : s1.n_to_find ≤ s1.n_found
  · rw [p2 hfull]
    refine ⟨[], List.nil_sublist _, by simp [h1], ?_⟩
    simp only [List.length_nil, Nat.add_zero, List.append_nil]
    exact h2
  · obtain ⟨e1, e2, e3⟩ := p1 (by omega)
    have hm0 : 0 ≤ min (s1.n_to_find - s1.n_found) s1.n_backup := by omega
    have hmle : (min (s1.n_to_find - s1.n_found) s1.n_backup).toNat ≤ lb.length := by omega
    have hlen : (lb.take (min (s1.n_to_find - s1.n_found) s1.n_backup).toNat).length
        = (min (s1.n_to_find - s1.n_found) s1.n_backup).toNat := by
      rw [List.length_take]; omega
    refine ⟨lb.take (min (s1.n_to_find - s1.n_found) s1.n_backup).toNat, List.take_sublist _ _,
      ?_, ?_⟩
    · rw [e1, hlen, h1]; omega
    · rw [hlen, records_append]
      have a1 : records (mem_walk_finish s1).2.found_addrs 0 lf.length = lf :=
        (records_congr _ _ _ _ (fun j _ hj => e2 j (by omega))).trans h2
      have a2 : records (mem_walk_finish s1).2.found_addrs (0 + lf.length)
          (min (s1.n_to_find - s1.n_found) s1.n_backup).toNat
          = lb.take (min (s1.n_to_find - s1.n_found) s1.n_backup).toNat := by
        have sh := records_shift (mem_walk_finish s1).2.found_addrs s1.backup_addrs
          (0 + lf.length) 0 (min (s1.n_to_find - s1.n_found) s1.n_backup).toNat
          (fun i hi0 hi1 => by
            have := e3 i hi0 (by omega)
            rw [h1] at this
            rw [zero_add, zero_add]
            exact this)
        rw [sh, ← records_take s1.backup_addrs 0 _ lb.length hmle, h4]
      rw [a1, a2]


theorem walk_order_congr (s s' : State) (h1 : s'.task_items = s.task_items)
    (h2 : s'.n_pids = s.n_pids) (last_pid : Int) (last_addr : Nat) :
    walk_order s' last_pid last_addr = walk_order s last_pid last_addr := by
  have ht : ∀ i a b, task_segment s' i a b = task_segment s i a b := by
    intro i a b
    unfold task_segment
    rw [h1]
  have hw : ∀ (k : Nat) (i : Int), whole_segments s' k i = whole_segments s k i := by
    intro k
    induction k with
    | zero => intro i; rfl
    | succ k ih => intro i; simp only [whole_segments, ht, ih]
  unfold walk_order
  rw [ht, ht, hw, hw, h2]

/-- A single-tier `mem_walk` from an empty `found`, on a non-empty managed set: it returns,
and `found` ends as the primary picks followed by the promoted backups, both in the order of
the walk from the cursor of the tier. -/
theorem mem_walk_seq (n mode : Int) (s : State) (cb : callback) (d : Bool)
    (hops : mem_walk_ops mode = some (cb, d)) (hinv : Inv s) (hpos : 0 < s.n_pids)
    (hnf : s.n_found = 0) :
    ∃ r s2 prim back, mem_walk n mode s = some (r, s2)
      ∧ s2.n_found = prim.length + back.length
      ∧ records s2.found_addrs 0 (prim.length + back.length) = prim ++ back
      ∧ prim.Sublist (walk_order s (if d = true then s.last_pid_dram else s.last_pid_nvram)
          (if d = true then s.last_addr_dram else s.last_addr_nvram))
      ∧ back.Sublist (walk_order s (if d = true then s.last_pid_dram else s.last_pid_nvram)
          (if d = true then s.last_addr_dram else s.last_addr_nvram)) := by
  have hcb := mem_walk_ops_CbStep mode cb d hops
  have hd := CursorOk_range _ _ hinv.dram hpos
  have hn := CursorOk_range _ _ hinv.nvram hpos
  have hm0 : AllManaged (fun _ => True) (mem_walk_start n s) :=
    AllManaged_weaken hinv.tasks (fun _ _ => trivial)
  have key : ∀ (s1 : State) (lf lb : List addr_info_t) (W : List addr_info_t),
      mem_walk n mode s = some (mem_walk_finish s1) →
      s1.n_found = lf.length → records s1.found_addrs 0 lf.length = lf →
      s1.n_backup = lb.length → records s1.backup_addrs 0 lb.length = lb →
      lf.Sublist W → lb.Sublist W →
      ∃ r s2 prim back, mem_walk n mode s = some (r, s2)
        ∧ s2.n_found = prim.length + back.length
        ∧ records s2.found_addrs 0 (prim.length + back.length) = prim ++ back
        ∧ prim.Sublist W ∧ back.Sublist W := by
    intro s1 lf lb W hw h1 h2 h3 h4 sf sb
    obtain ⟨back, b1, b2, b3⟩ := mem_walk_finish_seq s1 lf lb h1 h2 h3 h4
    exact ⟨(mem_walk_finish s1).1, (mem_walk_finish s1).2, lf, back, hw, b2, b3, sf,
      b1.trans sb⟩
  cases d with
  | true =>
    obtain ⟨r, s', lf, lb, hw, ap, sf, sb⟩ := do_page_walk_seq cb hcb
      (mem_walk_start n s).last_pid_dram (mem_walk_start n s).last_addr_dram
      (mem_walk_start n s) hm0 hd.1 hd.2
    have e1 := ap.n_found
    have e2 := ap.found_new
    have e3 := ap.n_backup
    have e4 := ap.backup_new
    have z1 : (mem_walk_start n s).n_found = 0 := hnf
    have z2 : (mem_walk_start n s).n_backup = 0 := rfl
    rw [z1] at e1 e2
    rw [z2] at e3 e4
    have eW : walk_order (mem_walk_start n s) (mem_walk_start n s).last_pid_dram
        (mem_walk_start n s).last_addr_dram
        = walk_order s s.last_pid_dram s.last_addr_dram := walk_order_congr s (mem_walk_start n s) rfl rfl _ _
    rw [eW] at sf sb
    simp only [if_true]
    refine key { s' with last_pid_dram := r } lf lb _ ?_ (by rw [show
      ({ s' with last_pid_dram := r } : State).n_found = s'.n_found from rfl, e1]; omega) e2
      (by rw [show ({ s' with last_pid_dram := r } : State).n_backup = s'.n_backup from rfl,
        e3]; omega) e4 sf sb
    rw [mem_walk_eq, hops]
    dsimp only
    unfold mem_walk_primary
    rw [if_pos rfl, hw]
    rfl
  | false =>
    obtain ⟨r, s', lf, lb, hw, ap, sf, sb⟩ := do_page_walk_seq cb hcb
      (mem_walk_start n s).last_pid_nvram (mem_walk_start n s).last_addr_nvram
      (mem_walk_start n s) hm0 hn.1 hn.2
    have e1 := ap.n_found
    have e2 := ap.found_new
    have e3 := ap.n_backup
    have e4 := ap.backup_new
    have z1 : (mem_walk_start n s).n_found = 0 := hnf
    have z2 : (mem_walk_start n s).n_backup = 0 := rfl
    rw [z1] at e1 e2
    rw [z2] at e3 e4
    have eW : walk_order (mem_walk_start n s) (mem_walk_start n s).last_pid_nvram
        (mem_walk_start n s).last_addr_nvram
        = walk_order s s.last_pid_nvram s.last_addr_nvram := walk_order_congr s (mem_walk_start n s) rfl rfl _ _
    rw [eW] at sf sb
    simp only [Bool.false_eq_true, if_false]
    refine key { s' with last_pid_nvram := r } lf lb _ ?_ (by rw [show
      ({ s' with last_pid_nvram := r } : State).n_found = s'.n_found from rfl, e1]; omega) e2
      (by rw [show ({ s' with last_pid_nvram := r } : State).n_backup = s'.n_backup from rfl,
        e3]; omega) e4 sf sb
    rw [mem_walk_eq, hops]
    dsimp only
    unfold mem_walk_primary
    rw [if_neg (by decide), hw]
    rfl

theorem find_cursor_ops (mode : Int) (cb : callback) (d : Bool) (s : State)
    (hops : mem_walk_ops mode = some (cb, d)) :
    find_cursor mode s
      = (if d = true then s.last_pid_dram else s.last_pid_nvram,
         if d = true then s.last_addr_dram else s.last_addr_nvram) := by
  unfold mem_walk_ops at hops
  unfold find_cursor
  split_ifs at hops with h1 h2 h3 h4 <;>
    simp only [Option.some.injEq, Prod.mk.injEq] at hops
  · rw [if_pos h1, ← hops.2]; rfl
  · rw [if_neg h1, ← hops.2]; rfl
  · rw [if_neg h1, ← hops.2]; rfl
  · rw [if_neg h1, ← hops.2]; rfl

/-! ## The `int` subtraction of the callbacks -/

/-- A difference that lies in the range of `int` is computed exactly. -/
theorem int_sub_eq (a b : Int) (hlo : -2147483648 ≤ a - b) (hhi : a - b ≤ 2147483647) :
    int_sub a b = a - b := by
  unfold int_sub
  omega

/-- A difference just below the range of `int` comes out `2 ^ 32` higher. -/
theorem int_sub_wrap (a b : Int) (hlo : -6442450944 ≤ a - b) (hhi : a - b < -2147483648) :
    int_sub a b = a - b + 4294967296 := by
  unfold int_sub
  omega

/-! ## The policies select exactly their primary pages -/

theorem filter_cons_sel (sel : pte_t → Bool) (a : Nat) (p : pte_t) (rest : List (Nat × pte_t)) :
    ((a, p) :: rest).filter (fun x => sel x.2)
      = if sel p = true then (a, p) :: rest.filter (fun x => sel x.2)
        else rest.filter (fun x => sel x.2) := by
  simp only [List.filter_cons]

/-- The selected pages of a range, slot by slot. -/
theorem segment_select_cons (sel : pte_t → Bool) (pid : Int) (start stop a : Nat) (p : pte_t)
    (rest : List (Nat × pte_t)) :
    segment pid start stop (((a, p) :: rest).filter (fun x => sel x.2))
      = (if (start ≤ a ∧ a < stop) ∧ sel p = true
          then [({ addr := a, pid_retval := pid } : addr_info_t)] else [])
        ++ segment pid start stop (rest.filter (fun x => sel x.2)) := by
  rw [filter_cons_sel]
  by_cases hs : sel p = true
  · rw [if_pos hs]
    by_cases hin : start ≤ a ∧ a < stop
    · rw [segment_cons_in _ _ _ _ _ _ hin, if_pos ⟨hin, hs⟩]; rfl
    · rw [segment_cons_out _ _ _ _ _ _ hin, if_neg (fun h => hin h.1)]; rfl
  · rw [if_neg hs, if_neg (fun h => hs h.2)]; rfl

theorem slot_after_iff (slots sel : List addr_info_t) (m : Nat) :
    slot_after slots sel m = true ↔ ∃ x ∈ slots, ∀ r ∈ sel.take m, r.addr < x.addr := by
  simp only [slot_after, List.any_eq_true, List.all_eq_true, decide_eq_true_eq]

/-- A record of a segment is the record of a slot of the table. -/
theorem mem_segment (pid : Int) (start stop : Nat) (l : List (Nat × pte_t)) (r : addr_info_t)
    (h : r ∈ segment pid start stop l) : ∃ x ∈ l, r.addr = x.1 := by
  unfold segment at h
  obtain ⟨x, hx, rfl⟩ := List.mem_map.1 h
  exact ⟨x, (List.mem_filter.1 hx).1, rfl⟩

/-- A further selected page is a slot above the pages before it. -/
theorem slot_after_of_lt (pid : Int) (start stop : Nat) (sel : pte_t → Bool)
    (l : List (Nat × pte_t)) (hs : l.Pairwise (fun x y => x.1 < y.1)) (m : Nat)
    (h : m < (segment pid start stop (l.filter (fun x => sel x.2))).length) :
    slot_after (segment pid start stop l)
      (segment pid start stop (l.filter (fun x => sel x.2))) m = true := by
  induction l generalizing m with
  | nil => simp [segment] at h
  | cons x rest ih =>
    obtain ⟨a, p⟩ := x
    rw [List.pairwise_cons] at hs
    rw [segment_select_cons] at h ⊢
    by_cases hin : start ≤ a ∧ a < stop
    · rw [segment_cons_in _ _ _ _ _ _ hin]
      by_cases hsel : sel p = true
      · rw [if_pos ⟨hin, hsel⟩] at h ⊢
        cases m with
        | zero =>
          rw [slot_after_iff]
          exact ⟨_, List.mem_cons_self _ _, fun r hr => by simp at hr⟩
        | succ m =>
          have h2 := ih hs.2 m (by simpa using h)
          rw [slot_after_iff] at h2 ⊢
          obtain ⟨x, hx, hall⟩ := h2
          refine ⟨x, List.mem_cons_of_mem _ hx, fun r hr => ?_⟩
          simp only [List.singleton_append, List.take_succ_cons, List.mem_cons] at hr
          rcases hr with hr | hr
          · obtain ⟨y, hy, hxy⟩ := mem_segment _ _ _ _ _ hx
            rw [hr, hxy]
            exact hs.1 y hy
          · exact hall r hr
      · rw [if_neg (fun h => hsel h.2), List.nil_append] at h ⊢
        have h2 := ih hs.2 m h
        rw [slot_after_iff] at h2 ⊢
        obtain ⟨x, hx, hall⟩ := h2
        exact ⟨x, List.mem_cons_of_mem _ hx, hall⟩
    · rw [segment_cons_out _ _ _ _ _ _ hin]
      rw [if_neg (fun h => hin h.1), List.nil_append] at h ⊢
      exact ih hs.2 m h

theorem whole_blocks_flatten (s : State) (k : Nat) (i : Int) :
    (whole_blocks s k i).flatten = whole_segments s k i := by
  induction k generalizing i with
  | zero => rfl
  | succ k ih => simp only [whole_blocks, whole_segments, List.flatten_cons, ih]

theorem walk_blocks_flatten (s : State) (last_pid : Int) (last_addr : Nat) :
    (walk_blocks s last_pid last_addr).flatten = walk_cycle s last_pid last_addr := by
  simp only [walk_blocks, walk_cycle, List.flatten_cons, List.flatten_append,
    whole_blocks_flatten, List.flatten_nil, List.append_nil]

/-- C2 as stated fails for a negative count: FIND(-1, DRAM) on the one-process example is
answered with 3 records (more than n + 1 = 0), and `found` then holds 2 records while
`n_to_find` is -1. -/
theorem C2_counterexample :
    (process_req k_mm (some { op_code := FIND_OP, pid_n := -1, mode := DRAM_MODE }) ex_one).map
        (fun s' => (s'.n_found, s'.n_to_find)) = some (3, -1)
    ∧ ¬ ((3 : Int) ≤ -1 + 1) ∧ ¬ ((3 : Int) - 1 ≤ -1) := by
  decide

/-- C2, amended: for a FIND with a requested count n ≥ 0 in a single-tier mode, the walk
starts with `n_found = 0 ≤ n_to_find` (the clamped count), each call of the four single-tier
policy callbacks keeps `n_found ≤ n_to_find`, so does the promotion of backups at the end of
`mem_walk`, and in every state satisfying the table invariant the request is answered with
at most n + 1 records, the candidates being at most `n_to_find`. -/
theorem C2_found_bounded (k : Kernel) (n mode : Int) (s : State) (hinv : Inv s)
    (hn : 0 ≤ n)
    (hmode : mode = DRAM_MODE ∨ mode = NVRAM_MODE ∨ mode = NVRAM_WRITE_MODE
      ∨ mode = NVRAM_INTENSIVE_MODE) :
    0 ≤ int_min MAX_N_FIND n
    ∧ KeepsBound pte_callback_mem ∧ KeepsBound pte_callback_nvram_force
    ∧ KeepsBound pte_callback_nvram_write ∧ KeepsBound pte_callback_nvram_intensive
    ∧ (∀ st : State, st.n_found ≤ st.n_to_find →
        (mem_walk_finish st).2.n_found ≤ (mem_walk_finish st).2.n_to_find)
    ∧ ∃ s', process_req k (some { op_code := FIND_OP, pid_n := n, mode := mode }) s = some s'
        ∧ s'.n_found ≤ n + 1
        ∧ (s'.n_pids > 0 → s'.n_to_find = int_min MAX_N_FIND n ∧ s'.n_found - 1 ≤ s'.n_to_find) := by
  refine ⟨?_, KeepsBound_of_CbGrows _ CbGrows_mem, KeepsBound_of_CbGrows _ CbGrows_nvram_force,
    KeepsBound_of_CbGrows _ CbGrows_nvram_write, KeepsBound_of_CbGrows _ CbGrows_nvram_intensive,
    ?_, ?_⟩
  · have : (0 : Int) ≤ MAX_N_FIND := by decide
    unfold int_min; split_ifs <;> omega
  · intro st hb
    obtain ⟨_, f2, _, _, _, f6⟩ := mem_walk_finish_spec st
    have := f6 hb
    rw [f2]
    exact this
  · have hinv0 : Inv (refresh_pids k { s with n_found := 0 }) :=
      Inv_refresh_pids k _ (Inv_congr s _ rfl rfl rfl rfl hinv)
    have hnf : (refresh_pids k { s with n_found := 0 }).n_found = 0 :=
      (refresh_pids_frame k _).2.2.2.2.2.1
    have hmin : 0 ≤ int_min MAX_N_FIND n ∧ int_min MAX_N_FIND n ≤ n := by
      have : (0 : Int) ≤ MAX_N_FIND := by decide
      unfold int_min; split_ifs <;> omega
    rw [process_req_find_mem k n mode s hmode]
    by_cases hp : (refresh_pids k { s with n_found := 0 }).n_pids > 0
    · rw [if_pos hp]
      obtain ⟨r, s1, hw, _, _, _, hb, hnt⟩ := mem_walk_spec (fun _ => True)
        (int_min MAX_N_FIND n) mode _ hmode hinv0 hp (AllManaged_weaken hinv0.tasks (fun _ _ => trivial))
      rw [hw]
      have := hb (by omega)
      refine ⟨_, rfl, ?_, fun _ => ⟨hnt, ?_⟩⟩
      · simp only [put_retval]; omega
      · simp only [put_retval]; omega
    · rw [if_neg hp]
      refine ⟨_, rfl, ?_, fun h => ?_⟩
      · simp only [put_retval]; omega
      · exact absurd h hp

/-- C2 at FIND(10, DRAM) on the one-process example. -/
theorem C2_found_bounded_witness :
    0 ≤ int_min MAX_N_FIND 10
    ∧ KeepsBound pte_callback_mem ∧ KeepsBound pte_callback_nvram_force
    ∧ KeepsBound pte_callback_nvram_write ∧ KeepsBound pte_callback_nvram_intensive
    ∧ (∀ st : State, st.n_found ≤ st.n_to_find →
        (mem_walk_finish st).2.n_found ≤ (mem_walk_finish st).2.n_to_find)
    ∧ ∃ s', process_req k_mm (some { op_code := FIND_OP, pid_n := 10, mode := DRAM_MODE }) ex_one
          = some s'
        ∧ s'.n_found ≤ 10 + 1
        ∧ (s'.n_pids > 0 → s'.n_to_find = int_min MAX_N_FIND 10
            ∧ s'.n_found - 1 ≤ s'.n_to_find) :=
  C2_found_bounded k_mm 10 DRAM_MODE ex_one Inv_ex_one (by decide) (Or.inl rfl)

/-- C5: when the managed set already holds MAX_PIDS live processes, BIND(pid) is answered
with a single record whose retval is -1, and the task table, the number of managed
processes and both walk cursors are left unchanged. -/
theorem C5_bind_at_capacity (k : Kernel) (pid mode : Int) (s : State)
    (hfull : s.n_pids = MAX_PIDS)
    (hlive : AllManaged (fun p => k.find_get_pid p = true) s) :
    ∃ s', process_req k (some { op_code := BIND_OP, pid_n := pid, mode := mode }) s = some s'
      ∧ s'.n_found = 1 ∧ (s'.found_addrs 0).pid_retval = -1
      ∧ s'.task_items = s.task_items ∧ s'.n_pids = s.n_pids
      ∧ s'.last_pid_dram = s.last_pid_dram ∧ s'.last_addr_dram = s.last_addr_dram
      ∧ s'.last_pid_nvram = s.last_pid_nvram ∧ s'.last_addr_nvram = s.last_addr_nvram := by
  have hr : refresh_pids k { s with n_found := 0 } = { s with n_found := 0 } :=
    refresh_pids_id k _ hlive
  have hb : bind_pid k pid { s with n_found := 0 } = (-1, { s with n_found := 0 }) := by
    unfold bind_pid find_target_process
    dsimp only
    split_ifs <;> first | rfl | (exfalso; omega)
  refine ⟨_, process_req_bind k pid mode s, ?_⟩
  rw [hr, hb]
  simp [put_retval, set_pid_retval]

/-- The scenario "BIND full" of the spec: five managed processes, BIND(9999). -/
theorem C5_bind_at_capacity_witness :
    ex_five.n_pids = MAX_PIDS
    ∧ ∃ s', process_req k_all (some { op_code := BIND_OP, pid_n := 9999, mode := 0 }) ex_five
          = some s'
      ∧ s'.n_found = 1 ∧ (s'.found_addrs 0).pid_retval = -1
      ∧ s'.task_items = ex_five.task_items ∧ s'.n_pids = ex_five.n_pids
      ∧ s'.last_pid_dram = ex_five.last_pid_dram ∧ s'.last_addr_dram = ex_five.last_addr_dram
      ∧ s'.last_pid_nvram = ex_five.last_pid_nvram
      ∧ s'.last_addr_nvram = ex_five.last_addr_nvram :=
  ⟨by decide, C5_bind_at_capacity k_all 9999 0 ex_five (by decide) live_ex_five⟩

/-- C6: on a managed set of live processes, BIND(pid) (pid a C int, so pid ≤ MAX_PID_N)
is answered with one record; its retval is 0 exactly when pid > 0, fewer than MAX_PIDS
processes are managed, pid is not already managed and pid resolves to an existing task.
On retval 0 the new managed set is the old one with the task of pid appended at the end;
otherwise the retval is -1 and the task table and the number of managed processes are
unchanged. -/
theorem C6_bind_outcome (k : Kernel) (pid mode : Int) (s : State) (hn : 0 ≤ s.n_pids)
    (hlive : AllManaged (fun p => k.find_get_pid p = true) s) (hmax : pid ≤ MAX_PID_N) :
    ∃ s', process_req k (some { op_code := BIND_OP, pid_n := pid, mode := mode }) s = some s'
      ∧ s'.n_found = 1
      ∧ ((s'.found_addrs 0).pid_retval = 0
          ↔ (0 < pid ∧ s.n_pids < MAX_PIDS ∧ pid ∉ managed_pids s ∧ k.find_get_pid pid = true
              ∧ (k.get_pid_task pid).isSome = true))
      ∧ ((s'.found_addrs 0).pid_retval = 0 →
          ∃ mm, k.get_pid_task pid = some mm
            ∧ managed s' = managed s ++ [some { pid := pid, mm := mm }])
      ∧ ((s'.found_addrs 0).pid_retval ≠ 0 →
          (s'.found_addrs 0).pid_retval = -1 ∧ s'.task_items = s.task_items
            ∧ s'.n_pids = s.n_pids ∧ managed s' = managed s) := by
  have hr : refresh_pids k { s with n_found := 0 } = { s with n_found := 0 } :=
    refresh_pids_id k _ hlive
  refine ⟨_, process_req_bind k pid mode s, ?_⟩
  rw [hr]
  have hmp : managed_pids { s with n_found := 0 } = managed_pids s := rfl
  rcases bind_pid_cases k pid { s with n_found := 0 } hn hmax with ⟨hc, mm, hg, hb⟩ | ⟨hc, hb⟩
  · rw [hb, hmp] at *
    refine ⟨rfl, ?_, ?_, ?_⟩
    · simp only [put_retval, set_pid_retval, if_true, true_iff]
      exact hc
    · intro _
      exact ⟨mm, hg, managed_append s _ hn⟩
    · intro h
      simp [put_retval, set_pid_retval] at h
  · rw [hb, hmp] at *
    refine ⟨rfl, ?_, ?_, ?_⟩
    · simp only [put_retval, set_pid_retval, if_true]
      constructor
      · intro h; exact absurd h (by decide)
      · intro h; exact absurd h hc
    · intro h
      simp [put_retval, set_pid_retval] at h
    · intro _
      exact ⟨by simp [put_retval, set_pid_retval], rfl, rfl, rfl⟩

/-- C6 at BIND(300) on the set [100, 200], every pid resolving. -/
theorem C6_bind_outcome_witness :
    (0 ≤ ex_two.n_pids ∧ (300 : Int) ≤ MAX_PID_N)
    ∧ ∃ s', process_req k_all (some { op_code := BIND_OP, pid_n := 300, mode := 0 }) ex_two
          = some s'
      ∧ s'.n_found = 1
      ∧ ((s'.found_addrs 0).pid_retval = 0
          ↔ (0 < (300 : Int) ∧ ex_two.n_pids < MAX_PIDS ∧ (300 : Int) ∉ managed_pids ex_two
              ∧ k_all.find_get_pid 300 = true ∧ (k_all.get_pid_task 300).isSome = true))
      ∧ ((s'.found_addrs 0).pid_retval = 0 →
          ∃ mm, k_all.get_pid_task 300 = some mm
            ∧ managed s' = managed ex_two ++ [some { pid := 300, mm := mm }])
      ∧ ((s'.found_addrs 0).pid_retval ≠ 0 →
          (s'.found_addrs 0).pid_retval = -1 ∧ s'.task_items = ex_two.task_items
            ∧ s'.n_pids = ex_two.n_pids ∧ managed s' = managed ex_two) :=
  ⟨⟨by decide, by decide⟩, C6_bind_outcome k_all 300 0 ex_two (by decide) live_ex_two (by decide)⟩

/-- C7 as stated fails: in the set [100, 200] where the process 200 has exited, UNBIND(300)
is refused with retval -1, yet the refresh pass that follows `unbind_pid` in `process_req`
evicts the dead entry, so the managed set changes to [100]. -/
theorem C7_counterexample :
    (300 : Int) ∉ managed_pids ex_two
    ∧ managed_pids ex_two = [100, 200]
    ∧ (process_req k_200_dead (some { op_code := UNBIND_OP, pid_n := 300, mode := 0 }) ex_two).map
        (fun s' => ((s'.found_addrs 0).pid_retval, managed_pids s')) = some (-1, [100]) := by
  decide

/-- C7, amended: on a managed set of live processes, UNBIND(pid) for a pid that is not a
member is answered with a single record whose retval is -1, and the task table, the number
of managed processes and both walk cursors are left unchanged. -/
theorem C7_unbind_non_member (k : Kernel) (pid mode : Int) (s : State) (hn : 0 ≤ s.n_pids)
    (hlive : AllManaged (fun p => k.find_get_pid p = true) s)
    (hnot : pid ∉ managed_pids s) :
    ∃ s', process_req k (some { op_code := UNBIND_OP, pid_n := pid, mode := mode }) s = some s'
      ∧ s'.n_found = 1 ∧ (s'.found_addrs 0).pid_retval = -1
      ∧ s'.task_items = s.task_items ∧ s'.n_pids = s.n_pids
      ∧ s'.last_pid_dram = s.last_pid_dram ∧ s'.last_addr_dram = s.last_addr_dram
      ∧ s'.last_pid_nvram = s.last_pid_nvram ∧ s'.last_addr_nvram = s.last_addr_nvram := by
  refine ⟨_, process_req_unbind k pid mode s, ?_⟩
  rw [unbind_pid_non_member pid { s with n_found := 0 } hn hnot]
  have hr : refresh_pids k { s with n_found := 0 } = { s with n_found := 0 } :=
    refresh_pids_id k _ hlive
  dsimp only
  rw [hr]
  simp [put_retval, set_pid_retval]

/-- The scenario "UNBIND non-member" of the spec: set [100, 200], UNBIND(300), both
processes alive. -/
theorem C7_unbind_non_member_witness :
    (0 ≤ ex_two.n_pids ∧ (300 : Int) ∉ managed_pids ex_two)
    ∧ ∃ s', process_req k_all (some { op_code := UNBIND_OP, pid_n := 300, mode := 0 }) ex_two
          = some s'
      ∧ s'.n_found = 1 ∧ (s'.found_addrs 0).pid_retval = -1
      ∧ s'.task_items = ex_two.task_items ∧ s'.n_pids = ex_two.n_pids
      ∧ s'.last_pid_dram = ex_two.last_pid_dram ∧ s'.last_addr_dram = ex_two.last_addr_dram
      ∧ s'.last_pid_nvram = ex_two.last_pid_nvram
      ∧ s'.last_addr_nvram = ex_two.last_addr_nvram :=
  ⟨⟨by decide, by decide⟩,
    C7_unbind_non_member k_all 300 0 ex_two (by decide) live_ex_two (by decide)⟩

/-- C8: on a managed set of live processes with unique PIDs whose entry at index `i` has the
PID pid (a positive C int), UNBIND(pid) is answered with one record of retval 0, and the
new managed set is the old one with the entry at index `i` erased, the other entries
keeping their order. -/
theorem C8_unbind_member (k : Kernel) (pid mode : Int) (s : State) (hn : 0 ≤ s.n_pids)
    (hlive : AllManaged (fun p => k.find_get_pid p = true) s)
    (hnodup : ∀ i j ti tj, 0 ≤ i → i < j → j < s.n_pids →
      s.task_items i = some ti → s.task_items j = some tj → ti.pid ≠ tj.pid)
    (hpos : 0 < pid) (hmax : pid ≤ MAX_PID_N) (i : Int) (t : task_struct)
    (hi0 : 0 ≤ i) (hi : i < s.n_pids) (ht : s.task_items i = some t) (hp : t.pid = pid) :
    ∃ s', process_req k (some { op_code := UNBIND_OP, pid_n := pid, mode := mode }) s = some s'
      ∧ s'.n_found = 1 ∧ (s'.found_addrs 0).pid_retval = 0
      ∧ managed s' = (managed s).eraseIdx i.toNat := by
  refine ⟨_, process_req_unbind k pid mode s, ?_⟩
  rw [unbind_pid_member pid { s with n_found := 0 } hn hnodup hpos hmax i t hi0 hi ht hp]
  dsimp only
  have hr : refresh_pids k (update_pid_list i { s with n_found := 0 })
      = update_pid_list i { s with n_found := 0 } :=
    refresh_pids_id k _ (AllManaged_update_pid_list _ i _ hlive)
  rw [hr]
  obtain ⟨f1, _, _, _, _, f6, _, _⟩ := update_pid_list_frame i { s with n_found := 0 }
  refine ⟨?_, ?_, ?_⟩
  · simp only [put_retval]; rw [f6]; rfl
  · simp only [put_retval, set_pid_retval]; rw [f6]; simp
  · have e1 : managed (put_retval 0 (update_pid_list i { s with n_found := 0 }))
        = managed (update_pid_list i { s with n_found := 0 }) := rfl
    have e2 := managed_update_pid_list i { s with n_found := 0 } hi0 hi
    have e3 : managed { s with n_found := 0 } = managed s := rfl
    rw [e1, e2, e3]

/-- C8 at UNBIND(100) on the set [100, 200, 300]: the set becomes the old one without its
entry at index 0. -/
theorem C8_unbind_member_witness :
    (0 ≤ ex_three.n_pids ∧ (0 : Int) < 100 ∧ (100 : Int) ≤ MAX_PID_N
      ∧ ex_three.task_items 0 = some { pid := 100, mm := none })
    ∧ ∃ s', process_req k_all (some { op_code := UNBIND_OP, pid_n := 100, mode := 0 }) ex_three
          = some s'
      ∧ s'.n_found = 1 ∧ (s'.found_addrs 0).pid_retval = 0
      ∧ managed s' = (managed ex_three).eraseIdx (0 : Int).toNat :=
  ⟨⟨by decide, by decide, by decide, rfl⟩,
    C8_unbind_member k_all 100 0 ex_three (by decide)
      (AllManaged_weaken Inv_ex_three.tasks (fun _ _ => rfl)) Inv_ex_three.nodup (by decide) (by decide)
      0 { pid := 100, mm := none } (by decide) (by decide) rfl rfl⟩

/-- C9: when `update_pid_list i` removes the entry at index `i` and a tier's cursor has a
process index `c` with `i < c < n_pids`, the cursor becomes `(c - 1, same address)` and the
entry at `c - 1` of the new table is the entry at `c` of the old one; this holds for the
DRAM cursor and for the NVRAM cursor.  In the scenario of the spec, set [100, 200, 300] and
DRAM cursor (1, 0x4000), the request UNBIND(100) gives the set [200, 300] and the DRAM
cursor (0, 0x4000). -/
theorem C9_cursor_after_removed (i : Int) (s : State) :
    (i < s.last_pid_dram → s.last_pid_dram < s.n_pids →
      (update_pid_list i s).last_pid_dram = s.last_pid_dram - 1
      ∧ (update_pid_list i s).last_addr_dram = s.last_addr_dram
      ∧ (update_pid_list i s).task_items (s.last_pid_dram - 1) = s.task_items s.last_pid_dram)
    ∧ (i < s.last_pid_nvram → s.last_pid_nvram < s.n_pids →
      (update_pid_list i s).last_pid_nvram = s.last_pid_nvram - 1
      ∧ (update_pid_list i s).last_addr_nvram = s.last_addr_nvram
      ∧ (update_pid_list i s).task_items (s.last_pid_nvram - 1) = s.task_items s.last_pid_nvram)
    ∧ (process_req k_all (some { op_code := UNBIND_OP, pid_n := 100, mode := 0 }) ex_three).map
        (fun s' => (managed_pids s', s'.last_pid_dram, s'.last_addr_dram))
      = some ([200, 300], 0, 0x4000) := by
  refine ⟨?_, ?_, by decide⟩
  · intro h1 h2
    refine ⟨?_, ?_, ?_⟩
    · rw [update_pid_list_last_pid_dram, if_pos h1]
    · rw [update_pid_list_last_addr_dram, if_neg (by omega)]
    · rw [update_pid_list_task_items, if_pos (by omega)]
      congr 1; omega
  · intro h1 h2
    refine ⟨?_, ?_, ?_⟩
    · rw [update_pid_list_last_pid_nvram, if_pos h1]
    · rw [update_pid_list_last_addr_nvram, if_neg (by omega)]
    · rw [update_pid_list_task_items, if_pos (by omega)]
      congr 1; omega

/-- The scenario of the spec: set [100, 200, 300], DRAM cursor (1, 0x4000), removal of
index 0 (pid 100): the DRAM cursor becomes (0, 0x4000) and still designates pid 200. -/
theorem C9_cursor_after_removed_witness :
    (0 < ex_three.last_pid_dram ∧ ex_three.last_pid_dram < ex_three.n_pids)
    ∧ (update_pid_list 0 ex_three).last_pid_dram = 1 - 1
    ∧ (update_pid_list 0 ex_three).last_addr_dram = 0x4000
    ∧ (update_pid_list 0 ex_three).task_items (1 - 1) = some { pid := 200, mm := none } :=
  ⟨⟨by decide, by decide⟩, (C9_cursor_after_removed 0 ex_three).1 (by decide) (by decide)⟩

/-- C10 as stated fails: in the set [100, 200, 300] with DRAM cursor (1, 0x4000), removing
index 1 leaves two processes, so the cursor index 1 equals `n_pids - 1` counted after the
removal, yet the code does not reset the index to 0. -/
theorem C10_counterexample :
    ex_three.last_pid_dram = 1
    ∧ ex_three.last_pid_dram = (update_pid_list 1 ex_three).n_pids - 1
    ∧ (update_pid_list 1 ex_three).last_pid_dram ≠ 0 := by
  decide

/-- C10, amended: when `update_pid_list i` removes the entry at index `i` and a tier's cursor
has process index `i`, the cursor's address becomes 0, and its process index becomes 0
exactly when it equals `n_pids - 1` with `n_pids` the number of managed processes before the
removal (the removed process was the last one); otherwise the process index is unchanged. -/
theorem C10_cursor_at_removed (i : Int) (s : State) :
    (s.last_pid_dram = i →
      (update_pid_list i s).last_addr_dram = 0
      ∧ (update_pid_list i s).last_pid_dram = if i = s.n_pids - 1 then 0 else i)
    ∧ (s.last_pid_nvram = i →
      (update_pid_list i s).last_addr_nvram = 0
      ∧ (update_pid_list i s).last_pid_nvram = if i = s.n_pids - 1 then 0 else i) := by
  constructor
  · intro h
    refine ⟨by rw [update_pid_list_last_addr_dram, if_pos h], ?_⟩
    rw [update_pid_list_last_pid_dram, if_neg (by omega)]
    split_ifs <;> omega
  · intro h
    refine ⟨by rw [update_pid_list_last_addr_nvram, if_pos h], ?_⟩
    rw [update_pid_list_last_pid_nvram, if_neg (by omega)]
    split_ifs <;> omega

/-- In the set [100, 200, 300] the NVRAM cursor (2, 0x8000) points at the last process;
removing index 2 resets it to (0, 0). -/
theorem C10_cursor_at_removed_witness :
    ex_three.last_pid_nvram = 2
    ∧ (update_pid_list 2 ex_three).last_addr_nvram = 0
    ∧ (update_pid_list 2 ex_three).last_pid_nvram = 0 :=
  ⟨by decide, (C10_cursor_at_removed 2 ex_three).2 (by decide)⟩

/-- C11: the last segment of `do_page_walk` is `[0, last_addr + 1)`, which holds the page at
`last_addr` again.  After BIND(100) and FIND(1, DRAM) the DRAM cursor is (0, 0x6000); a walk
from that cursor that is never stopped presents the page at 0x6000 of the process first and
last, and the following FIND(10, DRAM) reports that page twice (records 0 and 2). -/
theorem C11_cursor_page_presented_twice :
    (run ex_init [ex_bind_100, ex_find 1 DRAM_MODE]).map
        (fun s' => (managed_pids s', s'.last_pid_dram, s'.last_addr_dram))
      = some ([100], 0, 0x6000)
    ∧ (do_page_walk ex_cb_record 0 0x6000 { ex_one with n_to_find := 100 }).map
        (fun r => (response r.2).map (fun a => a.addr))
      = some [0x6000, 0x7000, 0x8000, 0x9000,
              0x1000, 0x2000, 0x3000, 0x4000, 0x5000, 0x6000]
    ∧ (run ex_init [ex_bind_100, ex_find 1 DRAM_MODE, ex_find 10 DRAM_MODE]).map
        (fun s' => (response s').map (fun a => (a.addr, a.pid_retval)))
      = some [(0x6000, 100), (0x5000, 100), (0x6000, 100),
              (0x7000, 100), (0x8000, 100), (0x9000, 100), (0, -1)] := by
  decide

/-- C12 as stated fails: the policy compares `n_backup` with the `int` value of
`n_to_find - n_found`, and for a count near `INT_MIN` that value is not the difference.  On a
clean-but-hot DRAM page met with `n_to_find = -2147483648`, `n_found = 2` and `n_backup = 0`
the difference is negative, so `n_backup < n_to_find - n_found` is false, and the page is
appended to `backup` all the same; BIND(100) and FIND(-2147483648, DRAM) on the one-process
example end with the three clean-but-hot pages in `backup`. -/
theorem C12_counterexample :
    ¬ ((0 : Int) < -2147483648 - 2)
    ∧ (pte_callback_mem (some (ex_pte true false 0)) 0x7000
        { ex_one with n_to_find := -2147483648, n_found := 2, curr_pid := 100 }).st.n_backup = 1
    ∧ (pte_callback_mem (some (ex_pte true false 0)) 0x7000
        { ex_one with n_to_find := -2147483648, n_found := 2, curr_pid := 100 }).st.backup_addrs 0
      = { addr := 0x7000, pid_retval := 100 }
    ∧ (run ex_init [ex_bind_100, ex_find (-2147483648) DRAM_MODE]).map
        (fun s' => (s'.n_to_find, s'.n_backup,
          (records s'.backup_addrs 0 3).map (fun a => (a.addr, a.pid_retval))))
      = some (-2147483648, 3, [(0x7000, 100), (0x8000, 100), (0x9000, 100)]) := by
  decide

/-- C12, amended: in DRAM mode, while `found` is not full, a page that is present, writable
and on a DRAM node is appended to `found` (with the current PID) exactly when its Accessed bit
is clear, and to `backup` exactly when its Accessed bit is set, its Dirty bit is clear and
`n_backup` is below the `int` value of `n_to_find - n_found`; a buffer it is not appended to is
left as it was, so a page with both bits set changes neither.  The walk continues (return
value 0).  Whenever the difference `n_to_find - n_found` lies in the range of `int`, the page
is appended to `backup` exactly when its Accessed bit is set, its Dirty bit is clear and
`n_backup < n_to_find - n_found`. -/
theorem C12_dram_policy (p : pte_t) (addr : Nat) (s : State)
    (hfull : s.n_found ≠ s.n_to_find) (hp : pte_present p = true) (hw : pte_write p = true)
    (hnode : contains p.nid DRAM_MODE = true) :
    (pte_callback_mem (some p) addr s).ret = 0
    ∧ (((pte_callback_mem (some p) addr s).st.n_found = s.n_found + 1
          ∧ (pte_callback_mem (some p) addr s).st.found_addrs
              = arr_set s.found_addrs s.n_found { addr := addr, pid_retval := s.curr_pid })
        ↔ pte_young p = false)
    ∧ (pte_young p = true →
        (pte_callback_mem (some p) addr s).st.n_found = s.n_found
          ∧ (pte_callback_mem (some p) addr s).st.found_addrs = s.found_addrs)
    ∧ (((pte_callback_mem (some p) addr s).st.n_backup = s.n_backup + 1
          ∧ (pte_callback_mem (some p) addr s).st.backup_addrs
              = arr_set s.backup_addrs s.n_backup { addr := addr, pid_retval := s.curr_pid })
        ↔ (pte_young p = true ∧ pte_dirty p = false
            ∧ s.n_backup < int_sub s.n_to_find s.n_found))
    ∧ (¬ (pte_young p = true ∧ pte_dirty p = false
            ∧ s.n_backup < int_sub s.n_to_find s.n_found) →
        (pte_callback_mem (some p) addr s).st.n_backup = s.n_backup
          ∧ (pte_callback_mem (some p) addr s).st.backup_addrs = s.backup_addrs)
    ∧ (-2147483648 ≤ s.n_to_find - s.n_found → s.n_to_find - s.n_found ≤ 2147483647 →
        ((((pte_callback_mem (some p) addr s).st.n_backup = s.n_backup + 1
            ∧ (pte_callback_mem (some p) addr s).st.backup_addrs
                = arr_set s.backup_addrs s.n_backup { addr := addr, pid_retval := s.curr_pid })
          ↔ (pte_young p = true ∧ pte_dirty p = false ∧ s.n_backup < s.n_to_find - s.n_found))
        ∧ (¬ (pte_young p = true ∧ pte_dirty p = false
                ∧ s.n_backup < s.n_to_find - s.n_found) →
            (pte_callback_mem (some p) addr s).st.n_backup = s.n_backup
              ∧ (pte_callback_mem (some p) addr s).st.backup_addrs = s.backup_addrs))) := by
  have hskip : ¬ (skip_page p DRAM_MODE = true) := by simp [skip_page, hp, hw, hnode]
  have key : (pte_callback_mem (some p) addr s).ret = 0
      ∧ (((pte_callback_mem (some p) addr s).st.n_found = s.n_found + 1
            ∧ (pte_callback_mem (some p) addr s).st.found_addrs
                = arr_set s.found_addrs s.n_found { addr := addr, pid_retval := s.curr_pid })
          ↔ pte_young p = false)
      ∧ (pte_young p = true →
          (pte_callback_mem (some p) addr s).st.n_found = s.n_found
            ∧ (pte_callback_mem (some p) addr s).st.found_addrs = s.found_addrs)
      ∧ (((pte_callback_mem (some p) addr s).st.n_backup = s.n_backup + 1
            ∧ (pte_callback_mem (some p) addr s).st.backup_addrs
                = arr_set s.backup_addrs s.n_backup { addr := addr, pid_retval := s.curr_pid })
          ↔ (pte_young p = true ∧ pte_dirty p = false
              ∧ s.n_backup < int_sub s.n_to_find s.n_found))
      ∧ (¬ (pte_young p = true ∧ pte_dirty p = false
              ∧ s.n_backup < int_sub s.n_to_find s.n_found) →
          (pte_callback_mem (some p) addr s).st.n_backup = s.n_backup
            ∧ (pte_callback_mem (some p) addr s).st.backup_addrs = s.backup_addrs) := by
    unfold pte_callback_mem
    rw [if_neg hfull]
    dsimp only
    rw [if_neg hskip]
    cases hy : pte_young p with
    | false =>
      rw [if_pos (by rfl)]
      dsimp only [push_found]
      refine ⟨rfl, ⟨fun _ => rfl, fun _ => ⟨rfl, rfl⟩⟩, fun h => absurd h (by simp),
        ⟨fun h => ?_, fun h => absurd h.1 (by simp)⟩, fun _ => ⟨rfl, rfl⟩⟩
      exfalso; have := h.1; omega
    | true =>
      rw [if_neg (by simp)]
      dsimp only
      by_cases hb : pte_dirty p = false ∧ s.n_backup < int_sub s.n_to_find s.n_found
      · have hc : (!pte_dirty p && decide (s.n_backup < int_sub s.n_to_find s.n_found)) = true := by
          simp [hb.1, hb.2]
        rw [if_pos hc]
        dsimp only [push_backup]
        refine ⟨rfl, ⟨fun h => ?_, fun h => absurd h (by simp)⟩, fun _ => ⟨rfl, rfl⟩,
          ⟨fun _ => ⟨rfl, hb.1, hb.2⟩, fun _ => ⟨rfl, rfl⟩⟩, fun h => absurd ⟨rfl, hb.1, hb.2⟩ h⟩
        exfalso; have := h.1; omega
      · have hc : ¬ ((!pte_dirty p && decide (s.n_backup < int_sub s.n_to_find s.n_found)) = true) := by
          intro h
          simp only [Bool.and_eq_true, Bool.not_eq_true', decide_eq_true_eq] at h
          exact hb h
        rw [if_neg hc]
        refine ⟨rfl, ⟨fun h => ?_, fun h => absurd h (by simp)⟩, fun _ => ⟨rfl, rfl⟩,
          ⟨fun h => ?_, fun h => absurd ⟨h.2.1, h.2.2⟩ hb⟩, fun _ => ⟨rfl, rfl⟩⟩
        · exfalso; have := h.1; omega
        · exfalso; have := h.1; omega
  refine ⟨key.1, key.2.1, key.2.2.1, key.2.2.2.1, key.2.2.2.2, fun hlo hhi => ?_⟩
  rw [← int_sub_eq s.n_to_find s.n_found hlo hhi]
  exact ⟨key.2.2.2.1, key.2.2.2.2⟩

/-- C12 on a clean-but-hot DRAM page of the one-process example, during a walk for ten pages:
the difference `n_to_find - n_found` is 10, the page goes to `backup` and not to `found`. -/
theorem C12_dram_policy_witness :
    (pte_callback_mem (some (ex_pte true false 0)) 0x7000 { ex_one with n_to_find := 10 }).ret = 0
    ∧ (pte_callback_mem (some (ex_pte true false 0)) 0x7000
        { ex_one with n_to_find := 10 }).st.n_found = ex_one.n_found
    ∧ (pte_callback_mem (some (ex_pte true false 0)) 0x7000
        { ex_one with n_to_find := 10 }).st.n_backup = ex_one.n_backup + 1
    ∧ (pte_callback_mem (some (ex_pte true false 0)) 0x7000
        { ex_one with n_to_find := 10 }).st.backup_addrs
      = arr_set ex_one.backup_addrs ex_one.n_backup
          { addr := 0x7000, pid_retval := ex_one.curr_pid } :=
  have h := C12_dram_policy (ex_pte true false 0) 0x7000 { ex_one with n_to_find := 10 }
    (by decide) rfl rfl (by decide)
  have hb := ((h.2.2.2.2.2 (by decide) (by decide)).1).2 ⟨rfl, rfl, by decide⟩
  ⟨h.1, (h.2.2.1 rfl).1, hb.1, hb.2⟩

/-- C13: the update stores `pte_mkclean (old_pte)` over `pte_mkold (old_pte)`, so the entry
committed has the Dirty bit clear and the Accessed bit as it was.  NVRAM_CLEAR on a hot, dirty
NVRAM page, the NVRAM policy on a hot, clean NVRAM page and the DRAM policy on a hot, dirty DRAM
page all commit an entry whose Accessed bit is still set; after FIND(NVRAM_CLEAR) the four
NVRAM pages of the one-process example are still marked accessed. -/
theorem C13_accessed_bit_survives :
    (∀ p : pte_t, pte_clear_bits p = { p with dirty := false })
    ∧ (pte_callback_nvram_clear (some (ex_pte true true 2)) 0x1000 ex_one).pte
        = some (ex_pte true false 2)
    ∧ (pte_callback_nvram_force (some (ex_pte true false 2)) 0x1000
        { ex_one with n_to_find := 10 }).pte = some (ex_pte true false 2)
    ∧ (pte_callback_mem (some (ex_pte true true 0)) 0x1000
        { ex_one with n_to_find := 10 }).pte = some (ex_pte true false 0)
    ∧ (run ex_init [ex_bind_100, ex_find 0 NVRAM_CLEAR]).map
        (fun s' => (s'.task_items 0).map (fun t => t.mm.map (fun m =>
          (m.ptes.take 4).map (fun x => (x.1, x.2.young, x.2.dirty)))))
      = some (some (some [(0x1000, true, false), (0x2000, true, false),
                          (0x3000, true, false), (0x4000, true, false)])) := by
  refine ⟨fun p => rfl, by decide, by decide, by decide, by decide⟩


/-- C14: in a single-tier mode, on a non-empty managed set satisfying the table invariant,
the primary walk of `mem_walk n` returns, with `k` records in `found` and `b` in `backup`, and
`mem_walk` returns after it.  If `k < n`, `found` then holds the `k` primaries as the walk left
them followed by the first `min (n - k) b` records of `backup` in their order; if `k = n`,
`found` and its length are as the walk left them. -/
theorem C14_backup_promotion (n mode : Int) (s : State)
    (hmode : mode = DRAM_MODE ∨ mode = NVRAM_MODE ∨ mode = NVRAM_WRITE_MODE
      ∨ mode = NVRAM_INTENSIVE_MODE)
    (hinv : Inv s) (hpos : 0 < s.n_pids) :
    ∃ cb d s1 r s', mem_walk_ops mode = some (cb, d)
      ∧ mem_walk_primary cb d n s = some s1
      ∧ mem_walk n mode s = some (r, s')
      ∧ (s1.n_found < n →
          s'.n_found = s1.n_found + min (n - s1.n_found) s1.n_backup
          ∧ (∀ j, 0 ≤ j → j < s1.n_found → s'.found_addrs j = s1.found_addrs j)
          ∧ (∀ i, 0 ≤ i → i < min (n - s1.n_found) s1.n_backup →
              s'.found_addrs (s1.n_found + i) = s1.backup_addrs i))
      ∧ (s1.n_found = n → s'.n_found = n ∧ s'.found_addrs = s1.found_addrs) := by
  obtain ⟨cb, d, hops⟩ := mem_walk_ops_some mode hmode
  have hcb := mem_walk_ops_CbGrows mode cb d hops
  obtain ⟨s1, hw, _, hnt, hb, _, _, _⟩ := mem_walk_primary_spec (fun _ => True) cb d hcb n s
    hinv hpos (AllManaged_weaken hinv.tasks (fun _ _ => trivial))
  obtain ⟨f1, f2⟩ := mem_walk_finish_exact s1 hb
  rw [hnt] at f1 f2
  refine ⟨cb, d, s1, (mem_walk_finish s1).1, (mem_walk_finish s1).2, hops, hw, ?_, fun hlt => ?_,
    fun heq => ?_⟩
  · rw [mem_walk_eq, hops]
    dsimp only
    rw [hw]
    rfl
  · obtain ⟨a, b, c⟩ := f1 hlt
    exact ⟨a, fun j _ hj => b j hj, c⟩
  · rw [f2 (by omega)]
    exact ⟨heq, rfl⟩

/-- C14 on the one-process example: FIND(10, DRAM) from the cursor (0, 0) ends its primary
walk with the two cold pages in `found` and the three clean-but-hot pages in `backup`, and
answers with the two primaries followed by the three backups. -/
theorem C14_backup_promotion_witness :
    ((mem_walk_primary pte_callback_mem true 10 ex_one).map
        (fun s1 => ((response s1).map (fun a => a.addr), s1.n_backup,
          (s1.backup_addrs 0).addr, (s1.backup_addrs 1).addr, (s1.backup_addrs 2).addr))
      = some ([0x5000, 0x6000], 3, 0x7000, 0x8000, 0x9000))
    ∧ ((mem_walk 10 DRAM_MODE ex_one).map (fun r => (response r.2).map (fun a => a.addr))
      = some [0x5000, 0x6000, 0x7000, 0x8000, 0x9000])
    ∧ ∃ cb d s1 r s', mem_walk_ops DRAM_MODE = some (cb, d)
      ∧ mem_walk_primary cb d 10 ex_one = some s1
      ∧ mem_walk 10 DRAM_MODE ex_one = some (r, s')
      ∧ (s1.n_found < 10 →
          s'.n_found = s1.n_found + min (10 - s1.n_found) s1.n_backup
          ∧ (∀ j, 0 ≤ j → j < s1.n_found → s'.found_addrs j = s1.found_addrs j)
          ∧ (∀ i, 0 ≤ i → i < min (10 - s1.n_found) s1.n_backup →
              s'.found_addrs (s1.n_found + i) = s1.backup_addrs i))
      ∧ (s1.n_found = 10 → s'.n_found = 10 ∧ s'.found_addrs = s1.found_addrs) :=
  ⟨by decide, by decide,
    C14_backup_promotion 10 DRAM_MODE ex_one (Or.inl rfl) Inv_ex_one (by decide)⟩


/-- C15: on a non-empty managed set satisfying the table invariant both phases of
`switch_walk n` return; let the NVRAM phase end with `h` records in `found` and the DRAM
phase with `d` DRAM primaries after the separator and `b` records in `backup`.  If `d < h`
and `b > 0`, `switch_walk` returns 0 and `found` holds: the first `min h (d + b)` NVRAM
primaries as the NVRAM phase left them, the separator (`pid_retval` 0) right after them, the
`d` DRAM primaries in their order, and the first `min b (h - d)` backups in their order;
nothing else is counted. -/
theorem C15_dram_backups_promoted (n : Int) (s : State) (hinv : Inv s) (hpos : 0 < s.n_pids) :
    ∃ s2 s7, switch_nvram_phase n s = some s2 ∧ switch_dram_phase n s2 = some s7
      ∧ (s7.n_found - s2.n_found - 1 < s2.n_found → 0 < s7.n_backup →
          ∃ s', switch_walk n s = some (0, s')
            ∧ s'.n_found
                = 2 * min s2.n_found (s7.n_found - s2.n_found - 1 + s7.n_backup) + 1
            ∧ (∀ j, 0 ≤ j → j < min s2.n_found (s7.n_found - s2.n_found - 1 + s7.n_backup) →
                s'.found_addrs j = s2.found_addrs j)
            ∧ (s'.found_addrs
                (min s2.n_found (s7.n_found - s2.n_found - 1 + s7.n_backup))).pid_retval = 0
            ∧ (∀ i, 0 ≤ i → i < s7.n_found - s2.n_found - 1 →
                s'.found_addrs
                    (min s2.n_found (s7.n_found - s2.n_found - 1 + s7.n_backup) + 1 + i)
                  = s7.found_addrs (s2.n_found + 1 + i))
            ∧ (∀ i, 0 ≤ i →
                i < min s7.n_backup (s2.n_found - (s7.n_found - s2.n_found - 1)) →
                s'.found_addrs
                    (min s2.n_found (s7.n_found - s2.n_found - 1 + s7.n_backup) + 1
                      + (s7.n_found - s2.n_found - 1) + i)
                  = s7.backup_addrs i)) := by
  have hm : AllManaged (fun _ => True) s := AllManaged_weaken hinv.tasks (fun _ _ => trivial)
  obtain ⟨s2, hw1, hinv2, hm2, _, _, sv, _, _⟩ :=
    switch_nvram_phase_spec (fun _ => True) n s hinv hpos hm
  obtain ⟨s7, hw2, _, _, _, _, hle, hold, hsep, _, _, _, _, _, _⟩ :=
    switch_dram_phase_spec (fun _ => True) n s2 hinv2 (by rw [sv.n_pids]; exact hpos) hm2
  refine ⟨s2, s7, hw1, hw2, fun hd hb => ?_⟩
  obtain ⟨b1, b2, b3, b4, b5, b6⟩ := switch_balance_promote_dram s2.n_found s7 hle
    (by rw [hsep]) hd hb
  refine ⟨(switch_balance s2.n_found s7).2, ?_, b2, fun j hj0 hj1 => ?_, b4, b5, b6⟩
  · rw [switch_walk_eq, hw1]
    dsimp only
    rw [if_neg (by omega), hw2]
    dsimp only
    rw [← b1]
  · rw [b3 j hj0 hj1]
    exact hold j (by omega)

/-- The scenario "SWITCH pairing" of the spec: four hot NVRAM pages, two cold DRAM pages and
three clean-but-hot DRAM pages, FIND(10, SWITCH).  The phases give h = 4, d = 2 and b = 2
(the policy stores no more backups than are still missing), and the response is the four
NVRAM picks, the separator, the two cold pages, two backups and the terminator. -/
theorem C15_dram_backups_promoted_witness :
    ((switch_nvram_phase 10 ex_one).map (fun s2 => s2.n_found) = some 4)
    ∧ (((switch_nvram_phase 10 ex_one).bind (switch_dram_phase 10)).map
        (fun s7 => (s7.n_found, s7.n_backup)) = some (7, 2))
    ∧ ((process_req k_mm (some { op_code := FIND_OP, pid_n := 10, mode := SWITCH_MODE })
          ex_one).map (fun s' => (response s').map (fun a => (a.addr, a.pid_retval)))
        = some [(0x1000, 100), (0x2000, 100), (0x3000, 100), (0x4000, 100), (0, 0),
                (0x5000, 100), (0x6000, 100), (0x7000, 100), (0x8000, 100), (0, 0)])
    ∧ ∃ s2 s7, switch_nvram_phase 10 ex_one = some s2 ∧ switch_dram_phase 10 s2 = some s7
      ∧ (s7.n_found - s2.n_found - 1 < s2.n_found → 0 < s7.n_backup →
          ∃ s', switch_walk 10 ex_one = some (0, s')
            ∧ s'.n_found
                = 2 * min s2.n_found (s7.n_found - s2.n_found - 1 + s7.n_backup) + 1
            ∧ (∀ j, 0 ≤ j → j < min s2.n_found (s7.n_found - s2.n_found - 1 + s7.n_backup) →
                s'.found_addrs j = s2.found_addrs j)
            ∧ (s'.found_addrs
                (min s2.n_found (s7.n_found - s2.n_found - 1 + s7.n_backup))).pid_retval = 0
            ∧ (∀ i, 0 ≤ i → i < s7.n_found - s2.n_found - 1 →
                s'.found_addrs
                    (min s2.n_found (s7.n_found - s2.n_found - 1 + s7.n_backup) + 1 + i)
                  = s7.found_addrs (s2.n_found + 1 + i))
            ∧ (∀ i, 0 ≤ i →
                i < min s7.n_backup (s2.n_found - (s7.n_found - s2.n_found - 1)) →
                s'.found_addrs
                    (min s2.n_found (s7.n_found - s2.n_found - 1 + s7.n_backup) + 1
                      + (s7.n_found - s2.n_found - 1) + i)
                  = s7.backup_addrs i)) :=
  ⟨by decide, by decide, by decide,
    C15_dram_backups_promoted 10 ex_one Inv_ex_one (by decide)⟩

/-- C16: with the phases as in C15 and `s` records left in `switch_backup` by the NVRAM
phase: if `d > h` and `s > 0`, `switch_walk` returns 0 and `found` holds the `h` NVRAM
primaries as the NVRAM phase left them, then the first `min s (d - h)` switch backups in their
order, the separator (`pid_retval` 0) right after them, and the first `h + min s (d - h)` DRAM
primaries in their order; nothing else is counted. -/
theorem C16_switch_backups_promoted (n : Int) (s : State) (hinv : Inv s)
    (hpos : 0 < s.n_pids) :
    ∃ s2 s7, switch_nvram_phase n s = some s2 ∧ switch_dram_phase n s2 = some s7
      ∧ (s2.n_found < s7.n_found - s2.n_found - 1 → 0 < s2.n_switch_backup →
          ∃ s', switch_walk n s = some (0, s')
            ∧ s'.n_found
                = 2 * (s2.n_found
                    + min s2.n_switch_backup (s7.n_found - s2.n_found - 1 - s2.n_found)) + 1
            ∧ (∀ j, 0 ≤ j → j < s2.n_found → s'.found_addrs j = s2.found_addrs j)
            ∧ (∀ i, 0 ≤ i →
                i < min s2.n_switch_backup (s7.n_found - s2.n_found - 1 - s2.n_found) →
                s'.found_addrs (s2.n_found + i) = s2.switch_backup_addrs i)
            ∧ (s'.found_addrs (s2.n_found
                + min s2.n_switch_backup (s7.n_found - s2.n_found - 1 - s2.n_found))).pid_retval
                = 0
            ∧ (∀ i, 0 ≤ i →
                i < s2.n_found
                    + min s2.n_switch_backup (s7.n_found - s2.n_found - 1 - s2.n_found) →
                s'.found_addrs (s2.n_found
                    + min s2.n_switch_backup (s7.n_found - s2.n_found - 1 - s2.n_found)
                    + 1 + i)
                  = s7.found_addrs (s2.n_found + 1 + i))) := by
  have hm : AllManaged (fun _ => True) s := AllManaged_weaken hinv.tasks (fun _ _ => trivial)
  obtain ⟨s2, hw1, hinv2, hm2, _, _, sv, _, _⟩ :=
    switch_nvram_phase_spec (fun _ => True) n s hinv hpos hm
  obtain ⟨s7, hw2, _, _, _, _, hle, hold, hsep, _, _, _, hsb, hnsb, _⟩ :=
    switch_dram_phase_spec (fun _ => True) n s2 hinv2 (by rw [sv.n_pids]; exact hpos) hm2
  refine ⟨s2, s7, hw1, hw2, fun hd hs => ?_⟩
  obtain ⟨b1, b2, b3, b4, b5, b6⟩ := switch_balance_promote_nvram s2.n_found s7 hd
    (by rw [hnsb]; exact hs)
  rw [hnsb] at b2 b4 b5 b6
  rw [hsb] at b4
  refine ⟨(switch_balance s2.n_found s7).2, ?_, b2, fun j hj0 hj1 => ?_, b4, b5, b6⟩
  · rw [switch_walk_eq, hw1]
    dsimp only
    rw [if_neg (by omega), hw2]
    dsimp only
    rw [← b1]
  · rw [b3 j hj0 hj1]
    exact hold j hj1


/-- C16 on a process with one hot and dirty NVRAM page, two hot and clean NVRAM pages and
three cold DRAM pages, FIND(10, SWITCH): the phases give h = 1, s = 2 and d = 3, and the
response is the NVRAM pick, the two switch backups, the separator, the three cold pages and
the terminator. -/
theorem C16_switch_backups_promoted_witness :
    ((switch_nvram_phase 10 ex_hot).map (fun s2 => (s2.n_found, s2.n_switch_backup))
        = some (1, 2))
    ∧ (((switch_nvram_phase 10 ex_hot).bind (switch_dram_phase 10)).map
        (fun s7 => s7.n_found) = some 5)
    ∧ ((process_req k_all (some { op_code := FIND_OP, pid_n := 10, mode := SWITCH_MODE })
          ex_hot).map (fun s' => (response s').map (fun a => (a.addr, a.pid_retval)))
        = some [(0x1000, 100), (0x2000, 100), (0x3000, 100), (0x5000, 0),
                (0x4000, 100), (0x5000, 100), (0x6000, 100), (0, 0)])
    ∧ ∃ s2 s7, switch_nvram_phase 10 ex_hot = some s2 ∧ switch_dram_phase 10 s2 = some s7
      ∧ (s2.n_found < s7.n_found - s2.n_found - 1 → 0 < s2.n_switch_backup →
          ∃ s', switch_walk 10 ex_hot = some (0, s')
            ∧ s'.n_found
                = 2 * (s2.n_found
                    + min s2.n_switch_backup (s7.n_found - s2.n_found - 1 - s2.n_found)) + 1
            ∧ (∀ j, 0 ≤ j → j < s2.n_found → s'.found_addrs j = s2.found_addrs j)
            ∧ (∀ i, 0 ≤ i →
                i < min s2.n_switch_backup (s7.n_found - s2.n_found - 1 - s2.n_found) →
                s'.found_addrs (s2.n_found + i) = s2.switch_backup_addrs i)
            ∧ (s'.found_addrs (s2.n_found
                + min s2.n_switch_backup (s7.n_found - s2.n_found - 1 - s2.n_found))).pid_retval
                = 0
            ∧ (∀ i, 0 ≤ i →
                i < s2.n_found
                    + min s2.n_switch_backup (s7.n_found - s2.n_found - 1 - s2.n_found) →
                s'.found_addrs (s2.n_found
                    + min s2.n_switch_backup (s7.n_found - s2.n_found - 1 - s2.n_found)
                    + 1 + i)
                  = s7.found_addrs (s2.n_found + 1 + i))) :=
  ⟨by decide, by decide, by decide,
    C16_switch_backups_promoted 10 ex_hot Inv_ex_hot (by decide)⟩


/-- C17 as stated fails: on the managed set [100, 200] of processes without pages,
FIND(10, SWITCH) ends its NVRAM phase with h = 0 and s = 0, and the response is two records,
the separator (`pid_retval` 0) and the terminator (`pid_retval` -1), not a single record. -/
theorem C17_counterexample :
    (switch_nvram_phase (int_min MAX_N_SWITCH 10)
        (refresh_pids k_all { ex_two with n_found := 0 })).map
        (fun s2 => (s2.n_found, s2.n_switch_backup)) = some (0, 0)
    ∧ (process_req k_all (some { op_code := FIND_OP, pid_n := 10, mode := SWITCH_MODE })
        ex_two).map (fun s' => (response s').map (fun a => a.pid_retval)) = some [0, -1]
    ∧ (process_req k_all (some { op_code := FIND_OP, pid_n := 10, mode := SWITCH_MODE })
        ex_two).map (fun s' => (response s').length) ≠ some 1 := by
  decide

/-- C17, amended: for a SWITCH request on a managed set that is non-empty after the refresh,
in a state satisfying the table invariant, the NVRAM phase returns, and if it ends with no
record in `found` and none in `switch_backup`, the request is answered with exactly two
records: the separator (`pid_retval` 0) and the terminator with status -1. -/
theorem C17_no_nvram_candidate (k : Kernel) (n : Int) (s : State) (hinv : Inv s)
    (hpos : 0 < (refresh_pids k { s with n_found := 0 }).n_pids) :
    ∃ s2, switch_nvram_phase (int_min MAX_N_SWITCH n) (refresh_pids k { s with n_found := 0 })
        = some s2
      ∧ (s2.n_found = 0 → s2.n_switch_backup = 0 →
          ∃ s', process_req k (some { op_code := FIND_OP, pid_n := n, mode := SWITCH_MODE }) s
              = some s'
            ∧ s'.n_found = 2
            ∧ (response s').map (fun a => a.pid_retval) = [0, -1]) := by
  have hinv0 : Inv (refresh_pids k { s with n_found := 0 }) :=
    Inv_refresh_pids k _ (Inv_congr s _ rfl rfl rfl rfl hinv)
  obtain ⟨s2, hw1, _, _, _, _, _, _, _⟩ := switch_nvram_phase_spec (fun _ => True)
    (int_min MAX_N_SWITCH n) _ hinv0 hpos (AllManaged_weaken hinv0.tasks (fun _ _ => trivial))
  refine ⟨s2, hw1, fun h0 hs0 => ?_⟩
  rw [process_req_find_switch, if_pos hpos, switch_walk_eq, hw1]
  dsimp only
  rw [if_pos ⟨h0, hs0⟩]
  refine ⟨_, rfl, ?_, ?_⟩
  · simp only [put_retval]; omega
  · simp [response, put_retval, set_pid_retval, h0, List.range_succ]

/-- C17 on the managed set [100, 200] of processes without pages. -/
theorem C17_no_nvram_candidate_witness :
    ∃ s2, switch_nvram_phase (int_min MAX_N_SWITCH 10)
        (refresh_pids k_all { ex_two with n_found := 0 }) = some s2
      ∧ (s2.n_found = 0 → s2.n_switch_backup = 0 →
          ∃ s', process_req k_all
                (some { op_code := FIND_OP, pid_n := 10, mode := SWITCH_MODE }) ex_two
              = some s'
            ∧ s'.n_found = 2
            ∧ (response s').map (fun a => a.pid_retval) = [0, -1]) :=
  C17_no_nvram_candidate k_all 10 ex_two Inv_ex_two (by decide)


/-- C19: for a response of `k ≥ 1` records, `placement_nl_process_msg` builds
`⌈k / MAX_N_PER_PACKET⌉` packets.  Every packet but the last carries the next
`MAX_N_PER_PACKET` records and has the flag NLM_F_MULTI and not the type NLMSG_DONE; the last
has the type NLMSG_DONE and not the flag, and carries the remaining records, between 1 and
`MAX_N_PER_PACKET` of them, ending with record `k - 1`; the payloads in order, put together,
are the `k` records.  When the outgoing buffer can be allocated these are the packets sent
for the response of `process_req`. -/
theorem C19_packets (found : Int → addr_info_t) (k : Int) (hk : 1 ≤ k) :
    ((nl_packets found k).length : Int) = (k + MAX_N_PER_PACKET - 1) / MAX_N_PER_PACKET
    ∧ (∀ (i : Nat) (m : nlmsghdr), (nl_packets found k)[i]? = some m →
        i + 1 < (nl_packets found k).length →
        m.nlmsg_flags = NLM_F_MULTI ∧ m.nlmsg_type ≠ NLMSG_DONE
        ∧ (m.data.length : Int) = MAX_N_PER_PACKET
        ∧ m.data = records found (i * MAX_N_PER_PACKET) MAX_N_PER_PACKET.toNat)
    ∧ (∀ (i : Nat) (m : nlmsghdr), (nl_packets found k)[i]? = some m →
        i + 1 = (nl_packets found k).length →
        m.nlmsg_type = NLMSG_DONE ∧ m.nlmsg_flags ≠ NLM_F_MULTI
        ∧ (m.data.length : Int) = k - i * MAX_N_PER_PACKET
        ∧ 1 ≤ m.data.length ∧ (m.data.length : Int) ≤ MAX_N_PER_PACKET
        ∧ m.data = records found (i * MAX_N_PER_PACKET) m.data.length
        ∧ m.data.getLast? = some (found (k - 1)))
    ∧ ((nl_packets found k).map (fun m => m.data)).flatten = records found 0 k.toNat
    ∧ (∀ (kern : Kernel) (req : Option req_t) (s s1 : State),
        process_req kern req s = some s1 →
        placement_nl_process_msg kern true req s
          = some (s1, nl_packets s1.found_addrs s1.n_found)
        ∧ records s1.found_addrs 0 s1.n_found.toNat = response s1) := by
  have hM : MAX_N_PER_PACKET = 256 := rfl
  obtain ⟨a1, a2, a3, a4, a5⟩ := packet_arith k hk
  have hlen : (nl_packets found k).length = ((k - 1) / 256).toNat + 1 := by
    simp only [nl_packets, List.length_append, multi_packets_length, List.length_singleton, a2]
  have hlast : memcpy_records found (Int.ofNat ((k - 1) / 256).toNat * MAX_N_PER_PACKET)
      (last_packet_entries k * sizeof_addr_info_t)
      = records found (((k - 1) / 256).toNat * 256) (k - 256 * ((k - 1) / 256)).toNat := by
    rw [memcpy_records_rem _ _ _ (by omega), a3, hM]
    rfl
  have hl : (records found (((k - 1) / 256).toNat * 256)
      (k - 256 * ((k - 1) / 256)).toNat).length = (k - 256 * ((k - 1) / 256)).toNat :=
    records_length _ _ _
  refine ⟨?_, fun i m hm hi => ?_, fun i m hm hi => ?_, ?_, fun kern req s s1 h => ?_⟩
  · rw [hlen, hM]; push_cast; omega
  · rw [hlen] at hi
    simp only [nl_packets, a2] at hm
    rw [List.getElem?_append_left (by rw [multi_packets_length]; omega),
      multi_packets_getElem? _ _ _ _ (by omega)] at hm
    simp only [Option.some.injEq] at hm
    rw [← hm]
    dsimp only
    refine ⟨rfl, by decide, ?_, ?_⟩
    · rw [records_length, hM]; rfl
    · rw [hM]; simp
  · rw [hlen] at hi
    have hi' : i = ((k - 1) / 256).toNat := by omega
    simp only [nl_packets] at hm
    rw [List.getElem?_append_right (by rw [multi_packets_length, a2]; omega),
      multi_packets_length, a2] at hm
    have h0 : i - ((k - 1) / 256).toNat = 0 := by omega
    rw [h0] at hm
    simp only [List.getElem?_cons_zero, Option.some.injEq] at hm
    rw [← hm]
    dsimp only
    rw [hlast, hl]
    refine ⟨rfl, by decide, ?_, ?_, ?_, ?_, ?_⟩
    · rw [hi', hM]; omega
    · omega
    · rw [hM]; omega
    · rw [hi', hM]
    · rw [List.getLast?_eq_getElem?, hl]
      simp only [records]
      rw [List.getElem?_map, List.getElem?_range (by omega)]
      simp only [Option.map_some', Option.some.injEq, Int.ofNat_eq_coe]
      congr 1
      omega
  · simp only [nl_packets, List.map_append, List.flatten_append, multi_packets_flatten,
      List.map_cons, List.map_nil, List.flatten_cons, List.flatten_nil, List.append_nil]
    rw [a2, hlast]
    have hsplit : k.toNat = ((k - 1) / 256).toNat * 256 + (k - 256 * ((k - 1) / 256)).toNat := by
      omega
    have e1 : (0 : Int) * MAX_N_PER_PACKET = 0 := by omega
    have e2 : (0 : Int) + ((((k - 1) / 256).toNat * 256 : Nat) : Int)
        = (((k - 1) / 256).toNat : Int) * 256 := by push_cast; omega
    rw [hsplit, records_append, e1, e2]
  · refine ⟨?_, (response_eq_records s1).symm⟩
    simp [placement_nl_process_msg, h]

/-- The scenario "multi-packet framing" of the spec: a response of 1500 records needs six
packets, the last with 220 records; so it goes out in five packets of 256 records flagged
NLM_F_MULTI and a last packet of type NLMSG_DONE with 220 records. -/
theorem C19_packets_witness :
    (required_packets 1500 = 6 ∧ last_packet_entries 1500 = 220)
    ∧ (((nl_packets ex_buf 1500).length : Int) = (1500 + MAX_N_PER_PACKET - 1) / MAX_N_PER_PACKET
    ∧ (∀ (i : Nat) (m : nlmsghdr), (nl_packets ex_buf 1500)[i]? = some m →
        i + 1 < (nl_packets ex_buf 1500).length →
        m.nlmsg_flags = NLM_F_MULTI ∧ m.nlmsg_type ≠ NLMSG_DONE
        ∧ (m.data.length : Int) = MAX_N_PER_PACKET
        ∧ m.data = records ex_buf (i * MAX_N_PER_PACKET) MAX_N_PER_PACKET.toNat)
    ∧ (∀ (i : Nat) (m : nlmsghdr), (nl_packets ex_buf 1500)[i]? = some m →
        i + 1 = (nl_packets ex_buf 1500).length →
        m.nlmsg_type = NLMSG_DONE ∧ m.nlmsg_flags ≠ NLM_F_MULTI
        ∧ (m.data.length : Int) = 1500 - i * MAX_N_PER_PACKET
        ∧ 1 ≤ m.data.length ∧ (m.data.length : Int) ≤ MAX_N_PER_PACKET
        ∧ m.data = records ex_buf (i * MAX_N_PER_PACKET) m.data.length
        ∧ m.data.getLast? = some (ex_buf (1500 - 1)))
    ∧ ((nl_packets ex_buf 1500).map (fun m => m.data)).flatten = records ex_buf 0 (1500 : Int).toNat
    ∧ (∀ (kern : Kernel) (req : Option req_t) (s s1 : State),
        process_req kern req s = some s1 →
        placement_nl_process_msg kern true req s
          = some (s1, nl_packets s1.found_addrs s1.n_found)
        ∧ records s1.found_addrs 0 s1.n_found.toNat = response s1)) :=
  ⟨by decide, C19_packets ex_buf 1500 (by decide)⟩


/-- C20: a response of `MAX_N_FIND + 1` records (the largest single-tier FIND response) and
one of `2 * MAX_N_SWITCH + 2` records (the largest SWITCH response) each need exactly
`MAX_PACKETS` packets, the last one full.  In a state satisfying the table invariant, every
request whose count is not negative (if it is a FIND) is answered (NVRAM_CLEAR: if it
returns) with at least one and at most `MAX_N_FIND + 1` records, at most
`2 * MAX_N_SWITCH + 2` in SWITCH mode, and the response needs at most `MAX_PACKETS`
packets. -/
theorem C20_packets_within_limit (k : Kernel) (req : req_t) (s : State) (hinv : Inv s)
    (hn : req.op_code = FIND_OP → 0 ≤ req.pid_n) :
    (required_packets (MAX_N_FIND + 1) = MAX_PACKETS
      ∧ last_packet_entries (MAX_N_FIND + 1) = MAX_N_PER_PACKET)
    ∧ (required_packets (2 * MAX_N_SWITCH + 2) = MAX_PACKETS
      ∧ last_packet_entries (2 * MAX_N_SWITCH + 2) = MAX_N_PER_PACKET)
    ∧ (¬ (req.op_code = FIND_OP ∧ req.mode = NVRAM_CLEAR) →
        ∃ s', process_req k (some req) s = some s')
    ∧ ∀ s', process_req k (some req) s = some s' →
        1 ≤ s'.n_found ∧ s'.n_found ≤ MAX_N_FIND + 1
        ∧ (req.op_code = FIND_OP → req.mode = SWITCH_MODE →
            s'.n_found ≤ 2 * MAX_N_SWITCH + 2)
        ∧ 1 ≤ required_packets s'.n_found
        ∧ required_packets s'.n_found ≤ MAX_PACKETS
        ∧ ((nl_packets s'.found_addrs s'.n_found).length : Int) ≤ MAX_PACKETS := by
  refine ⟨by decide, by decide, fun hc => ?_, fun s' h => ?_⟩
  · exact (process_req_spec (fun _ => True) k _ s hinv
      (AllManaged_weaken hinv.tasks (fun _ _ => trivial)) (fun _ _ _ => trivial)).2
      (fun rq hrq => by
        simp only [Option.some.injEq] at hrq
        rw [← hrq]
        exact hc)
  · unfold process_req at h
    cases hd : dispatch_req k (some req) { s with n_found := 0 } with
    | none => rw [hd] at h; exact absurd h (by simp)
    | some rs =>
      obtain ⟨r, s1⟩ := rs
      rw [hd] at h
      simp only [Option.map_some', Option.some.injEq] at h
      obtain ⟨b0, b1, b2⟩ := dispatch_req_size k req { s with n_found := 0 }
        (Inv_congr s _ rfl rfl rfl rfl hinv) rfl hn r s1 hd
      have hnf : s'.n_found = s1.n_found + 1 := by rw [← h]; rfl
      have hF : MAX_N_FIND = 131071 := by decide
      have hP : MAX_PACKETS = 512 := rfl
      obtain ⟨a1, a2, _, _, _⟩ := packet_arith s'.n_found (by omega)
      have hlen : (nl_packets s'.found_addrs s'.n_found).length
          = ((s'.n_found - 1) / 256).toNat + 1 := by
        simp only [nl_packets, List.length_append, multi_packets_length, List.length_singleton,
          a2]
      refine ⟨by omega, by omega, fun ho hm => ?_, ?_, ?_, ?_⟩
      · have := b2 ho hm; omega
      · rw [a1]; omega
      · rw [a1, hP]; omega
      · rw [hlen, hP]; push_cast; omega

/-- C20 on FIND(200000, DRAM) of the one-process example, a count above `MAX_N_FIND`. -/
theorem C20_packets_within_limit_witness :
    (required_packets (MAX_N_FIND + 1) = MAX_PACKETS
      ∧ last_packet_entries (MAX_N_FIND + 1) = MAX_N_PER_PACKET)
    ∧ (required_packets (2 * MAX_N_SWITCH + 2) = MAX_PACKETS
      ∧ last_packet_entries (2 * MAX_N_SWITCH + 2) = MAX_N_PER_PACKET)
    ∧ (¬ (FIND_OP = FIND_OP ∧ DRAM_MODE = NVRAM_CLEAR) →
        ∃ s', process_req k_mm
          (some { op_code := FIND_OP, pid_n := 200000, mode := DRAM_MODE }) ex_one = some s')
    ∧ ∀ s', process_req k_mm
          (some { op_code := FIND_OP, pid_n := 200000, mode := DRAM_MODE }) ex_one = some s' →
        1 ≤ s'.n_found ∧ s'.n_found ≤ MAX_N_FIND + 1
        ∧ (FIND_OP = FIND_OP → DRAM_MODE = SWITCH_MODE →
            s'.n_found ≤ 2 * MAX_N_SWITCH + 2)
        ∧ 1 ≤ required_packets s'.n_found
        ∧ required_packets s'.n_found ≤ MAX_PACKETS
        ∧ ((nl_packets s'.found_addrs s'.n_found).length : Int) ≤ MAX_PACKETS :=
  C20_packets_within_limit k_mm { op_code := FIND_OP, pid_n := 200000, mode := DRAM_MODE }
    ex_one Inv_ex_one (fun _ => by decide)

/-- C21 as stated fails: the terminator and the separator are written by an assignment to
`pid_retval` alone.  After BIND(100) and FIND(10, DRAM), which returns five candidates,
FIND(1, DRAM) answers with a terminator whose `addr` is 0x6000, the address of the second
candidate of the response before; and FIND(10, SWITCH) on a process with one hot-dirty and two
hot-clean NVRAM pages and three cold DRAM pages answers with a separator whose `addr` is
0x5000. -/
theorem C21_counterexample :
    (run ex_init [ex_bind_100, ex_find 10 DRAM_MODE, ex_find 1 DRAM_MODE]).map
        (fun s' => (response s').map (fun a => (a.addr, a.pid_retval)))
      = some [(0x5000, 100), (0x6000, 0)]
    ∧ (run ex_init [ex_hot_bind, ex_hot_find 10 SWITCH_MODE]).map
        (fun s' => (response s').map (fun a => (a.addr, a.pid_retval)))
      = some [(0x1000, 100), (0x2000, 100), (0x3000, 100), (0x5000, 0),
              (0x4000, 100), (0x5000, 100), (0x6000, 100), (0, 0)] := by
  decide

/-- C21, amended: in a state satisfying the table invariant, every request other than
FIND(SWITCH) and FIND(NVRAM_CLEAR) is answered, and the terminator of the response (the last
record) has the `addr` field that its slot of `found_addrs` held before the request: the
request stores the status there and nothing else. -/
theorem C21_terminator_addr_kept (k : Kernel) (req : Option req_t) (s : State) (hinv : Inv s)
    (hreq : ∀ rq, req = some rq → rq.op_code = FIND_OP →
      rq.mode ≠ SWITCH_MODE ∧ rq.mode ≠ NVRAM_CLEAR) :
    ∃ s', process_req k req s = some s' ∧ 1 ≤ s'.n_found
      ∧ (s'.found_addrs (s'.n_found - 1)).addr = (s.found_addrs (s'.n_found - 1)).addr := by
  obtain ⟨r, s1, hd, h0, habove⟩ := dispatch_req_above k req { s with n_found := 0 }
    (Inv_congr s _ rfl rfl rfl rfl hinv) rfl hreq
  refine ⟨put_retval r s1, ?_, ?_, ?_⟩
  · unfold process_req
    rw [hd]
    rfl
  · simp only [put_retval]; omega
  · have e : (put_retval r s1).n_found - 1 = s1.n_found := by simp only [put_retval]; omega
    rw [e]
    have e2 : ((put_retval r s1).found_addrs s1.n_found).addr
        = (s1.found_addrs s1.n_found).addr := by
      simp only [put_retval, set_pid_retval, if_pos]
    rw [e2, habove s1.n_found (le_refl _)]

/-- C21 on FIND(1, DRAM) in the one-process example: the response has two records, and the
terminator keeps the `addr` of slot 1. -/
theorem C21_terminator_addr_kept_witness :
    ((process_req k_mm (some { op_code := FIND_OP, pid_n := 1, mode := DRAM_MODE }) ex_one).map
        (fun s' => s'.n_found) = some 2)
    ∧ ∃ s', process_req k_mm (some { op_code := FIND_OP, pid_n := 1, mode := DRAM_MODE }) ex_one
        = some s' ∧ 1 ≤ s'.n_found
      ∧ (s'.found_addrs (s'.n_found - 1)).addr = (ex_one.found_addrs (s'.n_found - 1)).addr :=
  ⟨by decide,
   C21_terminator_addr_kept k_mm (some { op_code := FIND_OP, pid_n := 1, mode := DRAM_MODE })
     ex_one Inv_ex_one (fun rq h _ => by
       simp only [Option.some.injEq] at h
       subst h
       exact ⟨by decide, by decide⟩)⟩

/-- C22 as stated fails: with one managed process that has no pages, FIND(10, DRAM) selects
no candidate and answers with the terminator alone, whose status is -1. -/
theorem C22_counterexample :
    (run ex_init [ex_bind_all 100, ex_find_dram]).map
        (fun s' => (response s').map (fun a => (a.addr, a.pid_retval)))
      = some [(0, -1)] := by
  decide

/-- C22, amended: in a state satisfying the table invariant a single-tier FIND(n, mode) is
answered; when it selects no candidate the response is the terminator alone, and the
terminator's status is 0 if `n ≤ 0` and a process is managed, and -1 otherwise. -/
theorem C22_no_candidates_status (k : Kernel) (n mode : Int) (s : State)
    (hmode : mode = DRAM_MODE ∨ mode = NVRAM_MODE ∨ mode = NVRAM_WRITE_MODE
      ∨ mode = NVRAM_INTENSIVE_MODE)
    (hinv : Inv s) :
    ∃ s', process_req k (some { op_code := FIND_OP, pid_n := n, mode := mode }) s = some s'
      ∧ 1 ≤ s'.n_found
      ∧ (s'.n_found = 1 →
          response s' = [s'.found_addrs 0]
          ∧ (s'.found_addrs 0).pid_retval = (if n ≤ 0 ∧ 0 < s'.n_pids then 0 else -1)) := by
  have hresp : ∀ s' : State, s'.n_found = 1 → response s' = [s'.found_addrs 0] := by
    intro s' h
    simp only [response, h]
    rfl
  have hinv0 : Inv (refresh_pids k { s with n_found := 0 }) :=
    Inv_refresh_pids k _ (Inv_congr s _ rfl rfl rfl rfl hinv)
  have hnf0 : (refresh_pids k { s with n_found := 0 }).n_found = 0 :=
    (refresh_pids_frame k { s with n_found := 0 }).2.2.2.2.2.1
  rw [process_req_find_mem k n mode s hmode]
  by_cases hp : (refresh_pids k { s with n_found := 0 }).n_pids > 0
  · rw [if_pos hp]
    obtain ⟨r, s1, hw, hr, h1, _, h3⟩ := mem_walk_status (int_min MAX_N_FIND n) mode
      (refresh_pids k { s with n_found := 0 }) hmode hinv0 hp
    rw [hw]
    refine ⟨put_retval r s1, rfl, by simp only [put_retval]; omega, fun hone => ?_⟩
    refine ⟨hresp _ hone, ?_⟩
    have hs1 : s1.n_found = 0 := by
      simp only [put_retval] at hone
      omega
    have e1 : ((put_retval r s1).found_addrs 0).pid_retval = r := by
      have := (put_retval_spec r s1).2.1
      rw [hs1] at this
      exact this
    have e2 : (put_retval r s1).n_pids = s1.n_pids := rfl
    rw [e1, e2, hr, hs1, h3]
    have hmax : MAX_N_FIND = 131071 := by decide
    by_cases hn : n ≤ 0
    · rw [if_pos (by unfold int_min; split_ifs <;> omega), if_pos ⟨hn, hp⟩]
    · rw [if_neg (by unfold int_min; split_ifs <;> omega), if_neg (fun h => hn h.1)]
  · rw [if_neg hp]
    refine ⟨put_retval (-1) (refresh_pids k { s with n_found := 0 }), rfl,
      by simp only [put_retval]; omega, fun hone => ⟨hresp _ hone, ?_⟩⟩
    have e1 : ((put_retval (-1) (refresh_pids k { s with n_found := 0 })).found_addrs 0).pid_retval
        = -1 := by
      have := (put_retval_spec (-1) (refresh_pids k { s with n_found := 0 })).2.1
      rw [hnf0] at this
      exact this
    have e2 : (put_retval (-1) (refresh_pids k { s with n_found := 0 })).n_pids
        = (refresh_pids k { s with n_found := 0 }).n_pids := rfl
    rw [e1, e2, if_neg (fun h => hp h.2)]

/-- C22 on FIND(10, DRAM) with two managed processes that have no address space: no
candidate, and a terminator with status -1. -/
theorem C22_no_candidates_status_witness :
    ((process_req k_all (some { op_code := FIND_OP, pid_n := 10, mode := DRAM_MODE }) ex_two).map
        (fun s' => (response s').map (fun a => a.pid_retval)) = some [-1])
    ∧ ∃ s', process_req k_all (some { op_code := FIND_OP, pid_n := 10, mode := DRAM_MODE }) ex_two
        = some s'
      ∧ 1 ≤ s'.n_found
      ∧ (s'.n_found = 1 →
          response s' = [s'.found_addrs 0]
          ∧ (s'.found_addrs 0).pid_retval
              = (if (10 : Int) ≤ 0 ∧ 0 < s'.n_pids then 0 else -1)) :=
  ⟨by decide, C22_no_candidates_status k_all 10 DRAM_MODE ex_two (Or.inl rfl) Inv_ex_two⟩

/-- C23: with a positive page size and non-negative free byte counts, let `cap_1 … cap_m` be
the free bytes of the destination nodes divided by the page size, in node-list order.  Then
`do_migration` on `k` candidates assigns exactly `min (k, cap_1 + … + cap_m)` of them; candidate
`j` (below `k`) with `cap_1 + … + cap_(d-1) ≤ j < cap_1 + … + cap_d` gets its own address and node
`d`; every assigned candidate that got node `d` lies in that stretch, so node `d` gets at most
`cap_d` candidates; and the slots from the number assigned on are left as allocated: the
candidates beyond the total capacity are dropped. -/
theorem C23_capacity_assignment (h : Numa) (page_size : Int) (candidates : Int → addr_info_t)
    (addr0 : Int → Nat) (dest0 : Int → Int) (mode k : Int)
    (hps : 0 < page_size) (hfree : ∀ c node, 0 ≤ h.numa_node_size64 c node) (hk : 0 ≤ k) :
    (do_migration h page_size candidates addr0 dest0 mode k).n_processed
        = min k (node_caps h page_size (fun v => v) 0 (node_list mode)).sum
    ∧ (∀ (d : Nat) (c node : Int),
        (node_caps h page_size (fun v => v) 0 (node_list mode))[d]? = some c →
        (node_list mode)[d]? = some node →
        (∀ j, ((node_caps h page_size (fun v => v) 0 (node_list mode)).take d).sum ≤ j →
            j < ((node_caps h page_size (fun v => v) 0 (node_list mode)).take d).sum + c →
            j < k →
            (do_migration h page_size candidates addr0 dest0 mode k).addr j = (candidates j).addr
            ∧ (do_migration h page_size candidates addr0 dest0 mode k).dest_nodes j = node)
        ∧ (∀ j, 0 ≤ j →
            j < (do_migration h page_size candidates addr0 dest0 mode k).n_processed →
            (do_migration h page_size candidates addr0 dest0 mode k).dest_nodes j = node →
            ((node_caps h page_size (fun v => v) 0 (node_list mode)).take d).sum ≤ j
            ∧ j < ((node_caps h page_size (fun v => v) 0 (node_list mode)).take d).sum + c))
    ∧ (∀ j, min k (node_caps h page_size (fun v => v) 0 (node_list mode)).sum ≤ j →
        (do_migration h page_size candidates addr0 dest0 mode k).addr j = addr0 j
        ∧ (do_migration h page_size candidates addr0 dest0 mode k).dest_nodes j = dest0 j) := by
  have hc := node_caps_nonneg h page_size hps hfree 0 (node_list mode)
  obtain ⟨a1, a2, a3⟩ := assign_nodes_spec h page_size (fun v => v) candidates
    (fun n_processed => n_processed) k (node_list mode)
    { n_processed := 0, addr := addr0, dest_nodes := dest0, size_calls := 0 } hk hc
  simp only [zero_add] at a1 a2 a3
  have fwd : ∀ (d : Nat) (c node : Int),
      (node_caps h page_size (fun v => v) 0 (node_list mode))[d]? = some c →
      (node_list mode)[d]? = some node →
      ∀ j, ((node_caps h page_size (fun v => v) 0 (node_list mode)).take d).sum ≤ j →
        j < ((node_caps h page_size (fun v => v) 0 (node_list mode)).take d).sum + c →
        j < k →
        (do_migration h page_size candidates addr0 dest0 mode k).addr j = (candidates j).addr
        ∧ (do_migration h page_size candidates addr0 dest0 mode k).dest_nodes j = node := by
    intro d c node hd hn j h0 h1 h2
    obtain ⟨b1, b2⟩ := a3 d c node hd hn j h0 h1 h2
    refine ⟨?_, b2⟩
    show (assign_nodes _ _ _ _ _ _ _ _).addr j = (candidates j).addr
    rw [b1]
    congr 2
    omega
  refine ⟨a1, fun d c node hd hn => ⟨fwd d c node hd hn, fun j h0 h1 h2 => ?_⟩, fun j hj => ?_⟩
  · have h1' : j < min k (node_caps h page_size (fun v => v) 0 (node_list mode)).sum := by
      rw [← a1]; exact h1
    obtain ⟨d1, c1, e1, e2, e3⟩ := sum_take_cover _ hc j h0 (by omega)
    have hlen : d1 < (node_list mode).length := by
      have := (List.getElem?_eq_some.mp e1).1
      rw [node_caps_length] at this
      exact this
    have hn1 : (node_list mode)[d1]? = some (node_list mode)[d1] :=
      List.getElem?_eq_getElem hlen
    have := (fwd d1 c1 _ e1 hn1 j e2 e3 (by omega)).2
    have hsame : (node_list mode)[d1]? = (node_list mode)[d]? := by
      rw [hn1, hn, ← this, h2]
    have hd1 : d1 = d := List.getElem?_inj hlen (node_list_nodup mode) hsame
    subst hd1
    rw [e1] at hd
    simp only [Option.some.injEq] at hd
    subst hd
    exact ⟨e2, e3⟩
  · exact a2 j (Or.inr (by rw [a1]; exact hj))

/-- C23 on three candidates found in DRAM mode, with room for two pages on node 2 and for ten
on node 3: all three are assigned, the first two to node 2 and the third to node 3. -/
theorem C23_capacity_assignment_witness :
    node_caps ex_numa 4096 (fun v => v) 0 (node_list DRAM_MODE) = [2, 10]
    ∧ ((List.range 4).map (fun (j : Nat) =>
        (do_migration ex_numa 4096 ex_candidates ex_addr0 ex_dest0 DRAM_MODE 3).dest_nodes
          (Int.ofNat j))) = [2, 2, 3, -1]
    ∧ (do_migration ex_numa 4096 ex_candidates ex_addr0 ex_dest0 DRAM_MODE 3).n_processed
        = min 3 (node_caps ex_numa 4096 (fun v => v) 0 (node_list DRAM_MODE)).sum :=
  ⟨by decide, by decide,
   (C23_capacity_assignment ex_numa 4096 ex_candidates ex_addr0 ex_dest0 DRAM_MODE 3
      (by decide) (fun _ node => by unfold ex_numa; dsimp only; split_ifs <;> decide)
      (by decide)).1⟩

/-- C24: the batched calls of `do_migration` cut the assigned candidates into consecutive
maximal runs of equal PID.  Batch number `i` begins at the candidate whose index is the sum of
the lengths of the batches before it; it has at least one page, names the PID of every
candidate of its run, and carries the addresses of these candidates and the nodes assigned to
them, in order; the batch after it names another PID; and the lengths of all batches add up to
the number of assigned candidates. -/
theorem C24_batches_are_maximal_runs (h : Numa) (page_size : Int)
    (candidates : Int → addr_info_t) (addr0 : Int → Nat) (dest0 : Int → Int) (mode k : Int) :
    run_start (batched_calls (do_migration h page_size candidates addr0 dest0 mode k).calls)
        (batched_calls (do_migration h page_size candidates addr0 dest0 mode k).calls).length
      = (do_migration h page_size candidates addr0 dest0 mode k).n_processed
    ∧ ∀ (i : Nat) (b : move_call),
        (batched_calls (do_migration h page_size candidates addr0 dest0 mode k).calls)[i]?
          = some b →
        1 ≤ b.count
        ∧ (∀ t, 0 ≤ t → t < b.count →
            (candidates (run_start
              (batched_calls (do_migration h page_size candidates addr0 dest0 mode k).calls) i
                + t)).pid_retval = b.pid)
        ∧ b.pages = (List.range b.count.toNat).map (fun (t : Nat) =>
            (candidates (run_start
              (batched_calls (do_migration h page_size candidates addr0 dest0 mode k).calls) i
                + Int.ofNat t)).addr)
        ∧ b.nodes = (List.range b.count.toNat).map (fun (t : Nat) =>
            (do_migration h page_size candidates addr0 dest0 mode k).dest_nodes
              (run_start
                (batched_calls (do_migration h page_size candidates addr0 dest0 mode k).calls) i
                + Int.ofNat t))
        ∧ (∀ b1,
            (batched_calls
              (do_migration h page_size candidates addr0 dest0 mode k).calls)[i + 1]? = some b1 →
            b1.pid ≠ b.pid) := by
  obtain ⟨p1, p2⟩ := assign_nodes_addr h page_size (fun v => v) candidates k (node_list mode)
    { n_processed := 0, addr := addr0, dest_nodes := dest0, size_calls := 0 }
    (fun x h0 h1 => by dsimp only at h1; omega)
  dsimp only at p1
  obtain ⟨_, bs, e2, e3⟩ := send_runs_spec h candidates 0
    (assign_nodes h page_size (fun v => v) candidates (fun n_processed => n_processed) k
      (node_list mode)
      { n_processed := 0, addr := addr0, dest_nodes := dest0, size_calls := 0 }).addr
    (assign_nodes h page_size (fun v => v) candidates (fun n_processed => n_processed) k
      (node_list mode)
      { n_processed := 0, addr := addr0, dest_nodes := dest0, size_calls := 0 }).dest_nodes
    (assign_nodes h page_size (fun v => v) candidates (fun n_processed => n_processed) k
      (node_list mode)
      { n_processed := 0, addr := addr0, dest_nodes := dest0, size_calls := 0 }).n_processed
    (assign_nodes h page_size (fun v => v) candidates (fun n_processed => n_processed) k
      (node_list mode)
      { n_processed := 0, addr := addr0, dest_nodes := dest0, size_calls := 0 }).n_processed.toNat
    0 { e := 0, move_calls := 0, calls := [] } p1 (by omega)
  have hB : batched_calls (do_migration h page_size candidates addr0 dest0 mode k).calls = bs := by
    have : batched_calls ([] : List move_call) = [] := rfl
    rw [this, List.nil_append] at e2
    exact e2
  rw [hB]
  obtain ⟨q1, q2, q3⟩ := RunsFrom_index _ _ _ _ _ bs 0 e3
  rw [zero_add] at q1
  refine ⟨q1, fun i b hb => ?_⟩
  obtain ⟨r1, r2, r3, r4, r5, r6⟩ := q3 i b hb
  simp only [zero_add] at r2 r3 r4 r5
  have hs := q2 i
  refine ⟨r1, r3, ?_, r5, r6⟩
  rw [r4]
  apply List.map_congr_left
  intro t ht
  rw [List.mem_range] at ht
  have ht' : Int.ofNat t < b.count := by
    have : (t : Int) < (b.count.toNat : Int) := by exact_mod_cast ht
    have h2 : ((b.count.toNat : Nat) : Int) = b.count := Int.toNat_of_nonneg (by omega)
    simp only [Int.ofNat_eq_coe]
    omega
  have h0 : (0 : Int) ≤ Int.ofNat t := Int.ofNat_nonneg t
  exact p2 _ (by omega) (by omega)

/-- C24 on three candidates with the PIDs 100, 100, 200: two batched calls, the first for
PID 100 with the pages 0x5000 and 0x6000 for node 2, the second for PID 200 with the page
0x7000 for node 3. -/
theorem C24_batches_are_maximal_runs_witness :
    batched_calls (do_migration ex_numa 4096 ex_candidates ex_addr0 ex_dest0 DRAM_MODE 3).calls
      = [{ pid := 100, count := 2, pages := [0x5000, 0x6000], nodes := [2, 2], batched := true },
         { pid := 200, count := 1, pages := [0x7000], nodes := [3], batched := true }]
    ∧ run_start
        (batched_calls (do_migration ex_numa 4096 ex_candidates ex_addr0 ex_dest0 DRAM_MODE 3).calls)
        (batched_calls
          (do_migration ex_numa 4096 ex_candidates ex_addr0 ex_dest0 DRAM_MODE 3).calls).length
      = (do_migration ex_numa 4096 ex_candidates ex_addr0 ex_dest0 DRAM_MODE 3).n_processed
    ∧ (1 : Int) ≤ 2 :=
  ⟨by decide,
   (C24_batches_are_maximal_runs ex_numa 4096 ex_candidates ex_addr0 ex_dest0 DRAM_MODE 3).1,
   ((C24_batches_are_maximal_runs ex_numa 4096 ex_candidates ex_addr0 ex_dest0 DRAM_MODE 3).2 0
      { pid := 100, count := 2, pages := [0x5000, 0x6000], nodes := [2, 2], batched := true }
      (by decide)).1⟩

/-- C25 fails on the code: the loop of `do_switch` has no test for progress.  For one pair
(`n_found = 1`) on a host without free memory on any node, and likewise on a host with free
memory on which no page can be moved, the loop is still running after any number of passes:
`do_switch` never returns. -/
theorem C25_switch_loop_never_ends (fuel : Nat) :
    do_switch ex_numa_full 4096 ex_pair ex_addr0 ex_dest0 ex_addr0 ex_dest0 1 fuel = none
    ∧ do_switch ex_numa_stuck 4096 ex_pair ex_addr0 ex_dest0 ex_addr0 ex_dest0 1 fuel = none := by
  constructor
  · unfold do_switch
    rw [do_switch_loop_zero ex_numa_full 4096 (fun _ _ => rfl) ex_pair 1 (le_refl 1) fuel
      (do_switch_start ex_addr0 ex_dest0 ex_addr0 ex_dest0) ⟨rfl, rfl⟩ ⟨rfl, rfl⟩]
    rfl
  · unfold do_switch
    cases fuel with
    | zero => rfl
    | succ fuel =>
      have hcond : (do_switch_start ex_addr0 ex_dest0 ex_addr0 ex_dest0).dram_migrated < 1
          ∨ (do_switch_start ex_addr0 ex_dest0 ex_addr0 ex_dest0).nvram_migrated < 1 :=
        Or.inl (by decide)
      simp only [do_switch_loop]
      rw [if_pos hcond]
      rw [do_switch_loop_failed ex_numa_stuck 4096 ex_pair 1 fuel _
        ⟨by decide, by decide⟩ ⟨by decide, by decide⟩]
      rfl

/-- C26: a visited page that is not present, or write protected, or whose frame is not on a
node of the policy's tier is skipped.  While `found` is not full this holds for the DRAM
policy (tier DRAM) and for the NVRAM, NVRAM_WRITE, NVRAM_INTENSIVE and SWITCH NVRAM-phase
policies (tier NVRAM), and for NVRAM_CLEAR it holds always: the callback returns 0 (the walk
continues) with the globals (found, backup, switch-backup, counters and cursors) and the
page-table entry exactly as they were. -/
theorem C26_skipped_page_untouched (p : pte_t) (addr : Nat) (s : State) :
    (s.n_found ≠ s.n_to_find →
      (pte_present p = false ∨ pte_write p = false ∨ contains p.nid DRAM_MODE = false) →
      pte_callback_mem (some p) addr s = { ret := 0, st := s, pte := some p })
    ∧ (s.n_found ≠ s.n_to_find →
      (pte_present p = false ∨ pte_write p = false ∨ contains p.nid NVRAM_MODE = false) →
      pte_callback_nvram_force (some p) addr s = { ret := 0, st := s, pte := some p }
      ∧ pte_callback_nvram_write (some p) addr s = { ret := 0, st := s, pte := some p }
      ∧ pte_callback_nvram_intensive (some p) addr s = { ret := 0, st := s, pte := some p }
      ∧ pte_callback_nvram_switch (some p) addr s = { ret := 0, st := s, pte := some p })
    ∧ ((pte_present p = false ∨ pte_write p = false ∨ contains p.nid NVRAM_MODE = false) →
      pte_callback_nvram_clear (some p) addr s = { ret := 0, st := s, pte := some p }) := by
  have hskip : ∀ mode, (pte_present p = false ∨ pte_write p = false ∨ contains p.nid mode = false) →
      skip_page p mode = true := by
    intro mode h
    unfold skip_page
    rcases h with h | h | h <;> simp [h]
  refine ⟨fun hfull h => ?_, fun hfull h => ⟨?_, ?_, ?_, ?_⟩, fun h => ?_⟩
  · unfold pte_callback_mem
    rw [if_neg hfull]
    dsimp only
    rw [if_pos (hskip _ h)]
  · unfold pte_callback_nvram_force
    rw [if_neg hfull]
    dsimp only
    rw [if_pos (hskip _ h)]
  · unfold pte_callback_nvram_write
    rw [if_neg hfull]
    dsimp only
    rw [if_pos (hskip _ h)]
  · unfold pte_callback_nvram_intensive
    rw [if_neg hfull]
    dsimp only
    rw [if_pos (hskip _ h)]
  · unfold pte_callback_nvram_switch
    rw [if_neg hfull]
    dsimp only
    rw [if_pos (hskip _ h)]
  · unfold pte_callback_nvram_clear
    dsimp only
    rw [if_pos (hskip _ h)]

/-- C26 on a cold page of node 1 (DRAM) that is write protected, during a walk for ten
pages of the one-process example: all six callbacks skip it. -/
theorem C26_skipped_page_untouched_witness :
    pte_callback_mem (some { ex_pte false false 1 with write := false }) 0x5000
        { ex_one with n_to_find := 10 }
      = { ret := 0, st := { ex_one with n_to_find := 10 },
          pte := some { ex_pte false false 1 with write := false } }
    ∧ (pte_callback_nvram_force (some { ex_pte false false 1 with write := false }) 0x5000
          { ex_one with n_to_find := 10 }
        = { ret := 0, st := { ex_one with n_to_find := 10 },
            pte := some { ex_pte false false 1 with write := false } }
      ∧ pte_callback_nvram_write (some { ex_pte false false 1 with write := false }) 0x5000
          { ex_one with n_to_find := 10 }
        = { ret := 0, st := { ex_one with n_to_find := 10 },
            pte := some { ex_pte false false 1 with write := false } }
      ∧ pte_callback_nvram_intensive (some { ex_pte false false 1 with write := false }) 0x5000
          { ex_one with n_to_find := 10 }
        = { ret := 0, st := { ex_one with n_to_find := 10 },
            pte := some { ex_pte false false 1 with write := false } }
      ∧ pte_callback_nvram_switch (some { ex_pte false false 1 with write := false }) 0x5000
          { ex_one with n_to_find := 10 }
        = { ret := 0, st := { ex_one with n_to_find := 10 },
            pte := some { ex_pte false false 1 with write := false } })
    ∧ pte_callback_nvram_clear (some { ex_pte false false 1 with write := false }) 0x5000
        { ex_one with n_to_find := 10 }
      = { ret := 0, st := { ex_one with n_to_find := 10 },
          pte := some { ex_pte false false 1 with write := false } } :=
  ⟨(C26_skipped_page_untouched { ex_pte false false 1 with write := false } 0x5000
      { ex_one with n_to_find := 10 }).1 (by decide) (Or.inr (Or.inl rfl)),
   (C26_skipped_page_untouched { ex_pte false false 1 with write := false } 0x5000
      { ex_one with n_to_find := 10 }).2.1 (by decide) (Or.inr (Or.inl rfl)),
   (C26_skipped_page_untouched { ex_pte false false 1 with write := false } 0x5000
      { ex_one with n_to_find := 10 }).2.2 (Or.inr (Or.inl rfl))⟩

/-- C27: in DRAM or NVRAM mode, on a non-empty managed set satisfying the table invariant
(in particular with unique PIDs) whose page tables list no address twice, the primary walk of
`mem_walk`, started with an empty `found`, returns, and at its end no record of
`found[0 .. n_found)` equals a record of `backup[0 .. n_backup)`. -/
theorem C27_found_backup_disjoint (n mode : Int) (s : State)
    (hmode : mode = DRAM_MODE ∨ mode = NVRAM_MODE) (hinv : Inv s) (hpos : 0 < s.n_pids)
    (hnf : s.n_found = 0)
    (haddr : ∀ i t mm, s.task_items i = some t → t.mm = some mm →
      (mm.ptes.map Prod.fst).Nodup) :
    ∃ cb d s1, mem_walk_ops mode = some (cb, d) ∧ mem_walk_primary cb d n s = some s1
      ∧ ∀ i j, 0 ≤ i → i < s1.n_found → 0 ≤ j → j < s1.n_backup →
          s1.found_addrs i ≠ s1.backup_addrs j := by
  rcases hmode with hm | hm
  · subst hm
    have hcb : CbStep (fun p q => (pte_young q = false ↔ pte_young p = false))
        (fun p => pte_young p = false) (fun p => ¬ (pte_young p = false)) pte_callback_mem :=
      CbStep_weaken CbStep_mem
        (fun p q h => by
          rcases h with h | h
          · rw [h]
          · rw [h.2]; exact Iff.rfl)
        (fun _ h => h) (fun p h => by rw [h.1]; simp)
    obtain ⟨s1, hw, _, g⟩ := mem_walk_primary_walked
      (fun p q => (pte_young q = false ↔ pte_young p = false)) (fun _ => Iff.rfl)
      (fun _ _ _ h1 h2 => h2.trans h1) (fun p => pte_young p = false)
      (fun p => ¬ (pte_young p = false)) (fun p => pte_young p = false)
      (fun p => ¬ (pte_young p = false)) pte_callback_mem hcb
      (fun _ _ h hf => h.1 hf) (fun _ _ h hb hp => hb (h.2 hp)) true n s hinv hpos
    refine ⟨pte_callback_mem, true, s1, rfl, hw, fun i j hi0 hi1 hj0 hj1 => ?_⟩
    exact RecOf_disjoint _ s hinv haddr _ _
      (g.found_new i (by simp only [mem_walk_start]; omega) hi1)
      (g.backup_new j (by simp only [mem_walk_start]; omega) hj1)
  · subst hm
    have hcb : CbStep
        (fun p q => ((pte_young q = true ∧ pte_dirty q = true)
          ↔ (pte_young p = true ∧ pte_dirty p = true)))
        (fun p => pte_young p = true ∧ pte_dirty p = true)
        (fun p => ¬ (pte_young p = true ∧ pte_dirty p = true)) pte_callback_nvram_force :=
      CbStep_weaken CbStep_nvram_force
        (fun p q h => by
          rcases h with h | h
          · rw [h]
          · rw [h.2]
            constructor
            · intro hc
              exact absurd hc.2 (by simp [pte_clear_bits, pte_mkclean, ptep_modify_prot_commit,
                ptep_modify_prot_start, pte_dirty])
            · intro hc
              exact absurd hc h.1)
        (fun _ h => h) (fun _ h => h)
    obtain ⟨s1, hw, _, g⟩ := mem_walk_primary_walked
      (fun p q => ((pte_young q = true ∧ pte_dirty q = true)
          ↔ (pte_young p = true ∧ pte_dirty p = true))) (fun _ => Iff.rfl)
      (fun _ _ _ h1 h2 => h2.trans h1) (fun p => pte_young p = true ∧ pte_dirty p = true)
      (fun p => ¬ (pte_young p = true ∧ pte_dirty p = true))
      (fun p => pte_young p = true ∧ pte_dirty p = true)
      (fun p => ¬ (pte_young p = true ∧ pte_dirty p = true)) pte_callback_nvram_force hcb
      (fun _ _ h hf => h.1 hf) (fun _ _ h hb hp => hb (h.2 hp)) false n s hinv hpos
    refine ⟨pte_callback_nvram_force, false, s1, rfl, hw, fun i j hi0 hi1 hj0 hj1 => ?_⟩
    exact RecOf_disjoint _ s hinv haddr _ _
      (g.found_new i (by simp only [mem_walk_start]; omega) hi1)
      (g.backup_new j (by simp only [mem_walk_start]; omega) hj1)

/-- C27 on the one-process example, FIND(10, DRAM).  From the cursor (0, 0x6000) the page
at 0x6000 is met twice and both times goes to `found`, while `backup` holds the three
clean-but-hot pages. -/
theorem C27_found_backup_disjoint_witness :
    ((mem_walk_primary pte_callback_mem true 10 { ex_one with last_addr_dram := 0x6000 }).map
        (fun s1 => ((response s1).map (fun a => a.addr), s1.n_backup,
          (s1.backup_addrs 0).addr, (s1.backup_addrs 1).addr, (s1.backup_addrs 2).addr))
      = some ([0x6000, 0x5000, 0x6000], 3, 0x7000, 0x8000, 0x9000))
    ∧ ∃ cb d s1, mem_walk_ops DRAM_MODE = some (cb, d)
      ∧ mem_walk_primary cb d 10 ex_one = some s1
      ∧ ∀ i j, 0 ≤ i → i < s1.n_found → 0 ≤ j → j < s1.n_backup →
          s1.found_addrs i ≠ s1.backup_addrs j :=
  ⟨by decide, C27_found_backup_disjoint 10 DRAM_MODE ex_one (Or.inl rfl) Inv_ex_one (by decide)
    rfl addr_nodup_ex_one⟩

/-- C29 fails on the code: the cursor address is stored by the call of the callback that
follows the n-th pick, and there is none when the n-th pick is the last page of the range.
Two processes are bound, pid 100 (index 0) whose last three pages are cold DRAM pages, and
pid 200 (index 1) with two cold DRAM pages.  FIND(3, DRAM) takes its third pick at 0x6000 of
index 0, the last page of that process, and ends with the DRAM cursor at index 0 and address 0,
not above 0x6000; the next FIND(3, DRAM) starts over at address 0 of index 0 and returns the
same three pages, never reaching the cold pages of pid 200. -/
theorem C29_cursor_left_behind :
    (run ex_init [ex_pair_event { op_code := BIND_OP, pid_n := 100, mode := 0 },
        ex_pair_event { op_code := BIND_OP, pid_n := 200, mode := 0 },
        ex_pair_event { op_code := FIND_OP, pid_n := 3, mode := DRAM_MODE }]).map
        (fun s' => ((response s').map (fun a => (a.addr, a.pid_retval)),
          s'.last_pid_dram, s'.last_addr_dram))
      = some ([(0x4000, 100), (0x5000, 100), (0x6000, 100), (0, 0)], 0, 0)
    ∧ (run ex_init [ex_pair_event { op_code := BIND_OP, pid_n := 100, mode := 0 },
        ex_pair_event { op_code := BIND_OP, pid_n := 200, mode := 0 },
        ex_pair_event { op_code := FIND_OP, pid_n := 3, mode := DRAM_MODE },
        ex_pair_event { op_code := FIND_OP, pid_n := 3, mode := DRAM_MODE }]).map
        (fun s' => ((response s').map (fun a => (a.addr, a.pid_retval)),
          s'.last_pid_dram, s'.last_addr_dram))
      = some ([(0x4000, 100), (0x5000, 100), (0x6000, 100), (0, 0)], 0, 0) := by
  decide

/-- C30 as stated fails: the policy compares `n_backup` with the `int` value of
`n_to_find - n_found`, and for a count near `INT_MIN` that value is not the difference.  On a
hot and clean NVRAM page met with `n_to_find = -2147483648`, `n_found = 1` and `n_backup = 0`
the difference is negative, so `n_backup < n_to_find - n_found` is false, and the page is
appended to `backup` all the same; BIND(100) and FIND(-2147483648, NVRAM) on the process with
one hot-dirty and two hot-clean NVRAM pages end with the two hot-clean pages in `backup`. -/
theorem C30_counterexample :
    ¬ ((0 : Int) < -2147483648 - 1)
    ∧ (pte_callback_nvram_force (some (ex_pte true false 2)) 0x2000
        { ex_hot with n_to_find := -2147483648, n_found := 1, curr_pid := 100 }).st.n_backup = 1
    ∧ (pte_callback_nvram_force (some (ex_pte true false 2)) 0x2000
        { ex_hot with n_to_find := -2147483648, n_found := 1, curr_pid := 100 }).st.backup_addrs 0
      = { addr := 0x2000, pid_retval := 100 }
    ∧ (run ex_init [ex_hot_bind, ex_hot_find (-2147483648) NVRAM_MODE]).map
        (fun s' => (s'.n_to_find, s'.n_backup,
          (records s'.backup_addrs 0 2).map (fun a => (a.addr, a.pid_retval))))
      = some (-2147483648, 2, [(0x2000, 100), (0x3000, 100)]) := by
  decide

/-- C30, amended: in NVRAM (hot-in) mode, while `found` is not full, a page that is present,
writable and on an NVRAM node is appended to `found` (with the current PID) exactly when both
its Accessed and its Dirty bit are set; every other such page is appended to `backup` exactly
when `n_backup` is below the `int` value of `n_to_find - n_found`; a buffer the page is not
appended to is left as it was.  The walk continues (return value 0).  Whenever the difference
`n_to_find - n_found` lies in the range of `int`, every other such page is appended to `backup`
exactly when `n_backup < n_to_find - n_found`. -/
theorem C30_nvram_policy (p : pte_t) (addr : Nat) (s : State)
    (hfull : s.n_found ≠ s.n_to_find) (hp : pte_present p = true) (hw : pte_write p = true)
    (hnode : contains p.nid NVRAM_MODE = true) :
    (pte_callback_nvram_force (some p) addr s).ret = 0
    ∧ (((pte_callback_nvram_force (some p) addr s).st.n_found = s.n_found + 1
          ∧ (pte_callback_nvram_force (some p) addr s).st.found_addrs
              = arr_set s.found_addrs s.n_found { addr := addr, pid_retval := s.curr_pid })
        ↔ (pte_young p = true ∧ pte_dirty p = true))
    ∧ (¬ (pte_young p = true ∧ pte_dirty p = true) →
        (pte_callback_nvram_force (some p) addr s).st.n_found = s.n_found
          ∧ (pte_callback_nvram_force (some p) addr s).st.found_addrs = s.found_addrs
          ∧ (((pte_callback_nvram_force (some p) addr s).st.n_backup = s.n_backup + 1
                ∧ (pte_callback_nvram_force (some p) addr s).st.backup_addrs
                    = arr_set s.backup_addrs s.n_backup
                        { addr := addr, pid_retval := s.curr_pid })
              ↔ s.n_backup < int_sub s.n_to_find s.n_found)
          ∧ (¬ s.n_backup < int_sub s.n_to_find s.n_found →
              (pte_callback_nvram_force (some p) addr s).st.n_backup = s.n_backup
                ∧ (pte_callback_nvram_force (some p) addr s).st.backup_addrs = s.backup_addrs))
    ∧ ((pte_young p = true ∧ pte_dirty p = true) →
        (pte_callback_nvram_force (some p) addr s).st.n_backup = s.n_backup
          ∧ (pte_callback_nvram_force (some p) addr s).st.backup_addrs = s.backup_addrs)
    ∧ (-2147483648 ≤ s.n_to_find - s.n_found → s.n_to_find - s.n_found ≤ 2147483647 →
        ¬ (pte_young p = true ∧ pte_dirty p = true) →
        ((((pte_callback_nvram_force (some p) addr s).st.n_backup = s.n_backup + 1
            ∧ (pte_callback_nvram_force (some p) addr s).st.backup_addrs
                = arr_set s.backup_addrs s.n_backup { addr := addr, pid_retval := s.curr_pid })
          ↔ s.n_backup < s.n_to_find - s.n_found)
        ∧ (¬ s.n_backup < s.n_to_find - s.n_found →
            (pte_callback_nvram_force (some p) addr s).st.n_backup = s.n_backup
              ∧ (pte_callback_nvram_force (some p) addr s).st.backup_addrs
                  = s.backup_addrs))) := by
  have hskip : ¬ (skip_page p NVRAM_MODE = true) := by simp [skip_page, hp, hw, hnode]
  have key : (pte_callback_nvram_force (some p) addr s).ret = 0
      ∧ (((pte_callback_nvram_force (some p) addr s).st.n_found = s.n_found + 1
            ∧ (pte_callback_nvram_force (some p) addr s).st.found_addrs
                = arr_set s.found_addrs s.n_found { addr := addr, pid_retval := s.curr_pid })
          ↔ (pte_young p = true ∧ pte_dirty p = true))
      ∧ (¬ (pte_young p = true ∧ pte_dirty p = true) →
          (pte_callback_nvram_force (some p) addr s).st.n_found = s.n_found
            ∧ (pte_callback_nvram_force (some p) addr s).st.found_addrs = s.found_addrs
            ∧ (((pte_callback_nvram_force (some p) addr s).st.n_backup = s.n_backup + 1
                  ∧ (pte_callback_nvram_force (some p) addr s).st.backup_addrs
                      = arr_set s.backup_addrs s.n_backup
                          { addr := addr, pid_retval := s.curr_pid })
                ↔ s.n_backup < int_sub s.n_to_find s.n_found)
            ∧ (¬ s.n_backup < int_sub s.n_to_find s.n_found →
                (pte_callback_nvram_force (some p) addr s).st.n_backup = s.n_backup
                  ∧ (pte_callback_nvram_force (some p) addr s).st.backup_addrs
                      = s.backup_addrs))
      ∧ ((pte_young p = true ∧ pte_dirty p = true) →
          (pte_callback_nvram_force (some p) addr s).st.n_backup = s.n_backup
            ∧ (pte_callback_nvram_force (some p) addr s).st.backup_addrs = s.backup_addrs) := by
    unfold pte_callback_nvram_force
    rw [if_neg hfull]
    dsimp only
    rw [if_neg hskip]
    by_cases hh : pte_young p = true ∧ pte_dirty p = true
    · have hc : (pte_young p && pte_dirty p) = true := by simp [hh.1, hh.2]
      rw [if_pos hc]
      dsimp only [push_found]
      exact ⟨rfl, ⟨fun _ => hh, fun _ => ⟨rfl, rfl⟩⟩, fun h => absurd hh h, fun _ => ⟨rfl, rfl⟩⟩
    · have hc : ¬ ((pte_young p && pte_dirty p) = true) := by
        intro h
        simp only [Bool.and_eq_true] at h
        exact hh h
      rw [if_neg hc]
      dsimp only
      by_cases hb : s.n_backup < int_sub s.n_to_find s.n_found
      · rw [if_pos hb]
        dsimp only [push_backup]
        refine ⟨rfl, ⟨fun h => ?_, fun h => absurd h hh⟩,
          fun _ => ⟨rfl, rfl, ⟨fun _ => hb, fun _ => ⟨rfl, rfl⟩⟩, fun h => absurd hb h⟩,
          fun h => absurd h hh⟩
        exfalso; have := h.1; omega
      · rw [if_neg hb]
        refine ⟨rfl, ⟨fun h => ?_, fun h => absurd h hh⟩,
          fun _ => ⟨rfl, rfl, ⟨fun h => ?_, fun h => absurd h hb⟩, fun _ => ⟨rfl, rfl⟩⟩,
          fun h => absurd h hh⟩
        · exfalso; have := h.1; omega
        · exfalso; have := h.1; omega
  refine ⟨key.1, key.2.1, key.2.2.1, key.2.2.2, fun hlo hhi hh => ?_⟩
  rw [← int_sub_eq s.n_to_find s.n_found hlo hhi]
  exact (key.2.2.1 hh).2.2

/-- C30 on a hot, dirty NVRAM page during a walk for ten pages of the one-process example:
the page is appended to `found`, and `backup` stays as it was; a hot and clean NVRAM page, the
difference `n_to_find - n_found` being 10, is appended to `backup`. -/
theorem C30_nvram_policy_witness :
    (pte_callback_nvram_force (some (ex_pte true true 2)) 0x3000
        { ex_one with n_to_find := 10 }).st.n_found = 1
    ∧ (pte_callback_nvram_force (some (ex_pte true true 2)) 0x3000
        { ex_one with n_to_find := 10 }).st.n_backup = ex_one.n_backup
    ∧ (pte_callback_nvram_force (some (ex_pte true true 2)) 0x3000
        { ex_one with n_to_find := 10 }).st.backup_addrs = ex_one.backup_addrs
    ∧ (pte_callback_nvram_force (some (ex_pte true false 2)) 0x2000
        { ex_one with n_to_find := 10 }).st.n_backup = ex_one.n_backup + 1 :=
  ⟨by decide,
   ((C30_nvram_policy (ex_pte true true 2) 0x3000 { ex_one with n_to_find := 10 }
      (by decide) rfl rfl (by decide)).2.2.2.1 ⟨rfl, rfl⟩).1,
   ((C30_nvram_policy (ex_pte true true 2) 0x3000 { ex_one with n_to_find := 10 }
      (by decide) rfl rfl (by decide)).2.2.2.1 ⟨rfl, rfl⟩).2,
   ((((C30_nvram_policy (ex_pte true false 2) 0x2000 { ex_one with n_to_find := 10 }
      (by decide) rfl rfl (by decide)).2.2.2.2 (by decide) (by decide) (by decide)).1).2
        (by decide)).1⟩

/-- C31 as stated fails: the policy of the NVRAM phase of SWITCH hands a hot and dirty NVRAM
page back with both bits set, and after BIND(100) and FIND(10, SWITCH) the three hot NVRAM
pages of the process, all of which the policy observed, are still marked accessed, the first
also dirty. -/
theorem C31_counterexample :
    (pte_callback_nvram_switch (some (ex_pte true true 2)) 0x1000
        { ex_hot with n_to_find := 10 }).pte = some (ex_pte true true 2)
    ∧ (run ex_init [ex_hot_bind, ex_hot_find 10 SWITCH_MODE]).map
        (fun s' => (s'.task_items 0).map (fun t => t.mm.map (fun m => m.ptes.take 3)))
      = some (some (some [(0x1000, ex_pte true true 2), (0x2000, ex_pte true false 2),
          (0x3000, ex_pte true false 3)])) := by
  decide

/-- C31, amended: the policy of the NVRAM phase of a SWITCH request hands every entry back as
it got it, and the whole phase, on a non-empty managed set satisfying the table invariant, ends
with every page table as it was: the Accessed and Dirty bits of the pages it observes are read,
not cleared. -/
theorem C31_nvram_phase_reads_only (n : Int) (s : State) (hinv : Inv s) (hpos : 0 < s.n_pids) :
    (∀ (p : pte_t) (addr : Nat) (st : State),
      (pte_callback_nvram_switch (some p) addr st).pte = some p)
    ∧ ∃ s2, switch_nvram_phase n s = some s2 ∧ s2.task_items = s.task_items := by
  constructor
  · intro p addr st
    unfold pte_callback_nvram_switch
    by_cases h1 : st.n_found = st.n_to_find
    · rw [if_pos h1]
    · rw [if_neg h1]
      dsimp only
      split_ifs <;> rfl
  · have hn := CursorOk_range _ _ hinv.nvram hpos
    obtain ⟨r, s1, hw, rel, _⟩ := do_page_walk_walked (fun p q => q = p) (fun _ => rfl)
      (fun _ _ _ h1 h2 => h2.trans h1) (fun p => pte_young p = true ∧ pte_dirty p = true)
      (fun _ => False) (fun _ => True) (fun _ => True) pte_callback_nvram_switch
      CbStep_nvram_switch (fun _ _ _ _ => trivial) (fun _ _ _ _ => trivial)
      s.last_pid_nvram s.last_addr_nvram { s with n_to_find := n, n_switch_backup := 0 }
      (AllManaged_weaken hinv.tasks (fun _ _ => trivial)) hn.1 hn.2
    refine ⟨{ s1 with last_pid_nvram := r }, ?_, TablesRel_eq rel⟩
    unfold switch_nvram_phase
    rw [hw]
    rfl

/-- C31 on the process with one hot-dirty and two hot-clean NVRAM pages: the NVRAM phase of
SWITCH for ten pages ends with the page table as it was. -/
theorem C31_nvram_phase_reads_only_witness :
    ∃ s2, switch_nvram_phase 10 ex_hot = some s2 ∧ s2.task_items = ex_hot.task_items :=
  (C31_nvram_phase_reads_only 10 ex_hot Inv_ex_hot (by decide)).2

/-- C33: for every task table and every host pid table, `refresh_pids` is over after at most
`n_pids` passes of its loop (allowing more passes changes nothing), and it leaves as managed
set exactly the entries that still resolve (not NULL, and `find_get_pid` finds the PID), in
their original order.  Every FIND runs it first and hands the state it leaves to the walk, or
to no walk when the set is empty, so every entry a walk can look at resolves. -/
theorem C33_refresh_keeps_resolving (k : Kernel) (s : State) :
    (∀ extra : Nat, refresh_loop k (s.n_pids.toNat + extra) 0 s = refresh_pids k s)
    ∧ managed (refresh_pids k s) = (managed s).filter (resolves k)
    ∧ (∀ o ∈ managed (refresh_pids k s), resolves k o = true)
    ∧ (∀ n mode : Int,
        dispatch_req k (some { op_code := FIND_OP, pid_n := n, mode := mode }) s
          = if (refresh_pids k s).n_pids > 0 then
              if mode = DRAM_MODE ∨ mode = NVRAM_MODE ∨ mode = NVRAM_WRITE_MODE
                  ∨ mode = NVRAM_INTENSIVE_MODE then
                mem_walk (int_min MAX_N_FIND n) mode (refresh_pids k s)
              else if mode = NVRAM_CLEAR then
                (clear_walk mode (refresh_pids k s)).map (fun r => (-1, r.2))
              else if mode = SWITCH_MODE then
                switch_walk (int_min MAX_N_SWITCH n) (refresh_pids k s)
              else some (-1, refresh_pids k s)
            else some (-1, refresh_pids k s)) := by
  refine ⟨fun extra => refresh_loop_extra k extra s, refresh_pids_managed k s, fun o ho => ?_, fun n mode => ?_⟩
  · rw [refresh_pids_managed] at ho
    exact (List.mem_filter.mp ho).2
  · simp only [dispatch_req, if_true]

/-- C33 on the managed set [100, 200] when pid 200 has exited: the refresh leaves [100]. -/
theorem C33_refresh_keeps_resolving_witness :
    managed_pids (refresh_pids k_200_dead ex_two) = [100]
    ∧ managed (refresh_pids k_200_dead ex_two) = (managed ex_two).filter (resolves k_200_dead) :=
  ⟨by decide, (C33_refresh_keeps_resolving k_200_dead ex_two).2.1⟩

/-- C34 fails on the code: `n_bytes/page_size` is an integer division, so `ceil` gets a whole
number and changes nothing, and the count handed to FIND(n, DRAM) is the minimum of the
integer quotient `B / page_size` (rounded down for `B ≥ 0`) and `MAX_N_FIND`.  For an excess of 4097 bytes and pages
of 4096 bytes the code asks for 1 page where `⌈B / page_size⌉` is 2, and for an excess of
4095 bytes it asks for none where `⌈B / page_size⌉` is 1. -/
theorem C34_page_count_rounds_down :
    (∀ n_bytes page_size : Int,
      above_band_pages n_bytes page_size = min (Int.tdiv n_bytes page_size) MAX_N_FIND)
    ∧ above_band_pages 4097 4096 = 1 ∧ spec_above_band_pages 4097 4096 = 2
    ∧ above_band_pages 4095 4096 = 0 ∧ spec_above_band_pages 4095 4096 = 1 := by
  have h1 : ∀ n_bytes page_size : Int,
      above_band_pages n_bytes page_size = min (Int.tdiv n_bytes page_size) MAX_N_FIND := by
    intro n_bytes page_size
    simp only [above_band_pages, Int.ceil_intCast]
  have hmax : MAX_N_FIND = 131071 := by decide
  refine ⟨h1, ?_, ?_, ?_, ?_⟩
  · rw [h1, hmax]; decide
  · simp only [spec_above_band_pages, hmax]
    have : Int.ceil ((4097 : ℚ) / 4096) = 2 := by
      rw [Int.ceil_eq_iff]; norm_num
    norm_num [this]
  · rw [h1, hmax]; decide
  · simp only [spec_above_band_pages, hmax]
    have : Int.ceil ((4095 : ℚ) / 4096) = 1 := by
      rw [Int.ceil_eq_iff]; norm_num
    norm_num [this]

/-- C35 fails on the code: `total_node_sz` and `total_node_fr` are zeroed once, before the
loop, and every pass adds its readings to them, so from the second pass on they are the sums
over all passes so far.  With two DRAM nodes of 8192000 bytes that are half free at the first
pass and full at the second, the second pass computes its usage from 32768000 bytes in total
and 8192000 free, which is 3/4, where the readings of that pass (16384000 in total, none free)
give 1. -/
theorem C35_totals_accumulate :
    (∀ (host : Nat → Int → node_size) (st : threshold_locals),
      (threshold_pass host st).total_node_sz
          = st.total_node_sz + ((host st.size_calls 0).size + (host (st.size_calls + 1) 1).size)
      ∧ (threshold_pass host st).total_node_fr
          = st.total_node_fr + ((host st.size_calls 0).free + (host (st.size_calls + 1) 1).free)
      ∧ (threshold_pass host st).size_calls = st.size_calls + 2)
    ∧ (threshold_passes ex_filling 2 threshold_start).total_node_sz = 32768000
    ∧ (threshold_passes ex_filling 2 threshold_start).total_node_fr = 8192000
    ∧ usage (threshold_passes ex_filling 2 threshold_start) = 3 / 4
    ∧ (threshold_pass ex_filling { threshold_passes ex_filling 1 threshold_start with
          total_node_sz := 0, total_node_fr := 0 }).total_node_sz = 16384000
    ∧ (threshold_pass ex_filling { threshold_passes ex_filling 1 threshold_start with
          total_node_sz := 0, total_node_fr := 0 }).total_node_fr = 0
    ∧ usage (threshold_pass ex_filling { threshold_passes ex_filling 1 threshold_start with
          total_node_sz := 0, total_node_fr := 0 }) = 1 := by
  have e1 : (threshold_passes ex_filling 2 threshold_start).total_node_sz = 32768000 := by
    decide
  have e2 : (threshold_passes ex_filling 2 threshold_start).total_node_fr = 8192000 := by
    decide
  have e3 : (threshold_pass ex_filling { threshold_passes ex_filling 1 threshold_start with
      total_node_sz := 0, total_node_fr := 0 }).total_node_sz = 16384000 := by decide
  have e4 : (threshold_pass ex_filling { threshold_passes ex_filling 1 threshold_start with
      total_node_sz := 0, total_node_fr := 0 }).total_node_fr = 0 := by decide
  refine ⟨fun host st => ⟨?_, ?_, rfl⟩, e1, e2, ?_, e3, e4, ?_⟩
  · simp only [threshold_pass, read_dram_nodes, DRAM_NODES]; omega
  · simp only [threshold_pass, read_dram_nodes, DRAM_NODES]; omega
  · simp only [usage, e1, e2]; norm_num
  · simp only [usage, e3, e4]; norm_num

/-- C36 fails on the code: on the DRAM → NVRAM side of `do_switch` the address stored at
position `dram_processed + j` is that of `candidates[n_found+1+j]`, with `j` counted from 0 for
every destination node.  With three pairs, room for two pages on node 2 and for more on node 3,
the move list of the first pass is the first and second DRAM-side candidate for node 2 and the
first one again for node 3: 0x4000 is moved twice in the pass, and 0x6000, the third DRAM-side
candidate, is replaced by it.  The NVRAM → DRAM side moves its three candidates in order. -/
theorem C36_dram_side_repeats_candidate :
    (do_switch ex_numa 4096 ex_three_pairs ex_addr0 ex_dest0 ex_addr0 ex_dest0 3 1).map
        (fun r => (r.1, r.2.calls))
      = some (6,
          [{ pid := 100, count := 3, pages := [0x4000, 0x5000, 0x4000], nodes := [2, 2, 3],
             batched := true },
           { pid := 100, count := 3, pages := [0x1000, 0x2000, 0x3000], nodes := [0, 0, 0],
             batched := true }]) := by
  decide

/-- C38 fails on the code: the allocation of `found_addrs` has `sizeof(addr_info_t) *
MAX_N_PER_PACKET * MAX_PACKETS - 1 = 2097151` bytes, which is 131071 whole records (indices
0 to 131070), while a request may return `MAX_N_FIND = 131071` candidates and then writes the
terminator at index 131071.  FIND(131071, DRAM) on a process with 131071 cold DRAM pages is
answered with 131072 records, the last of them, the terminator, at index 131071, which is not
below the number of whole records. -/
theorem C38_terminator_past_allocation :
    found_alloc_bytes = 2097151 ∧ found_alloc_records = 131071 ∧ MAX_N_FIND = 131071
    ∧ ∃ s', process_req k_all (some { op_code := FIND_OP, pid_n := MAX_N_FIND, mode := DRAM_MODE })
        (ex_cold 131071) = some s'
      ∧ s'.n_found = 131072
      ∧ (s'.found_addrs (s'.n_found - 1)).pid_retval = 0
      ∧ ¬ (s'.n_found - 1 < found_alloc_records) := by
  have h3 : MAX_N_FIND = 131071 := by decide
  have h2 : found_alloc_records = 131071 := by decide
  refine ⟨by decide, h2, h3, ?_⟩
  obtain ⟨s', e1, e2, e3⟩ := find_cold 131071 131071 (le_refl _) (by decide) (by decide)
  rw [h3]
  refine ⟨s', e1, e2, ?_, ?_⟩
  · rw [e2]; exact e3
  · rw [e2, h2]; decide

end Ambix
